import Mathlib

/-! vsfsck: consistency checker and repair tool for a fixed-geometry file system image

Shallow embedding of `vsfsck_project2.c`.

* The backing file is a flat byte store with a length (`Image`).  `read_block`
  and `write_block` are the only operations that touch it.
* The C globals (`superblock`, `inode_bitmap`, `data_bitmap`, `used_blocks`,
  `duplicated_blocks` and the five error counters) form the record `State`,
  threaded explicitly through every function.
* Buffers are byte maps `Nat → Nat`; the multi-byte fields of `superblock_t`
  and `inode_t` are read and written little-endian at their struct offsets.
* The C `int` error counters are modelled by unbounded naturals: signed
  overflow is undefined behaviour in C and would need 2^31 reported errors.
* I/O errors other than reading past the end of the file are not modelled: a
  read of a block that lies wholly inside the file succeeds, and a write to a
  block index in `[0, 64)` succeeds.

The command history of the shell in `linux_shell.c` is embedded at the end of
the model.
-/

namespace Vsfsck

/-! ## Constants (lines 12-23) -/

abbrev VSFS_MAGIC : Nat := 0xD34D
abbrev BLOCK_SIZE : Nat := 4096
abbrev TOTAL_BLOCKS : Nat := 64
abbrev INODE_SIZE : Nat := 256
abbrev INODE_COUNT : Nat := 5 * BLOCK_SIZE / INODE_SIZE
abbrev SUPERBLOCK_BLOCK_NUM : Nat := 0
abbrev INODE_BITMAP_BLOCK_NUM : Nat := 1
abbrev DATA_BITMAP_BLOCK_NUM : Nat := 2
abbrev INODE_TABLE_START_BLOCK : Nat := 3
abbrev DATA_BLOCK_START : Nat := 8

/-! ## Bytes and little-endian fields -/

/-- A buffer of bytes, indexed by byte offset. -/
abbrev Bytes := Nat → Nat

/-- The all-zero buffer (zero-initialised globals, `memset(.., 0, ..)`). -/
def zeros : Bytes := fun _ => 0

/-- Load of a `uint16_t` stored at byte offset `off`. -/
def rd16 (b : Bytes) (off : Nat) : Nat :=
  b off % 256 + 256 * (b (off + 1) % 256)

/-- Load of a `uint32_t` stored at byte offset `off`. -/
def rd32 (b : Bytes) (off : Nat) : Nat :=
  b off % 256 + 256 * (b (off + 1) % 256) + 65536 * (b (off + 2) % 256)
    + 16777216 * (b (off + 3) % 256)

/-- Store of a `uint16_t` at byte offset `off`. -/
def wr16 (b : Bytes) (off v : Nat) : Bytes := fun a =>
  if a = off then v % 256
  else if a = off + 1 then v / 256 % 256
  else b a

/-- Store of a `uint32_t` at byte offset `off`. -/
def wr32 (b : Bytes) (off v : Nat) : Bytes := fun a =>
  if a = off then v % 256
  else if a = off + 1 then v / 256 % 256
  else if a = off + 2 then v / 65536 % 256
  else if a = off + 3 then v / 16777216 % 256
  else b a

/-! ## `superblock_t` (lines 26-37): field offsets of the C struct -/

def sb_magic (sb : Bytes) : Nat := rd16 sb 0
def sb_block_size (sb : Bytes) : Nat := rd32 sb 4
def sb_total_blocks (sb : Bytes) : Nat := rd32 sb 8
def sb_inode_bitmap_block (sb : Bytes) : Nat := rd32 sb 12
def sb_data_bitmap_block (sb : Bytes) : Nat := rd32 sb 16
def sb_inode_table_block (sb : Bytes) : Nat := rd32 sb 20
def sb_data_block_start (sb : Bytes) : Nat := rd32 sb 24
def sb_inode_size (sb : Bytes) : Nat := rd32 sb 28
def sb_inode_count (sb : Bytes) : Nat := rd32 sb 32

/-! ## `inode_t` (lines 40-56): field offsets of the C struct -/

/-- The value of `sizeof(inode_t)`: fourteen `uint32_t` fields and 156 reserved bytes. -/
abbrev SIZEOF_INODE : Nat := 212

def inode_dtime (ino : Bytes) : Nat := rd32 ino 28
def inode_links_count (ino : Bytes) : Nat := rd32 ino 32
def inode_direct_block (ino : Bytes) : Nat := rd32 ino 40
def inode_single_indirect (ino : Bytes) : Nat := rd32 ino 44
def inode_double_indirect (ino : Bytes) : Nat := rd32 ino 48
def inode_triple_indirect (ino : Bytes) : Nat := rd32 ino 52

/-! ## The backing file and block I/O (lines 160-190) -/

/-- The backing file: `size` bytes, `byte a` is the byte at file offset `a`. -/
structure Image where
  size : Nat
  byte : Nat → Nat

/-- Model of `read_block`: seeks to `block_num * BLOCK_SIZE` and reads up to
`BLOCK_SIZE` bytes into `buffer`.  A read that hits the end of the file
transfers the bytes that are there and reports failure. -/
def read_block (img : Image) (block_num : Int) (buffer : Bytes) : Bool × Bytes :=
  if block_num < 0 ∨ block_num ≥ (TOTAL_BLOCKS : Int) then (false, buffer)
  else
    let offset := block_num.toNat * BLOCK_SIZE
    let bytes_read := min BLOCK_SIZE (img.size - offset)
    (bytes_read == BLOCK_SIZE,
      fun a => if a < bytes_read then img.byte (offset + a) else buffer a)

/-- Model of `write_block`: seeks to `block_num * BLOCK_SIZE` and writes
`BLOCK_SIZE` bytes.  A write past the end of the file extends it, the gap
reading as zeros. -/
def write_block (img : Image) (block_num : Int) (buffer : Bytes) : Bool × Image :=
  if block_num < 0 ∨ block_num ≥ (TOTAL_BLOCKS : Int) then (false, img)
  else
    let offset := block_num.toNat * BLOCK_SIZE
    (true,
      { size := max img.size (offset + BLOCK_SIZE)
        byte := fun a =>
          if offset ≤ a ∧ a < offset + BLOCK_SIZE then buffer (a - offset)
          else if a < img.size then img.byte a
          else 0 })

/-! ## Bitmap helpers (lines 196-218) -/

def is_used_bit (bitmap : Bytes) (bit_index : Nat) : Bool :=
  let byte_index := bit_index / 8
  let bit_offset := bit_index % 8
  (bitmap byte_index &&& (1 <<< bit_offset)) != 0

def set_bit (bitmap : Bytes) (bit_index : Nat) : Bytes :=
  let byte_index := bit_index / 8
  let bit_offset := bit_index % 8
  fun a => if a = byte_index then (bitmap a ||| (1 <<< bit_offset)) % 256 else bitmap a

/-- In `clear_bit` the mask `~(1 << bit_offset)`, cut to the eight bits of a
`uint8_t`, is `255 - (1 << bit_offset)`. -/
def clear_bit (bitmap : Bytes) (bit_index : Nat) : Bytes :=
  let byte_index := bit_index / 8
  let bit_offset := bit_index % 8
  fun a => if a = byte_index then (bitmap a &&& (255 - (1 <<< bit_offset))) % 256 else bitmap a

def is_valid_inode (inode : Bytes) : Bool :=
  decide (inode_links_count inode > 0) && inode_dtime inode == 0

/-! ## Global state -/

/-- The global variables of the program (lines 59-92), with the open image. -/
structure State where
  img : Image
  superblock : Bytes
  inode_bitmap : Bytes
  data_bitmap : Bytes
  used_blocks : Nat → Bool
  duplicated_blocks : Nat → Bool
  superblock_errors : Nat
  inode_bitmap_errors : Nat
  data_bitmap_errors : Nat
  duplicate_block_errors : Nat
  bad_block_errors : Nat

/-- Array store `a[i] = v`. -/
def setAt {α : Type} (a : Nat → α) (i : Nat) (v : α) : Nat → α :=
  fun j => if j = i then v else a j

/-- Block holding inode `i`: `INODE_TABLE_START_BLOCK + (i * INODE_SIZE) / BLOCK_SIZE`. -/
def inode_block_num (i : Nat) : Nat := INODE_TABLE_START_BLOCK + (i * INODE_SIZE) / BLOCK_SIZE

/-- Byte offset of inode `i` in its block: `(i * INODE_SIZE) % BLOCK_SIZE`. -/
def inode_offset (i : Nat) : Nat := (i * INODE_SIZE) % BLOCK_SIZE

/-- The `memcpy(&inode, block + offset, sizeof(inode_t))` of the inode loops. -/
def load_inode (block : Bytes) (offset : Nat) : Bytes :=
  fun a => if a < SIZEOF_INODE then block (offset + a) else 0

/-- The `memcpy(inode_block + offset, &inode, sizeof(inode_t))` of the repair loops. -/
def store_inode (block : Bytes) (offset : Nat) (inode : Bytes) : Bytes :=
  fun a => if offset ≤ a ∧ a < offset + SIZEOF_INODE then inode (a - offset) else block a

/-! ## check_superblock (lines 226-315) -/

/-- One `if (superblock.f != EXPECTED) { is_valid = false; superblock_errors++; }`. -/
def sb_field_check (observed expected : Nat) (acc : Bool × Nat) : Bool × Nat :=
  if observed ≠ expected then (false, acc.2 + 1) else acc

def check_superblock (s : State) : Bool × State :=
  let r := read_block s.img SUPERBLOCK_BLOCK_NUM s.superblock
  let s := { s with superblock := r.2 }
  if !r.1 then (false, { s with superblock_errors := s.superblock_errors + 1 })
  else
    let acc : Bool × Nat := (true, s.superblock_errors)
    let acc := sb_field_check (sb_magic s.superblock) VSFS_MAGIC acc
    let acc := sb_field_check (sb_block_size s.superblock) BLOCK_SIZE acc
    let acc := sb_field_check (sb_total_blocks s.superblock) TOTAL_BLOCKS acc
    let acc := sb_field_check (sb_inode_bitmap_block s.superblock) INODE_BITMAP_BLOCK_NUM acc
    let acc := sb_field_check (sb_data_bitmap_block s.superblock) DATA_BITMAP_BLOCK_NUM acc
    let acc := sb_field_check (sb_inode_table_block s.superblock) INODE_TABLE_START_BLOCK acc
    let acc := sb_field_check (sb_data_block_start s.superblock) DATA_BLOCK_START acc
    let acc := sb_field_check (sb_inode_size s.superblock) INODE_SIZE acc
    let acc := sb_field_check (sb_inode_count s.superblock) INODE_COUNT acc
    (acc.1, { s with superblock_errors := acc.2 })

/-! ## check_inode_bitmap (lines 321-376) -/

/-- Loop variables of `check_inode_bitmap`. -/
structure IbLoop where
  inode_bitmap_errors : Nat
  type1_errors : Nat
  type2_errors : Nat

/-- Body of the `for` loop of `check_inode_bitmap` for inode `i`. -/
def check_inode_bitmap_step (img : Image) (inode_bitmap : Bytes) (l : IbLoop) (i : Nat) : IbLoop :=
  let block_num := inode_block_num i
  let offset := inode_offset i
  let r := read_block img block_num zeros
  if !r.1 then { l with inode_bitmap_errors := l.inode_bitmap_errors + 1 }
  else
    let inode := load_inode r.2 offset
    let valid := is_valid_inode inode
    if is_used_bit inode_bitmap i && !valid then { l with type1_errors := l.type1_errors + 1 }
    else if !is_used_bit inode_bitmap i && valid then { l with type2_errors := l.type2_errors + 1 }
    else l

def check_inode_bitmap (s : State) : Bool × State :=
  let s := { s with inode_bitmap_errors := 0 }
  let r := read_block s.img INODE_BITMAP_BLOCK_NUM s.inode_bitmap
  let s := { s with inode_bitmap := r.2 }
  if !r.1 then (false, { s with inode_bitmap_errors := s.inode_bitmap_errors + 1 })
  else
    let l := (List.range INODE_COUNT).foldl (check_inode_bitmap_step s.img s.inode_bitmap)
      { inode_bitmap_errors := s.inode_bitmap_errors, type1_errors := 0, type2_errors := 0 }
    let s := { s with inode_bitmap_errors := l.type1_errors + l.type2_errors }
    (s.inode_bitmap_errors == 0, s)

/-! ## check_data_bitmap (lines 380-415) -/

/-- Body of the `for` loop of `check_data_bitmap` for block `i`. -/
def check_data_bitmap_step (data_bitmap : Bytes) (used_blocks : Nat → Bool)
    (acc : Bool × Nat) (i : Nat) : Bool × Nat :=
  if is_used_bit data_bitmap (i - DATA_BLOCK_START) then
    if !used_blocks i then (false, acc.2 + 1) else acc
  else
    if used_blocks i then (false, acc.2 + 1) else acc

def check_data_bitmap (s : State) : Bool × State :=
  let r := read_block s.img DATA_BITMAP_BLOCK_NUM s.data_bitmap
  let s := { s with data_bitmap := r.2 }
  if !r.1 then (false, { s with data_bitmap_errors := s.data_bitmap_errors + 1 })
  else
    let acc := (List.range' DATA_BLOCK_START (TOTAL_BLOCKS - DATA_BLOCK_START)).foldl
      (check_data_bitmap_step s.data_bitmap s.used_blocks) (true, s.data_bitmap_errors)
    (acc.1, { s with data_bitmap_errors := acc.2 })

/-! ## check_duplicates (lines 418-434) -/

def check_duplicates (s : State) : Bool × State :=
  let is_valid := (List.range' DATA_BLOCK_START (TOTAL_BLOCKS - DATA_BLOCK_START)).foldl
    (fun v i => if s.duplicated_blocks i then false else v) true
  (is_valid, s)

/-! ## The walker: check_indirect_block (lines 436-465), check_bad_blocks (lines 467-547) -/

/-- Body of the entry loop of `check_indirect_block` for entry `i` of the
pointer block; `descend p` stands for the guarded recursive call
`if (level > 1) check_indirect_block(p, level - 1, inode_num)`. -/
def check_indirect_entry (block_pointers : Bytes) (descend : Nat → State → State)
    (s : State) (i : Nat) : State :=
  let p := rd32 block_pointers (4 * i)
  if p ≠ 0 then
    if p < DATA_BLOCK_START ∨ p ≥ TOTAL_BLOCKS then
      { s with bad_block_errors := s.bad_block_errors + 1 }
    else
      descend p { s with used_blocks := setAt s.used_blocks p true }
  else s

/-- Body of `check_indirect_block` with the recursive call abstracted. -/
def check_indirect_body (block_num : Nat) (descend : Nat → State → State) (s : State) : State :=
  if block_num < DATA_BLOCK_START ∨ block_num ≥ TOTAL_BLOCKS then
    { s with bad_block_errors := s.bad_block_errors + 1 }
  else
    let r := read_block s.img block_num zeros
    if !r.1 then { s with bad_block_errors := s.bad_block_errors + 1 }
    else
      let num_pointers := BLOCK_SIZE / 4
      (List.range num_pointers).foldl (check_indirect_entry r.2 descend) s

/-- Model of `check_indirect_block(block_num, level, inode_num)`; the recursion
is on `level` (`inode_num` is only printed). -/
def check_indirect_block : Nat → Nat → State → State
  | 0, block_num, s => check_indirect_body block_num (fun _ t => t) s
  | level + 1, block_num, s =>
    check_indirect_body block_num
      (fun p t => if level + 1 > 1 then check_indirect_block level p t else t) s

/-! ### The walker with its call depth made explicit

`check_indirect_block_depth depth` is `check_indirect_block` run with room for
`depth` nested activations of the function: every call uses one, the recursive
call of line 460 runs with what is left, and a call made with no room left
yields `none`. -/

/-- Body of the entry loop of `check_indirect_block` for entry `i`, where the
recursive call `call (level - 1) p` may fail for lack of call depth. -/
def check_indirect_entry_depth (block_pointers : Bytes) (level : Nat)
    (call : Nat → Nat → State → Option State) (acc : Option State) (i : Nat) : Option State :=
  match acc with
  | none => none
  | some s =>
    let p := rd32 block_pointers (4 * i)
    if p ≠ 0 then
      if p < DATA_BLOCK_START ∨ p ≥ TOTAL_BLOCKS then
        some { s with bad_block_errors := s.bad_block_errors + 1 }
      else
        let s := { s with used_blocks := setAt s.used_blocks p true }
        if level > 1 then call (level - 1) p s else some s
    else some s

/-- Model of `check_indirect_block(block_num, level, inode_num)` with at most
`depth` nested activations. -/
def check_indirect_block_depth : Nat → Nat → Nat → State → Option State
  | 0, _, _, _ => none
  | depth + 1, level, block_num, s =>
    if block_num < DATA_BLOCK_START ∨ block_num ≥ TOTAL_BLOCKS then
      some { s with bad_block_errors := s.bad_block_errors + 1 }
    else
      let r := read_block s.img block_num zeros
      if !r.1 then some { s with bad_block_errors := s.bad_block_errors + 1 }
      else
        let num_pointers := BLOCK_SIZE / 4
        (List.range num_pointers).foldl
          (check_indirect_entry_depth r.2 level (check_indirect_block_depth depth)) (some s)

/-- The shape shared by the single, double and triple indirect checks of
`check_bad_blocks` (lines 504-537), for pointer value `ptr` and tree depth `level`. -/
def check_indirect_field (ptr level : Nat) (s : State) : State :=
  if ptr ≠ 0 then
    if ptr < DATA_BLOCK_START ∨ ptr ≥ TOTAL_BLOCKS then
      { s with bad_block_errors := s.bad_block_errors + 1 }
    else
      check_indirect_block level ptr { s with used_blocks := setAt s.used_blocks ptr true }
  else s

/-- Body of the inode loop of `check_bad_blocks` for inode `i`. -/
def check_bad_blocks_step (s : State) (i : Nat) : State :=
  let block_num := inode_block_num i
  let offset := inode_offset i
  let r := read_block s.img block_num zeros
  if !r.1 then s
  else
    let inode := load_inode r.2 offset
    if !is_valid_inode inode then s
    else
      let s :=
        if inode_direct_block inode ≠ 0 then
          if inode_direct_block inode < DATA_BLOCK_START ∨ inode_direct_block inode ≥ TOTAL_BLOCKS then
            { s with bad_block_errors := s.bad_block_errors + 1 }
          else
            { s with used_blocks := setAt s.used_blocks (inode_direct_block inode) true }
        else s
      let s := check_indirect_field (inode_single_indirect inode) 1 s
      let s := check_indirect_field (inode_double_indirect inode) 2 s
      let s := check_indirect_field (inode_triple_indirect inode) 3 s
      s

/-- The counter reset, the `memset` of `used_blocks` and the inode loop of
`check_bad_blocks` (lines 468-538). -/
def check_bad_blocks_walk (s : State) : State :=
  let s := { s with bad_block_errors := 0 }
  let s := { s with used_blocks := fun _ => false }
  (List.range INODE_COUNT).foldl check_bad_blocks_step s

def check_bad_blocks (s : State) : Bool × State :=
  let s := check_bad_blocks_walk s
  if s.bad_block_errors > 0 then (false, s) else (true, s)

/-! ## Repair: fix_block_reference, fix_all_inode_blocks (lines 566-580) -/

/-- Model of `fix_block_reference` on the pointer field at byte offset
`field` of the inode record. -/
def fix_block_reference (inode : Bytes) (field : Nat) : Bytes :=
  if rd32 inode field ≠ 0 ∧ (rd32 inode field < DATA_BLOCK_START ∨ rd32 inode field ≥ TOTAL_BLOCKS) then
    wr32 inode field 0
  else inode

def fix_all_inode_blocks (inode : Bytes) : Bytes :=
  let inode := fix_block_reference inode 40
  let inode := fix_block_reference inode 44
  let inode := fix_block_reference inode 48
  let inode := fix_block_reference inode 52
  inode

/-! ## allocate_new_data_block (lines 781-799) -/

def allocate_new_data_block (s : State) : Int × State :=
  match (List.range (TOTAL_BLOCKS - DATA_BLOCK_START)).find? (fun i => !is_used_bit s.data_bitmap i) with
  | some i =>
    let block_num := i + DATA_BLOCK_START
    let s := { s with data_bitmap := set_bit s.data_bitmap i }
    let s := { s with used_blocks := setAt s.used_blocks block_num true }
    let s := { s with data_bitmap := set_bit s.data_bitmap i }
    let s := { s with used_blocks := setAt s.used_blocks block_num true }
    let w := write_block s.img block_num zeros
    ((block_num : Int), { s with img := w.2 })
  | none => (-1, s)

/-! ## fix_errors (lines 583-780) -/

/-- The nine assignments `superblock.f = CONSTANT` of lines 587-595. -/
def set_geometry (sb : Bytes) : Bytes :=
  let sb := wr16 sb 0 VSFS_MAGIC
  let sb := wr32 sb 4 BLOCK_SIZE
  let sb := wr32 sb 8 TOTAL_BLOCKS
  let sb := wr32 sb 12 INODE_BITMAP_BLOCK_NUM
  let sb := wr32 sb 16 DATA_BITMAP_BLOCK_NUM
  let sb := wr32 sb 20 INODE_TABLE_START_BLOCK
  let sb := wr32 sb 24 DATA_BLOCK_START
  let sb := wr32 sb 28 INODE_SIZE
  let sb := wr32 sb 32 INODE_COUNT
  sb

/-- The superblock branch of `fix_errors` (lines 585-600). -/
def fix_superblock (s : State) : State :=
  if s.superblock_errors > 0 then
    let sb := set_geometry s.superblock
    let w := write_block s.img SUPERBLOCK_BLOCK_NUM sb
    { s with superblock := sb, img := w.2 }
  else s

/-- Body of the rebuild loop of the inode-bitmap branch for inode `i`. -/
def fix_inode_bitmap_step (img : Image) (inode_bitmap : Bytes) (i : Nat) : Bytes :=
  let block_num := inode_block_num i
  let offset := inode_offset i
  let r := read_block img block_num zeros
  if !r.1 then inode_bitmap
  else
    let inode := load_inode r.2 offset
    if is_valid_inode inode then set_bit inode_bitmap i else inode_bitmap

/-- The inode-bitmap branch of `fix_errors` (lines 603-633). -/
def fix_inode_bitmap (s : State) : State :=
  if s.inode_bitmap_errors > 0 then
    let bm := (List.range INODE_COUNT).foldl (fix_inode_bitmap_step s.img) zeros
    let w := write_block s.img INODE_BITMAP_BLOCK_NUM bm
    { s with inode_bitmap := bm, img := w.2 }
  else s

/-- The data-bitmap branch of `fix_errors` (lines 636-653). -/
def fix_data_bitmap (s : State) : State :=
  if s.data_bitmap_errors > 0 then
    let bm := (List.range' DATA_BLOCK_START (TOTAL_BLOCKS - DATA_BLOCK_START)).foldl
      (fun bm i => if s.used_blocks i then set_bit bm (i - DATA_BLOCK_START) else bm) zeros
    let w := write_block s.img DATA_BITMAP_BLOCK_NUM bm
    { s with data_bitmap := bm, img := w.2 }
  else s

/-- Body of the first loop of the duplicate branch (lines 664-689): records
in `first_user_inode` the first valid inode whose direct pointer is each block. -/
def first_user_step (img : Image) (first_user_inode : Nat → Int) (i : Nat) : Nat → Int :=
  let block_num := inode_block_num i
  let offset := inode_offset i
  let r := read_block img block_num zeros
  if !r.1 then first_user_inode
  else
    let inode := load_inode r.2 offset
    if !is_valid_inode inode then first_user_inode
    else if inode_direct_block inode ≥ DATA_BLOCK_START ∧ inode_direct_block inode < TOTAL_BLOCKS then
      if first_user_inode (inode_direct_block inode) = -1 then
        setAt first_user_inode (inode_direct_block inode) (i : Int)
      else first_user_inode
    else first_user_inode

/-- Body of the second loop of the duplicate branch (lines 692-744) for inode `i`. -/
def fix_duplicate_step (first_user_inode : Nat → Int) (s : State) (i : Nat) : State :=
  let block_num := inode_block_num i
  let offset := inode_offset i
  let r := read_block s.img block_num zeros
  if !r.1 then s
  else
    let inode_block := r.2
    let inode := load_inode inode_block offset
    if !is_valid_inode inode then s
    else if inode_direct_block inode ≥ DATA_BLOCK_START ∧ inode_direct_block inode < TOTAL_BLOCKS then
      if s.duplicated_blocks (inode_direct_block inode)
          && decide (first_user_inode (inode_direct_block inode) ≠ (i : Int)) then
        let a := allocate_new_data_block s
        let new_block := a.1
        let s := a.2
        if new_block ≠ -1 then
          let rb := read_block s.img (inode_direct_block inode) zeros
          if rb.1 then
            let w := write_block s.img new_block rb.2
            let s := { s with img := w.2 }
            if w.1 then
              let inode := wr32 inode 40 new_block.toNat
              let s := { s with data_bitmap := set_bit s.data_bitmap (new_block.toNat - DATA_BLOCK_START) }
              let s := { s with used_blocks := setAt s.used_blocks new_block.toNat true }
              let wi := write_block s.img block_num (store_inode inode_block offset inode)
              { s with img := wi.2 }
            else s
          else s
        else s
      else s
    else s

/-- The duplicate branch of `fix_errors` (lines 656-750). -/
def fix_duplicates (s : State) : State :=
  if s.duplicate_block_errors > 0 then
    let first_user_inode := (List.range INODE_COUNT).foldl (first_user_step s.img) (fun _ => (-1 : Int))
    let s := (List.range INODE_COUNT).foldl (fix_duplicate_step first_user_inode) s
    let w := write_block s.img DATA_BITMAP_BLOCK_NUM s.data_bitmap
    { s with img := w.2 }
  else s

/-- Body of the loop of the bad-block branch (lines 755-772) for inode `i`. -/
def fix_bad_blocks_step (img : Image) (i : Nat) : Image :=
  let block_num := inode_block_num i
  let offset := inode_offset i
  let r := read_block img block_num zeros
  if !r.1 then img
  else
    let inode_block := r.2
    let inode := load_inode inode_block offset
    if !is_valid_inode inode then img
    else
      let inode := fix_all_inode_blocks inode
      (write_block img block_num (store_inode inode_block offset inode)).2

/-- The bad-block branch of `fix_errors` (lines 753-773). -/
def fix_bad_blocks (s : State) : State :=
  if s.bad_block_errors > 0 then
    { s with img := (List.range INODE_COUNT).foldl fix_bad_blocks_step s.img }
  else s

/-- The closing write of the data bitmap in `fix_errors` (lines 775-779). -/
def fix_final_write (s : State) : State :=
  if s.data_bitmap_errors > 0 ∨ s.duplicate_block_errors > 0 ∨ s.bad_block_errors > 0 then
    { s with img := (write_block s.img DATA_BITMAP_BLOCK_NUM s.data_bitmap).2 }
  else s

def fix_errors (s : State) : State :=
  let s := fix_superblock s
  let s := fix_inode_bitmap s
  let s := fix_data_bitmap s
  let s := fix_duplicates s
  let s := fix_bad_blocks s
  fix_final_write s

/-! ## main (lines 95-143) -/

/-- Results of the five checks of one validation pass. -/
structure Checks where
  superblock_ok : Bool
  inode_bitmap_ok : Bool
  data_bitmap_ok : Bool
  duplicates_ok : Bool
  bad_blocks_ok : Bool

/-- One validation pass: the five checks in the order `main` calls them. -/
def validate (s : State) : Checks × State :=
  let r1 := check_superblock s
  let r2 := check_inode_bitmap r1.2
  let r3 := check_data_bitmap r2.2
  let r4 := check_duplicates r3.2
  let r5 := check_bad_blocks r4.2
  ({ superblock_ok := r1.1, inode_bitmap_ok := r2.1, data_bitmap_ok := r3.1,
     duplicates_ok := r4.1, bad_blocks_ok := r5.1 }, r5.2)

/-- The globals at program start with the image opened: zero-initialised
buffers and counters, `used_blocks` and `duplicated_blocks` cleared. -/
def initial_state (img : Image) : State :=
  { img := img, superblock := zeros, inode_bitmap := zeros, data_bitmap := zeros,
    used_blocks := fun _ => false, duplicated_blocks := fun _ => false,
    superblock_errors := 0, inode_bitmap_errors := 0, data_bitmap_errors := 0,
    duplicate_block_errors := 0, bad_block_errors := 0 }

/-- What one run of `main` did: the state after the first validation pass,
whether `fix_errors` and the recheck ran, and the state at exit. -/
structure Run where
  first : State
  repaired : Bool
  final : State

/-- Model of `main` on an image that could be opened. -/
def main (img : Image) : Run :=
  let v := validate (initial_state img)
  let c := v.1
  let s := v.2
  if !c.superblock_ok || !c.inode_bitmap_ok || !c.data_bitmap_ok || !c.duplicates_ok
      || !c.bad_blocks_ok then
    let t := fix_errors s
    let t := { t with superblock_errors := 0, inode_bitmap_errors := 0, data_bitmap_errors := 0,
                      duplicate_block_errors := 0, bad_block_errors := 0 }
    let t := (validate t).2
    { first := s, repaired := true, final := t }
  else
    { first := s, repaired := false, final := s }

/-! ## The program with its array indices checked

The functions below are the functions above with every access to
`used_blocks`, `duplicated_blocks` and `first_user_inode` checked against
`[DATA_BLOCK_START, TOTAL_BLOCKS)` and every data-bitmap bit index checked
against `[0, TOTAL_BLOCKS - DATA_BLOCK_START)`.  An access outside its range
yields `none`, and so does the out-of-range branch at the top of
`check_indirect_block`. -/

/-- The value `v` of an access at index `i` of an array or bitmap whose
indices are `lo ≤ i < hi`. -/
def checked {α : Type} (lo hi i : Nat) (v : α) : Option α :=
  if lo ≤ i ∧ i < hi then some v else none

/-- Body of the loop of `check_data_bitmap` for block `i`: reads bit
`i - DATA_BLOCK_START` of the bitmap and `used_blocks[i]`. -/
def check_data_bitmap_step_checked (data_bitmap : Bytes) (used_blocks : Nat → Bool)
    (acc : Option (Bool × Nat)) (i : Nat) : Option (Bool × Nat) :=
  acc.bind fun acc =>
    (checked 0 (TOTAL_BLOCKS - DATA_BLOCK_START) (i - DATA_BLOCK_START)
      (is_used_bit data_bitmap (i - DATA_BLOCK_START))).bind fun bit =>
    (checked DATA_BLOCK_START TOTAL_BLOCKS i (used_blocks i)).bind fun used =>
      if bit then
        if !used then some (false, acc.2 + 1) else some acc
      else
        if used then some (false, acc.2 + 1) else some acc

def check_data_bitmap_checked (s : State) : Option (Bool × State) :=
  let r := read_block s.img DATA_BITMAP_BLOCK_NUM s.data_bitmap
  let s := { s with data_bitmap := r.2 }
  if !r.1 then some (false, { s with data_bitmap_errors := s.data_bitmap_errors + 1 })
  else
    ((List.range' DATA_BLOCK_START (TOTAL_BLOCKS - DATA_BLOCK_START)).foldl
        (check_data_bitmap_step_checked s.data_bitmap s.used_blocks)
        (some (true, s.data_bitmap_errors))).bind fun acc =>
      some (acc.1, { s with data_bitmap_errors := acc.2 })

/-- Body of the loop of `check_duplicates` for block `i`: reads `duplicated_blocks[i]`. -/
def check_duplicates_step_checked (duplicated_blocks : Nat → Bool) (acc : Option Bool)
    (i : Nat) : Option Bool :=
  acc.bind fun v =>
    (checked DATA_BLOCK_START TOTAL_BLOCKS i (duplicated_blocks i)).bind fun d =>
      if d then some false else some v

def check_duplicates_checked (s : State) : Option (Bool × State) :=
  ((List.range' DATA_BLOCK_START (TOTAL_BLOCKS - DATA_BLOCK_START)).foldl
      (check_duplicates_step_checked s.duplicated_blocks) (some true)).bind fun is_valid =>
    some (is_valid, s)

/-- Body of the entry loop of `check_indirect_block` for entry `i`: writes
`used_blocks[p]` for an entry `p` in range. -/
def check_indirect_entry_checked (block_pointers : Bytes)
    (descend : Nat → State → Option State) (acc : Option State) (i : Nat) : Option State :=
  acc.bind fun s =>
    let p := rd32 block_pointers (4 * i)
    if p ≠ 0 then
      if p < DATA_BLOCK_START ∨ p ≥ TOTAL_BLOCKS then
        some { s with bad_block_errors := s.bad_block_errors + 1 }
      else
        (checked DATA_BLOCK_START TOTAL_BLOCKS p (setAt s.used_blocks p true)).bind fun u =>
          descend p { s with used_blocks := u }
    else some s

/-- Body of `check_indirect_block`; the out-of-range branch at its top yields `none`. -/
def check_indirect_body_checked (block_num : Nat) (descend : Nat → State → Option State)
    (s : State) : Option State :=
  if block_num < DATA_BLOCK_START ∨ block_num ≥ TOTAL_BLOCKS then none
  else
    let r := read_block s.img block_num zeros
    if !r.1 then some { s with bad_block_errors := s.bad_block_errors + 1 }
    else
      let num_pointers := BLOCK_SIZE / 4
      (List.range num_pointers).foldl (check_indirect_entry_checked r.2 descend) (some s)

def check_indirect_block_checked : Nat → Nat → State → Option State
  | 0, block_num, s => check_indirect_body_checked block_num (fun _ t => some t) s
  | level + 1, block_num, s =>
    check_indirect_body_checked block_num
      (fun p t => if level + 1 > 1 then check_indirect_block_checked level p t else some t) s

/-- One of the three indirect-pointer blocks of the inode loop of
`check_bad_blocks`: writes `used_blocks[ptr]` for a pointer in range. -/
def check_indirect_field_checked (ptr level : Nat) (acc : Option State) : Option State :=
  acc.bind fun s =>
    if ptr ≠ 0 then
      if ptr < DATA_BLOCK_START ∨ ptr ≥ TOTAL_BLOCKS then
        some { s with bad_block_errors := s.bad_block_errors + 1 }
      else
        (checked DATA_BLOCK_START TOTAL_BLOCKS ptr (setAt s.used_blocks ptr true)).bind fun u =>
          check_indirect_block_checked level ptr { s with used_blocks := u }
    else some s

/-- Body of the inode loop of `check_bad_blocks` for inode `i`. -/
def check_bad_blocks_step_checked (acc : Option State) (i : Nat) : Option State :=
  acc.bind fun s =>
    let block_num := inode_block_num i
    let offset := inode_offset i
    let r := read_block s.img block_num zeros
    if !r.1 then some s
    else
      let inode := load_inode r.2 offset
      if !is_valid_inode inode then some s
      else
        let s1 : Option State :=
          if inode_direct_block inode ≠ 0 then
            if inode_direct_block inode < DATA_BLOCK_START
                ∨ inode_direct_block inode ≥ TOTAL_BLOCKS then
              some { s with bad_block_errors := s.bad_block_errors + 1 }
            else
              (checked DATA_BLOCK_START TOTAL_BLOCKS (inode_direct_block inode)
                (setAt s.used_blocks (inode_direct_block inode) true)).bind fun u =>
                some { s with used_blocks := u }
          else some s
        let s2 := check_indirect_field_checked (inode_single_indirect inode) 1 s1
        let s3 := check_indirect_field_checked (inode_double_indirect inode) 2 s2
        check_indirect_field_checked (inode_triple_indirect inode) 3 s3

def check_bad_blocks_checked (s : State) : Option (Bool × State) :=
  let s := { s with bad_block_errors := 0 }
  let s := { s with used_blocks := fun _ => false }
  ((List.range INODE_COUNT).foldl check_bad_blocks_step_checked (some s)).bind fun s =>
    if s.bad_block_errors > 0 then some (false, s) else some (true, s)

/-- Model of `allocate_new_data_block`: the scan reads the bits `i` of its
loop, and the block found has its bit set and its `used_blocks` entry written. -/
def allocate_new_data_block_checked (s : State) : Option (Int × State) :=
  if (List.range (TOTAL_BLOCKS - DATA_BLOCK_START)).all
      (fun i => (checked 0 (TOTAL_BLOCKS - DATA_BLOCK_START) i ()).isSome) then
    match (List.range (TOTAL_BLOCKS - DATA_BLOCK_START)).find?
        (fun i => !is_used_bit s.data_bitmap i) with
    | some i =>
      let block_num := i + DATA_BLOCK_START
      (checked 0 (TOTAL_BLOCKS - DATA_BLOCK_START) i
        (set_bit (set_bit s.data_bitmap i) i)).bind fun bm =>
      (checked DATA_BLOCK_START TOTAL_BLOCKS block_num
        (setAt (setAt s.used_blocks block_num true) block_num true)).bind fun u =>
        let w := write_block s.img block_num zeros
        some ((block_num : Int), { s with data_bitmap := bm, used_blocks := u, img := w.2 })
    | none => some (-1, s)
  else none

/-- Body of the rebuild loop of the data-bitmap branch for block `i`: reads
`used_blocks[i]` and sets bit `i - DATA_BLOCK_START`. -/
def fix_data_bitmap_step_checked (used_blocks : Nat → Bool) (acc : Option Bytes) (i : Nat) :
    Option Bytes :=
  acc.bind fun bm =>
    (checked DATA_BLOCK_START TOTAL_BLOCKS i (used_blocks i)).bind fun used =>
      if used then
        checked 0 (TOTAL_BLOCKS - DATA_BLOCK_START) (i - DATA_BLOCK_START)
          (set_bit bm (i - DATA_BLOCK_START))
      else some bm

def fix_data_bitmap_checked (s : State) : Option State :=
  if s.data_bitmap_errors > 0 then
    ((List.range' DATA_BLOCK_START (TOTAL_BLOCKS - DATA_BLOCK_START)).foldl
        (fix_data_bitmap_step_checked s.used_blocks) (some zeros)).bind fun bm =>
      let w := write_block s.img DATA_BITMAP_BLOCK_NUM bm
      some { s with data_bitmap := bm, img := w.2 }
  else some s

/-- Body of the first loop of the duplicate branch: reads and writes
`first_user_inode[inode.direct_block]`. -/
def first_user_step_checked (img : Image) (acc : Option (Nat → Int)) (i : Nat) :
    Option (Nat → Int) :=
  acc.bind fun first_user_inode =>
    let block_num := inode_block_num i
    let offset := inode_offset i
    let r := read_block img block_num zeros
    if !r.1 then some first_user_inode
    else
      let inode := load_inode r.2 offset
      if !is_valid_inode inode then some first_user_inode
      else if inode_direct_block inode ≥ DATA_BLOCK_START
          ∧ inode_direct_block inode < TOTAL_BLOCKS then
        (checked DATA_BLOCK_START TOTAL_BLOCKS (inode_direct_block inode)
          (first_user_inode (inode_direct_block inode))).bind fun first =>
          if first = -1 then
            checked DATA_BLOCK_START TOTAL_BLOCKS (inode_direct_block inode)
              (setAt first_user_inode (inode_direct_block inode) (i : Int))
          else some first_user_inode
      else some first_user_inode

/-- The part of the second loop of the duplicate branch that gives the inode a
new block: sets bit `new_block - DATA_BLOCK_START` and `used_blocks[new_block]`. -/
def reassign_checked (s : State) (i : Nat) (inode_block inode : Bytes) : Option State :=
  (allocate_new_data_block_checked s).bind fun a =>
    let new_block := a.1
    let s := a.2
    if new_block ≠ -1 then
      let rb := read_block s.img (inode_direct_block inode) zeros
      if rb.1 then
        let w := write_block s.img new_block rb.2
        let s := { s with img := w.2 }
        if w.1 then
          let inode := wr32 inode 40 new_block.toNat
          (checked 0 (TOTAL_BLOCKS - DATA_BLOCK_START) (new_block.toNat - DATA_BLOCK_START)
            (set_bit s.data_bitmap (new_block.toNat - DATA_BLOCK_START))).bind fun bm =>
          (checked DATA_BLOCK_START TOTAL_BLOCKS new_block.toNat
            (setAt s.used_blocks new_block.toNat true)).bind fun u =>
            let s := { s with data_bitmap := bm }
            let s := { s with used_blocks := u }
            let wi := write_block s.img (inode_block_num i)
              (store_inode inode_block (inode_offset i) inode)
            some { s with img := wi.2 }
        else some s
      else some s
    else some s

/-- Body of the second loop of the duplicate branch for inode `i`: reads
`duplicated_blocks` and, when that entry is set, `first_user_inode`, both at
`inode.direct_block`. -/
def fix_duplicate_step_checked (first_user_inode : Nat → Int) (acc : Option State) (i : Nat) :
    Option State :=
  acc.bind fun s =>
    let block_num := inode_block_num i
    let offset := inode_offset i
    let r := read_block s.img block_num zeros
    if !r.1 then some s
    else
      let inode_block := r.2
      let inode := load_inode inode_block offset
      if !is_valid_inode inode then some s
      else if inode_direct_block inode ≥ DATA_BLOCK_START
          ∧ inode_direct_block inode < TOTAL_BLOCKS then
        (checked DATA_BLOCK_START TOTAL_BLOCKS (inode_direct_block inode)
          (s.duplicated_blocks (inode_direct_block inode))).bind fun dup =>
          if dup then
            (checked DATA_BLOCK_START TOTAL_BLOCKS (inode_direct_block inode)
              (first_user_inode (inode_direct_block inode))).bind fun first =>
              if first ≠ (i : Int) then reassign_checked s i inode_block inode else some s
          else some s
      else some s

def fix_duplicates_checked (s : State) : Option State :=
  if s.duplicate_block_errors > 0 then
    ((List.range INODE_COUNT).foldl (first_user_step_checked s.img)
        (some (fun _ => (-1 : Int)))).bind fun first_user_inode =>
      ((List.range INODE_COUNT).foldl (fix_duplicate_step_checked first_user_inode)
          (some s)).bind fun s =>
        let w := write_block s.img DATA_BITMAP_BLOCK_NUM s.data_bitmap
        some { s with img := w.2 }
  else some s

def fix_errors_checked (s : State) : Option State :=
  let s := fix_superblock s
  let s := fix_inode_bitmap s
  (fix_data_bitmap_checked s).bind fun s =>
    (fix_duplicates_checked s).bind fun s =>
      let s := fix_bad_blocks s
      some (fix_final_write s)

/-- One validation pass with the indices checked. -/
def validate_checked (s : State) : Option (Checks × State) :=
  let r1 := check_superblock s
  let r2 := check_inode_bitmap r1.2
  (check_data_bitmap_checked r2.2).bind fun r3 =>
    (check_duplicates_checked r3.2).bind fun r4 =>
      (check_bad_blocks_checked r4.2).bind fun r5 =>
        some ({ superblock_ok := r1.1, inode_bitmap_ok := r2.1, data_bitmap_ok := r3.1,
                duplicates_ok := r4.1, bad_blocks_ok := r5.1 }, r5.2)

/-- Model of `main` with the indices checked. -/
def main_checked (img : Image) : Option Run :=
  (validate_checked (initial_state img)).bind fun v =>
    let c := v.1
    let s := v.2
    if !c.superblock_ok || !c.inode_bitmap_ok || !c.data_bitmap_ok || !c.duplicates_ok
        || !c.bad_blocks_ok then
      (fix_errors_checked s).bind fun t =>
        let t := { t with superblock_errors := 0, inode_bitmap_errors := 0,
                          data_bitmap_errors := 0, duplicate_block_errors := 0,
                          bad_block_errors := 0 }
        (validate_checked t).bind fun w =>
          some { first := s, repaired := true, final := w.2 }
    else
      some { first := s, repaired := false, final := s }

/-! ## The command history of the shell (`linux_shell.c`, lines 420-437) -/

abbrev HISTORY_SIZE : Nat := 100

/-- A C string: its bytes up to the terminating zero byte. -/
abbrev CString : Type := List Nat

/-- The globals `history` and `history_count`.  A slot of `history` holds
`none` for a null pointer and `some c` for a pointer to a copy of `c`. -/
structure ShellState where
  history : Nat → Option CString
  history_count : Nat

/-- The shell at program start: the array is zero-initialised. -/
def shell_start : ShellState :=
  { history := fun _ => none, history_count := 0 }

/-- Model of `add_to_history` (lines 424-437); 10 is the newline character.
`strdup` is taken to succeed and `free` is not modelled. -/
def add_to_history (s : ShellState) (command : CString) : ShellState :=
  if command.length = 0 ∨ command.head? = some 10 then s
  else
    let s :=
      if s.history_count = HISTORY_SIZE then
        { history := (List.range' 1 (HISTORY_SIZE - 1)).foldl
            (fun history i => setAt history (i - 1) (history i)) s.history
          history_count := s.history_count - 1 }
      else s
    { history := setAt s.history s.history_count (some command)
      history_count := s.history_count + 1 }

/-! ## Specification-side vocabulary -/

/-- Block `n` of the image lies wholly inside the file. -/
def Readable (img : Image) (n : Nat) : Prop := (n + 1) * BLOCK_SIZE ≤ img.size

instance (img : Image) (n : Nat) : Decidable (Readable img n) := by
  unfold Readable; infer_instance

/-- The bytes of block `n` of the image. -/
def block_of (img : Image) (n : Nat) : Bytes := fun a => img.byte (n * BLOCK_SIZE + a)

/-- A pointer value inside the data region `[DATA_BLOCK_START, TOTAL_BLOCKS)`. -/
def InRange (p : Nat) : Prop := DATA_BLOCK_START ≤ p ∧ p < TOTAL_BLOCKS

instance (p : Nat) : Decidable (InRange p) := by
  unfold InRange; infer_instance

/-- The record of inode `i` as stored in the inode table of the image. -/
def inode_of (img : Image) (i : Nat) : Bytes :=
  load_inode (block_of img (inode_block_num i)) (inode_offset i)

/-- Number of geometry fields of a superblock record that differ from their constants. -/
def sb_mismatches (sb : Bytes) : Nat :=
  (if sb_magic sb ≠ VSFS_MAGIC then 1 else 0)
  + (if sb_block_size sb ≠ BLOCK_SIZE then 1 else 0)
  + (if sb_total_blocks sb ≠ TOTAL_BLOCKS then 1 else 0)
  + (if sb_inode_bitmap_block sb ≠ INODE_BITMAP_BLOCK_NUM then 1 else 0)
  + (if sb_data_bitmap_block sb ≠ DATA_BITMAP_BLOCK_NUM then 1 else 0)
  + (if sb_inode_table_block sb ≠ INODE_TABLE_START_BLOCK then 1 else 0)
  + (if sb_data_block_start sb ≠ DATA_BLOCK_START then 1 else 0)
  + (if sb_inode_size sb ≠ INODE_SIZE then 1 else 0)
  + (if sb_inode_count sb ≠ INODE_COUNT then 1 else 0)

/-- All nine geometry fields of a superblock record hold their constants. -/
def sb_canonical (sb : Bytes) : Prop :=
  sb_magic sb = 0xD34D ∧ sb_block_size sb = 4096 ∧ sb_total_blocks sb = 64
  ∧ sb_inode_bitmap_block sb = 1 ∧ sb_data_bitmap_block sb = 2 ∧ sb_inode_table_block sb = 3
  ∧ sb_data_block_start sb = 8 ∧ sb_inode_size sb = 256 ∧ sb_inode_count sb = 80

/-- Inode `i` is marked used in the bitmap but its record is invalid. -/
def stale_alloc (img : Image) (i : Nat) : Bool :=
  is_used_bit (block_of img INODE_BITMAP_BLOCK_NUM) i && !is_valid_inode (inode_of img i)

/-- Inode `i` has a valid record but is not marked used in the bitmap. -/
def missing_alloc (img : Image) (i : Nat) : Bool :=
  !is_used_bit (block_of img INODE_BITMAP_BLOCK_NUM) i && is_valid_inode (inode_of img i)

/-- Block 0 of the image is inside the file and holds the bytes `f`. -/
def Block0 (img : Image) (f : Bytes) : Prop :=
  Readable img 0 ∧ ∀ a, a < 4096 → img.byte a = f a

/-! ### Reachability, as the walker computes it -/

/-- Entry `k` of block `B` read as an array of `uint32_t` pointers. -/
def entry (img : Image) (B k : Nat) : Nat := rd32 (block_of img B) (4 * k)

/-- Block `b` is claimed by the entry loop over pointer block `B`, where
`D p b` says what following the entry `p` claims. -/
def EntryClaims (img : Image) (D : Nat → Nat → Prop) (B b : Nat) : Prop :=
  ∃ k, k < 1024 ∧ Readable img B ∧ InRange (entry img B k)
    ∧ (entry img B k = b ∨ D (entry img B k) b)

/-- Block `b` is claimed by walking pointer block `B` at depth `level`. -/
def TreeClaims (img : Image) : Nat → Nat → Nat → Prop
  | 0, B, b => EntryClaims img (fun _ _ => False) B b
  | level + 1, B, b =>
    EntryClaims img (fun p c => level + 1 > 1 ∧ TreeClaims img level p c) B b

/-- Block `b` is claimed through a top-level indirect pointer `ptr` of depth `level`. -/
def FieldClaims (img : Image) (ptr level b : Nat) : Prop :=
  InRange ptr ∧ (ptr = b ∨ TreeClaims img level ptr b)

/-- Inode `i` is read by the inode loops and found valid. -/
def ValidInode (img : Image) (i : Nat) : Prop :=
  i < 80 ∧ Readable img (inode_block_num i) ∧ is_valid_inode (inode_of img i) = true

/-- Block `b` is claimed while the walker processes inode `i`. -/
def InodeClaims (img : Image) (i b : Nat) : Prop :=
  ValidInode img i ∧
    ((InRange (inode_direct_block (inode_of img i)) ∧ inode_direct_block (inode_of img i) = b)
     ∨ FieldClaims img (inode_single_indirect (inode_of img i)) 1 b
     ∨ FieldClaims img (inode_double_indirect (inode_of img i)) 2 b
     ∨ FieldClaims img (inode_triple_indirect (inode_of img i)) 3 b)

/-! ### Reachability, as the specification words it -/

/-- Indirect blocks visited by the walk, with the level they are visited at:
the in-range single, double and triple indirect pointers of valid inodes at
levels 1, 2 and 3, and each in-range entry of a block visited at a level
`L > 1`, at level `L - 1`. -/
inductive Visited (img : Image) : Nat → Nat → Prop
  | single (i : Nat) : ValidInode img i → InRange (inode_single_indirect (inode_of img i)) →
      Visited img 1 (inode_single_indirect (inode_of img i))
  | double (i : Nat) : ValidInode img i → InRange (inode_double_indirect (inode_of img i)) →
      Visited img 2 (inode_double_indirect (inode_of img i))
  | triple (i : Nat) : ValidInode img i → InRange (inode_triple_indirect (inode_of img i)) →
      Visited img 3 (inode_triple_indirect (inode_of img i))
  | child (L B k : Nat) : Visited img L B → 1 < L → Readable img B → k < 1024 →
      InRange (entry img B k) → Visited img (L - 1) (entry img B k)

/-- The reachable-block set: (i) in-range direct pointers of valid inodes,
(ii) in-range single, double and triple indirect pointers of valid inodes,
(iii) in-range entries of visited indirect blocks. -/
def Reachable (img : Image) (b : Nat) : Prop :=
  (∃ i, ValidInode img i ∧ inode_direct_block (inode_of img i) ≠ 0
      ∧ InRange (inode_direct_block (inode_of img i)) ∧ inode_direct_block (inode_of img i) = b)
  ∨ (∃ i, ValidInode img i ∧ b ≠ 0 ∧ InRange b
      ∧ (inode_single_indirect (inode_of img i) = b ∨ inode_double_indirect (inode_of img i) = b
         ∨ inode_triple_indirect (inode_of img i) = b))
  ∨ (∃ L B k, Visited img L B ∧ Readable img B ∧ k < 1024 ∧ entry img B k ≠ 0
      ∧ InRange (entry img B k) ∧ entry img B k = b)

instance (sb : Bytes) : Decidable (sb_canonical sb) := by
  unfold sb_canonical; infer_instance

/-! ### Trees without out-of-range pointers -/

/-- The walk of pointer block `B` at depth `level` reads every block it
visits and meets only entries that are zero or in range. -/
def TreeClean (img : Image) : Nat → Nat → Prop
  | 0, B => Readable img B ∧ ∀ k, k < 1024 → (entry img B k = 0 ∨ InRange (entry img B k))
  | level + 1, B => Readable img B ∧ ∀ k, k < 1024 →
      (entry img B k = 0
        ∨ (InRange (entry img B k) ∧ (level + 1 > 1 → TreeClean img level (entry img B k))))

/-- A top-level indirect pointer that is zero, or in range with a clean tree. -/
def FieldClean (img : Image) (ptr level : Nat) : Prop :=
  ptr = 0 ∨ (InRange ptr ∧ TreeClean img level ptr)

/-- Inode `i`, if the walker finds it valid, has no out-of-range pointer
anywhere in its trees. -/
def InodeClean (img : Image) (i : Nat) : Prop :=
  ValidInode img i →
    (inode_direct_block (inode_of img i) = 0 ∨ InRange (inode_direct_block (inode_of img i)))
    ∧ FieldClean img (inode_single_indirect (inode_of img i)) 1
    ∧ FieldClean img (inode_double_indirect (inode_of img i)) 2
    ∧ FieldClean img (inode_triple_indirect (inode_of img i)) 3

instance (img : Image) (i : Nat) : Decidable (ValidInode img i) := by
  unfold ValidInode; infer_instance

/-- Decision procedure for `TreeClean`: it quantifies over the 1024 entries of a block. -/
def decTreeClean (img : Image) : (level B : Nat) → Decidable (TreeClean img level B)
  | 0, B =>
    inferInstanceAs (Decidable
      (Readable img B ∧ ∀ k, k < 1024 → (entry img B k = 0 ∨ InRange (entry img B k))))
  | level + 1, B =>
    have : ∀ p, Decidable (TreeClean img level p) := fun p => decTreeClean img level p
    inferInstanceAs (Decidable
      (Readable img B ∧ ∀ k, k < 1024 →
        (entry img B k = 0
          ∨ (InRange (entry img B k) ∧ (level + 1 > 1 → TreeClean img level (entry img B k))))))

instance (img : Image) (level B : Nat) : Decidable (TreeClean img level B) :=
  decTreeClean img level B

instance (img : Image) (ptr level : Nat) : Decidable (FieldClean img ptr level) := by
  unfold FieldClean; infer_instance

instance (img : Image) (i : Nat) : Decidable (InodeClean img i) := by
  unfold InodeClean; infer_instance

/-! ### Bad-block repair -/

/-- What `fix_block_reference` leaves in a pointer field that held `p`. -/
def cleared (p : Nat) : Nat := if p ≠ 0 ∧ ¬ InRange p then 0 else p

/-- The inode records that were readable in `img` are readable and unchanged in `img'`. -/
def TablePreserved (img img' : Image) : Prop :=
  ∀ x, x < 80 → Readable img (inode_block_num x) →
    Readable img' (inode_block_num x) ∧ inode_of img' x = inode_of img x

/-! ### Counting the pointers the walker reports -/

/-- What a pointer `p` met by the walk counts for: nothing when it is zero,
one when it is non-zero and outside `[8, 64)`, and `D p`, what following it
counts for, when it is in range. -/
def ptr_count (D : Nat → Nat) (p : Nat) : Nat :=
  if p = 0 then 0 else if InRange p then D p else 1

/-- What one visit of pointer block `B` counts for: the sum over its 1024
entries, or `u` when the block cannot be read. -/
def block_count (u : Nat) (img : Image) (D : Nat → Nat) (B : Nat) : Nat :=
  if Readable img B then ((List.range 1024).map (fun k => ptr_count D (entry img B k))).sum
  else u

/-- What the walk of pointer block `B` at depth `level` counts for; `u` is the
count of a visited block that cannot be read. -/
def tree_count (u : Nat) (img : Image) : Nat → Nat → Nat
  | 0, B => block_count u img (fun _ => 0) B
  | level + 1, B =>
    block_count u img (fun p => if level + 1 > 1 then tree_count u img level p else 0) B

/-- What the walk of inode `i` counts for: its four top-level pointers and the
trees under the in-range indirect ones; nothing for an inode that is skipped. -/
def inode_count (u : Nat) (img : Image) (i : Nat) : Nat :=
  if ValidInode img i then
    ptr_count (fun _ => 0) (inode_direct_block (inode_of img i))
    + ptr_count (tree_count u img 1) (inode_single_indirect (inode_of img i))
    + ptr_count (tree_count u img 2) (inode_double_indirect (inode_of img i))
    + ptr_count (tree_count u img 3) (inode_triple_indirect (inode_of img i))
  else 0

/-- The count over all 80 inodes.  With `u = 0` it is the number of non-zero
out-of-range pointers found by the walk, each visit of a block counted; with
`u = 1` every visit of an unreadable indirect block counts one more. -/
def walk_count (u : Nat) (img : Image) : Nat :=
  ((List.range 80).map (inode_count u img)).sum

/-! ### Images that differ only in the pointers of invalid inodes -/

/-- The two images have the same size and every byte in which they differ lies
in the four block-pointer fields (bytes 40 to 55 of the record) of an inode
whose record is invalid: `links_count == 0` or `dtime != 0`. -/
def DifferOnlyInInvalidPointers (img1 img2 : Image) : Prop :=
  img1.size = img2.size ∧
  ∀ a, img1.byte a ≠ img2.byte a →
    ∃ i, i < 80 ∧ is_valid_inode (inode_of img1 i) = false
      ∧ 12288 + 256 * i + 40 ≤ a ∧ a < 12288 + 256 * i + 56

/-! ### The globals the walker writes -/

/-- The state `t` is the state `s` except for `used_blocks` and
`bad_block_errors`, the two globals that `check_bad_blocks` writes. -/
def WalkFrame (s t : State) : Prop :=
  ∃ u n, t = { s with used_blocks := u, bad_block_errors := n }

/-! ### The duplicate branch of `fix_errors` -/

/-- Inode `x` is rewritten by the second loop of the duplicate branch when a
block can be allocated: it is read and valid, its direct pointer is in range
and flagged in `duplicated_blocks`, and `first_user_inode` names another inode. -/
def Claimant (first_user_inode : Nat → Int) (s : State) (x : Nat) : Prop :=
  ValidInode s.img x ∧ InRange (inode_direct_block (inode_of s.img x))
    ∧ s.duplicated_blocks (inode_direct_block (inode_of s.img x)) = true
    ∧ first_user_inode (inode_direct_block (inode_of s.img x)) ≠ (x : Int)

/-- The state `allocate_new_data_block` leaves when the first clear bit is `k`. -/
def alloc_state (s : State) (k : Nat) : State :=
  { s with
    data_bitmap := set_bit (set_bit s.data_bitmap k) k
    used_blocks := setAt (setAt s.used_blocks (k + DATA_BLOCK_START) true)
      (k + DATA_BLOCK_START) true
    img := (write_block s.img ((k + DATA_BLOCK_START : Nat) : Int) zeros).2 }

/-- The state the second loop of the duplicate branch leaves after it has
given block `k + 8` to inode `x`: the block is allocated, the block of the
direct pointer is copied into it, and the record of `x` is written back with
the new pointer. -/
def reassign_state (s : State) (k x : Nat) : State :=
  { alloc_state s k with
    data_bitmap := set_bit (alloc_state s k).data_bitmap (k + DATA_BLOCK_START - DATA_BLOCK_START)
    used_blocks := setAt (alloc_state s k).used_blocks (k + DATA_BLOCK_START) true
    img := (write_block
      (write_block (alloc_state s k).img ((k + DATA_BLOCK_START : Nat) : Int)
        (read_block (alloc_state s k).img (inode_direct_block (inode_of s.img x) : Int) zeros).2).2
      (inode_block_num x : Int)
      (store_inode (read_block s.img (inode_block_num x : Int) zeros).2 (inode_offset x)
        (wr32 (inode_of s.img x) 40 (k + DATA_BLOCK_START)))).2 }

/-- What every pass of the second loop of the duplicate branch keeps, from
state `s` to state `t`: set bits of the data bitmap stay set,
`duplicated_blocks` is as before, blocks inside the file stay inside it, and a
data block whose bitmap bit is set keeps its content. -/
def DupFrame (s t : State) : Prop :=
  (∀ m, is_used_bit s.data_bitmap m = true → is_used_bit t.data_bitmap m = true)
  ∧ t.duplicated_blocks = s.duplicated_blocks
  ∧ (∀ n, Readable s.img n → Readable t.img n)
  ∧ (∀ b, 8 ≤ b → b < 64 → is_used_bit s.data_bitmap (b - 8) = true → Readable s.img b →
      ∀ a, a < 4096 → block_of t.img b a = block_of s.img b a)

/-! ### The duplicate bookkeeping, and the states of a run -/

/-- No entry of `duplicated_blocks` is set and `duplicate_block_errors` is 0. -/
def NoDuplicates (s : State) : Prop :=
  (∀ b, s.duplicated_blocks b = false) ∧ s.duplicate_block_errors = 0

/-- The states a run of `main` on `img` can be in between two steps: the
state at program start, and the state after any of the five checks, any branch
of `fix_errors`, the reset of the counters before the recheck, and, inside the
walker, after any pass of the inode loop or any call of `check_indirect_block`. -/
inductive MainReach (img : Image) : State → Prop
  | start : MainReach img (initial_state img)
  | check_superblock (s : State) : MainReach img s → MainReach img (check_superblock s).2
  | check_inode_bitmap (s : State) : MainReach img s → MainReach img (check_inode_bitmap s).2
  | check_data_bitmap (s : State) : MainReach img s → MainReach img (check_data_bitmap s).2
  | check_duplicates (s : State) : MainReach img s → MainReach img (check_duplicates s).2
  | check_bad_blocks (s : State) : MainReach img s → MainReach img (check_bad_blocks s).2
  | check_bad_blocks_step (s : State) (i : Nat) : MainReach img s →
      MainReach img (check_bad_blocks_step s i)
  | check_indirect_block (s : State) (level B : Nat) : MainReach img s →
      MainReach img (check_indirect_block level B s)
  | fix_superblock (s : State) : MainReach img s → MainReach img (fix_superblock s)
  | fix_inode_bitmap (s : State) : MainReach img s → MainReach img (fix_inode_bitmap s)
  | fix_data_bitmap (s : State) : MainReach img s → MainReach img (fix_data_bitmap s)
  | fix_duplicates (s : State) : MainReach img s → MainReach img (fix_duplicates s)
  | fix_bad_blocks (s : State) : MainReach img s → MainReach img (fix_bad_blocks s)
  | fix_final_write (s : State) : MainReach img s → MainReach img (fix_final_write s)
  | reset (s : State) : MainReach img s →
      MainReach img { s with superblock_errors := 0, inode_bitmap_errors := 0,
                             data_bitmap_errors := 0, duplicate_block_errors := 0,
                             bad_block_errors := 0 }

/-- The five assignments `..._errors = 0` that `main` makes before the recheck
(lines 124-128). -/
def reset_counters (s : State) : State :=
  { s with superblock_errors := 0, inode_bitmap_errors := 0, data_bitmap_errors := 0,
           duplicate_block_errors := 0, bad_block_errors := 0 }

/-- Some check of the first validation pass of `main` on `img` failed. -/
def first_pass_failed (img : Image) : Bool :=
  !(validate (initial_state img)).1.superblock_ok
    || !(validate (initial_state img)).1.inode_bitmap_ok
    || !(validate (initial_state img)).1.data_bitmap_ok
    || !(validate (initial_state img)).1.duplicates_ok
    || !(validate (initial_state img)).1.bad_blocks_ok

/-! ### Mismatches between the data bitmap and `used_blocks` -/

/-- Number of blocks `b` in `[8, 64)` for which bit `b - 8` of the bitmap
differs from `used b`. -/
def bitmap_mismatches (bitmap : Bytes) (used : Nat → Bool) : Nat :=
  (List.range' 8 56).countP (fun b => is_used_bit bitmap (b - 8) != used b)

/-! ### Images with the same data region -/

/-- The two images hold the same data blocks: a block of `[8, 64)` lies inside
the one file iff it lies inside the other, and then its 1024 entries are the
same. -/
def SameData (img1 img2 : Image) : Prop :=
  ∀ B, InRange B →
    ((Readable img1 B ↔ Readable img2 B)
      ∧ (Readable img1 B → ∀ k, k < 1024 → entry img1 B k = entry img2 B k))

/-! ### The shell history -/

/-- The history after a sequence of calls of `add_to_history` from program start. -/
def add_all (cmds : List CString) : ShellState :=
  cmds.foldl add_to_history shell_start

/-- The stored history: slots `0` to `history_count - 1`, oldest first. -/
def stored (s : ShellState) : List (Option CString) :=
  (List.range s.history_count).map s.history

/-- The last `n` elements of a list. -/
def last_commands (n : Nat) (l : List CString) : List CString :=
  l.drop (l.length - n)

/-- The most recent (up to 100) non-empty commands of a sequence, in order:
the history as the specification words it. -/
def recent_nonempty (cmds : List CString) : List CString :=
  last_commands 100 (cmds.filter (fun c => decide (c ≠ [])))

/-- The command is non-empty and does not begin with a newline character. -/
def recorded (c : CString) : Bool :=
  decide (c ≠ []) && decide (c.head? ≠ some 10)


/-! ## Concrete images -/

/-- Size in bytes of a full image: `TOTAL_BLOCKS * BLOCK_SIZE`. -/
abbrev IMAGE_SIZE : Nat := 262144

/-- A full-size image given by its superblock, its two bitmap blocks, its
inode records and its data blocks. -/
def image_of_blocks (sb ibm dbm : Bytes) (inodes : Nat → Bytes) (data : Nat → Bytes) : Image :=
  { size := IMAGE_SIZE
    byte := fun a =>
      if a < 4096 then sb a
      else if a < 8192 then ibm (a - 4096)
      else if a < 12288 then dbm (a - 8192)
      else if a < 32768 then inodes ((a - 12288) / 256) ((a - 12288) % 256)
      else data (a / 4096) (a % 4096) }

/-- An inode record with the given link count and block pointers, `dtime = 0`
and every other field zero. -/
def mk_inode (links direct single double triple : Nat) : Bytes :=
  wr32 (wr32 (wr32 (wr32 (wr32 zeros 32 links) 40 direct) 44 single) 48 double) 52 triple

/-- A full-size image whose superblock is canonical except `total_blocks = 32`;
every other byte is zero. -/
def img_total_blocks_32 : Image :=
  image_of_blocks (wr32 (set_geometry zeros) 8 32) zeros zeros (fun _ => zeros) (fun _ => zeros)

/-- A consistent image with one file: inode 0 is valid with direct pointer 8,
inode-bitmap bit 0 and data-bitmap bit 0 are set, everything else is zero. -/
def img_one_file : Image :=
  image_of_blocks (set_geometry zeros) (setAt zeros 0 1) (setAt zeros 0 1)
    (fun i => if i = 0 then mk_inode 1 8 0 0 0 else zeros) (fun _ => zeros)

/-- The image `img_one_file` with data-bitmap bit 0 cleared: block 8 is
reachable from inode 0 but marked free. -/
def img_unmarked : Image :=
  image_of_blocks (set_geometry zeros) (setAt zeros 0 1) zeros
    (fun i => if i = 0 then mk_inode 1 8 0 0 0 else zeros) (fun _ => zeros)

/-- Two valid inodes, 0 and 1, whose direct pointers both are block 8; both
inode-bitmap bits and data-bitmap bit 0 are set. -/
def img_shared : Image :=
  image_of_blocks (set_geometry zeros) (setAt zeros 0 3) (setAt zeros 0 1)
    (fun i => if i = 0 then mk_inode 1 8 0 0 0 else if i = 1 then mk_inode 1 8 0 0 0 else zeros)
    (fun _ => zeros)

/-- Inode 0 is valid with single indirect pointer 9; entry 0 of block 9 is 3,
a non-zero pointer outside `[8, 64)`; the bitmaps mark inode 0 and block 9. -/
def img_bad_entry : Image :=
  image_of_blocks (set_geometry zeros) (setAt zeros 0 1) (setAt zeros 0 2)
    (fun i => if i = 0 then mk_inode 1 0 9 0 0 else zeros)
    (fun n => if n = 9 then wr32 zeros 0 3 else zeros)

/-- Inode 0 is valid with double indirect pointer 10; entry 0 of block 10 is
10, pointing back to the block itself; the bitmaps mark inode 0 and block 10. -/
def img_cycle : Image :=
  image_of_blocks (set_geometry zeros) (setAt zeros 0 1) (setAt zeros 0 4)
    (fun i => if i = 0 then mk_inode 1 0 0 10 0 else zeros)
    (fun n => if n = 10 then wr32 zeros 0 10 else zeros)

/-- A truncated image of nine blocks (blocks 0 to 8): inode 0 is valid with
single indirect pointer 9, a block number in range but past the end of the
file; every other inode record is zero. -/
def img_truncated : Image :=
  { size := 36864
    byte := (image_of_blocks (set_geometry zeros) (setAt zeros 0 1) zeros
      (fun i => if i = 0 then mk_inode 1 0 9 0 0 else zeros) (fun _ => zeros)).byte }

/-- Inode 0 is valid with direct pointer 3, a block number below
`DATA_BLOCK_START`; inode-bitmap bit 0 is set, everything else is zero. -/
def img_low_direct : Image :=
  image_of_blocks (set_geometry zeros) (setAt zeros 0 1) zeros
    (fun i => if i = 0 then mk_inode 1 3 0 0 0 else zeros) (fun _ => zeros)

/-- The image `img_one_file` with the sixteen bytes of the four pointer fields
of inode 1, whose record is invalid, overwritten with the byte 7. -/
def img_stale_pointers : Image :=
  { size := img_one_file.size
    byte := fun a => if 12584 ≤ a ∧ a < 12600 then 7 else img_one_file.byte a }

/-- Four valid inodes: inodes 0 and 1 have direct pointer 8, inodes 2 and 3
have direct pointer 9; the four inode-bitmap bits are set. -/
def img_two_pairs : Image :=
  image_of_blocks (set_geometry zeros) (setAt zeros 0 15) zeros
    (fun i => if i < 2 then mk_inode 1 8 0 0 0 else if i < 4 then mk_inode 1 9 0 0 0 else zeros)
    (fun _ => zeros)

/-- A state at the entry of the duplicate branch over `img_two_pairs`: blocks
8 and 9 are flagged in `duplicated_blocks`, and every data-region bit of the
data bitmap is set except bit 2, so that block 10 is the only free block. -/
def st_two_pairs : State :=
  { initial_state img_two_pairs with
    data_bitmap := fun a => if a = 0 then 251 else if a < 7 then 255 else 0
    duplicated_blocks := fun b => decide (b = 8 ∨ b = 9)
    duplicate_block_errors := 2 }

/-- A state at the entry of the duplicate branch over `img_shared`: block 8 is
flagged in `duplicated_blocks` and bit 0 is the only bit set in the data bitmap. -/
def st_shared : State :=
  { initial_state img_shared with
    data_bitmap := setAt zeros 0 1
    duplicated_blocks := fun b => decide (b = 8)
    duplicate_block_errors := 1 }

/-- The state `st_shared` with all 56 data-region bits of the data bitmap set. -/
def st_shared_full : State :=
  { st_shared with data_bitmap := fun a => if a < 7 then 255 else 0 }

/-- A truncated image of four blocks (blocks 0 to 3): canonical superblock,
all-zero bitmaps and an all-zero block 3, which holds inodes 0 to 15; the
inode-table blocks 4 to 7, which hold inodes 16 to 79, are past the end of the
file. -/
def img_short_table : Image :=
  { size := 16384
    byte := (image_of_blocks (set_geometry zeros) zeros zeros (fun _ => zeros)
      (fun _ => zeros)).byte }

/-- A command that begins with a newline character: newline, `l`, `s`. -/
def cmd_newline_ls : CString := [10, 108, 115]

/-- The 101 two-byte commands `c1, c2, ..., c101`: the letter `c` followed by
the byte `n`. -/
def cmds_101 : List CString :=
  (List.range' 1 101).map (fun n => [99, n])

/-! ## Basic lemmas: block I/O and field access -/

theorem read_block_fst (img : Image) (n : Nat) (buf : Bytes) (hn : n < 64) :
    (read_block img (n : Int) buf).1 = decide (Readable img n) := by
  have h1 : ¬ ((n : Int) < 0 ∨ (n : Int) ≥ ((TOTAL_BLOCKS : Nat) : Int)) := by
    simp only [TOTAL_BLOCKS]; omega
  simp only [read_block, h1, if_false, Readable, Int.toNat_ofNat, BLOCK_SIZE]
  by_cases h : (n + 1) * 4096 ≤ img.size
  · have : min 4096 (img.size - n * 4096) = 4096 := by omega
    simp [h, this]
  · have : min 4096 (img.size - n * 4096) ≠ 4096 := by omega
    simp [h, this]

theorem read_block_snd (img : Image) (n : Nat) (buf : Bytes) (hn : n < 64)
    (hr : Readable img n) (a : Nat) (ha : a < 4096) :
    (read_block img (n : Int) buf).2 a = block_of img n a := by
  have h1 : ¬ ((n : Int) < 0 ∨ (n : Int) ≥ ((TOTAL_BLOCKS : Nat) : Int)) := by
    simp only [TOTAL_BLOCKS]; omega
  unfold Readable at hr
  simp only [BLOCK_SIZE] at hr
  have : a < min BLOCK_SIZE (img.size - n * BLOCK_SIZE) := by
    simp only [BLOCK_SIZE]; omega
  simp only [read_block, if_neg h1, Int.toNat_ofNat, block_of]
  rw [if_pos this]

theorem rd32_congr (f g : Bytes) (off : Nat)
    (h : ∀ a, off ≤ a → a < off + 4 → f a = g a) : rd32 f off = rd32 g off := by
  simp only [rd32]
  rw [h off (by omega) (by omega), h (off + 1) (by omega) (by omega),
    h (off + 2) (by omega) (by omega), h (off + 3) (by omega) (by omega)]

theorem rd16_congr (f g : Bytes) (off : Nat)
    (h : ∀ a, off ≤ a → a < off + 2 → f a = g a) : rd16 f off = rd16 g off := by
  simp only [rd16]
  rw [h off (by omega) (by omega), h (off + 1) (by omega) (by omega)]

theorem rd32_read (img : Image) (n : Nat) (buf : Bytes) (hn : n < 64)
    (hr : Readable img n) (off : Nat) (ho : off + 4 ≤ 4096) :
    rd32 (read_block img (n : Int) buf).2 off = rd32 (block_of img n) off :=
  rd32_congr _ _ _ (fun a _ h2 => read_block_snd img n buf hn hr a (by omega))

theorem rd16_read (img : Image) (n : Nat) (buf : Bytes) (hn : n < 64)
    (hr : Readable img n) (off : Nat) (ho : off + 2 ≤ 4096) :
    rd16 (read_block img (n : Int) buf).2 off = rd16 (block_of img n) off :=
  rd16_congr _ _ _ (fun a _ h2 => read_block_snd img n buf hn hr a (by omega))

theorem sb_field_check_eq (o e : Nat) (acc : Bool × Nat) :
    sb_field_check o e acc = (acc.1 && decide (o = e), acc.2 + (if o ≠ e then 1 else 0)) := by
  unfold sb_field_check
  by_cases h : o = e <;> simp [h]

theorem check_superblock_readable (s : State) (hr : Readable s.img 0) :
    ((check_superblock s).1 = true ↔ sb_canonical (block_of s.img 0))
    ∧ (check_superblock s).2.superblock_errors
        = s.superblock_errors + sb_mismatches (block_of s.img 0) := by
  have h1 := read_block_fst s.img 0 s.superblock (by omega)
  have e16 : ∀ off, off + 2 ≤ 4096 → rd16 (read_block s.img ((0 : Nat) : Int) s.superblock).2 off
      = rd16 (block_of s.img 0) off := fun off ho => rd16_read s.img 0 s.superblock (by omega) hr off ho
  have e32 : ∀ off, off + 4 ≤ 4096 → rd32 (read_block s.img ((0 : Nat) : Int) s.superblock).2 off
      = rd32 (block_of s.img 0) off := fun off ho => rd32_read s.img 0 s.superblock (by omega) hr off ho
  simp only [hr, decide_True] at h1
  simp only [check_superblock, SUPERBLOCK_BLOCK_NUM, h1, sb_field_check_eq, sb_magic, sb_block_size,
    sb_total_blocks, sb_inode_bitmap_block, sb_data_bitmap_block, sb_inode_table_block,
    sb_data_block_start, sb_inode_size, sb_inode_count, sb_canonical, sb_mismatches,
    e16 0 (by omega), e32 4 (by omega), e32 8 (by omega), e32 12 (by omega), e32 16 (by omega),
    e32 20 (by omega), e32 24 (by omega), e32 28 (by omega), e32 32 (by omega)]
  constructor
  · simp [and_assoc, INODE_COUNT, BLOCK_SIZE, INODE_SIZE]
  · simp only [Bool.not_true, Bool.false_eq_true, if_false]
    omega

/-! ## Lemmas: check_inode_bitmap -/

theorem inode_block_num_bounds (i : Nat) (hi : i < 80) :
    3 ≤ inode_block_num i ∧ inode_block_num i ≤ 7 := by
  simp only [inode_block_num, INODE_TABLE_START_BLOCK, INODE_SIZE, BLOCK_SIZE]; omega

theorem inode_block_num_ge (i : Nat) : 3 ≤ inode_block_num i := by
  show 3 ≤ 3 + i * 256 / 4096
  omega

theorem inode_offset_bound (i : Nat) : inode_offset i + 256 ≤ 4096 := by
  simp only [inode_offset, INODE_SIZE, BLOCK_SIZE]; omega

theorem load_inode_read (img : Image) (i : Nat) (buf : Bytes) (hi : i < 80)
    (hr : Readable img (inode_block_num i)) :
    load_inode (read_block img (inode_block_num i : Int) buf).2 (inode_offset i) = inode_of img i := by
  funext a
  simp only [load_inode, inode_of]
  split
  · rename_i h
    have := inode_offset_bound i
    have hb := inode_block_num_bounds i hi
    simp only [SIZEOF_INODE] at h
    exact read_block_snd img _ buf (by omega) hr _ (by omega)
  · rfl

theorem is_used_bit_congr (f g : Bytes) (i : Nat) (h : f (i / 8) = g (i / 8)) :
    is_used_bit f i = is_used_bit g i := by
  simp only [is_used_bit, h]


theorem check_inode_bitmap_step_eq (img : Image) (bm : Bytes) (l : IbLoop) (i : Nat) (hi : i < 80)
    (hr : Readable img 7)
    (hbm : ∀ a, a < 4096 → bm a = block_of img INODE_BITMAP_BLOCK_NUM a) :
    check_inode_bitmap_step img bm l i =
      { inode_bitmap_errors := l.inode_bitmap_errors
        type1_errors := l.type1_errors + (if stale_alloc img i then 1 else 0)
        type2_errors := l.type2_errors + (if missing_alloc img i then 1 else 0) } := by
  have hb := inode_block_num_bounds i hi
  have hri : Readable img (inode_block_num i) := by
    unfold Readable at *; simp only [BLOCK_SIZE] at *; omega
  have h1 := read_block_fst img (inode_block_num i) zeros (by omega)
  simp only [hri, decide_True] at h1
  have hbit : is_used_bit bm i = is_used_bit (block_of img INODE_BITMAP_BLOCK_NUM) i :=
    is_used_bit_congr _ _ _ (hbm _ (by omega))
  simp only [check_inode_bitmap_step, h1, load_inode_read img i zeros hi hri, hbit, stale_alloc,
    missing_alloc]
  by_cases hA : is_used_bit (block_of img INODE_BITMAP_BLOCK_NUM) i = true <;>
    by_cases hB : is_valid_inode (inode_of img i) = true <;> simp [hA, hB]

theorem check_inode_bitmap_fold (img : Image) (bm : Bytes) (hr : Readable img 7)
    (hbm : ∀ a, a < 4096 → bm a = block_of img INODE_BITMAP_BLOCK_NUM a)
    (xs : List Nat) (hxs : ∀ i ∈ xs, i < 80) (l : IbLoop) :
    xs.foldl (check_inode_bitmap_step img bm) l =
      { inode_bitmap_errors := l.inode_bitmap_errors
        type1_errors := l.type1_errors + xs.countP (stale_alloc img)
        type2_errors := l.type2_errors + xs.countP (missing_alloc img) } := by
  induction xs generalizing l with
  | nil => simp
  | cons x xs ih =>
    have hx : x < 80 := hxs x (List.mem_cons_self _ _)
    rw [List.foldl_cons, check_inode_bitmap_step_eq img bm l x hx hr hbm,
      ih (fun i h => hxs i (List.mem_cons_of_mem _ h))]
    simp only [List.countP_cons]
    congr 1 <;> omega

theorem check_inode_bitmap_readable (s : State) (hr : Readable s.img 7) :
    (check_inode_bitmap s).2.inode_bitmap_errors
        = (List.range 80).countP (stale_alloc s.img) + (List.range 80).countP (missing_alloc s.img)
    ∧ ((check_inode_bitmap s).1 = true ↔
        ∀ i, i < 80 → is_used_bit (block_of s.img INODE_BITMAP_BLOCK_NUM) i
                        = is_valid_inode (inode_of s.img i)) := by
  have hr1 : Readable s.img 1 := by
    unfold Readable at *; simp only [BLOCK_SIZE] at *; omega
  have h1 := read_block_fst s.img 1 s.inode_bitmap (by omega)
  simp only [hr1, decide_True] at h1
  have hbm : ∀ a, a < 4096 → (read_block s.img ((1 : Nat) : Int) s.inode_bitmap).2 a
      = block_of s.img INODE_BITMAP_BLOCK_NUM a :=
    fun a ha => read_block_snd s.img 1 s.inode_bitmap (by omega) hr1 a ha
  have hc : List.range INODE_COUNT = List.range 80 := rfl
  unfold check_inode_bitmap
  rw [hc]
  dsimp only
  simp only [h1]
  rw [check_inode_bitmap_fold s.img _ hr hbm (List.range 80) (fun i h => List.mem_range.mp h)]
  simp only [Bool.not_true, Bool.false_eq_true, if_false, Nat.zero_add, beq_iff_eq, true_and,
    Nat.add_eq_zero_iff, List.countP_eq_zero, List.mem_range]
  constructor
  · rintro ⟨h1, h2⟩ i hi
    have a := h1 i hi
    have b := h2 i hi
    simp only [stale_alloc, missing_alloc, INODE_BITMAP_BLOCK_NUM] at a b
    revert a b
    by_cases hA : is_used_bit (block_of s.img 1) i = true <;>
      by_cases hB : is_valid_inode (inode_of s.img i) = true <;> simp [hA, hB]
  · intro h
    constructor <;> intro i hi <;>
      simp [stale_alloc, missing_alloc, INODE_BITMAP_BLOCK_NUM, h i hi]

/-! ## Lemmas: superblock repair -/

theorem foldl_invariant {σ α : Type} (P : σ → Prop) (f : σ → α → σ)
    (h : ∀ s a, P s → P (f s a)) (l : List α) (s : σ) (hs : P s) : P (l.foldl f s) := by
  induction l generalizing s with
  | nil => exact hs
  | cons x xs ih => exact ih _ (h s x hs)

theorem set_geometry_canonical (sb : Bytes) : sb_canonical (set_geometry sb) := by
  simp [sb_canonical, set_geometry, sb_magic, sb_block_size, sb_total_blocks,
    sb_inode_bitmap_block, sb_data_bitmap_block, sb_inode_table_block, sb_data_block_start,
    sb_inode_size, sb_inode_count, rd16, rd32, wr16, wr32]
  decide

theorem sb_canonical_congr (f g : Bytes) (h : ∀ a, a < 4096 → f a = g a)
    (hg : sb_canonical g) : sb_canonical f := by
  have e16 : rd16 f 0 = rd16 g 0 := rd16_congr _ _ _ (fun a _ h2 => h a (by omega))
  have e32 : ∀ off, off + 4 ≤ 4096 → rd32 f off = rd32 g off :=
    fun off ho => rd32_congr _ _ _ (fun a _ h2 => h a (by omega))
  simp only [sb_canonical, sb_magic, sb_block_size, sb_total_blocks,
    sb_inode_bitmap_block, sb_data_bitmap_block, sb_inode_table_block, sb_data_block_start,
    sb_inode_size, sb_inode_count] at hg ⊢
  rw [e16, e32 4 (by omega), e32 8 (by omega), e32 12 (by omega), e32 16 (by omega),
    e32 20 (by omega), e32 24 (by omega), e32 28 (by omega), e32 32 (by omega)]
  exact hg

theorem sb_mismatches_canonical (sb : Bytes) (h : sb_canonical sb) : sb_mismatches sb = 0 := by
  obtain ⟨h1, h2, h3, h4, h5, h6, h7, h8, h9⟩ := h
  simp [sb_mismatches, h1, h2, h3, h4, h5, h6, h7, h8, h9]
  rfl

theorem write_block_zero (img : Image) (buf : Bytes) :
    Block0 (write_block img ((0 : Nat) : Int) buf).2 buf := by
  constructor
  · simp [write_block, Readable]
  · intro a ha
    simp [write_block, ha]

theorem write_block_block0 (img : Image) (k : Int) (buf f : Bytes) (hk : k ≠ 0)
    (h : Block0 img f) : Block0 (write_block img k buf).2 f := by
  unfold write_block
  split
  · exact h
  · rename_i hr
    obtain ⟨h1, h2⟩ := h
    unfold Readable at h1
    simp only [BLOCK_SIZE, TOTAL_BLOCKS] at h1 hr ⊢
    have hk1 : 1 ≤ k.toNat := by omega
    constructor
    · unfold Readable; simp only [BLOCK_SIZE]; omega
    · intro a ha
      have hn : ¬ (k.toNat * 4096 ≤ a ∧ a < k.toNat * 4096 + 4096) := by omega
      have hs : a < img.size := by omega
      simp only [hn, if_false, hs, if_true]
      exact h2 a ha

theorem fix_inode_bitmap_block0 (s : State) (f : Bytes) (h : Block0 s.img f) :
    Block0 (fix_inode_bitmap s).img f := by
  unfold fix_inode_bitmap
  split
  · exact write_block_block0 _ _ _ _ (by decide) h
  · exact h

theorem fix_data_bitmap_block0 (s : State) (f : Bytes) (h : Block0 s.img f) :
    Block0 (fix_data_bitmap s).img f := by
  unfold fix_data_bitmap
  split
  · exact write_block_block0 _ _ _ _ (by decide) h
  · exact h

theorem allocate_new_data_block_fst (s : State) :
    (allocate_new_data_block s).1 = -1
      ∨ ∃ i : Nat, i < 56 ∧ (allocate_new_data_block s).1 = ((i + 8 : Nat) : Int) := by
  unfold allocate_new_data_block
  split
  · rename_i i hi
    right
    have hm := List.mem_of_find?_eq_some hi
    exact ⟨i, List.mem_range.mp hm, rfl⟩
  · left; rfl

theorem allocate_new_data_block_block0 (s : State) (f : Bytes) (h : Block0 s.img f) :
    Block0 (allocate_new_data_block s).2.img f := by
  unfold allocate_new_data_block
  split
  · exact write_block_block0 _ _ _ _ (by simp only [DATA_BLOCK_START]; omega) h
  · exact h

theorem fix_duplicate_step_block0 (fu : Nat → Int) (f : Bytes) (s : State) (i : Nat)
    (h : Block0 s.img f) : Block0 (fix_duplicate_step fu s i).img f := by
  have ha := allocate_new_data_block_block0 s f h
  have hne : (allocate_new_data_block s).1 ≠ 0 := by
    intro h0
    rcases allocate_new_data_block_fst s with h1 | ⟨j, _, h1⟩ <;> rw [h0] at h1 <;> omega
  have hb : ((inode_block_num i : Nat) : Int) ≠ 0 := by
    have := inode_block_num_ge i
    omega
  unfold fix_duplicate_step
  dsimp only
  repeat' split
  all_goals first
    | exact h
    | exact ha
    | exact write_block_block0 _ _ _ _ hne ha
    | exact write_block_block0 _ _ _ _ hb (write_block_block0 _ _ _ _ hne ha)

theorem fix_duplicates_block0 (s : State) (f : Bytes) (h : Block0 s.img f) :
    Block0 (fix_duplicates s).img f := by
  unfold fix_duplicates
  split
  · refine write_block_block0 _ _ _ _ (by decide) ?_
    have := foldl_invariant (fun t : State => Block0 t.img f)
      (fix_duplicate_step ((List.range INODE_COUNT).foldl (first_user_step s.img) (fun _ => (-1 : Int))))
      (fun t a ht => fix_duplicate_step_block0 _ f t a ht) (List.range INODE_COUNT) s h
    exact this
  · exact h

theorem fix_bad_blocks_step_block0 (f : Bytes) (img : Image) (i : Nat)
    (h : Block0 img f) : Block0 (fix_bad_blocks_step img i) f := by
  have hb : ((inode_block_num i : Nat) : Int) ≠ 0 := by
    have := inode_block_num_ge i
    omega
  unfold fix_bad_blocks_step
  dsimp only
  repeat' split
  all_goals first
    | exact h
    | exact write_block_block0 _ _ _ _ hb h

theorem fix_bad_blocks_block0 (s : State) (f : Bytes) (h : Block0 s.img f) :
    Block0 (fix_bad_blocks s).img f := by
  unfold fix_bad_blocks
  split
  · dsimp only
    exact foldl_invariant (fun t : Image => Block0 t f) fix_bad_blocks_step
      (fun t a ht => fix_bad_blocks_step_block0 f t a ht) (List.range INODE_COUNT) s.img h
  · exact h

theorem fix_final_write_block0 (s : State) (f : Bytes) (h : Block0 s.img f) :
    Block0 (fix_final_write s).img f := by
  unfold fix_final_write
  split
  · exact write_block_block0 _ _ _ _ (by decide) h
  · exact h

theorem fix_superblock_block0 (s : State) (h : s.superblock_errors > 0) :
    Block0 (fix_superblock s).img (set_geometry s.superblock) := by
  unfold fix_superblock
  rw [if_pos h]
  exact write_block_zero _ _

theorem fix_errors_block0 (s : State) (h : s.superblock_errors > 0) :
    Block0 (fix_errors s).img (set_geometry s.superblock) := by
  unfold fix_errors
  exact fix_final_write_block0 _ _ (fix_bad_blocks_block0 _ _ (fix_duplicates_block0 _ _
    (fix_data_bitmap_block0 _ _ (fix_inode_bitmap_block0 _ _ (fix_superblock_block0 s h)))))

theorem block0_canonical (img : Image) (f : Bytes) (h : Block0 img f) (hf : sb_canonical f) :
    sb_canonical (block_of img 0) := by
  refine sb_canonical_congr _ f (fun a ha => ?_) hf
  simp only [block_of, Nat.zero_mul, Nat.zero_add]
  exact h.2 a ha

/-! ## Lemmas: the walker and the reachable-block set -/

theorem setAt_true_iff (u : Nat → Bool) (p b : Nat) :
    setAt u p true b = true ↔ u b = true ∨ p = b := by
  unfold setAt
  by_cases h : b = p
  · simp [h]
  · have : ¬ p = b := fun e => h e.symm
    simp [h, this]

theorem not_inRange_zero (p : Nat) (h : p = 0) : ¬ InRange p := by
  unfold InRange; simp only [DATA_BLOCK_START]; omega

theorem inRange_iff (p : Nat) :
    InRange p ↔ ¬ (p < DATA_BLOCK_START ∨ p ≥ TOTAL_BLOCKS) := by
  unfold InRange; omega

theorem check_indirect_entry_used (img : Image) (bp : Bytes) (descend : Nat → State → State)
    (D : Nat → Nat → Prop)
    (hd : ∀ p t, InRange p → t.img = img →
      (descend p t).img = img
      ∧ ∀ b, ((descend p t).used_blocks b = true ↔ t.used_blocks b = true ∨ D p b))
    (s : State) (hs : s.img = img) (i : Nat) :
    (check_indirect_entry bp descend s i).img = img
    ∧ ∀ b, ((check_indirect_entry bp descend s i).used_blocks b = true ↔
        s.used_blocks b = true
        ∨ (InRange (rd32 bp (4 * i)) ∧ (rd32 bp (4 * i) = b ∨ D (rd32 bp (4 * i)) b))) := by
  unfold check_indirect_entry
  dsimp only
  by_cases h0 : rd32 bp (4 * i) = 0
  · have hn := not_inRange_zero _ h0
    simp only [h0, ne_eq, not_true_eq_false, if_false, hs, true_and] at hn ⊢
    intro b
    simp [hn]
  · by_cases hr : InRange (rd32 bp (4 * i))
    · have hr' := (inRange_iff _).mp hr
      simp only [ne_eq, h0, not_false_eq_true, if_true, hr', if_false]
      obtain ⟨h1, h2⟩ := hd (rd32 bp (4 * i))
        { s with used_blocks := setAt s.used_blocks (rd32 bp (4 * i)) true } hr hs
      refine ⟨h1, fun b => ?_⟩
      rw [h2 b]
      simp only [setAt_true_iff, hr, true_and]
      tauto
    · have hr' : rd32 bp (4 * i) < DATA_BLOCK_START ∨ rd32 bp (4 * i) ≥ TOTAL_BLOCKS := by
        by_contra hc
        exact hr ((inRange_iff _).mpr hc)
      simp only [ne_eq, h0, not_false_eq_true, if_true, hr', hs, true_and]
      intro b
      simp [hr]

theorem check_indirect_entries_used (img : Image) (bp : Bytes) (descend : Nat → State → State)
    (D : Nat → Nat → Prop)
    (hd : ∀ p t, InRange p → t.img = img →
      (descend p t).img = img
      ∧ ∀ b, ((descend p t).used_blocks b = true ↔ t.used_blocks b = true ∨ D p b))
    (l : List Nat) (s : State) (hs : s.img = img) :
    (l.foldl (check_indirect_entry bp descend) s).img = img
    ∧ ∀ b, ((l.foldl (check_indirect_entry bp descend) s).used_blocks b = true ↔
        s.used_blocks b = true
        ∨ ∃ k, k ∈ l ∧ InRange (rd32 bp (4 * k)) ∧ (rd32 bp (4 * k) = b ∨ D (rd32 bp (4 * k)) b)) := by
  induction l generalizing s with
  | nil => exact ⟨hs, fun b => by simp⟩
  | cons x xs ih =>
    obtain ⟨h1, h2⟩ := check_indirect_entry_used img bp descend D hd s hs x
    obtain ⟨h3, h4⟩ := ih (check_indirect_entry bp descend s x) h1
    rw [List.foldl_cons]
    refine ⟨h3, fun b => ?_⟩
    rw [h4 b, h2 b]
    simp only [List.mem_cons, exists_eq_or_imp, or_assoc]

theorem check_indirect_body_used (img : Image) (descend : Nat → State → State)
    (D : Nat → Nat → Prop)
    (hd : ∀ p t, InRange p → t.img = img →
      (descend p t).img = img
      ∧ ∀ b, ((descend p t).used_blocks b = true ↔ t.used_blocks b = true ∨ D p b))
    (B : Nat) (hB : InRange B) (s : State) (hs : s.img = img) :
    (check_indirect_body B descend s).img = img
    ∧ ∀ b, ((check_indirect_body B descend s).used_blocks b = true ↔
        s.used_blocks b = true ∨ EntryClaims img D B b) := by
  have hB' := (inRange_iff _).mp hB
  have hB64 : B < 64 := hB.2
  unfold check_indirect_body
  rw [if_neg hB', hs]
  dsimp only
  rw [read_block_fst img B zeros hB64]
  by_cases hr : Readable img B
  · simp only [hr, decide_True, Bool.not_true, Bool.false_eq_true, if_false]
    obtain ⟨h1, h2⟩ := check_indirect_entries_used img (read_block img (B : Int) zeros).2
      descend D hd (List.range (BLOCK_SIZE / 4)) s hs
    refine ⟨h1, fun b => ?_⟩
    rw [h2 b]
    apply or_congr_right
    unfold EntryClaims
    constructor
    · rintro ⟨k, hk, h3, h4⟩
      have hk' : k < 1024 := List.mem_range.mp hk
      have e : rd32 (read_block img (B : Int) zeros).2 (4 * k) = entry img B k :=
        rd32_read img B zeros hB64 hr (4 * k) (by omega)
      rw [e] at h3 h4
      exact ⟨k, hk', hr, h3, h4⟩
    · rintro ⟨k, hk, _, h3, h4⟩
      have e : rd32 (read_block img (B : Int) zeros).2 (4 * k) = entry img B k :=
        rd32_read img B zeros hB64 hr (4 * k) (by omega)
      refine ⟨k, List.mem_range.mpr hk, ?_, ?_⟩
      · rw [e]; exact h3
      · rw [e]; exact h4
  · simp only [hr, decide_False, Bool.not_false, if_true, hs, true_and]
    intro b
    have hE : ¬ EntryClaims img D B b := by
      rintro ⟨k, _, h3, _⟩
      exact hr h3
    simp [hE]

theorem check_indirect_block_used (img : Image) (level : Nat) :
    ∀ (B : Nat) (s : State), InRange B → s.img = img →
      (check_indirect_block level B s).img = img
      ∧ ∀ b, ((check_indirect_block level B s).used_blocks b = true ↔
          s.used_blocks b = true ∨ TreeClaims img level B b) := by
  induction level with
  | zero =>
    intro B s hB hs
    exact check_indirect_body_used img (fun _ t => t) (fun _ _ => False)
      (fun p t _ ht => ⟨ht, fun b => by simp⟩) B hB s hs
  | succ n ih =>
    intro B s hB hs
    refine check_indirect_body_used img
      (fun p t => if n + 1 > 1 then check_indirect_block n p t else t)
      (fun p c => n + 1 > 1 ∧ TreeClaims img n p c)
      (fun p t hp ht => ?_) B hB s hs
    by_cases hn : n + 1 > 1
    · simp only [hn, if_true, true_and]
      exact ih p t hp ht
    · simp only [hn, if_false, false_and, or_false, implies_true, and_true]
      exact ht

theorem check_indirect_field_used (img : Image) (ptr level : Nat) (s : State) (hs : s.img = img) :
    (check_indirect_field ptr level s).img = img
    ∧ ∀ b, ((check_indirect_field ptr level s).used_blocks b = true ↔
        s.used_blocks b = true ∨ FieldClaims img ptr level b) := by
  unfold check_indirect_field FieldClaims
  by_cases h0 : ptr = 0
  · have hn := not_inRange_zero _ h0
    simp only [h0, ne_eq, not_true_eq_false, if_false, hs, true_and] at hn ⊢
    intro b
    simp [hn]
  · by_cases hr : InRange ptr
    · have hr' := (inRange_iff _).mp hr
      simp only [ne_eq, h0, not_false_eq_true, if_true, hr', if_false]
      obtain ⟨h1, h2⟩ := check_indirect_block_used img level ptr
        { s with used_blocks := setAt s.used_blocks ptr true } hr hs
      refine ⟨h1, fun b => ?_⟩
      rw [h2 b]
      simp only [setAt_true_iff, hr, true_and, or_assoc]
    · have hr' : ptr < DATA_BLOCK_START ∨ ptr ≥ TOTAL_BLOCKS := by
        by_contra hc
        exact hr ((inRange_iff _).mpr hc)
      simp only [ne_eq, h0, not_false_eq_true, if_true, hr', hs, true_and]
      intro b
      simp [hr]

theorem check_bad_blocks_step_used (s : State) (i : Nat) (hi : i < 80) :
    (check_bad_blocks_step s i).img = s.img
    ∧ ∀ b, ((check_bad_blocks_step s i).used_blocks b = true ↔
        s.used_blocks b = true ∨ InodeClaims s.img i b) := by
  have hb := inode_block_num_bounds i hi
  unfold check_bad_blocks_step
  dsimp only
  rw [read_block_fst s.img (inode_block_num i) zeros (by omega)]
  by_cases hr : Readable s.img (inode_block_num i)
  · simp only [hr, decide_True, Bool.not_true, Bool.false_eq_true, if_false,
      load_inode_read s.img i zeros hi hr]
    by_cases hv : is_valid_inode (inode_of s.img i) = true
    · simp only [hv, Bool.not_true, Bool.false_eq_true, if_false]
      have hd : ∃ s1 : State, s1 =
          (if inode_direct_block (inode_of s.img i) ≠ 0 then
            if inode_direct_block (inode_of s.img i) < DATA_BLOCK_START
                ∨ inode_direct_block (inode_of s.img i) ≥ TOTAL_BLOCKS then
              { s with bad_block_errors := s.bad_block_errors + 1 }
            else
              { s with used_blocks := setAt s.used_blocks (inode_direct_block (inode_of s.img i)) true }
          else s) := ⟨_, rfl⟩
      obtain ⟨s1, hs1⟩ := hd
      rw [← hs1]
      have h1 : s1.img = s.img ∧ ∀ b, (s1.used_blocks b = true ↔ s.used_blocks b = true
          ∨ (InRange (inode_direct_block (inode_of s.img i))
              ∧ inode_direct_block (inode_of s.img i) = b)) := by
        rw [hs1]
        by_cases h0 : inode_direct_block (inode_of s.img i) = 0
        · have hn := not_inRange_zero _ h0
          simp only [h0, ne_eq, not_true_eq_false, if_false, true_and] at hn ⊢
          intro b
          simp [hn]
        · by_cases hin : InRange (inode_direct_block (inode_of s.img i))
          · have hin' := (inRange_iff _).mp hin
            simp only [ne_eq, h0, not_false_eq_true, if_true, hin', if_false, true_and]
            intro b
            simp only [setAt_true_iff, hin, true_and]
          · have hin' : inode_direct_block (inode_of s.img i) < DATA_BLOCK_START
                ∨ inode_direct_block (inode_of s.img i) ≥ TOTAL_BLOCKS := by
              by_contra hc
              exact hin ((inRange_iff _).mpr hc)
            simp only [ne_eq, h0, not_false_eq_true, if_true, hin', true_and]
            intro b
            simp [hin]
      obtain ⟨h2i, h2⟩ := check_indirect_field_used s.img
        (inode_single_indirect (inode_of s.img i)) 1 s1 h1.1
      obtain ⟨h3i, h3⟩ := check_indirect_field_used s.img
        (inode_double_indirect (inode_of s.img i)) 2 _ h2i
      obtain ⟨h4i, h4⟩ := check_indirect_field_used s.img
        (inode_triple_indirect (inode_of s.img i)) 3 _ h3i
      refine ⟨h4i, fun b => ?_⟩
      rw [h4 b, h3 b, h2 b, h1.2 b]
      have hvi : ValidInode s.img i := ⟨hi, hr, hv⟩
      simp only [InodeClaims, hvi, true_and, or_assoc]
    · simp only [hv, Bool.not_false, if_true, true_and]
      intro b
      have hE : ¬ InodeClaims s.img i b := fun h => hv h.1.2.2
      simp [hE]
  · simp only [hr, decide_False, Bool.not_false, if_true, true_and]
    intro b
    have hE : ¬ InodeClaims s.img i b := fun h => hr h.1.2.1
    simp [hE]

theorem check_bad_blocks_fold_used (img : Image) (l : List Nat) (hl : ∀ i ∈ l, i < 80)
    (s : State) (hs : s.img = img) :
    (l.foldl check_bad_blocks_step s).img = img
    ∧ ∀ b, ((l.foldl check_bad_blocks_step s).used_blocks b = true ↔
        s.used_blocks b = true ∨ ∃ i, i ∈ l ∧ InodeClaims img i b) := by
  induction l generalizing s with
  | nil => exact ⟨hs, fun b => by simp⟩
  | cons x xs ih =>
    obtain ⟨h1, h2⟩ := check_bad_blocks_step_used s x (hl x (List.mem_cons_self _ _))
    rw [hs] at h1 h2
    obtain ⟨h3, h4⟩ := ih (fun i h => hl i (List.mem_cons_of_mem _ h))
      (check_bad_blocks_step s x) h1
    rw [List.foldl_cons]
    refine ⟨h3, fun b => ?_⟩
    rw [h4 b, h2 b]
    simp only [List.mem_cons, exists_eq_or_imp, or_assoc]

theorem check_bad_blocks_walk_eq (s : State) :
    check_bad_blocks_walk s = (List.range INODE_COUNT).foldl check_bad_blocks_step
      { { s with bad_block_errors := 0 } with used_blocks := fun _ => false } := rfl

theorem check_bad_blocks_snd (s : State) :
    (check_bad_blocks s).2 = check_bad_blocks_walk s := by
  rw [check_bad_blocks]
  by_cases h : (check_bad_blocks_walk s).bad_block_errors > 0
  · rw [if_pos h]
  · rw [if_neg h]

theorem check_bad_blocks_fst (s : State) :
    (check_bad_blocks s).1 = decide ((check_bad_blocks_walk s).bad_block_errors = 0) := by
  rw [check_bad_blocks]
  by_cases h : (check_bad_blocks_walk s).bad_block_errors > 0
  · rw [if_pos h]
    have : ¬ (check_bad_blocks_walk s).bad_block_errors = 0 := by omega
    simp [this]
  · rw [if_neg h]
    have : (check_bad_blocks_walk s).bad_block_errors = 0 := by omega
    simp [this]

theorem check_bad_blocks_used (s : State) :
    (check_bad_blocks s).2.img = s.img
    ∧ ∀ b, ((check_bad_blocks s).2.used_blocks b = true ↔ ∃ i, InodeClaims s.img i b) := by
  rw [check_bad_blocks_snd, check_bad_blocks_walk_eq]
  obtain ⟨h1, h2⟩ := check_bad_blocks_fold_used s.img (List.range INODE_COUNT)
    (fun i h => List.mem_range.mp h)
    { { s with bad_block_errors := 0 } with used_blocks := fun _ => false } rfl
  refine ⟨h1, fun b => ?_⟩
  rw [h2 b]
  simp only [Bool.false_eq_true, false_or]
  constructor
  · rintro ⟨i, _, h⟩; exact ⟨i, h⟩
  · rintro ⟨i, h⟩; exact ⟨i, List.mem_range.mpr h.1.1, h⟩

theorem treeClaims_zero (img : Image) (B b : Nat) :
    TreeClaims img 0 B b ↔ EntryClaims img (fun _ _ => False) B b := Iff.rfl

theorem treeClaims_succ (img : Image) (L B b : Nat) :
    TreeClaims img (L + 1) B b ↔
      EntryClaims img (fun p c => L + 1 > 1 ∧ TreeClaims img L p c) B b := Iff.rfl

theorem treeClaims_of_entry (img : Image) (L B k : Nat) (hk : k < 1024) (hr : Readable img B)
    (hin : InRange (entry img B k)) : TreeClaims img L B (entry img B k) := by
  cases L with
  | zero => exact ⟨k, hk, hr, hin, Or.inl rfl⟩
  | succ n => exact ⟨k, hk, hr, hin, Or.inl rfl⟩

theorem inRange_ne_zero (p : Nat) (h : InRange p) : p ≠ 0 := by
  unfold InRange at h
  simp only [DATA_BLOCK_START] at h
  omega

/-- What a visited block claims is covered by clause (iii) of `Reachable`. -/
theorem visited_treeClaims (img : Image) (L : Nat) :
    ∀ (B b : Nat), Visited img L B → TreeClaims img L B b →
      ∃ L' B' k, Visited img L' B' ∧ Readable img B' ∧ k < 1024 ∧ entry img B' k ≠ 0
        ∧ InRange (entry img B' k) ∧ entry img B' k = b := by
  induction L with
  | zero =>
    intro B b hv ht
    obtain ⟨k, hk, hr, hin, h⟩ := (treeClaims_zero img B b).mp ht
    rcases h with h | h
    · exact ⟨0, B, k, hv, hr, hk, inRange_ne_zero _ hin, hin, h⟩
    · exact h.elim
  | succ n ih =>
    intro B b hv ht
    obtain ⟨k, hk, hr, hin, h⟩ := (treeClaims_succ img n B b).mp ht
    rcases h with h | ⟨hn, h⟩
    · exact ⟨n + 1, B, k, hv, hr, hk, inRange_ne_zero _ hin, hin, h⟩
    · have hc := Visited.child (n + 1) B k hv hn hr hk hin
      rw [Nat.add_sub_cancel] at hc
      exact ih _ b hc h

/-- Whatever the walk of a visited block claims is claimed for some inode. -/
theorem visited_inodeClaims (img : Image) (L B : Nat) (hv : Visited img L B) :
    ∀ b, TreeClaims img L B b → ∃ i, InodeClaims img i b := by
  induction hv with
  | single i hi hin =>
    intro b ht
    exact ⟨i, hi, Or.inr (Or.inl ⟨hin, Or.inr ht⟩)⟩
  | double i hi hin =>
    intro b ht
    exact ⟨i, hi, Or.inr (Or.inr (Or.inl ⟨hin, Or.inr ht⟩))⟩
  | triple i hi hin =>
    intro b ht
    exact ⟨i, hi, Or.inr (Or.inr (Or.inr ⟨hin, Or.inr ht⟩))⟩
  | child L B k _ hL hr hk hin ih =>
    intro b ht
    obtain ⟨n, rfl⟩ : ∃ n, L = n + 1 := ⟨L - 1, by omega⟩
    rw [Nat.add_sub_cancel] at ht
    exact ih b ((treeClaims_succ img n B b).mpr ⟨k, hk, hr, hin, Or.inr ⟨hL, ht⟩⟩)

theorem fieldClaims_reachable (img : Image) (i ptr level b : Nat) (hi : ValidInode img i)
    (hv : InRange ptr → Visited img level ptr)
    (hp : ptr = inode_single_indirect (inode_of img i) ∨ ptr = inode_double_indirect (inode_of img i)
      ∨ ptr = inode_triple_indirect (inode_of img i))
    (h : FieldClaims img ptr level b) : Reachable img b := by
  obtain ⟨hin, h⟩ := h
  rcases h with h | h
  · right; left
    refine ⟨i, hi, inRange_ne_zero _ (h ▸ hin), h ▸ hin, ?_⟩
    rcases hp with hp | hp | hp
    · left; rw [← hp]; exact h
    · right; left; rw [← hp]; exact h
    · right; right; rw [← hp]; exact h
  · right; right
    exact visited_treeClaims img level ptr b (hv hin) h

theorem inodeClaims_iff_reachable (img : Image) (b : Nat) :
    (∃ i, InodeClaims img i b) ↔ Reachable img b := by
  constructor
  · rintro ⟨i, hi, h⟩
    rcases h with ⟨hin, h⟩ | h | h | h
    · left
      exact ⟨i, hi, inRange_ne_zero _ hin, hin, h⟩
    · exact fieldClaims_reachable img i _ 1 b hi (fun hin => Visited.single i hi hin)
        (Or.inl rfl) h
    · exact fieldClaims_reachable img i _ 2 b hi (fun hin => Visited.double i hi hin)
        (Or.inr (Or.inl rfl)) h
    · exact fieldClaims_reachable img i _ 3 b hi (fun hin => Visited.triple i hi hin)
        (Or.inr (Or.inr rfl)) h
  · rintro (⟨i, hi, _, hin, h⟩ | ⟨i, hi, _, hin, h⟩ | ⟨L, B, k, hv, hr, hk, _, hin, h⟩)
    · exact ⟨i, hi, Or.inl ⟨hin, h⟩⟩
    · rcases h with h | h | h
      · exact ⟨i, hi, Or.inr (Or.inl ⟨h ▸ hin, Or.inl h⟩)⟩
      · exact ⟨i, hi, Or.inr (Or.inr (Or.inl ⟨h ▸ hin, Or.inl h⟩))⟩
      · exact ⟨i, hi, Or.inr (Or.inr (Or.inr ⟨h ▸ hin, Or.inl h⟩))⟩
    · rw [← h]
      exact visited_inodeClaims img L B hv _ (treeClaims_of_entry img L B k hk hr hin)

/-- After the walker, `used_blocks` is the reachable-block set of the image. -/
theorem check_bad_blocks_used_iff_reachable (s : State) (b : Nat) :
    (check_bad_blocks s).2.used_blocks b = true ↔ Reachable s.img b := by
  rw [(check_bad_blocks_used s).2 b, inodeClaims_iff_reachable]

/-! ## Lemmas: the bad-block count on trees without out-of-range pointers -/

theorem treeClean_zero (img : Image) (B : Nat) :
    TreeClean img 0 B ↔
      (Readable img B ∧ ∀ k, k < 1024 → (entry img B k = 0 ∨ InRange (entry img B k))) := Iff.rfl

theorem treeClean_succ (img : Image) (L B : Nat) :
    TreeClean img (L + 1) B ↔
      (Readable img B ∧ ∀ k, k < 1024 →
        (entry img B k = 0
          ∨ (InRange (entry img B k) ∧ (L + 1 > 1 → TreeClean img L (entry img B k))))) := Iff.rfl

theorem check_indirect_entry_clean (img : Image) (bp : Bytes) (descend : Nat → State → State)
    (C : Nat → Prop)
    (hd : ∀ p t, InRange p → C p → t.img = img →
      (descend p t).img = img ∧ (descend p t).bad_block_errors = t.bad_block_errors)
    (s : State) (hs : s.img = img) (i : Nat)
    (hi : rd32 bp (4 * i) = 0 ∨ (InRange (rd32 bp (4 * i)) ∧ C (rd32 bp (4 * i)))) :
    (check_indirect_entry bp descend s i).img = img
    ∧ (check_indirect_entry bp descend s i).bad_block_errors = s.bad_block_errors := by
  unfold check_indirect_entry
  dsimp only
  rcases hi with h0 | ⟨hr, hc⟩
  · simp only [h0, ne_eq, not_true_eq_false, if_false, hs, and_self]
  · have h0 := inRange_ne_zero _ hr
    have hr' := (inRange_iff _).mp hr
    simp only [ne_eq, h0, not_false_eq_true, if_true, hr', if_false]
    exact hd (rd32 bp (4 * i))
      { s with used_blocks := setAt s.used_blocks (rd32 bp (4 * i)) true } hr hc hs

theorem check_indirect_entries_clean (img : Image) (bp : Bytes) (descend : Nat → State → State)
    (C : Nat → Prop)
    (hd : ∀ p t, InRange p → C p → t.img = img →
      (descend p t).img = img ∧ (descend p t).bad_block_errors = t.bad_block_errors)
    (l : List Nat)
    (hl : ∀ k, k ∈ l → rd32 bp (4 * k) = 0 ∨ (InRange (rd32 bp (4 * k)) ∧ C (rd32 bp (4 * k))))
    (s : State) (hs : s.img = img) :
    (l.foldl (check_indirect_entry bp descend) s).img = img
    ∧ (l.foldl (check_indirect_entry bp descend) s).bad_block_errors = s.bad_block_errors := by
  induction l generalizing s with
  | nil => exact ⟨hs, rfl⟩
  | cons x xs ih =>
    obtain ⟨h1, h2⟩ := check_indirect_entry_clean img bp descend C hd s hs x
      (hl x (List.mem_cons_self _ _))
    obtain ⟨h3, h4⟩ := ih (fun k hk => hl k (List.mem_cons_of_mem _ hk))
      (check_indirect_entry bp descend s x) h1
    rw [List.foldl_cons]
    exact ⟨h3, h4.trans h2⟩

theorem check_indirect_body_clean (img : Image) (descend : Nat → State → State)
    (C : Nat → Prop)
    (hd : ∀ p t, InRange p → C p → t.img = img →
      (descend p t).img = img ∧ (descend p t).bad_block_errors = t.bad_block_errors)
    (B : Nat) (hB : InRange B) (hr : Readable img B)
    (hc : ∀ k, k < 1024 → entry img B k = 0 ∨ (InRange (entry img B k) ∧ C (entry img B k)))
    (s : State) (hs : s.img = img) :
    (check_indirect_body B descend s).img = img
    ∧ (check_indirect_body B descend s).bad_block_errors = s.bad_block_errors := by
  have hB' := (inRange_iff _).mp hB
  have hB64 : B < 64 := hB.2
  unfold check_indirect_body
  rw [if_neg hB', hs]
  dsimp only
  rw [read_block_fst img B zeros hB64]
  simp only [hr, decide_True, Bool.not_true, Bool.false_eq_true, if_false]
  refine check_indirect_entries_clean img _ descend C hd _ (fun k hk => ?_) s hs
  have hk' : k < 1024 := List.mem_range.mp hk
  rw [rd32_read img B zeros hB64 hr (4 * k) (by omega)]
  exact hc k hk'

theorem check_indirect_block_clean (img : Image) (level : Nat) :
    ∀ (B : Nat) (s : State), InRange B → TreeClean img level B → s.img = img →
      (check_indirect_block level B s).img = img
      ∧ (check_indirect_block level B s).bad_block_errors = s.bad_block_errors := by
  induction level with
  | zero =>
    intro B s hB hc hs
    obtain ⟨hr, hk⟩ := (treeClean_zero img B).mp hc
    refine check_indirect_body_clean img (fun _ t => t) (fun _ => True) ?_ B hB hr ?_ s hs
    · intro p t _ _ ht
      exact And.intro ht rfl
    · intro k hk'
      exact (hk k hk').imp id (fun h => ⟨h, trivial⟩)
  | succ n ih =>
    intro B s hB hc hs
    obtain ⟨hr, hk⟩ := (treeClean_succ img n B).mp hc
    refine check_indirect_body_clean img
      (fun p t => if n + 1 > 1 then check_indirect_block n p t else t)
      (fun p => n + 1 > 1 → TreeClean img n p)
      (fun p t hp hcp ht => ?_) B hB hr hk s hs
    show (if n + 1 > 1 then check_indirect_block n p t else t).img = img
      ∧ (if n + 1 > 1 then check_indirect_block n p t else t).bad_block_errors
          = t.bad_block_errors
    by_cases hn : n + 1 > 1
    · rw [if_pos hn]
      exact ih p t hp (hcp hn) ht
    · rw [if_neg hn]
      exact And.intro ht rfl

theorem check_indirect_field_clean (img : Image) (ptr level : Nat) (s : State)
    (hs : s.img = img) (hc : FieldClean img ptr level) :
    (check_indirect_field ptr level s).img = img
    ∧ (check_indirect_field ptr level s).bad_block_errors = s.bad_block_errors := by
  unfold check_indirect_field
  rcases hc with h0 | ⟨hr, hc⟩
  · simp only [h0, ne_eq, not_true_eq_false, if_false, hs, and_self]
  · have h0 := inRange_ne_zero _ hr
    have hr' := (inRange_iff _).mp hr
    simp only [ne_eq, h0, not_false_eq_true, if_true, hr', if_false]
    exact check_indirect_block_clean img level ptr
      { s with used_blocks := setAt s.used_blocks ptr true } hr hc hs

theorem check_bad_blocks_step_clean (s : State) (i : Nat) (hi : i < 80)
    (hc : InodeClean s.img i) :
    (check_bad_blocks_step s i).img = s.img
    ∧ (check_bad_blocks_step s i).bad_block_errors = s.bad_block_errors := by
  have hb := inode_block_num_bounds i hi
  unfold check_bad_blocks_step
  dsimp only
  rw [read_block_fst s.img (inode_block_num i) zeros (by omega)]
  by_cases hr : Readable s.img (inode_block_num i)
  · simp only [hr, decide_True, Bool.not_true, Bool.false_eq_true, if_false,
      load_inode_read s.img i zeros hi hr]
    by_cases hv : is_valid_inode (inode_of s.img i) = true
    · simp only [hv, Bool.not_true, Bool.false_eq_true, if_false]
      obtain ⟨hd, h1c, h2c, h3c⟩ := hc ⟨hi, hr, hv⟩
      have hs1 : ∃ s1 : State, s1 =
          (if inode_direct_block (inode_of s.img i) ≠ 0 then
            if inode_direct_block (inode_of s.img i) < DATA_BLOCK_START
                ∨ inode_direct_block (inode_of s.img i) ≥ TOTAL_BLOCKS then
              { s with bad_block_errors := s.bad_block_errors + 1 }
            else
              { s with used_blocks := setAt s.used_blocks (inode_direct_block (inode_of s.img i)) true }
          else s) := ⟨_, rfl⟩
      obtain ⟨s1, hs1⟩ := hs1
      rw [← hs1]
      have h1 : s1.img = s.img ∧ s1.bad_block_errors = s.bad_block_errors := by
        rw [hs1]
        rcases hd with h0 | hin
        · simp only [h0, ne_eq, not_true_eq_false, if_false, and_self]
        · have h0 := inRange_ne_zero _ hin
          have hin' := (inRange_iff _).mp hin
          simp only [ne_eq, h0, not_false_eq_true, if_true, hin', if_false, and_self]
      obtain ⟨h2i, h2⟩ := check_indirect_field_clean s.img
        (inode_single_indirect (inode_of s.img i)) 1 s1 h1.1 h1c
      obtain ⟨h3i, h3⟩ := check_indirect_field_clean s.img
        (inode_double_indirect (inode_of s.img i)) 2 _ h2i h2c
      obtain ⟨h4i, h4⟩ := check_indirect_field_clean s.img
        (inode_triple_indirect (inode_of s.img i)) 3 _ h3i h3c
      exact ⟨h4i, by rw [h4, h3, h2, h1.2]⟩
    · simp only [hv, Bool.not_false, if_true, and_self]
  · simp only [hr, decide_False, Bool.not_false, if_true, and_self]

theorem check_bad_blocks_fold_clean (img : Image) (l : List Nat)
    (hl : ∀ i, i ∈ l → i < 80 ∧ InodeClean img i) (s : State) (hs : s.img = img) :
    (l.foldl check_bad_blocks_step s).img = img
    ∧ (l.foldl check_bad_blocks_step s).bad_block_errors = s.bad_block_errors := by
  induction l generalizing s with
  | nil => exact ⟨hs, rfl⟩
  | cons x xs ih =>
    have hx := hl x (List.mem_cons_self _ _)
    obtain ⟨h1, h2⟩ := check_bad_blocks_step_clean s x hx.1 (hs ▸ hx.2)
    obtain ⟨h3, h4⟩ := ih (fun i h => hl i (List.mem_cons_of_mem _ h))
      (check_bad_blocks_step s x) (h1.trans hs)
    rw [List.foldl_cons]
    exact ⟨h3, h4.trans h2⟩

theorem check_bad_blocks_clean (s : State) (h : ∀ i, i < 80 → InodeClean s.img i) :
    (check_bad_blocks s).1 = true ∧ (check_bad_blocks s).2.bad_block_errors = 0 := by
  have hw : (check_bad_blocks_walk s).bad_block_errors = 0 := by
    rw [check_bad_blocks_walk_eq]
    have hl : ∀ i, i ∈ List.range INODE_COUNT → i < 80 ∧ InodeClean s.img i :=
      fun i hi => ⟨List.mem_range.mp hi, h i (List.mem_range.mp hi)⟩
    have key : ∀ s0 : State, s0.img = s.img → s0.bad_block_errors = 0 →
        ((List.range INODE_COUNT).foldl check_bad_blocks_step s0).bad_block_errors = 0 :=
      fun s0 h0 h1 =>
        (check_bad_blocks_fold_clean s.img (List.range INODE_COUNT) hl s0 h0).2.trans h1
    exact key _ rfl rfl
  rw [check_bad_blocks_fst, check_bad_blocks_snd, hw]
  exact ⟨rfl, rfl⟩

/-! ## Lemmas: bad-block repair and the inode table -/

theorem rd32_wr32_zero (b : Bytes) (off : Nat) : rd32 (wr32 b off 0) off = 0 := by
  simp [rd32, wr32]

theorem rd32_wr32_other (b : Bytes) (off off' v : Nat) (h : off' + 4 ≤ off ∨ off + 4 ≤ off') :
    rd32 (wr32 b off v) off' = rd32 b off' := by
  apply rd32_congr
  intro a h1 h2
  have n0 : a ≠ off := by omega
  have n1 : a ≠ off + 1 := by omega
  have n2 : a ≠ off + 2 := by omega
  have n3 : a ≠ off + 3 := by omega
  simp only [wr32, n0, n1, n2, n3, if_false]

theorem wr32_tail (b : Bytes) (off v a : Nat) (h : off + 4 ≤ a) : wr32 b off v a = b a := by
  have n0 : a ≠ off := by omega
  have n1 : a ≠ off + 1 := by omega
  have n2 : a ≠ off + 2 := by omega
  have n3 : a ≠ off + 3 := by omega
  simp only [wr32, n0, n1, n2, n3, if_false]

theorem fix_block_reference_same (ino : Bytes) (f : Nat) :
    rd32 (fix_block_reference ino f) f = cleared (rd32 ino f) := by
  unfold fix_block_reference cleared
  by_cases h : rd32 ino f ≠ 0 ∧ (rd32 ino f < DATA_BLOCK_START ∨ rd32 ino f ≥ TOTAL_BLOCKS)
  · have h' : rd32 ino f ≠ 0 ∧ ¬ InRange (rd32 ino f) :=
      ⟨h.1, fun hin => (inRange_iff _).mp hin h.2⟩
    rw [if_pos h, if_pos h', rd32_wr32_zero]
  · have h' : ¬ (rd32 ino f ≠ 0 ∧ ¬ InRange (rd32 ino f)) := by
      rintro ⟨h1, h2⟩
      exact h ⟨h1, by by_contra hc; exact h2 ((inRange_iff _).mpr hc)⟩
    rw [if_neg h, if_neg h']

theorem fix_block_reference_other (ino : Bytes) (f f' : Nat) (h : f' + 4 ≤ f ∨ f + 4 ≤ f') :
    rd32 (fix_block_reference ino f) f' = rd32 ino f' := by
  unfold fix_block_reference
  split
  · exact rd32_wr32_other ino f f' 0 h
  · rfl

theorem fix_block_reference_tail (ino : Bytes) (f a : Nat) (h : f + 4 ≤ a) :
    fix_block_reference ino f a = ino a := by
  unfold fix_block_reference
  split
  · exact wr32_tail ino f 0 a h
  · rfl

theorem fix_all_inode_blocks_fields (ino : Bytes) :
    inode_direct_block (fix_all_inode_blocks ino) = cleared (inode_direct_block ino)
    ∧ inode_single_indirect (fix_all_inode_blocks ino) = cleared (inode_single_indirect ino)
    ∧ inode_double_indirect (fix_all_inode_blocks ino) = cleared (inode_double_indirect ino)
    ∧ inode_triple_indirect (fix_all_inode_blocks ino) = cleared (inode_triple_indirect ino)
    ∧ inode_links_count (fix_all_inode_blocks ino) = inode_links_count ino
    ∧ inode_dtime (fix_all_inode_blocks ino) = inode_dtime ino := by
  unfold fix_all_inode_blocks inode_direct_block inode_single_indirect inode_double_indirect
    inode_triple_indirect inode_links_count inode_dtime
  dsimp only
  refine ⟨?_, ?_, ?_, ?_, ?_, ?_⟩
  · rw [fix_block_reference_other _ 52 40 (by omega), fix_block_reference_other _ 48 40 (by omega),
      fix_block_reference_other _ 44 40 (by omega), fix_block_reference_same]
  · rw [fix_block_reference_other _ 52 44 (by omega), fix_block_reference_other _ 48 44 (by omega),
      fix_block_reference_same, fix_block_reference_other _ 40 44 (by omega)]
  · rw [fix_block_reference_other _ 52 48 (by omega), fix_block_reference_same,
      fix_block_reference_other _ 44 48 (by omega), fix_block_reference_other _ 40 48 (by omega)]
  · rw [fix_block_reference_same, fix_block_reference_other _ 48 52 (by omega),
      fix_block_reference_other _ 44 52 (by omega), fix_block_reference_other _ 40 52 (by omega)]
  · rw [fix_block_reference_other _ 52 32 (by omega), fix_block_reference_other _ 48 32 (by omega),
      fix_block_reference_other _ 44 32 (by omega), fix_block_reference_other _ 40 32 (by omega)]
  · rw [fix_block_reference_other _ 52 28 (by omega), fix_block_reference_other _ 48 28 (by omega),
      fix_block_reference_other _ 44 28 (by omega), fix_block_reference_other _ 40 28 (by omega)]

theorem fix_all_inode_blocks_tail (ino : Bytes) (a : Nat) (h : 212 ≤ a) :
    fix_all_inode_blocks ino a = ino a := by
  unfold fix_all_inode_blocks
  rw [fix_block_reference_tail _ 52 a (by omega), fix_block_reference_tail _ 48 a (by omega),
    fix_block_reference_tail _ 44 a (by omega), fix_block_reference_tail _ 40 a (by omega)]

theorem inode_of_tail (img : Image) (i a : Nat) (h : 212 ≤ a) : inode_of img i a = 0 := by
  have : ¬ a < SIZEOF_INODE := by simp only [SIZEOF_INODE]; omega
  simp only [inode_of, load_inode, this, if_false]

theorem write_block_size (img : Image) (n : Nat) (buf : Bytes) (hn : n < 64)
    (hr : Readable img n) : (write_block img (n : Int) buf).2.size = img.size := by
  have h1 : ¬ ((n : Int) < 0 ∨ (n : Int) ≥ ((TOTAL_BLOCKS : Nat) : Int)) := by
    simp only [TOTAL_BLOCKS]; omega
  unfold Readable at hr
  simp only [write_block, if_neg h1, Int.toNat_ofNat]
  simp only [BLOCK_SIZE] at hr ⊢
  omega

theorem write_block_size_le (img : Image) (k : Int) (buf : Bytes) :
    img.size ≤ (write_block img k buf).2.size := by
  unfold write_block
  split
  · exact Nat.le_refl _
  · exact Nat.le_max_left _ _

theorem write_block_byte (img : Image) (n : Nat) (buf : Bytes) (hn : n < 64) (a : Nat)
    (ha : a < img.size) :
    (write_block img (n : Int) buf).2.byte a
      = if n * 4096 ≤ a ∧ a < n * 4096 + 4096 then buf (a - n * 4096) else img.byte a := by
  have h1 : ¬ ((n : Int) < 0 ∨ (n : Int) ≥ ((TOTAL_BLOCKS : Nat) : Int)) := by
    simp only [TOTAL_BLOCKS]; omega
  simp only [write_block, if_neg h1, Int.toNat_ofNat, ha, if_true, BLOCK_SIZE]

theorem inode_of_apply (img : Image) (i a : Nat) (ha : a < 212) :
    inode_of img i a = img.byte (inode_block_num i * 4096 + (inode_offset i + a)) := by
  have : a < SIZEOF_INODE := ha
  simp only [inode_of, load_inode, this, if_true, block_of, BLOCK_SIZE]

/-- Writing back the block of inode `j` with the record `ino` stored in the
slot of `j` replaces the record of `j` and leaves every other record as it was. -/
theorem inode_of_write (img : Image) (j x : Nat) (hj : j < 80) (hx : x < 80)
    (hrj : Readable img (inode_block_num j)) (hrx : Readable img (inode_block_num x))
    (ino : Bytes) (hino : ∀ a, 212 ≤ a → ino a = 0) :
    inode_of (write_block img (inode_block_num j : Int)
        (store_inode (read_block img (inode_block_num j : Int) zeros).2 (inode_offset j) ino)).2 x
      = if x = j then ino else inode_of img x := by
  have hbj := inode_block_num_bounds j hj
  have hbx := inode_block_num_bounds x hx
  have hoj := inode_offset_bound j
  have hox := inode_offset_bound x
  funext a
  by_cases ha : a < 212
  · rw [inode_of_apply _ _ _ ha]
    have hsz : inode_block_num x * 4096 + (inode_offset x + a) < img.size := by
      unfold Readable at hrx
      simp only [BLOCK_SIZE] at hrx
      omega
    rw [write_block_byte img (inode_block_num j) _ (by omega) _ hsz]
    by_cases hxj : x = j
    · subst hxj
      have hc : inode_block_num x * 4096 ≤ inode_block_num x * 4096 + (inode_offset x + a)
          ∧ inode_block_num x * 4096 + (inode_offset x + a) < inode_block_num x * 4096 + 4096 := by
        omega
      have hs : inode_offset x ≤ inode_block_num x * 4096 + (inode_offset x + a)
            - inode_block_num x * 4096
          ∧ inode_block_num x * 4096 + (inode_offset x + a) - inode_block_num x * 4096
            < inode_offset x + SIZEOF_INODE := by
        simp only [SIZEOF_INODE]; omega
      rw [if_pos hc, if_pos rfl]
      unfold store_inode
      rw [if_pos hs]
      apply congrArg
      omega
    · rw [if_neg hxj, inode_of_apply _ _ _ ha]
      by_cases hb : inode_block_num x = inode_block_num j
      · have hc : inode_block_num j * 4096 ≤ inode_block_num x * 4096 + (inode_offset x + a)
            ∧ inode_block_num x * 4096 + (inode_offset x + a) < inode_block_num j * 4096 + 4096 := by
          omega
        have hs : ¬ (inode_offset j ≤ inode_block_num x * 4096 + (inode_offset x + a)
              - inode_block_num j * 4096
            ∧ inode_block_num x * 4096 + (inode_offset x + a) - inode_block_num j * 4096
              < inode_offset j + SIZEOF_INODE) := by
          simp only [inode_block_num, inode_offset, INODE_TABLE_START_BLOCK, INODE_SIZE, BLOCK_SIZE,
            SIZEOF_INODE] at hb ⊢
          omega
        rw [if_pos hc]
        unfold store_inode
        rw [if_neg hs, read_block_snd img _ zeros (by omega) hrj _ (by omega)]
        simp only [block_of, BLOCK_SIZE]
        apply congrArg
        omega
      · have hc : ¬ (inode_block_num j * 4096 ≤ inode_block_num x * 4096 + (inode_offset x + a)
            ∧ inode_block_num x * 4096 + (inode_offset x + a) < inode_block_num j * 4096 + 4096) := by
          omega
        rw [if_neg hc]
  · rw [inode_of_tail _ _ _ (by omega)]
    by_cases hxj : x = j
    · rw [if_pos hxj, hino a (by omega)]
    · rw [if_neg hxj, inode_of_tail _ _ _ (by omega)]

theorem readable_of_size_eq (m m' : Image) (n : Nat) (h : m'.size = m.size)
    (hr : Readable m n) : Readable m' n := by
  unfold Readable at *
  rw [h]
  exact hr

theorem fix_bad_blocks_step_inode (m : Image) (j : Nat) (hj : j < 80) :
    (fix_bad_blocks_step m j).size = m.size
    ∧ ∀ x, x < 80 → Readable m (inode_block_num x) →
        inode_of (fix_bad_blocks_step m j) x
          = if x = j ∧ is_valid_inode (inode_of m j) = true
              then fix_all_inode_blocks (inode_of m j) else inode_of m x := by
  have hb := inode_block_num_bounds j hj
  unfold fix_bad_blocks_step
  dsimp only
  rw [read_block_fst m (inode_block_num j) zeros (by omega)]
  by_cases hr : Readable m (inode_block_num j)
  · simp only [hr, decide_True, Bool.not_true, Bool.false_eq_true, if_false,
      load_inode_read m j zeros hj hr]
    by_cases hv : is_valid_inode (inode_of m j) = true
    · simp only [hv, Bool.not_true, Bool.false_eq_true, if_false, and_true]
      refine ⟨write_block_size m _ _ (by omega) hr, fun x hx hrx => ?_⟩
      exact inode_of_write m j x hj hx hr hrx _ (fun a ha => by
        rw [fix_all_inode_blocks_tail _ a ha, inode_of_tail _ _ _ ha])
    · simp [hv]
  · simp only [hr, decide_False, Bool.not_false, if_true, true_and]
    intro x hx hrx
    have hxj : ¬ (x = j ∧ is_valid_inode (inode_of m j) = true) := by
      rintro ⟨e, _⟩
      exact hr (e ▸ hrx)
    rw [if_neg hxj]

theorem fix_bad_blocks_fold_inode (l : List Nat) (hl : ∀ j, j ∈ l → j < 80) (hnd : l.Nodup)
    (m : Image) :
    (l.foldl fix_bad_blocks_step m).size = m.size
    ∧ ∀ x, x < 80 → Readable m (inode_block_num x) →
        inode_of (l.foldl fix_bad_blocks_step m) x
          = if x ∈ l ∧ is_valid_inode (inode_of m x) = true
              then fix_all_inode_blocks (inode_of m x) else inode_of m x := by
  induction l generalizing m with
  | nil => exact ⟨rfl, fun x _ _ => by simp⟩
  | cons j js ih =>
    obtain ⟨h1, h2⟩ := fix_bad_blocks_step_inode m j (hl j (List.mem_cons_self _ _))
    obtain ⟨hjn, hjs⟩ := List.nodup_cons.mp hnd
    obtain ⟨h3, h4⟩ := ih (fun i h => hl i (List.mem_cons_of_mem _ h)) hjs
      (fix_bad_blocks_step m j)
    rw [List.foldl_cons]
    refine ⟨h3.trans h1, fun x hx hrx => ?_⟩
    rw [h4 x hx (readable_of_size_eq m _ _ h1 hrx), h2 x hx hrx]
    by_cases hxj : x = j
    · subst hxj
      have hn : ¬ (x ∈ js ∧ is_valid_inode
          (if x = x ∧ is_valid_inode (inode_of m x) = true
            then fix_all_inode_blocks (inode_of m x) else inode_of m x) = true) :=
        fun h => hjn h.1
      rw [if_neg hn]
      simp
    · have hne : ¬ (x = j ∧ is_valid_inode (inode_of m j) = true) := fun h => hxj h.1
      simp [if_neg hne, hxj]

theorem tablePreserved_refl (img : Image) : TablePreserved img img :=
  fun _ _ hr => ⟨hr, rfl⟩

theorem tablePreserved_trans (a b c : Image) (h1 : TablePreserved a b)
    (h2 : TablePreserved b c) : TablePreserved a c := by
  intro x hx hr
  obtain ⟨r1, e1⟩ := h1 x hx hr
  obtain ⟨r2, e2⟩ := h2 x hx r1
  exact ⟨r2, e2.trans e1⟩

theorem write_block_low (img : Image) (n : Nat) (hn : n < 3) (buf : Bytes) :
    TablePreserved img (write_block img (n : Int) buf).2 := by
  intro x hx hr
  have hb := inode_block_num_bounds x hx
  have ho := inode_offset_bound x
  have hle := write_block_size_le img (n : Int) buf
  unfold Readable at hr
  simp only [BLOCK_SIZE] at hr
  constructor
  · unfold Readable
    simp only [BLOCK_SIZE]
    omega
  · funext a
    by_cases ha : a < 212
    · rw [inode_of_apply _ _ _ ha, inode_of_apply _ _ _ ha,
        write_block_byte img n buf (by omega) _ (by omega)]
      have hc : ¬ (n * 4096 ≤ inode_block_num x * 4096 + (inode_offset x + a)
          ∧ inode_block_num x * 4096 + (inode_offset x + a) < n * 4096 + 4096) := by omega
      rw [if_neg hc]
    · rw [inode_of_tail _ _ _ (by omega), inode_of_tail _ _ _ (by omega)]

theorem fix_superblock_table (s : State) : TablePreserved s.img (fix_superblock s).img := by
  unfold fix_superblock
  split
  · exact write_block_low s.img 0 (by omega) _
  · exact tablePreserved_refl _

theorem fix_inode_bitmap_table (s : State) : TablePreserved s.img (fix_inode_bitmap s).img := by
  unfold fix_inode_bitmap
  split
  · exact write_block_low s.img 1 (by omega) _
  · exact tablePreserved_refl _

theorem fix_data_bitmap_table (s : State) : TablePreserved s.img (fix_data_bitmap s).img := by
  unfold fix_data_bitmap
  split
  · exact write_block_low s.img 2 (by omega) _
  · exact tablePreserved_refl _

theorem fix_final_write_table (s : State) : TablePreserved s.img (fix_final_write s).img := by
  unfold fix_final_write
  split
  · exact write_block_low s.img 2 (by omega) _
  · exact tablePreserved_refl _

theorem fix_superblock_counters (s : State) :
    (fix_superblock s).duplicate_block_errors = s.duplicate_block_errors
    ∧ (fix_superblock s).bad_block_errors = s.bad_block_errors := by
  unfold fix_superblock
  split <;> exact ⟨rfl, rfl⟩

theorem fix_inode_bitmap_counters (s : State) :
    (fix_inode_bitmap s).duplicate_block_errors = s.duplicate_block_errors
    ∧ (fix_inode_bitmap s).bad_block_errors = s.bad_block_errors := by
  unfold fix_inode_bitmap
  split <;> exact ⟨rfl, rfl⟩

theorem fix_data_bitmap_counters (s : State) :
    (fix_data_bitmap s).duplicate_block_errors = s.duplicate_block_errors
    ∧ (fix_data_bitmap s).bad_block_errors = s.bad_block_errors := by
  unfold fix_data_bitmap
  split <;> exact ⟨rfl, rfl⟩

theorem fix_duplicates_skip (s : State) (h : s.duplicate_block_errors = 0) :
    fix_duplicates s = s := by
  unfold fix_duplicates
  rw [if_neg (by omega)]

theorem fix_bad_blocks_inode (s : State) (x : Nat) (hx : x < 80)
    (hr : Readable s.img (inode_block_num x)) :
    Readable (fix_bad_blocks s).img (inode_block_num x)
    ∧ inode_of (fix_bad_blocks s).img x
        = if s.bad_block_errors > 0 ∧ is_valid_inode (inode_of s.img x) = true
            then fix_all_inode_blocks (inode_of s.img x) else inode_of s.img x := by
  unfold fix_bad_blocks
  by_cases hb : s.bad_block_errors > 0
  · rw [if_pos hb]
    dsimp only
    obtain ⟨h1, h2⟩ := fix_bad_blocks_fold_inode (List.range INODE_COUNT)
      (fun j hj => List.mem_range.mp hj) (List.nodup_range _) s.img
    refine ⟨readable_of_size_eq _ _ _ h1 hr, ?_⟩
    rw [h2 x hx hr]
    have hm : x ∈ List.range INODE_COUNT := List.mem_range.mpr hx
    simp only [hm, true_and, hb]
  · rw [if_neg hb]
    have hn : ¬ (s.bad_block_errors > 0 ∧ is_valid_inode (inode_of s.img x) = true) :=
      fun h => hb h.1
    rw [if_neg hn]
    exact ⟨hr, rfl⟩

/-- What `fix_errors` leaves in the record of inode `x` when the duplicate
branch is not entered. -/
theorem fix_errors_inode (s : State) (hd : s.duplicate_block_errors = 0) (x : Nat) (hx : x < 80)
    (hr : Readable s.img (inode_block_num x)) :
    Readable (fix_errors s).img (inode_block_num x)
    ∧ inode_of (fix_errors s).img x
        = if s.bad_block_errors > 0 ∧ is_valid_inode (inode_of s.img x) = true
            then fix_all_inode_blocks (inode_of s.img x) else inode_of s.img x := by
  have t1 := fix_superblock_table s
  have c1 := fix_superblock_counters s
  have t2 := fix_inode_bitmap_table (fix_superblock s)
  have c2 := fix_inode_bitmap_counters (fix_superblock s)
  have t3 := fix_data_bitmap_table (fix_inode_bitmap (fix_superblock s))
  have c3 := fix_data_bitmap_counters (fix_inode_bitmap (fix_superblock s))
  have t123 := tablePreserved_trans _ _ _ (tablePreserved_trans _ _ _ t1 t2) t3
  have hd3 : (fix_data_bitmap (fix_inode_bitmap (fix_superblock s))).duplicate_block_errors = 0 := by
    rw [c3.1, c2.1, c1.1, hd]
  have hb3 : (fix_data_bitmap (fix_inode_bitmap (fix_superblock s))).bad_block_errors
      = s.bad_block_errors := by
    rw [c3.2, c2.2, c1.2]
  obtain ⟨r3, e3⟩ := t123 x hx hr
  obtain ⟨r5, e5⟩ := fix_bad_blocks_inode _ x hx r3
  obtain ⟨r6, e6⟩ := fix_final_write_table
    (fix_bad_blocks (fix_data_bitmap (fix_inode_bitmap (fix_superblock s)))) x hx r5
  unfold fix_errors
  dsimp only
  rw [fix_duplicates_skip _ hd3]
  refine ⟨r6, ?_⟩
  rw [e6, e5, hb3, e3]

theorem cleared_inRange (p : Nat) (h : InRange p) : cleared p = p := by
  unfold cleared
  rw [if_neg (fun hc => hc.2 h)]

/-! ## Lemmas: bitmap bits -/

theorem is_used_bit_eq_testBit (bm : Bytes) (i : Nat) :
    is_used_bit bm i = (bm (i / 8)).testBit (i % 8) := by
  unfold is_used_bit
  dsimp only
  rw [Nat.one_shiftLeft, Nat.and_two_pow]
  cases h : (bm (i / 8)).testBit (i % 8)
  · simp
  · simp

theorem is_used_bit_zeros (k : Nat) : is_used_bit zeros k = false := by
  rw [is_used_bit_eq_testBit]
  simp [zeros]

theorem is_used_bit_set_bit (bm : Bytes) (i k : Nat) :
    is_used_bit (set_bit bm i) k = (decide (k = i) || is_used_bit bm k) := by
  rw [is_used_bit_eq_testBit, is_used_bit_eq_testBit]
  show (if k / 8 = i / 8 then (bm (k / 8) ||| (1 <<< (i % 8))) % 256 else bm (k / 8)).testBit (k % 8)
    = (decide (k = i) || (bm (k / 8)).testBit (k % 8))
  by_cases hb : k / 8 = i / 8
  · rw [if_pos hb, hb]
    have h256 : (256 : Nat) = 2 ^ 8 := by norm_num
    rw [h256, Nat.testBit_mod_two_pow, Nat.testBit_or, Nat.one_shiftLeft, Nat.testBit_two_pow]
    have hlt : k % 8 < 8 := by omega
    by_cases hk : k = i
    · subst hk
      simp [hlt]
    · have hne : ¬ (i % 8 = k % 8) := by omega
      simp [hlt, hk, hne]
  · rw [if_neg hb]
    have hk : ¬ (k = i) := fun e => hb (by rw [e])
    simp [hk]

theorem is_used_bit_set_bit_self (bm : Bytes) (i : Nat) :
    is_used_bit (set_bit bm i) i = true := by
  rw [is_used_bit_set_bit]
  simp

theorem is_used_bit_set_bit_other (bm : Bytes) (i k : Nat) (h : k ≠ i) :
    is_used_bit (set_bit bm i) k = is_used_bit bm k := by
  rw [is_used_bit_set_bit]
  simp [h]

/-! ## Lemmas: allocate_new_data_block -/

theorem allocate_new_data_block_some (s : State) (i : Nat)
    (h : (List.range (TOTAL_BLOCKS - DATA_BLOCK_START)).find?
      (fun i => !is_used_bit s.data_bitmap i) = some i) :
    allocate_new_data_block s =
      (((i + DATA_BLOCK_START : Nat) : Int),
        { s with
          data_bitmap := set_bit (set_bit s.data_bitmap i) i
          used_blocks := setAt (setAt s.used_blocks (i + DATA_BLOCK_START) true)
            (i + DATA_BLOCK_START) true
          img := (write_block s.img ((i + DATA_BLOCK_START : Nat) : Int) zeros).2 }) := by
  unfold allocate_new_data_block
  rw [h]

theorem allocate_new_data_block_none (s : State)
    (h : (List.range (TOTAL_BLOCKS - DATA_BLOCK_START)).find?
      (fun i => !is_used_bit s.data_bitmap i) = none) :
    allocate_new_data_block s = (-1, s) := by
  unfold allocate_new_data_block
  rw [h]

theorem allocate_find_some_iff (s : State) (i : Nat) :
    (List.range (TOTAL_BLOCKS - DATA_BLOCK_START)).find?
        (fun i => !is_used_bit s.data_bitmap i) = some i
      ↔ (i < 56 ∧ is_used_bit s.data_bitmap i = false
          ∧ ∀ k, k < i → is_used_bit s.data_bitmap k = true) := by
  rw [List.find?_range_eq_some]
  simp only [List.mem_range, Bool.not_eq_true', Bool.not_not]
  constructor
  · rintro ⟨h1, h2, h3⟩
    exact ⟨h2, h1, h3⟩
  · rintro ⟨h1, h2, h3⟩
    exact ⟨h2, h1, h3⟩

theorem allocate_find_none_iff (s : State) :
    (List.range (TOTAL_BLOCKS - DATA_BLOCK_START)).find?
        (fun i => !is_used_bit s.data_bitmap i) = none
      ↔ ∀ k, k < 56 → is_used_bit s.data_bitmap k = true := by
  rw [List.find?_range_eq_none]
  simp only [Bool.not_not]
  exact Iff.rfl

/-! ## Lemmas: rebuilding the bitmaps -/

theorem write_block_eq (img : Image) (n : Nat) (buf : Bytes) (hn : n < 64) :
    (write_block img (n : Int) buf).2 =
      { size := max img.size (n * 4096 + 4096)
        byte := fun a =>
          if n * 4096 ≤ a ∧ a < n * 4096 + 4096 then buf (a - n * 4096)
          else if a < img.size then img.byte a
          else 0 } := by
  have h1 : ¬ ((n : Int) < 0 ∨ (n : Int) ≥ ((TOTAL_BLOCKS : Nat) : Int)) := by
    simp only [TOTAL_BLOCKS]; omega
  simp only [write_block, if_neg h1, Int.toNat_ofNat, BLOCK_SIZE]

theorem write_block_idem (img : Image) (n : Nat) (buf : Bytes) (hn : n < 64) :
    (write_block (write_block img (n : Int) buf).2 (n : Int) buf).2
      = (write_block img (n : Int) buf).2 := by
  rw [write_block_eq _ n buf hn, write_block_eq img n buf hn]
  dsimp only
  congr 1
  · omega
  · funext a
    by_cases h1 : n * 4096 ≤ a ∧ a < n * 4096 + 4096
    · rw [if_pos h1, if_pos h1]
    · rw [if_neg h1, if_neg h1]
      by_cases h2 : a < img.size
      · have h3 : a < max img.size (n * 4096 + 4096) := by omega
        rw [if_pos h3, if_pos h2]
      · rw [if_neg h2]
        split <;> rfl

theorem write_block_readable (img : Image) (n : Nat) (buf : Bytes) (hn : n < 64) :
    Readable (write_block img (n : Int) buf).2 n := by
  rw [write_block_eq img n buf hn]
  unfold Readable
  simp only [BLOCK_SIZE]
  omega

theorem block_of_write_same (img : Image) (n : Nat) (buf : Bytes) (hn : n < 64) (a : Nat)
    (ha : a < 4096) : block_of (write_block img (n : Int) buf).2 n a = buf a := by
  rw [write_block_eq img n buf hn]
  simp only [block_of, BLOCK_SIZE]
  have h : n * 4096 ≤ n * 4096 + a ∧ n * 4096 + a < n * 4096 + 4096 := by omega
  rw [if_pos h]
  apply congrArg
  omega

theorem is_used_bit_block_of_write (img : Image) (n : Nat) (buf : Bytes) (hn : n < 64) (k : Nat)
    (hk : k < 32768) :
    is_used_bit (block_of (write_block img (n : Int) buf).2 n) k = is_used_bit buf k :=
  is_used_bit_congr _ _ _ (block_of_write_same img n buf hn _ (by omega))

theorem data_bitmap_fold_bit (used : Nat → Bool) (l : List Nat) (bm : Bytes) (k : Nat) :
    is_used_bit (l.foldl (fun bm i => if used i then set_bit bm (i - DATA_BLOCK_START) else bm) bm) k
        = true
      ↔ (is_used_bit bm k = true ∨ ∃ b, b ∈ l ∧ used b = true ∧ b - DATA_BLOCK_START = k) := by
  induction l generalizing bm with
  | nil => simp
  | cons x xs ih =>
    rw [List.foldl_cons, ih]
    by_cases hx : used x = true
    · rw [if_pos hx, is_used_bit_set_bit]
      simp only [Bool.or_eq_true, decide_eq_true_eq, List.mem_cons, exists_eq_or_imp, hx, true_and]
      constructor
      · rintro ((h | h) | h)
        · exact Or.inr (Or.inl h.symm)
        · exact Or.inl h
        · exact Or.inr (Or.inr h)
      · rintro (h | h | h)
        · exact Or.inl (Or.inr h)
        · exact Or.inl (Or.inl h.symm)
        · exact Or.inr h
    · rw [if_neg hx]
      simp [hx]

/-- The bitmap the data-bitmap branch builds from `used_blocks`. -/
theorem data_bitmap_rebuilt_bit (used : Nat → Bool) (k : Nat) :
    is_used_bit ((List.range' DATA_BLOCK_START (TOTAL_BLOCKS - DATA_BLOCK_START)).foldl
        (fun bm i => if used i then set_bit bm (i - DATA_BLOCK_START) else bm) zeros) k
      = (decide (k < 56) && used (k + 8)) := by
  rw [Bool.eq_iff_iff, data_bitmap_fold_bit, is_used_bit_zeros]
  simp only [Bool.false_eq_true, false_or, List.mem_range'_1, Bool.and_eq_true, decide_eq_true_eq]
  constructor
  · rintro ⟨b, ⟨h1, h2⟩, h3, h4⟩
    have e : k + 8 = b := by
      simp only [DATA_BLOCK_START, TOTAL_BLOCKS] at h1 h2 h4
      omega
    rw [e]
    simp only [DATA_BLOCK_START, TOTAL_BLOCKS] at h1 h2 h4
    exact ⟨by omega, h3⟩
  · rintro ⟨h1, h2⟩
    refine ⟨k + 8, ⟨?_, ?_⟩, h2, ?_⟩
    · show 8 ≤ k + 8; omega
    · show k + 8 < 8 + (64 - 8); omega
    · show k + 8 - 8 = k; omega

theorem fix_data_bitmap_eq (s : State) (h : s.data_bitmap_errors > 0) :
    fix_data_bitmap s =
      { s with
        data_bitmap := (List.range' DATA_BLOCK_START (TOTAL_BLOCKS - DATA_BLOCK_START)).foldl
          (fun bm i => if s.used_blocks i then set_bit bm (i - DATA_BLOCK_START) else bm) zeros
        img := (write_block s.img ((2 : Nat) : Int)
          ((List.range' DATA_BLOCK_START (TOTAL_BLOCKS - DATA_BLOCK_START)).foldl
            (fun bm i => if s.used_blocks i then set_bit bm (i - DATA_BLOCK_START) else bm)
            zeros)).2 } := by
  unfold fix_data_bitmap
  rw [if_pos h]

theorem fix_inode_bitmap_step_eq (img : Image) (bm : Bytes) (i : Nat) (hi : i < 80) :
    fix_inode_bitmap_step img bm i = if ValidInode img i then set_bit bm i else bm := by
  have hb := inode_block_num_bounds i hi
  unfold fix_inode_bitmap_step
  dsimp only
  rw [read_block_fst img (inode_block_num i) zeros (by omega)]
  by_cases hr : Readable img (inode_block_num i)
  · simp only [hr, decide_True, Bool.not_true, Bool.false_eq_true, if_false,
      load_inode_read img i zeros hi hr]
    by_cases hv : is_valid_inode (inode_of img i) = true
    · rw [if_pos hv, if_pos ⟨hi, hr, hv⟩]
    · rw [if_neg hv, if_neg (fun h => hv h.2.2)]
  · simp only [hr, decide_False, Bool.not_false, if_true]
    rw [if_neg (fun h => hr h.2.1)]

theorem inode_bitmap_fold_bit (img : Image) (l : List Nat) (hl : ∀ i, i ∈ l → i < 80)
    (bm : Bytes) (k : Nat) :
    is_used_bit (l.foldl (fix_inode_bitmap_step img) bm) k = true
      ↔ (is_used_bit bm k = true ∨ (k ∈ l ∧ ValidInode img k)) := by
  induction l generalizing bm with
  | nil => simp
  | cons x xs ih =>
    rw [List.foldl_cons, ih (fun i h => hl i (List.mem_cons_of_mem _ h)),
      fix_inode_bitmap_step_eq img bm x (hl x (List.mem_cons_self _ _))]
    by_cases hx : ValidInode img x
    · rw [if_pos hx, is_used_bit_set_bit]
      simp only [Bool.or_eq_true, decide_eq_true_eq, List.mem_cons]
      constructor
      · rintro ((h | h) | h)
        · exact Or.inr ⟨Or.inl h, h ▸ hx⟩
        · exact Or.inl h
        · exact Or.inr ⟨Or.inr h.1, h.2⟩
      · rintro (h | ⟨h | h, hv⟩)
        · exact Or.inl (Or.inr h)
        · exact Or.inl (Or.inl h)
        · exact Or.inr ⟨h, hv⟩
    · rw [if_neg hx]
      simp only [List.mem_cons]
      constructor
      · rintro (h | h)
        · exact Or.inl h
        · exact Or.inr ⟨Or.inr h.1, h.2⟩
      · rintro (h | ⟨h | h, hv⟩)
        · exact Or.inl h
        · exact (hx (h ▸ hv)).elim
        · exact Or.inr ⟨h, hv⟩

/-- The bitmap the inode-bitmap branch builds from the inode table. -/
theorem inode_bitmap_rebuilt_bit (img : Image) (k : Nat) :
    is_used_bit ((List.range INODE_COUNT).foldl (fix_inode_bitmap_step img) zeros) k = true
      ↔ ValidInode img k := by
  rw [inode_bitmap_fold_bit img (List.range INODE_COUNT) (fun i h => List.mem_range.mp h),
    is_used_bit_zeros]
  simp only [Bool.false_eq_true, false_or, List.mem_range]
  constructor
  · exact fun h => h.2
  · exact fun h => ⟨h.1, h⟩

theorem fix_inode_bitmap_eq (s : State) (h : s.inode_bitmap_errors > 0) :
    fix_inode_bitmap s =
      { s with
        inode_bitmap := (List.range INODE_COUNT).foldl (fix_inode_bitmap_step s.img) zeros
        img := (write_block s.img ((1 : Nat) : Int)
          ((List.range INODE_COUNT).foldl (fix_inode_bitmap_step s.img) zeros)).2 } := by
  unfold fix_inode_bitmap
  rw [if_pos h]

theorem validInode_write_low (img : Image) (n : Nat) (hn : n < 3) (buf : Bytes) (i : Nat) :
    ValidInode (write_block img (n : Int) buf).2 i ↔ ValidInode img i := by
  constructor
  · rintro ⟨hi, hr, hv⟩
    have hb := inode_block_num_bounds i hi
    have hr0 : Readable img (inode_block_num i) := by
      rw [write_block_eq img n buf (by omega)] at hr
      unfold Readable at hr ⊢
      simp only [BLOCK_SIZE] at hr ⊢
      omega
    obtain ⟨_, e⟩ := write_block_low img n hn buf i hi hr0
    exact ⟨hi, hr0, e ▸ hv⟩
  · rintro ⟨hi, hr, hv⟩
    obtain ⟨r, e⟩ := write_block_low img n hn buf i hi hr
    exact ⟨hi, r, e.symm ▸ hv⟩

theorem foldl_congr_mem {σ α : Type} (f g : σ → α → σ) (l : List α)
    (h : ∀ s a, a ∈ l → f s a = g s a) (s : σ) : l.foldl f s = l.foldl g s := by
  induction l generalizing s with
  | nil => rfl
  | cons x xs ih =>
    rw [List.foldl_cons, List.foldl_cons, h s x (List.mem_cons_self _ _)]
    exact ih (fun s a ha => h s a (List.mem_cons_of_mem _ ha)) _

theorem inode_bitmap_rebuilt_congr (img img' : Image)
    (h : ∀ i, ValidInode img' i ↔ ValidInode img i) :
    (List.range INODE_COUNT).foldl (fix_inode_bitmap_step img') zeros
      = (List.range INODE_COUNT).foldl (fix_inode_bitmap_step img) zeros := by
  apply foldl_congr_mem
  intro bm i hi
  have hi' : i < 80 := List.mem_range.mp hi
  rw [fix_inode_bitmap_step_eq img' bm i hi', fix_inode_bitmap_step_eq img bm i hi']
  by_cases hv : ValidInode img i
  · rw [if_pos hv, if_pos ((h i).mpr hv)]
  · rw [if_neg hv, if_neg (fun h' => hv ((h i).mp h'))]

/-! ## Lemmas: an indirect block of zero entries -/

theorem check_indirect_entry_zero (bp : Bytes) (descend : Nat → State → State) (s : State)
    (i : Nat) (h : rd32 bp (4 * i) = 0) : check_indirect_entry bp descend s i = s := by
  unfold check_indirect_entry
  dsimp only
  rw [if_neg (fun hc => hc h)]

theorem check_indirect_entries_zero (bp : Bytes) (descend : Nat → State → State)
    (l : List Nat) (h : ∀ k, k ∈ l → rd32 bp (4 * k) = 0) (s : State) :
    l.foldl (check_indirect_entry bp descend) s = s := by
  induction l with
  | nil => rfl
  | cons x xs ih =>
    rw [List.foldl_cons, check_indirect_entry_zero bp descend s x (h x (List.mem_cons_self _ _))]
    exact ih (fun k hk => h k (List.mem_cons_of_mem _ hk))

theorem check_indirect_body_zero (descend : Nat → State → State) (B : Nat) (s : State)
    (hB : InRange B) (hr : Readable s.img B) (hz : ∀ k, k < 1024 → entry s.img B k = 0) :
    check_indirect_body B descend s = s := by
  have hB' := (inRange_iff _).mp hB
  have hB64 : B < 64 := hB.2
  unfold check_indirect_body
  rw [if_neg hB']
  dsimp only
  rw [read_block_fst s.img B zeros hB64]
  simp only [hr, decide_True, Bool.not_true, Bool.false_eq_true, if_false]
  apply check_indirect_entries_zero
  intro k hk
  have hk' : k < 1024 := List.mem_range.mp hk
  rw [rd32_read s.img B zeros hB64 hr (4 * k) (by omega)]
  exact hz k hk'

theorem check_indirect_block_zero (level B : Nat) (s : State)
    (hB : InRange B) (hr : Readable s.img B) (hz : ∀ k, k < 1024 → entry s.img B k = 0) :
    check_indirect_block level B s = s := by
  cases level with
  | zero => exact check_indirect_body_zero (fun _ t => t) B s hB hr hz
  | succ n =>
    exact check_indirect_body_zero
      (fun p t => if n + 1 > 1 then check_indirect_block n p t else t) B s hB hr hz

/-! ## Lemmas: call depth of the walker -/

/-- The recursion equation of `check_indirect_block` as the C source has it. -/
theorem check_indirect_block_eq (level B : Nat) (s : State) :
    check_indirect_block level B s
      = check_indirect_body B
          (fun p t => if level > 1 then check_indirect_block (level - 1) p t else t) s := by
  cases level with
  | zero =>
    show check_indirect_body B (fun _ t => t) s = _
    congr 1
  | succ n =>
    show check_indirect_body B (fun p t => if n + 1 > 1 then check_indirect_block n p t else t) s
      = _
    congr 1

theorem check_indirect_entries_depth (bp : Bytes) (level : Nat)
    (call : Nat → Nat → State → Option State) (descend : Nat → State → State)
    (h : ∀ p t, (if level > 1 then call (level - 1) p t else some t) = some (descend p t))
    (l : List Nat) (s : State) :
    l.foldl (check_indirect_entry_depth bp level call) (some s)
      = some (l.foldl (check_indirect_entry bp descend) s) := by
  induction l generalizing s with
  | nil => rfl
  | cons x xs ih =>
    rw [List.foldl_cons, List.foldl_cons]
    have e : check_indirect_entry_depth bp level call (some s) x
        = some (check_indirect_entry bp descend s x) := by
      unfold check_indirect_entry_depth check_indirect_entry
      dsimp only
      by_cases h0 : rd32 bp (4 * x) ≠ 0
      · rw [if_pos h0, if_pos h0]
        by_cases hr : rd32 bp (4 * x) < DATA_BLOCK_START ∨ rd32 bp (4 * x) ≥ TOTAL_BLOCKS
        · rw [if_pos hr, if_pos hr]
        · rw [if_neg hr, if_neg hr]
          exact h _ _
      · rw [if_neg h0, if_neg h0]
    rw [e]
    exact ih _

theorem check_indirect_block_depth_enough (depth : Nat) :
    ∀ (level B : Nat) (s : State), 1 ≤ depth → level ≤ depth →
      check_indirect_block_depth depth level B s = some (check_indirect_block level B s) := by
  induction depth with
  | zero => intro level B s h; omega
  | succ d ih =>
    intro level B s _ hl
    rw [check_indirect_block_eq]
    show (if B < DATA_BLOCK_START ∨ B ≥ TOTAL_BLOCKS then
        some { s with bad_block_errors := s.bad_block_errors + 1 }
      else
        if !(read_block s.img B zeros).1 then
          some { s with bad_block_errors := s.bad_block_errors + 1 }
        else
          (List.range (BLOCK_SIZE / 4)).foldl
            (check_indirect_entry_depth (read_block s.img B zeros).2 level
              (check_indirect_block_depth d)) (some s)) = _
    unfold check_indirect_body
    dsimp only
    by_cases hB : B < DATA_BLOCK_START ∨ B ≥ TOTAL_BLOCKS
    · rw [if_pos hB, if_pos hB]
    · rw [if_neg hB, if_neg hB]
      by_cases hr : (!(read_block s.img (B : Int) zeros).1) = true
      · rw [if_pos hr, if_pos hr]
      · rw [if_neg hr, if_neg hr]
        apply check_indirect_entries_depth
        intro p t
        by_cases hlv : level > 1
        · rw [if_pos hlv, if_pos hlv]
          exact ih (level - 1) p t (by omega) (by omega)
        · rw [if_neg hlv, if_neg hlv]

/-! ## Lemmas: the bad-block count -/

theorem tree_count_zero (u : Nat) (img : Image) (B : Nat) :
    tree_count u img 0 B = block_count u img (fun _ => 0) B := rfl

theorem tree_count_succ (u : Nat) (img : Image) (L B : Nat) :
    tree_count u img (L + 1) B
      = block_count u img (fun p => if L + 1 > 1 then tree_count u img L p else 0) B := rfl

theorem check_indirect_entry_count (img : Image) (bp : Bytes) (descend : Nat → State → State)
    (D : Nat → Nat)
    (hd : ∀ p t, InRange p → t.img = img →
      (descend p t).img = img ∧ (descend p t).bad_block_errors = t.bad_block_errors + D p)
    (s : State) (hs : s.img = img) (i : Nat) :
    (check_indirect_entry bp descend s i).img = img
    ∧ (check_indirect_entry bp descend s i).bad_block_errors
        = s.bad_block_errors + ptr_count D (rd32 bp (4 * i)) := by
  unfold check_indirect_entry ptr_count
  dsimp only
  by_cases h0 : rd32 bp (4 * i) = 0
  · rw [if_neg (fun hc => hc h0), if_pos h0]
    exact ⟨hs, rfl⟩
  · rw [if_pos h0, if_neg h0]
    by_cases hr : InRange (rd32 bp (4 * i))
    · rw [if_neg ((inRange_iff _).mp hr), if_pos hr]
      exact hd _ _ hr hs
    · have hr' : rd32 bp (4 * i) < DATA_BLOCK_START ∨ rd32 bp (4 * i) ≥ TOTAL_BLOCKS := by
        by_contra hc
        exact hr ((inRange_iff _).mpr hc)
      rw [if_pos hr', if_neg hr]
      exact ⟨hs, rfl⟩

theorem check_indirect_entries_count (img : Image) (bp : Bytes) (descend : Nat → State → State)
    (D : Nat → Nat)
    (hd : ∀ p t, InRange p → t.img = img →
      (descend p t).img = img ∧ (descend p t).bad_block_errors = t.bad_block_errors + D p)
    (l : List Nat) (s : State) (hs : s.img = img) :
    (l.foldl (check_indirect_entry bp descend) s).img = img
    ∧ (l.foldl (check_indirect_entry bp descend) s).bad_block_errors
        = s.bad_block_errors + (l.map (fun k => ptr_count D (rd32 bp (4 * k)))).sum := by
  induction l generalizing s with
  | nil => exact ⟨hs, rfl⟩
  | cons x xs ih =>
    obtain ⟨h1, h2⟩ := check_indirect_entry_count img bp descend D hd s hs x
    obtain ⟨h3, h4⟩ := ih (check_indirect_entry bp descend s x) h1
    rw [List.foldl_cons]
    refine ⟨h3, ?_⟩
    rw [h4, h2, List.map_cons, List.sum_cons]
    omega

theorem map_congr_mem {α β : Type} (f g : α → β) (l : List α) (h : ∀ a, a ∈ l → f a = g a) :
    l.map f = l.map g := by
  induction l with
  | nil => rfl
  | cons x xs ih =>
    rw [List.map_cons, List.map_cons, h x (List.mem_cons_self _ _),
      ih (fun a ha => h a (List.mem_cons_of_mem _ ha))]

theorem check_indirect_body_count (img : Image) (descend : Nat → State → State)
    (D : Nat → Nat)
    (hd : ∀ p t, InRange p → t.img = img →
      (descend p t).img = img ∧ (descend p t).bad_block_errors = t.bad_block_errors + D p)
    (B : Nat) (hB : InRange B) (s : State) (hs : s.img = img) :
    (check_indirect_body B descend s).img = img
    ∧ (check_indirect_body B descend s).bad_block_errors
        = s.bad_block_errors + block_count 1 img D B := by
  have hB' := (inRange_iff _).mp hB
  have hB64 : B < 64 := hB.2
  unfold check_indirect_body block_count
  rw [if_neg hB', hs]
  dsimp only
  rw [read_block_fst img B zeros hB64]
  by_cases hr : Readable img B
  · simp only [hr, decide_True, Bool.not_true, Bool.false_eq_true, if_false, if_true]
    obtain ⟨h1, h2⟩ := check_indirect_entries_count img (read_block img (B : Int) zeros).2
      descend D hd (List.range (BLOCK_SIZE / 4)) s hs
    refine ⟨h1, ?_⟩
    rw [h2]
    have e : (List.range (BLOCK_SIZE / 4)).map
          (fun k => ptr_count D (rd32 (read_block img (B : Int) zeros).2 (4 * k)))
        = (List.range 1024).map (fun k => ptr_count D (entry img B k)) := by
      apply map_congr_mem
      intro k hk
      have hk' : k < 1024 := List.mem_range.mp hk
      show ptr_count D (rd32 (read_block img (B : Int) zeros).2 (4 * k))
        = ptr_count D (entry img B k)
      rw [rd32_read img B zeros hB64 hr (4 * k) (by omega)]
      rfl
    rw [e]
  · simp only [hr, decide_False, Bool.not_false, if_true, if_false]
    constructor <;> first | rfl | trivial

theorem check_indirect_block_count (img : Image) (level : Nat) :
    ∀ (B : Nat) (s : State), InRange B → s.img = img →
      (check_indirect_block level B s).img = img
      ∧ (check_indirect_block level B s).bad_block_errors
          = s.bad_block_errors + tree_count 1 img level B := by
  induction level with
  | zero =>
    intro B s hB hs
    rw [tree_count_zero]
    refine check_indirect_body_count img (fun _ t => t) (fun _ => 0) ?_ B hB s hs
    intro p t _ ht
    exact And.intro ht rfl
  | succ n ih =>
    intro B s hB hs
    rw [tree_count_succ]
    refine check_indirect_body_count img
      (fun p t => if n + 1 > 1 then check_indirect_block n p t else t)
      (fun p => if n + 1 > 1 then tree_count 1 img n p else 0) ?_ B hB s hs
    intro p t hp ht
    show (if n + 1 > 1 then check_indirect_block n p t else t).img = img
      ∧ (if n + 1 > 1 then check_indirect_block n p t else t).bad_block_errors
          = t.bad_block_errors + (if n + 1 > 1 then tree_count 1 img n p else 0)
    by_cases hn : n + 1 > 1
    · rw [if_pos hn, if_pos hn]
      exact ih p t hp ht
    · rw [if_neg hn, if_neg hn]
      exact And.intro ht rfl

theorem check_indirect_field_count (img : Image) (ptr level : Nat) (s : State)
    (hs : s.img = img) :
    (check_indirect_field ptr level s).img = img
    ∧ (check_indirect_field ptr level s).bad_block_errors
        = s.bad_block_errors + ptr_count (tree_count 1 img level) ptr := by
  unfold check_indirect_field ptr_count
  by_cases h0 : ptr = 0
  · rw [if_neg (fun hc => hc h0), if_pos h0]
    exact ⟨hs, rfl⟩
  · rw [if_pos h0, if_neg h0]
    by_cases hr : InRange ptr
    · rw [if_neg ((inRange_iff _).mp hr), if_pos hr]
      exact check_indirect_block_count img level ptr
        { s with used_blocks := setAt s.used_blocks ptr true } hr hs
    · have hr' : ptr < DATA_BLOCK_START ∨ ptr ≥ TOTAL_BLOCKS := by
        by_contra hc
        exact hr ((inRange_iff _).mpr hc)
      rw [if_pos hr', if_neg hr]
      exact ⟨hs, rfl⟩

theorem check_bad_blocks_step_count (s : State) (i : Nat) (hi : i < 80) :
    (check_bad_blocks_step s i).img = s.img
    ∧ (check_bad_blocks_step s i).bad_block_errors
        = s.bad_block_errors + inode_count 1 s.img i := by
  have hb := inode_block_num_bounds i hi
  unfold check_bad_blocks_step
  dsimp only
  rw [read_block_fst s.img (inode_block_num i) zeros (by omega)]
  by_cases hr : Readable s.img (inode_block_num i)
  · simp only [hr, decide_True, Bool.not_true, Bool.false_eq_true, if_false,
      load_inode_read s.img i zeros hi hr]
    by_cases hv : is_valid_inode (inode_of s.img i) = true
    · simp only [hv, Bool.not_true, Bool.false_eq_true, if_false]
      have hic : inode_count 1 s.img i
          = ptr_count (fun _ => 0) (inode_direct_block (inode_of s.img i))
            + ptr_count (tree_count 1 s.img 1) (inode_single_indirect (inode_of s.img i))
            + ptr_count (tree_count 1 s.img 2) (inode_double_indirect (inode_of s.img i))
            + ptr_count (tree_count 1 s.img 3) (inode_triple_indirect (inode_of s.img i)) := by
        unfold inode_count
        exact if_pos (show ValidInode s.img i from ⟨hi, hr, hv⟩)
      rw [hic]
      have hs1 : ∃ s1 : State, s1 =
          (if inode_direct_block (inode_of s.img i) ≠ 0 then
            if inode_direct_block (inode_of s.img i) < DATA_BLOCK_START
                ∨ inode_direct_block (inode_of s.img i) ≥ TOTAL_BLOCKS then
              { s with bad_block_errors := s.bad_block_errors + 1 }
            else
              { s with used_blocks := setAt s.used_blocks (inode_direct_block (inode_of s.img i)) true }
          else s) := ⟨_, rfl⟩
      obtain ⟨s1, hs1⟩ := hs1
      rw [← hs1]
      have h1 : s1.img = s.img ∧ s1.bad_block_errors
          = s.bad_block_errors + ptr_count (fun _ => 0) (inode_direct_block (inode_of s.img i)) := by
        rw [hs1]
        unfold ptr_count
        by_cases h0 : inode_direct_block (inode_of s.img i) = 0
        · rw [if_neg (fun hc => hc h0), if_pos h0]
          exact ⟨rfl, rfl⟩
        · rw [if_pos h0, if_neg h0]
          by_cases hin : InRange (inode_direct_block (inode_of s.img i))
          · rw [if_neg ((inRange_iff _).mp hin), if_pos hin]
            exact ⟨rfl, rfl⟩
          · have hin' : inode_direct_block (inode_of s.img i) < DATA_BLOCK_START
                ∨ inode_direct_block (inode_of s.img i) ≥ TOTAL_BLOCKS := by
              by_contra hc
              exact hin ((inRange_iff _).mpr hc)
            rw [if_pos hin', if_neg hin]
            exact ⟨rfl, rfl⟩
      obtain ⟨h2i, h2⟩ := check_indirect_field_count s.img
        (inode_single_indirect (inode_of s.img i)) 1 s1 h1.1
      obtain ⟨h3i, h3⟩ := check_indirect_field_count s.img
        (inode_double_indirect (inode_of s.img i)) 2 _ h2i
      obtain ⟨h4i, h4⟩ := check_indirect_field_count s.img
        (inode_triple_indirect (inode_of s.img i)) 3 _ h3i
      refine ⟨h4i, ?_⟩
      rw [h4, h3, h2, h1.2]
      omega
    · have hic : inode_count 1 s.img i = 0 := by
        unfold inode_count
        exact if_neg (fun h : ValidInode s.img i => hv h.2.2)
      rw [hic]
      simp only [hv, Bool.not_false, if_true]
      constructor <;> first | rfl | trivial
  · have hic : inode_count 1 s.img i = 0 := by
      unfold inode_count
      exact if_neg (fun h : ValidInode s.img i => hr h.2.1)
    rw [hic]
    simp only [hr, decide_False, Bool.not_false, if_true]
    constructor <;> first | rfl | trivial

theorem check_bad_blocks_fold_count (img : Image) (l : List Nat) (hl : ∀ i, i ∈ l → i < 80)
    (s : State) (hs : s.img = img) :
    (l.foldl check_bad_blocks_step s).img = img
    ∧ (l.foldl check_bad_blocks_step s).bad_block_errors
        = s.bad_block_errors + (l.map (inode_count 1 img)).sum := by
  induction l generalizing s with
  | nil => exact ⟨hs, rfl⟩
  | cons x xs ih =>
    obtain ⟨h1, h2⟩ := check_bad_blocks_step_count s x (hl x (List.mem_cons_self _ _))
    rw [hs] at h1 h2
    obtain ⟨h3, h4⟩ := ih (fun i h => hl i (List.mem_cons_of_mem _ h))
      (check_bad_blocks_step s x) h1
    rw [List.foldl_cons]
    refine ⟨h3, ?_⟩
    rw [h4, h2, List.map_cons, List.sum_cons]
    omega

theorem check_bad_blocks_walk_count (s : State) :
    (check_bad_blocks_walk s).bad_block_errors = walk_count 1 s.img := by
  rw [check_bad_blocks_walk_eq]
  have key : ∀ s0 : State, s0.img = s.img → s0.bad_block_errors = 0 →
      ((List.range INODE_COUNT).foldl check_bad_blocks_step s0).bad_block_errors
        = walk_count 1 s.img := by
    intro s0 h0 h1
    rw [(check_bad_blocks_fold_count s.img (List.range INODE_COUNT)
      (fun i hi => List.mem_range.mp hi) s0 h0).2, h1, Nat.zero_add]
    rfl
  exact key _ rfl rfl

theorem check_bad_blocks_count (s : State) :
    (check_bad_blocks s).2.bad_block_errors = walk_count 1 s.img
    ∧ ((check_bad_blocks s).1 = true ↔ walk_count 1 s.img = 0) := by
  rw [check_bad_blocks_fst, check_bad_blocks_snd, check_bad_blocks_walk_count]
  simp

/-! ### The count on images whose visited blocks can all be read -/

theorem block_count_full (u : Nat) (img : Image) (D D' : Nat → Nat) (B : Nat)
    (hr : Readable img B) (hD : ∀ p, InRange p → D p = D' p) :
    block_count u img D B = block_count 0 img D' B := by
  unfold block_count
  rw [if_pos hr, if_pos hr]
  apply congrArg
  apply map_congr_mem
  intro k _
  show ptr_count D (entry img B k) = ptr_count D' (entry img B k)
  unfold ptr_count
  by_cases h0 : entry img B k = 0
  · rw [if_pos h0, if_pos h0]
  · rw [if_neg h0, if_neg h0]
    by_cases hin : InRange (entry img B k)
    · rw [if_pos hin, if_pos hin, hD _ hin]
    · rw [if_neg hin, if_neg hin]

theorem readable_of_full (img : Image) (h : Readable img 63) (B : Nat) (hB : B < 64) :
    Readable img B := by
  unfold Readable at *
  simp only [BLOCK_SIZE] at *
  omega

theorem tree_count_full (u : Nat) (img : Image) (h : Readable img 63) (level : Nat) :
    ∀ B, InRange B → tree_count u img level B = tree_count 0 img level B := by
  induction level with
  | zero =>
    intro B hB
    rw [tree_count_zero, tree_count_zero]
    exact block_count_full u img _ _ B (readable_of_full img h B hB.2) (fun _ _ => rfl)
  | succ n ih =>
    intro B hB
    rw [tree_count_succ, tree_count_succ]
    refine block_count_full u img _ _ B (readable_of_full img h B hB.2) (fun p hp => ?_)
    show (if n + 1 > 1 then tree_count u img n p else 0)
      = (if n + 1 > 1 then tree_count 0 img n p else 0)
    by_cases hn : n + 1 > 1
    · rw [if_pos hn, if_pos hn, ih p hp]
    · rw [if_neg hn, if_neg hn]

theorem ptr_count_congr (D D' : Nat → Nat) (p : Nat) (h : InRange p → D p = D' p) :
    ptr_count D p = ptr_count D' p := by
  unfold ptr_count
  by_cases h0 : p = 0
  · rw [if_pos h0, if_pos h0]
  · rw [if_neg h0, if_neg h0]
    by_cases hin : InRange p
    · rw [if_pos hin, if_pos hin, h hin]
    · rw [if_neg hin, if_neg hin]

theorem walk_count_full (u : Nat) (img : Image) (h : Readable img 63) :
    walk_count u img = walk_count 0 img := by
  unfold walk_count
  apply congrArg
  apply map_congr_mem
  intro i _
  show inode_count u img i = inode_count 0 img i
  unfold inode_count
  by_cases hv : ValidInode img i
  · rw [if_pos hv, if_pos hv,
      ptr_count_congr (tree_count u img 1) (tree_count 0 img 1) _ (tree_count_full u img h 1 _),
      ptr_count_congr (tree_count u img 2) (tree_count 0 img 2) _ (tree_count_full u img h 2 _),
      ptr_count_congr (tree_count u img 3) (tree_count 0 img 3) _ (tree_count_full u img h 3 _)]
  · rw [if_neg hv, if_neg hv]

/-! ## Lemmas: images that differ only in the pointers of invalid inodes -/

theorem inode_addr (i : Nat) (_hi : i < 80) (a : Nat) :
    inode_block_num i * 4096 + (inode_offset i + a) = 12288 + 256 * i + a := by
  simp only [inode_block_num, inode_offset, INODE_TABLE_START_BLOCK, INODE_SIZE, BLOCK_SIZE]
  omega

theorem differ_byte_eq (img1 img2 : Image) (h : DifferOnlyInInvalidPointers img1 img2) (a : Nat)
    (ha : ∀ i, i < 80 → 12288 + 256 * i + 40 ≤ a → a < 12288 + 256 * i + 56 →
      is_valid_inode (inode_of img1 i) = true) :
    img1.byte a = img2.byte a := by
  by_contra hne
  obtain ⟨i, hi, hv, h1, h2⟩ := h.2 a hne
  rw [ha i hi h1 h2] at hv
  exact Bool.noConfusion hv

theorem differ_readable (img1 img2 : Image) (h : DifferOnlyInInvalidPointers img1 img2) (n : Nat) :
    Readable img1 n ↔ Readable img2 n := by
  unfold Readable
  rw [h.1]

theorem differ_block_of (img1 img2 : Image) (h : DifferOnlyInInvalidPointers img1 img2) (B : Nat)
    (hB : 8 ≤ B) : block_of img1 B = block_of img2 B := by
  funext a
  show img1.byte (B * 4096 + a) = img2.byte (B * 4096 + a)
  apply differ_byte_eq img1 img2 h
  intro i _ h1 h2
  omega

theorem differ_entry (img1 img2 : Image) (h : DifferOnlyInInvalidPointers img1 img2) (B k : Nat)
    (hB : 8 ≤ B) : entry img1 B k = entry img2 B k := by
  unfold entry
  rw [differ_block_of img1 img2 h B hB]

theorem differ_inode_rd32 (img1 img2 : Image) (h : DifferOnlyInInvalidPointers img1 img2)
    (i : Nat) (hi : i < 80) (off : Nat) (ho : off + 4 ≤ 212)
    (hv : is_valid_inode (inode_of img1 i) = true ∨ off + 4 ≤ 40) :
    rd32 (inode_of img1 i) off = rd32 (inode_of img2 i) off := by
  apply rd32_congr
  intro a h1 h2
  rw [inode_of_apply img1 i a (by omega), inode_of_apply img2 i a (by omega), inode_addr i hi a]
  apply differ_byte_eq img1 img2 h
  intro j hj h3 h4
  have hij : j = i := by omega
  rw [hij]
  rcases hv with hv | hv
  · exact hv
  · omega

theorem differ_is_valid (img1 img2 : Image) (h : DifferOnlyInInvalidPointers img1 img2)
    (i : Nat) (hi : i < 80) :
    is_valid_inode (inode_of img2 i) = is_valid_inode (inode_of img1 i) := by
  unfold is_valid_inode inode_links_count inode_dtime
  rw [differ_inode_rd32 img1 img2 h i hi 32 (by omega) (Or.inr (by omega)),
    differ_inode_rd32 img1 img2 h i hi 28 (by omega) (Or.inr (by omega))]

theorem differ_validInode (img1 img2 : Image) (h : DifferOnlyInInvalidPointers img1 img2)
    (i : Nat) : ValidInode img1 i ↔ ValidInode img2 i := by
  unfold ValidInode
  constructor
  · rintro ⟨hi, hr, hv⟩
    exact ⟨hi, (differ_readable img1 img2 h _).mp hr, by rw [differ_is_valid img1 img2 h i hi]; exact hv⟩
  · rintro ⟨hi, hr, hv⟩
    exact ⟨hi, (differ_readable img1 img2 h _).mpr hr, by rw [← differ_is_valid img1 img2 h i hi]; exact hv⟩

theorem differ_entryClaims (img1 img2 : Image) (h : DifferOnlyInInvalidPointers img1 img2)
    (D1 D2 : Nat → Nat → Prop) (hD : ∀ p b, InRange p → (D1 p b ↔ D2 p b))
    (B b : Nat) (hB : InRange B) :
    EntryClaims img1 D1 B b ↔ EntryClaims img2 D2 B b := by
  unfold EntryClaims
  constructor
  · rintro ⟨k, hk, hr, hin, hc⟩
    rw [differ_entry img1 img2 h B k hB.1] at hin hc
    refine ⟨k, hk, (differ_readable img1 img2 h B).mp hr, hin, ?_⟩
    rcases hc with hc | hc
    · exact Or.inl hc
    · exact Or.inr ((hD _ b hin).mp hc)
  · rintro ⟨k, hk, hr, hin, hc⟩
    rw [← differ_entry img1 img2 h B k hB.1] at hin hc
    refine ⟨k, hk, (differ_readable img1 img2 h B).mpr hr, hin, ?_⟩
    rcases hc with hc | hc
    · exact Or.inl hc
    · exact Or.inr ((hD _ b hin).mpr hc)

theorem differ_treeClaims (img1 img2 : Image) (h : DifferOnlyInInvalidPointers img1 img2)
    (level : Nat) : ∀ B b, InRange B → (TreeClaims img1 level B b ↔ TreeClaims img2 level B b) := by
  induction level with
  | zero =>
    intro B b hB
    exact differ_entryClaims img1 img2 h _ _ (fun _ _ _ => Iff.rfl) B b hB
  | succ n ih =>
    intro B b hB
    show EntryClaims img1 (fun p c => n + 1 > 1 ∧ TreeClaims img1 n p c) B b
      ↔ EntryClaims img2 (fun p c => n + 1 > 1 ∧ TreeClaims img2 n p c) B b
    apply differ_entryClaims img1 img2 h _ _ _ B b hB
    intro p c hp
    show (n + 1 > 1 ∧ TreeClaims img1 n p c) ↔ (n + 1 > 1 ∧ TreeClaims img2 n p c)
    rw [ih p c hp]

theorem differ_fieldClaims (img1 img2 : Image) (h : DifferOnlyInInvalidPointers img1 img2)
    (ptr level b : Nat) : FieldClaims img1 ptr level b ↔ FieldClaims img2 ptr level b := by
  unfold FieldClaims
  constructor
  · rintro ⟨hin, hc⟩
    exact ⟨hin, hc.imp id (differ_treeClaims img1 img2 h level ptr b hin).mp⟩
  · rintro ⟨hin, hc⟩
    exact ⟨hin, hc.imp id (differ_treeClaims img1 img2 h level ptr b hin).mpr⟩

theorem differ_pointers (img1 img2 : Image) (h : DifferOnlyInInvalidPointers img1 img2)
    (i : Nat) (hv : ValidInode img1 i) :
    inode_direct_block (inode_of img1 i) = inode_direct_block (inode_of img2 i)
    ∧ inode_single_indirect (inode_of img1 i) = inode_single_indirect (inode_of img2 i)
    ∧ inode_double_indirect (inode_of img1 i) = inode_double_indirect (inode_of img2 i)
    ∧ inode_triple_indirect (inode_of img1 i) = inode_triple_indirect (inode_of img2 i) := by
  unfold inode_direct_block inode_single_indirect inode_double_indirect inode_triple_indirect
  exact ⟨differ_inode_rd32 img1 img2 h i hv.1 40 (by omega) (Or.inl hv.2.2),
    differ_inode_rd32 img1 img2 h i hv.1 44 (by omega) (Or.inl hv.2.2),
    differ_inode_rd32 img1 img2 h i hv.1 48 (by omega) (Or.inl hv.2.2),
    differ_inode_rd32 img1 img2 h i hv.1 52 (by omega) (Or.inl hv.2.2)⟩

theorem differ_inodeClaims_imp (img1 img2 : Image) (h : DifferOnlyInInvalidPointers img1 img2)
    (i b : Nat) : InodeClaims img1 i b ↔ InodeClaims img2 i b := by
  by_cases hv : ValidInode img1 i
  · obtain ⟨e1, e2, e3, e4⟩ := differ_pointers img1 img2 h i hv
    unfold InodeClaims
    rw [← differ_validInode img1 img2 h i, ← e1, ← e2, ← e3, ← e4,
      differ_fieldClaims img1 img2 h _ 1 b, differ_fieldClaims img1 img2 h _ 2 b,
      differ_fieldClaims img1 img2 h _ 3 b]
  · have hv2 : ¬ ValidInode img2 i := fun hc => hv ((differ_validInode img1 img2 h i).mpr hc)
    unfold InodeClaims
    constructor
    · intro hc; exact absurd hc.1 hv
    · intro hc; exact absurd hc.1 hv2

theorem differ_block_count (u : Nat) (img1 img2 : Image)
    (h : DifferOnlyInInvalidPointers img1 img2) (D1 D2 : Nat → Nat)
    (hD : ∀ p, InRange p → D1 p = D2 p) (B : Nat) (hB : InRange B) :
    block_count u img1 D1 B = block_count u img2 D2 B := by
  unfold block_count
  by_cases hr : Readable img1 B
  · rw [if_pos hr, if_pos ((differ_readable img1 img2 h B).mp hr)]
    apply congrArg
    apply map_congr_mem
    intro k _
    show ptr_count D1 (entry img1 B k) = ptr_count D2 (entry img2 B k)
    rw [differ_entry img1 img2 h B k hB.1]
    exact ptr_count_congr D1 D2 _ (hD _)
  · rw [if_neg hr, if_neg (fun hc => hr ((differ_readable img1 img2 h B).mpr hc))]

theorem differ_tree_count (u : Nat) (img1 img2 : Image)
    (h : DifferOnlyInInvalidPointers img1 img2) (level : Nat) :
    ∀ B, InRange B → tree_count u img1 level B = tree_count u img2 level B := by
  induction level with
  | zero =>
    intro B hB
    rw [tree_count_zero, tree_count_zero]
    exact differ_block_count u img1 img2 h _ _ (fun _ _ => rfl) B hB
  | succ n ih =>
    intro B hB
    rw [tree_count_succ, tree_count_succ]
    refine differ_block_count u img1 img2 h _ _ (fun p hp => ?_) B hB
    show (if n + 1 > 1 then tree_count u img1 n p else 0)
      = (if n + 1 > 1 then tree_count u img2 n p else 0)
    by_cases hn : n + 1 > 1
    · rw [if_pos hn, if_pos hn, ih p hp]
    · rw [if_neg hn, if_neg hn]

theorem differ_inode_count (u : Nat) (img1 img2 : Image)
    (h : DifferOnlyInInvalidPointers img1 img2) (i : Nat) :
    inode_count u img1 i = inode_count u img2 i := by
  unfold inode_count
  by_cases hv : ValidInode img1 i
  · obtain ⟨e1, e2, e3, e4⟩ := differ_pointers img1 img2 h i hv
    rw [if_pos hv, if_pos ((differ_validInode img1 img2 h i).mp hv), ← e1, ← e2, ← e3, ← e4,
      ptr_count_congr (tree_count u img1 1) (tree_count u img2 1) _ (differ_tree_count u img1 img2 h 1 _),
      ptr_count_congr (tree_count u img1 2) (tree_count u img2 2) _ (differ_tree_count u img1 img2 h 2 _),
      ptr_count_congr (tree_count u img1 3) (tree_count u img2 3) _ (differ_tree_count u img1 img2 h 3 _)]
  · rw [if_neg hv, if_neg (fun hc => hv ((differ_validInode img1 img2 h i).mpr hc))]

theorem differ_walk_count (u : Nat) (img1 img2 : Image)
    (h : DifferOnlyInInvalidPointers img1 img2) : walk_count u img1 = walk_count u img2 := by
  unfold walk_count
  apply congrArg
  apply map_congr_mem
  intro i _
  exact differ_inode_count u img1 img2 h i

/-! ## Lemmas: the walker writes `used_blocks` and `bad_block_errors` only -/

theorem walkFrame_refl (s : State) : WalkFrame s s := ⟨s.used_blocks, s.bad_block_errors, rfl⟩

theorem walkFrame_trans (s t r : State) (h1 : WalkFrame s t) (h2 : WalkFrame t r) :
    WalkFrame s r := by
  obtain ⟨u, n, e1⟩ := h1
  obtain ⟨u', n', e2⟩ := h2
  exact ⟨u', n', by rw [e2, e1]⟩

theorem walkFrame_bad (s : State) (n : Nat) : WalkFrame s { s with bad_block_errors := n } :=
  ⟨s.used_blocks, n, rfl⟩

theorem walkFrame_used (s : State) (u : Nat → Bool) : WalkFrame s { s with used_blocks := u } :=
  ⟨u, s.bad_block_errors, rfl⟩

theorem check_indirect_entry_frame (bp : Bytes) (descend : Nat → State → State)
    (hd : ∀ p t, WalkFrame t (descend p t)) (s : State) (k : Nat) :
    WalkFrame s (check_indirect_entry bp descend s k) := by
  unfold check_indirect_entry
  dsimp only
  by_cases h0 : rd32 bp (4 * k) ≠ 0
  · rw [if_pos h0]
    by_cases h1 : rd32 bp (4 * k) < DATA_BLOCK_START ∨ rd32 bp (4 * k) ≥ TOTAL_BLOCKS
    · rw [if_pos h1]; exact walkFrame_bad s _
    · rw [if_neg h1]
      exact walkFrame_trans _ _ _ (walkFrame_used s _) (hd _ _)
  · rw [if_neg h0]; exact walkFrame_refl s

theorem check_indirect_body_frame (B : Nat) (descend : Nat → State → State)
    (hd : ∀ p t, WalkFrame t (descend p t)) (s : State) :
    WalkFrame s (check_indirect_body B descend s) := by
  unfold check_indirect_body
  by_cases h1 : B < DATA_BLOCK_START ∨ B ≥ TOTAL_BLOCKS
  · rw [if_pos h1]; exact walkFrame_bad s _
  · rw [if_neg h1]
    dsimp only
    by_cases h2 : (!(read_block s.img (B : Int) zeros).1) = true
    · rw [if_pos h2]; exact walkFrame_bad s _
    · rw [if_neg h2]
      exact foldl_invariant (fun t => WalkFrame s t) _
        (fun t a ht => walkFrame_trans _ _ _ ht (check_indirect_entry_frame _ descend hd t a))
        _ s (walkFrame_refl s)

theorem check_indirect_block_frame (level : Nat) :
    ∀ (B : Nat) (s : State), WalkFrame s (check_indirect_block level B s) := by
  induction level with
  | zero =>
    intro B s
    exact check_indirect_body_frame B _ (fun _ t => walkFrame_refl t) s
  | succ n ih =>
    intro B s
    refine check_indirect_body_frame B _ (fun p t => ?_) s
    show WalkFrame t (if n + 1 > 1 then check_indirect_block n p t else t)
    by_cases hn : n + 1 > 1
    · rw [if_pos hn]; exact ih p t
    · rw [if_neg hn]; exact walkFrame_refl t

theorem check_indirect_field_frame (ptr level : Nat) (s : State) :
    WalkFrame s (check_indirect_field ptr level s) := by
  unfold check_indirect_field
  by_cases h0 : ptr ≠ 0
  · rw [if_pos h0]
    by_cases h1 : ptr < DATA_BLOCK_START ∨ ptr ≥ TOTAL_BLOCKS
    · rw [if_pos h1]; exact walkFrame_bad s _
    · rw [if_neg h1]
      exact walkFrame_trans _ _ _ (walkFrame_used s _) (check_indirect_block_frame level ptr _)
  · rw [if_neg h0]; exact walkFrame_refl s

theorem check_bad_blocks_step_frame (s : State) (i : Nat) :
    WalkFrame s (check_bad_blocks_step s i) := by
  unfold check_bad_blocks_step
  dsimp only
  by_cases h1 : (!(read_block s.img (inode_block_num i : Int) zeros).1) = true
  · rw [if_pos h1]; exact walkFrame_refl s
  · rw [if_neg h1]
    by_cases h2 : (!is_valid_inode (load_inode (read_block s.img (inode_block_num i : Int) zeros).2
        (inode_offset i))) = true
    · rw [if_pos h2]; exact walkFrame_refl s
    · rw [if_neg h2]
      refine walkFrame_trans _ _ _ ?_ (check_indirect_field_frame _ 3 _)
      refine walkFrame_trans _ _ _ ?_ (check_indirect_field_frame _ 2 _)
      refine walkFrame_trans _ _ _ ?_ (check_indirect_field_frame _ 1 _)
      split
      · split
        · exact walkFrame_bad s _
        · exact walkFrame_used s _
      · exact walkFrame_refl s

theorem check_bad_blocks_walk_frame (s : State) : WalkFrame s (check_bad_blocks_walk s) := by
  rw [check_bad_blocks_walk_eq]
  have h0 : WalkFrame s { { s with bad_block_errors := 0 } with used_blocks := fun _ => false } :=
    ⟨fun _ => false, 0, rfl⟩
  exact foldl_invariant (fun t => WalkFrame s t) _
    (fun t a ht => walkFrame_trans _ _ _ ht (check_bad_blocks_step_frame t a)) _ _ h0

theorem check_bad_blocks_walk_dup (s : State) :
    (check_bad_blocks_walk s).duplicate_block_errors = s.duplicate_block_errors := by
  obtain ⟨u, n, e⟩ := check_bad_blocks_walk_frame s
  rw [e]

/-! ## Lemmas: the second loop of the duplicate branch -/

theorem write_block_fst (img : Image) (n : Nat) (buf : Bytes) (hn : n < 64) :
    (write_block img (n : Int) buf).1 = true := by
  have h1 : ¬ ((n : Int) < 0 ∨ (n : Int) ≥ ((TOTAL_BLOCKS : Nat) : Int)) := by
    simp only [TOTAL_BLOCKS]; omega
  simp only [write_block, if_neg h1]

theorem allocate_new_data_block_alloc_state (s : State) (k : Nat)
    (h : (List.range (TOTAL_BLOCKS - DATA_BLOCK_START)).find?
      (fun i => !is_used_bit s.data_bitmap i) = some k) :
    allocate_new_data_block s = (((k + DATA_BLOCK_START : Nat) : Int), alloc_state s k) :=
  allocate_new_data_block_some s k h

theorem fix_duplicate_step_noop (fu : Nat → Int) (s : State) (x : Nat) (hx : x < 80)
    (h : ¬ Claimant fu s x) : fix_duplicate_step fu s x = s := by
  have hb := inode_block_num_bounds x hx
  unfold fix_duplicate_step
  dsimp only
  rw [read_block_fst s.img (inode_block_num x) zeros (by omega)]
  by_cases hr : Readable s.img (inode_block_num x)
  · simp only [hr, decide_True, Bool.not_true, Bool.false_eq_true, if_false,
      load_inode_read s.img x zeros hx hr]
    by_cases hv : is_valid_inode (inode_of s.img x) = true
    · simp only [hv, Bool.not_true, Bool.false_eq_true, if_false]
      by_cases hin : inode_direct_block (inode_of s.img x) ≥ DATA_BLOCK_START
          ∧ inode_direct_block (inode_of s.img x) < TOTAL_BLOCKS
      · rw [if_pos hin]
        by_cases hc : (s.duplicated_blocks (inode_direct_block (inode_of s.img x))
            && decide (fu (inode_direct_block (inode_of s.img x)) ≠ (x : Int))) = true
        · exfalso
          rw [Bool.and_eq_true, decide_eq_true_eq] at hc
          exact h ⟨⟨hx, hr, hv⟩, hin, hc.1, hc.2⟩
        · rw [if_neg hc]
      · rw [if_neg hin]
    · simp only [hv, Bool.not_false, if_true]
  · simp only [hr, decide_False, Bool.not_false, if_true]

theorem fix_duplicate_step_full (fu : Nat → Int) (s : State) (x : Nat)
    (h : ∀ k, k < 56 → is_used_bit s.data_bitmap k = true) : fix_duplicate_step fu s x = s := by
  unfold fix_duplicate_step
  dsimp only
  rw [allocate_new_data_block_none s ((allocate_find_none_iff s).mpr h)]
  simp

theorem fix_duplicate_step_claimant (fu : Nat → Int) (s : State) (x k : Nat) (hx : x < 80)
    (hc : Claimant fu s x)
    (hf : (List.range (TOTAL_BLOCKS - DATA_BLOCK_START)).find?
      (fun i => !is_used_bit s.data_bitmap i) = some k) :
    fix_duplicate_step fu s x
      = if Readable (alloc_state s k).img (inode_direct_block (inode_of s.img x))
          then reassign_state s k x else alloc_state s k := by
  obtain ⟨⟨_, hr, hv⟩, hin, hflag, hfu⟩ := hc
  have hb := inode_block_num_bounds x hx
  have hk : k < 56 := ((allocate_find_some_iff s k).mp hf).1
  have hc' : (s.duplicated_blocks (inode_direct_block (inode_of s.img x))
      && decide (fu (inode_direct_block (inode_of s.img x)) ≠ (x : Int))) = true := by
    rw [Bool.and_eq_true, decide_eq_true_eq]
    exact ⟨hflag, hfu⟩
  have hne : (((k + DATA_BLOCK_START : Nat) : Int)) ≠ -1 := by omega
  unfold fix_duplicate_step
  dsimp only
  rw [read_block_fst s.img (inode_block_num x) zeros (by omega)]
  simp only [hr, decide_True, Bool.not_true, Bool.false_eq_true, if_false,
    load_inode_read s.img x zeros hx hr]
  simp only [hv, Bool.not_true, Bool.false_eq_true, if_false]
  have hin' : inode_direct_block (inode_of s.img x) ≥ DATA_BLOCK_START
      ∧ inode_direct_block (inode_of s.img x) < TOTAL_BLOCKS := hin
  rw [if_pos hin', if_pos hc', allocate_new_data_block_alloc_state s k hf]
  dsimp only
  rw [if_pos hne, read_block_fst _ _ zeros hin.2, Int.toNat_ofNat,
    write_block_fst _ _ _ (show k + DATA_BLOCK_START < 64 by show k + 8 < 64; omega)]
  by_cases hrd : Readable (alloc_state s k).img (inode_direct_block (inode_of s.img x))
  · rw [if_pos hrd]
    simp only [hrd, decide_True, if_true]
    rfl
  · rw [if_neg hrd]
    simp only [hrd, decide_False, Bool.false_eq_true, if_false]

theorem readable_write (img : Image) (k : Int) (buf : Bytes) (n : Nat) (h : Readable img n) :
    Readable (write_block img k buf).2 n := by
  have hle := write_block_size_le img k buf
  unfold Readable at *
  omega

theorem block_of_write_other (img : Image) (n m : Nat) (buf : Bytes) (hn : n < 64)
    (hne : m ≠ n) (hr : Readable img m) (a : Nat) (ha : a < 4096) :
    block_of (write_block img (n : Int) buf).2 m a = block_of img m a := by
  unfold Readable at hr
  simp only [BLOCK_SIZE] at hr
  show (write_block img (n : Int) buf).2.byte (m * 4096 + a) = img.byte (m * 4096 + a)
  rw [write_block_byte img n buf hn _ (by omega)]
  have hc : ¬ (n * 4096 ≤ m * 4096 + a ∧ m * 4096 + a < n * 4096 + 4096) := by omega
  rw [if_neg hc]

theorem read_block_snd_ge (img : Image) (n : Nat) (buf : Bytes) (hn : n < 64) (a : Nat)
    (ha : 4096 ≤ a) : (read_block img (n : Int) buf).2 a = buf a := by
  have h1 : ¬ ((n : Int) < 0 ∨ (n : Int) ≥ ((TOTAL_BLOCKS : Nat) : Int)) := by
    simp only [TOTAL_BLOCKS]; omega
  have h2 : ¬ a < min BLOCK_SIZE (img.size - n * BLOCK_SIZE) := by
    simp only [BLOCK_SIZE]; omega
  simp only [read_block, if_neg h1, Int.toNat_ofNat, if_neg h2]

theorem read_block_write_other (img : Image) (n m : Nat) (buf : Bytes) (hn : n < 64)
    (hm : m < 64) (hne : n ≠ m) (hr : Readable img n) :
    (read_block (write_block img (m : Int) buf).2 (n : Int) zeros).2
      = (read_block img (n : Int) zeros).2 := by
  funext a
  by_cases ha : a < 4096
  · rw [read_block_snd _ n zeros hn (readable_write img _ buf n hr) a ha,
      read_block_snd img n zeros hn hr a ha, block_of_write_other img m n buf hm hne hr a ha]
  · rw [read_block_snd_ge _ n zeros hn a (by omega), read_block_snd_ge img n zeros hn a (by omega)]

theorem write_block_high (img : Image) (n : Nat) (h8 : 8 ≤ n) (hn : n < 64) (buf : Bytes) :
    TablePreserved img (write_block img (n : Int) buf).2 := by
  intro x hx hr
  have hb := inode_block_num_bounds x hx
  have ho := inode_offset_bound x
  refine ⟨readable_write img _ buf _ hr, ?_⟩
  unfold Readable at hr
  simp only [BLOCK_SIZE] at hr
  funext a
  by_cases ha : a < 212
  · rw [inode_of_apply _ _ _ ha, inode_of_apply _ _ _ ha,
      write_block_byte img n buf hn _ (by omega)]
    have hc : ¬ (n * 4096 ≤ inode_block_num x * 4096 + (inode_offset x + a)
        ∧ inode_block_num x * 4096 + (inode_offset x + a) < n * 4096 + 4096) := by omega
    rw [if_neg hc]
  · rw [inode_of_tail _ _ _ (by omega), inode_of_tail _ _ _ (by omega)]

theorem wr32_tail_zero (ino : Bytes) (v : Nat) (h : ∀ a, 212 ≤ a → ino a = 0) :
    ∀ a, 212 ≤ a → wr32 ino 40 v a = 0 := by
  intro a ha
  rw [wr32_tail ino 40 v a (by omega)]
  exact h a ha

theorem rd32_wr32_same (b : Bytes) (off v : Nat) (hv : v < 4294967296) :
    rd32 (wr32 b off v) off = v := by
  simp only [rd32, wr32]
  have n1 : off + 1 ≠ off := by omega
  have n2 : off + 2 ≠ off := by omega
  have n3 : off + 3 ≠ off := by omega
  have n4 : off + 2 ≠ off + 1 := by omega
  have n5 : off + 3 ≠ off + 1 := by omega
  have n6 : off + 3 ≠ off + 2 := by omega
  simp only [if_true, if_neg n1, if_neg n2, if_neg n3, if_neg n4, if_neg n5, if_neg n6]
  omega

/-! ### What `alloc_state` and `reassign_state` hold -/

theorem alloc_state_readable (s : State) (k n : Nat) (h : Readable s.img n) :
    Readable (alloc_state s k).img n :=
  readable_write s.img _ zeros n h

theorem alloc_state_bit (s : State) (k m : Nat) :
    is_used_bit (alloc_state s k).data_bitmap m = (decide (m = k) || is_used_bit s.data_bitmap m) := by
  show is_used_bit (set_bit (set_bit s.data_bitmap k) k) m = _
  rw [is_used_bit_set_bit, is_used_bit_set_bit]
  cases decide (m = k) <;> simp

theorem alloc_state_table (s : State) (k : Nat) (hk : k < 56) :
    TablePreserved s.img (alloc_state s k).img :=
  write_block_high s.img (k + DATA_BLOCK_START) (by show 8 ≤ k + 8; omega)
    (by show k + 8 < 64; omega) zeros

theorem alloc_state_block (s : State) (k : Nat) (hk : k < 56) (b : Nat)
    (hne : b ≠ k + 8) (hr : Readable s.img b) (a : Nat) (ha : a < 4096) :
    block_of (alloc_state s k).img b a = block_of s.img b a :=
  block_of_write_other s.img (k + DATA_BLOCK_START) b zeros (by show k + 8 < 64; omega) hne hr a ha

theorem reassign_state_readable (s : State) (k x n : Nat) (h : Readable s.img n) :
    Readable (reassign_state s k x).img n :=
  readable_write _ _ _ n (readable_write _ _ _ n (alloc_state_readable s k n h))

theorem reassign_state_bit (s : State) (k x m : Nat) :
    is_used_bit (reassign_state s k x).data_bitmap m
      = (decide (m = k) || is_used_bit s.data_bitmap m) := by
  show is_used_bit (set_bit (alloc_state s k).data_bitmap (k + DATA_BLOCK_START - DATA_BLOCK_START)) m = _
  have e : k + DATA_BLOCK_START - DATA_BLOCK_START = k := by show k + 8 - 8 = k; omega
  rw [e, is_used_bit_set_bit, alloc_state_bit]
  cases decide (m = k) <;> simp

theorem reassign_state_inode (s : State) (k x y : Nat) (hk : k < 56) (hx : x < 80) (hy : y < 80)
    (hrx : Readable s.img (inode_block_num x)) (hry : Readable s.img (inode_block_num y)) :
    inode_of (reassign_state s k x).img y
      = if y = x then wr32 (inode_of s.img x) 40 (k + DATA_BLOCK_START) else inode_of s.img y := by
  have hbx := inode_block_num_bounds x hx
  have hk8 : k + DATA_BLOCK_START < 64 := by show k + 8 < 64; omega
  have hk8' : 8 ≤ k + DATA_BLOCK_START := by show 8 ≤ k + 8; omega
  have hne : inode_block_num x ≠ k + DATA_BLOCK_START := by omega
  have t1 := alloc_state_table s k hk
  have t2 := write_block_high (alloc_state s k).img (k + DATA_BLOCK_START) hk8' hk8
    (read_block (alloc_state s k).img (inode_direct_block (inode_of s.img x) : Int) zeros).2
  have t12 := tablePreserved_trans _ _ _ t1 t2
  have e1 := read_block_write_other s.img (inode_block_num x) (k + DATA_BLOCK_START) zeros
    (by omega) hk8 hne hrx
  have e2 := read_block_write_other (alloc_state s k).img (inode_block_num x)
    (k + DATA_BLOCK_START)
    (read_block (alloc_state s k).img (inode_direct_block (inode_of s.img x) : Int) zeros).2
    (by omega) hk8 hne (alloc_state_readable s k _ hrx)
  have e : (read_block s.img (inode_block_num x : Int) zeros).2
      = (read_block (write_block (alloc_state s k).img ((k + DATA_BLOCK_START : Nat) : Int)
          (read_block (alloc_state s k).img (inode_direct_block (inode_of s.img x) : Int) zeros).2).2
          (inode_block_num x : Int) zeros).2 := by
    rw [e2]
    exact e1.symm
  show inode_of (write_block _ (inode_block_num x : Int)
      (store_inode (read_block s.img (inode_block_num x : Int) zeros).2 (inode_offset x)
        (wr32 (inode_of s.img x) 40 (k + DATA_BLOCK_START)))).2 y = _
  rw [e, inode_of_write _ x y hx hy (t12 x hx hrx).1 (t12 y hy hry).1 _
    (wr32_tail_zero _ _ (fun a ha => inode_of_tail s.img x a ha))]
  by_cases hyx : y = x
  · rw [if_pos hyx, if_pos hyx]
  · rw [if_neg hyx, if_neg hyx]
    exact (t12 y hy hry).2

theorem reassign_state_block (s : State) (k x : Nat) (hk : k < 56) (hx : x < 80) (b : Nat)
    (h8 : 8 ≤ b) (hne : b ≠ k + 8) (hr : Readable s.img b) (a : Nat) (ha : a < 4096) :
    block_of (reassign_state s k x).img b a = block_of s.img b a := by
  have hbx := inode_block_num_bounds x hx
  have hk8 : k + DATA_BLOCK_START < 64 := by show k + 8 < 64; omega
  show block_of (write_block (write_block (alloc_state s k).img ((k + DATA_BLOCK_START : Nat) : Int)
      _).2 (inode_block_num x : Int) _).2 b a = _
  rw [block_of_write_other _ (inode_block_num x) b _ (by omega) (by omega)
      (readable_write _ _ _ b (alloc_state_readable s k b hr)) a ha,
    block_of_write_other _ (k + DATA_BLOCK_START) b _ hk8 hne (alloc_state_readable s k b hr) a ha,
    alloc_state_block s k hk b hne hr a ha]

theorem reassign_state_copy (s : State) (k x : Nat) (hk : k < 56) (hx : x < 80)
    (hd : InRange (inode_direct_block (inode_of s.img x)))
    (hne : inode_direct_block (inode_of s.img x) ≠ k + 8)
    (hr : Readable s.img (inode_direct_block (inode_of s.img x))) (a : Nat) (ha : a < 4096) :
    block_of (reassign_state s k x).img (k + 8) a
      = block_of s.img (inode_direct_block (inode_of s.img x)) a := by
  have hbx := inode_block_num_bounds x hx
  have hk8 : k + DATA_BLOCK_START < 64 := by show k + 8 < 64; omega
  have hk8' : 8 ≤ k + DATA_BLOCK_START := by show 8 ≤ k + 8; omega
  show block_of (write_block (write_block (alloc_state s k).img ((k + DATA_BLOCK_START : Nat) : Int)
      _).2 (inode_block_num x : Int) _).2 (k + DATA_BLOCK_START) a = _
  rw [block_of_write_other _ (inode_block_num x) (k + DATA_BLOCK_START) _ (by omega) (by omega)
      (write_block_readable _ _ _ hk8) a ha,
    block_of_write_same _ _ _ hk8 a ha,
    read_block_snd _ _ zeros hd.2 (alloc_state_readable s k _ hr) a ha,
    alloc_state_block s k hk _ hne hr a ha]

/-! ### What every pass of the second loop keeps -/

theorem dupFrame_refl (s : State) : DupFrame s s :=
  ⟨fun _ h => h, rfl, fun _ h => h, fun _ _ _ _ _ _ _ => rfl⟩

theorem dupFrame_trans (s t r : State) (h1 : DupFrame s t) (h2 : DupFrame t r) :
    DupFrame s r := by
  obtain ⟨a1, b1, c1, d1⟩ := h1
  obtain ⟨a2, b2, c2, d2⟩ := h2
  refine ⟨fun m h => a2 m (a1 m h), by rw [b2, b1], fun n h => c2 n (c1 n h), ?_⟩
  intro b h8 h64 hbit hr a ha
  rw [d2 b h8 h64 (a1 _ hbit) (c1 b hr) a ha, d1 b h8 h64 hbit hr a ha]

theorem alloc_state_frame (s : State) (k : Nat) (hk : k < 56)
    (hfree : is_used_bit s.data_bitmap k = false) : DupFrame s (alloc_state s k) := by
  refine ⟨fun m h => ?_, rfl, fun n h => alloc_state_readable s k n h, ?_⟩
  · rw [alloc_state_bit, h]; simp
  · intro b h8 _ hbit hr a ha
    have hne : b ≠ k + 8 := by
      intro hc
      have e : b - 8 = k := by omega
      rw [e, hfree] at hbit
      exact Bool.noConfusion hbit
    exact alloc_state_block s k hk b hne hr a ha

theorem reassign_state_frame (s : State) (k x : Nat) (hk : k < 56) (hx : x < 80)
    (hfree : is_used_bit s.data_bitmap k = false) : DupFrame s (reassign_state s k x) := by
  refine ⟨fun m h => ?_, rfl, fun n h => reassign_state_readable s k x n h, ?_⟩
  · rw [reassign_state_bit, h]; simp
  · intro b h8 _ hbit hr a ha
    have hne : b ≠ k + 8 := by
      intro hc
      have e : b - 8 = k := by omega
      rw [e, hfree] at hbit
      exact Bool.noConfusion hbit
    exact reassign_state_block s k x hk hx b h8 hne hr a ha

theorem fix_duplicate_step_frame (fu : Nat → Int) (s : State) (x : Nat) (hx : x < 80) :
    DupFrame s (fix_duplicate_step fu s x)
    ∧ ∀ y, y < 80 → y ≠ x → Readable s.img (inode_block_num y) →
        inode_of (fix_duplicate_step fu s x).img y = inode_of s.img y := by
  by_cases hc : Claimant fu s x
  · cases hf : (List.range (TOTAL_BLOCKS - DATA_BLOCK_START)).find?
        (fun i => !is_used_bit s.data_bitmap i) with
    | none =>
      rw [fix_duplicate_step_full fu s x ((allocate_find_none_iff s).mp hf)]
      exact ⟨dupFrame_refl s, fun _ _ _ _ => rfl⟩
    | some k =>
      obtain ⟨hk, hfree, _⟩ := (allocate_find_some_iff s k).mp hf
      rw [fix_duplicate_step_claimant fu s x k hx hc hf]
      by_cases hr : Readable (alloc_state s k).img (inode_direct_block (inode_of s.img x))
      · rw [if_pos hr]
        refine ⟨reassign_state_frame s k x hk hx hfree, fun y hy hyx hry => ?_⟩
        rw [reassign_state_inode s k x y hk hx hy hc.1.2.1 hry, if_neg hyx]
      · rw [if_neg hr]
        exact ⟨alloc_state_frame s k hk hfree,
          fun y hy _ hry => (alloc_state_table s k hk y hy hry).2⟩
  · rw [fix_duplicate_step_noop fu s x hx hc]
    exact ⟨dupFrame_refl s, fun _ _ _ _ => rfl⟩

theorem fix_duplicate_fold_frame (fu : Nat → Int) (l : List Nat) (hl : ∀ x, x ∈ l → x < 80)
    (s : State) :
    DupFrame s (l.foldl (fix_duplicate_step fu) s)
    ∧ ∀ y, y < 80 → y ∉ l → Readable s.img (inode_block_num y) →
        inode_of (l.foldl (fix_duplicate_step fu) s).img y = inode_of s.img y := by
  induction l generalizing s with
  | nil => exact ⟨dupFrame_refl s, fun _ _ _ _ => rfl⟩
  | cons x xs ih =>
    obtain ⟨f1, i1⟩ := fix_duplicate_step_frame fu s x (hl x (List.mem_cons_self _ _))
    obtain ⟨f2, i2⟩ := ih (fun a ha => hl a (List.mem_cons_of_mem _ ha)) (fix_duplicate_step fu s x)
    rw [List.foldl_cons]
    refine ⟨dupFrame_trans _ _ _ f1 f2, fun y hy hmem hry => ?_⟩
    have hyx : y ≠ x := fun hc => hmem (by rw [hc]; exact List.mem_cons_self _ _)
    have hyxs : y ∉ xs := fun hc => hmem (List.mem_cons_of_mem _ hc)
    rw [i2 y hy hyxs (f1.2.2.1 _ hry), i1 y hy hyx hry]

theorem foldl_fixed {σ α : Type} (f : σ → α → σ) (l : List α) (s : σ)
    (h : ∀ a, a ∈ l → f s a = s) : l.foldl f s = s := by
  induction l with
  | nil => rfl
  | cons x xs ih =>
    rw [List.foldl_cons, h x (List.mem_cons_self _ _)]
    exact ih (fun a ha => h a (List.mem_cons_of_mem _ ha))

theorem range_split (j : Nat) (h : j < 80) :
    List.range INODE_COUNT = List.range j ++ j :: List.range' (j + 1) (79 - j) := by
  show List.range 80 = _
  rw [List.range_eq_range', List.range_eq_range']
  have e : 80 = (79 - j + 1) + j := by omega
  rw [e, ← List.range'_append_1, List.range'_succ]
  simp

/-! ### The first loop of the duplicate branch -/

theorem first_user_step_eq (img : Image) (f : Nat → Int) (x : Nat) (hx : x < 80) :
    first_user_step img f x
      = if ValidInode img x ∧ InRange (inode_direct_block (inode_of img x)) then
          (if f (inode_direct_block (inode_of img x)) = -1
            then setAt f (inode_direct_block (inode_of img x)) (x : Int) else f)
        else f := by
  have hb := inode_block_num_bounds x hx
  unfold first_user_step
  dsimp only
  rw [read_block_fst img (inode_block_num x) zeros (by omega)]
  by_cases hr : Readable img (inode_block_num x)
  · simp only [hr, decide_True, Bool.not_true, Bool.false_eq_true, if_false,
      load_inode_read img x zeros hx hr]
    by_cases hv : is_valid_inode (inode_of img x) = true
    · simp only [hv, Bool.not_true, Bool.false_eq_true, if_false]
      by_cases hin : InRange (inode_direct_block (inode_of img x))
      · have hin' : inode_direct_block (inode_of img x) ≥ DATA_BLOCK_START
            ∧ inode_direct_block (inode_of img x) < TOTAL_BLOCKS := hin
        rw [if_pos hin', if_pos (⟨⟨hx, hr, hv⟩, hin⟩ : ValidInode img x ∧ InRange _)]
      · have hin' : ¬ (inode_direct_block (inode_of img x) ≥ DATA_BLOCK_START
            ∧ inode_direct_block (inode_of img x) < TOTAL_BLOCKS) := hin
        rw [if_neg hin', if_neg (fun hc : ValidInode img x ∧ InRange _ => hin hc.2)]
    · simp only [hv, Bool.not_false, if_true]
      rw [if_neg (fun hc : ValidInode img x ∧ InRange _ => hv hc.1.2.2)]
  · simp only [hr, decide_False, Bool.not_false, if_true]
    rw [if_neg (fun hc : ValidInode img x ∧ InRange _ => hr hc.1.2.1)]

theorem first_user_step_keep (img : Image) (f : Nat → Int) (x B : Nat) (hx : x < 80)
    (h : f B ≠ -1 ∨ ¬ (ValidInode img x ∧ inode_direct_block (inode_of img x) = B)) :
    first_user_step img f x B = f B := by
  rw [first_user_step_eq img f x hx]
  by_cases hc : ValidInode img x ∧ InRange (inode_direct_block (inode_of img x))
  · rw [if_pos hc]
    by_cases h1 : f (inode_direct_block (inode_of img x)) = -1
    · rw [if_pos h1]
      have hne : B ≠ inode_direct_block (inode_of img x) := by
        intro hB
        rcases h with h | h
        · rw [hB] at h; exact h h1
        · exact h ⟨hc.1, hB.symm⟩
      simp only [setAt, if_neg hne]
    · rw [if_neg h1]
  · rw [if_neg hc]

theorem first_user_fold_keep (img : Image) (B : Nat) (l : List Nat) (hl : ∀ x, x ∈ l → x < 80)
    (f : Nat → Int)
    (h : f B ≠ -1 ∨ ∀ x, x ∈ l → ¬ (ValidInode img x ∧ inode_direct_block (inode_of img x) = B)) :
    l.foldl (first_user_step img) f B = f B := by
  induction l generalizing f with
  | nil => rfl
  | cons x xs ih =>
    have hx := hl x (List.mem_cons_self _ _)
    have e1 : first_user_step img f x B = f B :=
      first_user_step_keep img f x B hx (h.imp id (fun h => h x (List.mem_cons_self _ _)))
    rw [List.foldl_cons, ih (fun a ha => hl a (List.mem_cons_of_mem _ ha)) _
      (by rw [e1]; exact h.imp id (fun h a ha => h a (List.mem_cons_of_mem _ ha))), e1]

theorem first_user_lowest (img : Image) (B i : Nat) (hv : ValidInode img i)
    (hd : inode_direct_block (inode_of img i) = B) (hB : InRange B)
    (hlow : ∀ x, x < i → ¬ (ValidInode img x ∧ inode_direct_block (inode_of img x) = B)) :
    (List.range INODE_COUNT).foldl (first_user_step img) (fun _ => (-1 : Int)) B = (i : Int) := by
  have hi := hv.1
  rw [range_split i hi, List.foldl_append, List.foldl_cons]
  have e0 : (List.range i).foldl (first_user_step img) (fun _ => (-1 : Int)) B = -1 :=
    first_user_fold_keep img B (List.range i) (fun x hx => by have := List.mem_range.mp hx; omega) _
      (Or.inr (fun x hx => hlow x (List.mem_range.mp hx)))
  have e1 : first_user_step img ((List.range i).foldl (first_user_step img) (fun _ => (-1 : Int))) i B
      = (i : Int) := by
    rw [first_user_step_eq img _ i hi, if_pos ⟨hv, by rw [hd]; exact hB⟩, hd, if_pos e0]
    simp only [setAt, if_true]
  rw [first_user_fold_keep img B _ (fun x hx => by
      have := (List.mem_range'_1.mp hx).2; omega) _ (Or.inl (by rw [e1]; omega)), e1]

theorem reassign_state_readable_new (s : State) (k x : Nat) (hk : k < 56) :
    Readable (reassign_state s k x).img (k + 8) :=
  readable_write _ _ _ (k + 8)
    (write_block_readable _ (k + DATA_BLOCK_START) _ (by show k + 8 < 64; omega))

theorem fix_duplicates_eq (s : State) (h : s.duplicate_block_errors > 0) :
    fix_duplicates s =
      { (List.range INODE_COUNT).foldl (fix_duplicate_step
          ((List.range INODE_COUNT).foldl (first_user_step s.img) (fun _ => (-1 : Int)))) s with
        img := (write_block ((List.range INODE_COUNT).foldl (fix_duplicate_step
          ((List.range INODE_COUNT).foldl (first_user_step s.img) (fun _ => (-1 : Int)))) s).img
          (DATA_BITMAP_BLOCK_NUM : Int)
          ((List.range INODE_COUNT).foldl (fix_duplicate_step
          ((List.range INODE_COUNT).foldl (first_user_step s.img) (fun _ => (-1 : Int)))) s).data_bitmap).2 } := by
  unfold fix_duplicates
  rw [if_pos h]

/-- The second loop of the duplicate branch when inode `j` is the first
claimant it meets and `k` is the first clear bit of the data bitmap. -/
theorem fix_duplicate_fold_first_claimant (fu : Nat → Int) (s : State) (j k : Nat)
    (hj : j < 80) (hc : Claimant fu s j)
    (hbefore : ∀ x, x < j → ¬ Claimant fu s x)
    (hk : k < 56) (hfree : is_used_bit s.data_bitmap k = false)
    (hleast : ∀ m, m < k → is_used_bit s.data_bitmap m = true)
    (hrd : Readable s.img (inode_direct_block (inode_of s.img j))) :
    DupFrame (reassign_state s k j) ((List.range INODE_COUNT).foldl (fix_duplicate_step fu) s)
    ∧ ∀ y, y ≤ j → Readable (reassign_state s k j).img (inode_block_num y) →
        inode_of ((List.range INODE_COUNT).foldl (fix_duplicate_step fu) s).img y
          = inode_of (reassign_state s k j).img y := by
  have hf := (allocate_find_some_iff s k).mpr ⟨hk, hfree, hleast⟩
  have e0 : (List.range j).foldl (fix_duplicate_step fu) s = s :=
    foldl_fixed _ _ s (fun x hx =>
      fix_duplicate_step_noop fu s x (by have := List.mem_range.mp hx; omega)
        (hbefore x (List.mem_range.mp hx)))
  have e1 : fix_duplicate_step fu s j = reassign_state s k j := by
    rw [fix_duplicate_step_claimant fu s j k hj hc hf, if_pos (alloc_state_readable s k _ hrd)]
  rw [range_split j hj, List.foldl_append, List.foldl_cons, e0, e1]
  obtain ⟨f, i⟩ := fix_duplicate_fold_frame fu (List.range' (j + 1) (79 - j))
    (fun x hx => by have := (List.mem_range'_1.mp hx).2; omega) (reassign_state s k j)
  refine ⟨f, fun y hy hr => i y (by omega) (fun hm => ?_) hr⟩
  have := (List.mem_range'_1.mp hm).1
  omega

/-! ## Lemmas: what each check writes -/

theorem check_superblock_frame (s : State) :
    ∃ sb n, (check_superblock s).2 = { s with superblock := sb, superblock_errors := n } := by
  unfold check_superblock
  dsimp only
  split
  · exact ⟨_, _, rfl⟩
  · exact ⟨_, _, rfl⟩

theorem check_inode_bitmap_frame (s : State) :
    ∃ bm n, (check_inode_bitmap s).2 = { s with inode_bitmap := bm, inode_bitmap_errors := n } := by
  unfold check_inode_bitmap
  dsimp only
  split
  · exact ⟨_, _, rfl⟩
  · exact ⟨_, _, rfl⟩

theorem check_data_bitmap_frame (s : State) :
    ∃ bm n, (check_data_bitmap s).2 = { s with data_bitmap := bm, data_bitmap_errors := n } := by
  rcases s with ⟨img, sb, ibm, dbm, used, dupb, e1, e2, e3, e4, e5⟩
  rw [check_data_bitmap]
  by_cases h : (!(read_block img DATA_BITMAP_BLOCK_NUM dbm).1) = true
  · rw [if_pos h]
    exact ⟨_, _, rfl⟩
  · rw [if_neg h]
    exact ⟨_, _, rfl⟩

theorem check_duplicates_snd (s : State) : (check_duplicates s).2 = s := rfl

theorem check_bad_blocks_frame (s : State) : WalkFrame s (check_bad_blocks s).2 := by
  rw [check_bad_blocks_snd]
  exact check_bad_blocks_walk_frame s

theorem pair_fst {α β : Type} (a : α) (b : β) : (a, b).1 = a := rfl

theorem pair_snd {α β : Type} (a : α) (b : β) : (a, b).2 = b := rfl

theorem validate_eq (s : State) :
    validate s =
      ({ superblock_ok := (check_superblock s).1,
         inode_bitmap_ok := (check_inode_bitmap (check_superblock s).2).1,
         data_bitmap_ok := (check_data_bitmap (check_inode_bitmap (check_superblock s).2).2).1,
         duplicates_ok := (check_duplicates (check_data_bitmap
           (check_inode_bitmap (check_superblock s).2).2).2).1,
         bad_blocks_ok := (check_bad_blocks (check_duplicates (check_data_bitmap
           (check_inode_bitmap (check_superblock s).2).2).2).2).1 },
       (check_bad_blocks (check_duplicates (check_data_bitmap
          (check_inode_bitmap (check_superblock s).2).2).2).2).2) := rfl

theorem checks_superblock_ok (a b c d e : Bool) :
    ({ superblock_ok := a, inode_bitmap_ok := b, data_bitmap_ok := c, duplicates_ok := d,
       bad_blocks_ok := e } : Checks).superblock_ok = a := rfl

theorem checks_inode_bitmap_ok (a b c d e : Bool) :
    ({ superblock_ok := a, inode_bitmap_ok := b, data_bitmap_ok := c, duplicates_ok := d,
       bad_blocks_ok := e } : Checks).inode_bitmap_ok = b := rfl

theorem checks_data_bitmap_ok (a b c d e : Bool) :
    ({ superblock_ok := a, inode_bitmap_ok := b, data_bitmap_ok := c, duplicates_ok := d,
       bad_blocks_ok := e } : Checks).data_bitmap_ok = c := rfl

theorem checks_duplicates_ok (a b c d e : Bool) :
    ({ superblock_ok := a, inode_bitmap_ok := b, data_bitmap_ok := c, duplicates_ok := d,
       bad_blocks_ok := e } : Checks).duplicates_ok = d := rfl

theorem checks_bad_blocks_ok (a b c d e : Bool) :
    ({ superblock_ok := a, inode_bitmap_ok := b, data_bitmap_ok := c, duplicates_ok := d,
       bad_blocks_ok := e } : Checks).bad_blocks_ok = e := rfl

theorem validate_snd (s : State) :
    (validate s).2 = (check_bad_blocks (check_duplicates (check_data_bitmap
      (check_inode_bitmap (check_superblock s).2).2).2).2).2 :=
  (congrArg Prod.snd (validate_eq s)).trans (pair_snd _ _)

theorem validate_img (s : State) : (validate s).2.img = s.img := by
  obtain ⟨_, _, e1⟩ := check_superblock_frame s
  obtain ⟨_, _, e2⟩ := check_inode_bitmap_frame (check_superblock s).2
  obtain ⟨_, _, e3⟩ := check_data_bitmap_frame (check_inode_bitmap (check_superblock s).2).2
  obtain ⟨_, _, e5⟩ := check_bad_blocks_frame
    (check_duplicates (check_data_bitmap (check_inode_bitmap (check_superblock s).2).2).2).2
  rw [validate_snd, e5, check_duplicates_snd, e3, e2, e1]
theorem main_eq (img : Image) :
    main img =
      if first_pass_failed img = true then
        { first := (validate (initial_state img)).2, repaired := true,
          final := (validate (reset_counters (fix_errors (validate (initial_state img)).2))).2 }
      else
        { first := (validate (initial_state img)).2, repaired := false,
          final := (validate (initial_state img)).2 } := rfl

theorem run_first (a : State) (b : Bool) (c : State) :
    ({ first := a, repaired := b, final := c } : Run).first = a := rfl

theorem run_repaired (a : State) (b : Bool) (c : State) :
    ({ first := a, repaired := b, final := c } : Run).repaired = b := rfl

theorem run_final (a : State) (b : Bool) (c : State) :
    ({ first := a, repaired := b, final := c } : Run).final = c := rfl

theorem main_first (img : Image) : (main img).first = (validate (initial_state img)).2 := by
  rw [main_eq]
  by_cases h : first_pass_failed img = true
  · rw [if_pos h, run_first]
  · rw [if_neg h, run_first]

theorem main_repaired (img : Image) : (main img).repaired = first_pass_failed img := by
  rw [main_eq]
  by_cases h : first_pass_failed img = true
  · rw [if_pos h, run_repaired, h]
  · rw [if_neg h, run_repaired]
    exact (Bool.eq_false_iff.mpr h).symm

theorem main_final (img : Image) :
    (main img).final
      = if first_pass_failed img = true then
          (validate (reset_counters (fix_errors (validate (initial_state img)).2))).2
        else (validate (initial_state img)).2 := by
  rw [main_eq]
  by_cases h : first_pass_failed img = true
  · rw [if_pos h, if_pos h, run_final]
  · rw [if_neg h, if_neg h, run_final]

/-! ## Lemmas: the duplicate bookkeeping is never written -/

theorem walkFrame_noDuplicates (s t : State) (h : WalkFrame s t) (hs : NoDuplicates s) :
    NoDuplicates t := by
  obtain ⟨u, n, e⟩ := h
  rw [e]
  exact hs

theorem check_duplicates_fst (s : State) (h : ∀ b, s.duplicated_blocks b = false) :
    (check_duplicates s).1 = true := by
  show (List.range' DATA_BLOCK_START (TOTAL_BLOCKS - DATA_BLOCK_START)).foldl
    (fun v i => if s.duplicated_blocks i then false else v) true = true
  apply foldl_fixed
  intro a _
  show (if s.duplicated_blocks a = true then false else true) = true
  rw [h a]
  rfl

theorem fix_superblock_noDuplicates (s : State) (h : NoDuplicates s) :
    NoDuplicates (fix_superblock s) := by
  unfold fix_superblock
  split
  · exact h
  · exact h

theorem fix_inode_bitmap_noDuplicates (s : State) (h : NoDuplicates s) :
    NoDuplicates (fix_inode_bitmap s) := by
  unfold fix_inode_bitmap
  split
  · exact h
  · exact h

theorem fix_data_bitmap_noDuplicates (s : State) (h : NoDuplicates s) :
    NoDuplicates (fix_data_bitmap s) := by
  unfold fix_data_bitmap
  split
  · exact h
  · exact h

theorem fix_bad_blocks_noDuplicates (s : State) (h : NoDuplicates s) :
    NoDuplicates (fix_bad_blocks s) := by
  unfold fix_bad_blocks
  split
  · exact ⟨h.1, h.2⟩
  · exact h

theorem fix_final_write_noDuplicates (s : State) (h : NoDuplicates s) :
    NoDuplicates (fix_final_write s) := by
  unfold fix_final_write
  split
  · exact h
  · exact h

theorem mainReach_noDuplicates (img : Image) (s : State) (h : MainReach img s) :
    NoDuplicates s := by
  induction h with
  | start => exact ⟨fun _ => rfl, rfl⟩
  | check_superblock s _ ih =>
    obtain ⟨_, _, e⟩ := check_superblock_frame s
    rw [e]; exact ih
  | check_inode_bitmap s _ ih =>
    obtain ⟨_, _, e⟩ := check_inode_bitmap_frame s
    rw [e]; exact ih
  | check_data_bitmap s _ ih =>
    obtain ⟨_, _, e⟩ := check_data_bitmap_frame s
    rw [e]; exact ih
  | check_duplicates s _ ih => rw [check_duplicates_snd]; exact ih
  | check_bad_blocks s _ ih => exact walkFrame_noDuplicates _ _ (check_bad_blocks_frame s) ih
  | check_bad_blocks_step s i _ ih =>
    exact walkFrame_noDuplicates _ _ (check_bad_blocks_step_frame s i) ih
  | check_indirect_block s level B _ ih =>
    exact walkFrame_noDuplicates _ _ (check_indirect_block_frame level B s) ih
  | fix_superblock s _ ih => exact fix_superblock_noDuplicates s ih
  | fix_inode_bitmap s _ ih => exact fix_inode_bitmap_noDuplicates s ih
  | fix_data_bitmap s _ ih => exact fix_data_bitmap_noDuplicates s ih
  | fix_duplicates s _ ih => rw [fix_duplicates_skip s ih.2]; exact ih
  | fix_bad_blocks s _ ih => exact fix_bad_blocks_noDuplicates s ih
  | fix_final_write s _ ih => exact fix_final_write_noDuplicates s ih
  | reset s _ ih => exact ⟨ih.1, rfl⟩

theorem mainReach_validate (img : Image) (s : State) (h : MainReach img s) :
    MainReach img (validate s).2 := by
  rw [validate_snd]
  exact MainReach.check_bad_blocks _ (MainReach.check_duplicates _ (MainReach.check_data_bitmap _
    (MainReach.check_inode_bitmap _ (MainReach.check_superblock _ h))))

theorem fix_errors_eq (s : State) :
    fix_errors s = fix_final_write (fix_bad_blocks (fix_duplicates (fix_data_bitmap
      (fix_inode_bitmap (fix_superblock s))))) := rfl

theorem mainReach_fix_errors (img : Image) (s : State) (h : MainReach img s) :
    MainReach img (fix_errors s) := by
  rw [fix_errors_eq]
  exact MainReach.fix_final_write _ (MainReach.fix_bad_blocks _ (MainReach.fix_duplicates _
    (MainReach.fix_data_bitmap _ (MainReach.fix_inode_bitmap _ (MainReach.fix_superblock _ h)))))

theorem mainReach_first (img : Image) : MainReach img (main img).first := by
  rw [main_first]
  exact mainReach_validate img _ MainReach.start

theorem mainReach_final (img : Image) : MainReach img (main img).final := by
  rw [main_final]
  by_cases h : first_pass_failed img = true
  · rw [if_pos h]
    exact mainReach_validate img _ (MainReach.reset _
      (mainReach_fix_errors img _ (mainReach_validate img _ MainReach.start)))
  · rw [if_neg h]
    exact mainReach_validate img _ MainReach.start

/-! ## Lemmas: check_data_bitmap -/

theorem check_data_bitmap_step_eq (bm : Bytes) (used : Nat → Bool) (acc : Bool × Nat) (i : Nat) :
    check_data_bitmap_step bm used acc i
      = (acc.1 && !(is_used_bit bm (i - 8) != used i),
         acc.2 + (if (is_used_bit bm (i - 8) != used i) = true then 1 else 0)) := by
  unfold check_data_bitmap_step
  show (if is_used_bit bm (i - 8) = true then
      (if (!used i) = true then (false, acc.2 + 1) else acc)
    else (if used i = true then (false, acc.2 + 1) else acc)) = _
  cases hb : is_used_bit bm (i - 8) <;> cases hu : used i <;> simp

theorem check_data_bitmap_fold (bm : Bytes) (used : Nat → Bool) (l : List Nat) (acc : Bool × Nat) :
    l.foldl (check_data_bitmap_step bm used) acc
      = (acc.1 && decide (l.countP (fun b => is_used_bit bm (b - 8) != used b) = 0),
         acc.2 + l.countP (fun b => is_used_bit bm (b - 8) != used b)) := by
  induction l generalizing acc with
  | nil => simp
  | cons x xs ih =>
    rw [List.foldl_cons, ih, check_data_bitmap_step_eq, List.countP_cons]
    cases hx : (is_used_bit bm (x - 8) != used x)
    · simp
    · simp
      omega

theorem bitmap_mismatches_congr (bm bm' : Bytes) (used used' : Nat → Bool)
    (hb : ∀ k, k < 56 → is_used_bit bm' k = is_used_bit bm k)
    (hu : ∀ b, 8 ≤ b → b < 64 → used' b = used b) :
    bitmap_mismatches bm' used' = bitmap_mismatches bm used := by
  unfold bitmap_mismatches
  apply List.countP_congr
  intro b hb'
  have := List.mem_range'_1.mp hb'
  rw [hb (b - 8) (by omega), hu b (by omega) (by omega)]

theorem check_data_bitmap_readable (s : State) (hr : Readable s.img 2) :
    (check_data_bitmap s).2.data_bitmap_errors
        = s.data_bitmap_errors + bitmap_mismatches (block_of s.img 2) s.used_blocks
    ∧ ((check_data_bitmap s).1 = true
        ↔ bitmap_mismatches (block_of s.img 2) s.used_blocks = 0)
    ∧ (∀ k, k < 32768 → is_used_bit (check_data_bitmap s).2.data_bitmap k
        = is_used_bit (block_of s.img 2) k) := by
  have h1 := read_block_fst s.img 2 s.data_bitmap (by omega)
  simp only [hr, decide_True] at h1
  have hbm : ∀ k, k < 32768 → is_used_bit (read_block s.img ((2 : Nat) : Int) s.data_bitmap).2 k
      = is_used_bit (block_of s.img 2) k :=
    fun k hk => is_used_bit_congr _ _ _
      (read_block_snd s.img 2 s.data_bitmap (by omega) hr _ (by omega))
  have hm : bitmap_mismatches (read_block s.img ((2 : Nat) : Int) s.data_bitmap).2 s.used_blocks
      = bitmap_mismatches (block_of s.img 2) s.used_blocks :=
    bitmap_mismatches_congr _ _ _ _ (fun k hk => hbm k (by omega)) (fun _ _ _ => rfl)
  have hn : ¬ ((!(read_block s.img DATA_BITMAP_BLOCK_NUM s.data_bitmap).1) = true) := by
    rw [show ((DATA_BITMAP_BLOCK_NUM : Nat) : Int) = ((2 : Nat) : Int) from rfl, h1]
    decide
  have e : List.range' DATA_BLOCK_START (TOTAL_BLOCKS - DATA_BLOCK_START) = List.range' 8 56 := rfl
  unfold bitmap_mismatches at hm ⊢
  rw [check_data_bitmap, if_neg hn, check_data_bitmap_fold, pair_fst, pair_snd, e]
  dsimp only
  rw [show ((DATA_BITMAP_BLOCK_NUM : Nat) : Int) = ((2 : Nat) : Int) from rfl, hm]
  refine ⟨rfl, ?_, hbm⟩
  simp

/-! ## Lemmas: the bytes the bad-block branch writes -/

theorem wr32_outside (b : Bytes) (off v a : Nat) (h : a < off ∨ off + 4 ≤ a) :
    wr32 b off v a = b a := by
  have n0 : a ≠ off := by omega
  have n1 : a ≠ off + 1 := by omega
  have n2 : a ≠ off + 2 := by omega
  have n3 : a ≠ off + 3 := by omega
  simp only [wr32, n0, n1, n2, n3, if_false]

theorem fix_block_reference_outside (ino : Bytes) (f a : Nat) (h : a < f ∨ f + 4 ≤ a) :
    fix_block_reference ino f a = ino a := by
  unfold fix_block_reference
  split
  · exact wr32_outside ino f 0 a h
  · rfl

theorem fix_all_inode_blocks_outside (ino : Bytes) (a : Nat) (h : a < 40 ∨ 56 ≤ a) :
    fix_all_inode_blocks ino a = ino a := by
  unfold fix_all_inode_blocks
  rw [fix_block_reference_outside _ 52 a (by omega), fix_block_reference_outside _ 48 a (by omega),
    fix_block_reference_outside _ 44 a (by omega), fix_block_reference_outside _ 40 a (by omega)]

theorem fix_bad_blocks_step_skip (m : Image) (j : Nat) (hj : j < 80) (h : ¬ ValidInode m j) :
    fix_bad_blocks_step m j = m := by
  have hb := inode_block_num_bounds j hj
  unfold fix_bad_blocks_step
  dsimp only
  rw [read_block_fst m (inode_block_num j) zeros (by omega)]
  by_cases hr : Readable m (inode_block_num j)
  · simp only [hr, decide_True, Bool.not_true, Bool.false_eq_true, if_false,
      load_inode_read m j zeros hj hr]
    have hv : ¬ is_valid_inode (inode_of m j) = true := fun hv => h ⟨hj, hr, hv⟩
    simp only [hv, Bool.not_false, if_true]
  · simp only [hr, decide_False, Bool.not_false, if_true]

theorem fix_bad_blocks_step_byte (m : Image) (j : Nat) (hj : j < 80) (a : Nat) (ha : a < m.size)
    (hout : ¬ (12288 + 256 * j + 40 ≤ a ∧ a < 12288 + 256 * j + 56)) :
    (fix_bad_blocks_step m j).byte a = m.byte a := by
  by_cases hv : ValidInode m j
  · obtain ⟨_, hr, hval⟩ := hv
    have hb := inode_block_num_bounds j hj
    have ho := inode_offset_bound j
    have hadr := inode_addr j hj 0
    unfold fix_bad_blocks_step
    dsimp only
    rw [read_block_fst m (inode_block_num j) zeros (by omega)]
    simp only [hr, decide_True, Bool.not_true, Bool.false_eq_true, if_false,
      load_inode_read m j zeros hj hr]
    simp only [hval, Bool.not_true, Bool.false_eq_true, if_false]
    rw [write_block_byte m (inode_block_num j) _ (by omega) a ha]
    by_cases hin : inode_block_num j * 4096 ≤ a ∧ a < inode_block_num j * 4096 + 4096
    · rw [if_pos hin]
      unfold store_inode
      by_cases hrec : inode_offset j ≤ a - inode_block_num j * 4096
          ∧ a - inode_block_num j * 4096 < inode_offset j + SIZEOF_INODE
      · rw [if_pos hrec]
        have hrec' : a - inode_block_num j * 4096 < inode_offset j + 212 := hrec.2
        rw [fix_all_inode_blocks_outside _ _ (by omega),
          inode_of_apply m j _ (by omega)]
        apply congrArg
        omega
      · rw [if_neg hrec, read_block_snd m _ zeros (by omega) hr _ (by omega)]
        show m.byte (inode_block_num j * 4096 + (a - inode_block_num j * 4096)) = m.byte a
        apply congrArg
        omega
    · rw [if_neg hin]
  · rw [fix_bad_blocks_step_skip m j hj hv]

theorem fix_bad_blocks_step_valid (m : Image) (j : Nat) (hj : j < 80) (x : Nat) :
    ValidInode (fix_bad_blocks_step m j) x ↔ ValidInode m x := by
  obtain ⟨h1, h2⟩ := fix_bad_blocks_step_inode m j hj
  have key : ∀ hx : x < 80, Readable m (inode_block_num x) →
      is_valid_inode (inode_of (fix_bad_blocks_step m j) x) = is_valid_inode (inode_of m x) := by
    intro hx hr
    rw [h2 x hx hr]
    by_cases hc : x = j ∧ is_valid_inode (inode_of m j) = true
    · rw [if_pos hc, hc.1]
      obtain ⟨_, _, _, _, e1, e2⟩ := fix_all_inode_blocks_fields (inode_of m j)
      unfold is_valid_inode
      rw [e1, e2]
    · rw [if_neg hc]
  constructor
  · rintro ⟨hx, hr, hv⟩
    have hr' : Readable m (inode_block_num x) := readable_of_size_eq _ m _ h1.symm hr
    exact ⟨hx, hr', by rw [← key hx hr']; exact hv⟩
  · rintro ⟨hx, hr, hv⟩
    exact ⟨hx, readable_of_size_eq m _ _ h1 hr, by rw [key hx hr]; exact hv⟩

theorem fix_bad_blocks_fold_byte (l : List Nat) (hl : ∀ j, j ∈ l → j < 80) (m : Image) (a : Nat)
    (ha : a < m.size)
    (hout : ∀ j, j ∈ l → ValidInode m j →
      ¬ (12288 + 256 * j + 40 ≤ a ∧ a < 12288 + 256 * j + 56)) :
    (l.foldl fix_bad_blocks_step m).byte a = m.byte a := by
  induction l generalizing m with
  | nil => rfl
  | cons j js ih =>
    have hj := hl j (List.mem_cons_self _ _)
    obtain ⟨h1, _⟩ := fix_bad_blocks_step_inode m j hj
    rw [List.foldl_cons, ih (fun i h => hl i (List.mem_cons_of_mem _ h)) _ (by rw [h1]; exact ha)
      (fun i hi hv => hout i (List.mem_cons_of_mem _ hi)
        ((fix_bad_blocks_step_valid m j hj i).mp hv))]
    by_cases hv : ValidInode m j
    · exact fix_bad_blocks_step_byte m j hj a ha (hout j (List.mem_cons_self _ _) hv)
    · rw [fix_bad_blocks_step_skip m j hj hv]

theorem fix_bad_blocks_img (s : State) :
    (fix_bad_blocks s).img
      = if s.bad_block_errors > 0 then (List.range INODE_COUNT).foldl fix_bad_blocks_step s.img
        else s.img := by
  unfold fix_bad_blocks
  by_cases hb : s.bad_block_errors > 0
  · rw [if_pos hb, if_pos hb]
  · rw [if_neg hb, if_neg hb]

theorem fix_bad_blocks_byte (s : State) (a : Nat) (ha : a < s.img.size)
    (hout : ∀ j, ValidInode s.img j →
      ¬ (12288 + 256 * j + 40 ≤ a ∧ a < 12288 + 256 * j + 56)) :
    (fix_bad_blocks s).img.byte a = s.img.byte a := by
  rw [fix_bad_blocks_img]
  by_cases hb : s.bad_block_errors > 0
  · rw [if_pos hb]
    exact fix_bad_blocks_fold_byte (List.range INODE_COUNT) (fun j hj => List.mem_range.mp hj)
      s.img a ha (fun j _ hv => hout j hv)
  · rw [if_neg hb]

theorem fix_bad_blocks_size (s : State) : (fix_bad_blocks s).img.size = s.img.size := by
  rw [fix_bad_blocks_img]
  by_cases hb : s.bad_block_errors > 0
  · rw [if_pos hb]
    exact (fix_bad_blocks_fold_inode (List.range INODE_COUNT)
      (fun j hj => List.mem_range.mp hj) (List.nodup_range _) s.img).1
  · rw [if_neg hb]

theorem fix_bad_blocks_state (s : State) :
    fix_bad_blocks s = { s with img := (fix_bad_blocks s).img } := by
  unfold fix_bad_blocks
  by_cases hb : s.bad_block_errors > 0
  · rw [if_pos hb]
  · rw [if_neg hb]

theorem fix_final_write_byte (s : State) (a : Nat) (ha : a < s.img.size)
    (hout : a < 8192 ∨ 12288 ≤ a) : (fix_final_write s).img.byte a = s.img.byte a := by
  unfold fix_final_write
  split
  · show (write_block s.img ((2 : Nat) : Int) s.data_bitmap).2.byte a = s.img.byte a
    rw [write_block_byte s.img 2 _ (by omega) a ha]
    have hc : ¬ (2 * 4096 ≤ a ∧ a < 2 * 4096 + 4096) := by omega
    rw [if_neg hc]
  · rfl
/-! ## Lemmas: what each branch of `fix_errors` writes -/

theorem fix_superblock_frame (s : State) :
    ∃ sb m, fix_superblock s = { s with superblock := sb, img := m } := by
  unfold fix_superblock
  split
  · exact ⟨_, _, rfl⟩
  · exact ⟨s.superblock, s.img, rfl⟩

theorem fix_inode_bitmap_frame (s : State) :
    ∃ bm m, fix_inode_bitmap s = { s with inode_bitmap := bm, img := m } := by
  unfold fix_inode_bitmap
  split
  · exact ⟨_, _, rfl⟩
  · exact ⟨s.inode_bitmap, s.img, rfl⟩

theorem fix_data_bitmap_frame (s : State) :
    ∃ bm m, fix_data_bitmap s = { s with data_bitmap := bm, img := m } := by
  unfold fix_data_bitmap
  split
  · exact ⟨_, _, rfl⟩
  · exact ⟨s.data_bitmap, s.img, rfl⟩

theorem fix_final_write_frame (s : State) :
    ∃ m, fix_final_write s = { s with img := m } := by
  unfold fix_final_write
  split
  · exact ⟨_, rfl⟩
  · exact ⟨s.img, rfl⟩

theorem fix_superblock_block (s : State) (m : Nat) (hm : m ≠ 0) (hr : Readable s.img m) :
    Readable (fix_superblock s).img m
    ∧ ∀ a, a < 4096 → block_of (fix_superblock s).img m a = block_of s.img m a := by
  unfold fix_superblock
  split
  · exact ⟨readable_write s.img _ _ m hr,
      fun a ha => block_of_write_other s.img 0 m _ (by omega) hm hr a ha⟩
  · exact ⟨hr, fun _ _ => rfl⟩

theorem fix_inode_bitmap_block (s : State) (m : Nat) (hm : m ≠ 1) (hr : Readable s.img m) :
    Readable (fix_inode_bitmap s).img m
    ∧ ∀ a, a < 4096 → block_of (fix_inode_bitmap s).img m a = block_of s.img m a := by
  unfold fix_inode_bitmap
  split
  · exact ⟨readable_write s.img _ _ m hr,
      fun a ha => block_of_write_other s.img 1 m _ (by omega) hm hr a ha⟩
  · exact ⟨hr, fun _ _ => rfl⟩

theorem fix_data_bitmap_block (s : State) (m : Nat) (hm : m ≠ 2) (hr : Readable s.img m) :
    Readable (fix_data_bitmap s).img m
    ∧ ∀ a, a < 4096 → block_of (fix_data_bitmap s).img m a = block_of s.img m a := by
  unfold fix_data_bitmap
  split
  · exact ⟨readable_write s.img _ _ m hr,
      fun a ha => block_of_write_other s.img 2 m _ (by omega) hm hr a ha⟩
  · exact ⟨hr, fun _ _ => rfl⟩

theorem fix_final_write_block (s : State) (m : Nat) (hm : m ≠ 2) (hr : Readable s.img m) :
    Readable (fix_final_write s).img m
    ∧ ∀ a, a < 4096 → block_of (fix_final_write s).img m a = block_of s.img m a := by
  unfold fix_final_write
  split
  · exact ⟨readable_write s.img _ _ m hr,
      fun a ha => block_of_write_other s.img 2 m _ (by omega) hm hr a ha⟩
  · exact ⟨hr, fun _ _ => rfl⟩

theorem fix_bad_blocks_block (s : State) (m : Nat) (hm : m < 3 ∨ 8 ≤ m) (hr : Readable s.img m) :
    Readable (fix_bad_blocks s).img m
    ∧ ∀ a, a < 4096 → block_of (fix_bad_blocks s).img m a = block_of s.img m a := by
  refine ⟨readable_of_size_eq s.img _ m (fix_bad_blocks_size s) hr, fun a ha => ?_⟩
  unfold Readable at hr
  simp only [BLOCK_SIZE] at hr
  show (fix_bad_blocks s).img.byte (m * 4096 + a) = s.img.byte (m * 4096 + a)
  apply fix_bad_blocks_byte s _ (by omega)
  intro j hv hw
  have := hv.1
  omega

theorem readable_of_full_table (img : Image) (h : Readable img 7) (i : Nat) (hi : i < 80) :
    Readable img (inode_block_num i) := by
  have hb := inode_block_num_bounds i hi
  unfold Readable at *
  simp only [BLOCK_SIZE] at *
  omega
theorem fix_errors_nodup (s : State) (hd : s.duplicate_block_errors = 0) :
    fix_errors s = fix_final_write (fix_bad_blocks (fix_data_bitmap
      (fix_inode_bitmap (fix_superblock s)))) := by
  have hd3 : (fix_data_bitmap (fix_inode_bitmap (fix_superblock s))).duplicate_block_errors = 0 := by
    rw [(fix_data_bitmap_counters _).1, (fix_inode_bitmap_counters _).1,
      (fix_superblock_counters _).1, hd]
  rw [fix_errors_eq, fix_duplicates_skip _ hd3]

theorem fix_errors_frame (s : State) (hd : s.duplicate_block_errors = 0) :
    ∃ sb ibm dbm m, fix_errors s
      = { s with superblock := sb, inode_bitmap := ibm, data_bitmap := dbm, img := m } := by
  obtain ⟨sb, m1, e1⟩ := fix_superblock_frame s
  obtain ⟨ibm, m2, e2⟩ := fix_inode_bitmap_frame (fix_superblock s)
  obtain ⟨dbm, m3, e3⟩ := fix_data_bitmap_frame (fix_inode_bitmap (fix_superblock s))
  have e4 := fix_bad_blocks_state (fix_data_bitmap (fix_inode_bitmap (fix_superblock s)))
  obtain ⟨m5, e5⟩ := fix_final_write_frame
    (fix_bad_blocks (fix_data_bitmap (fix_inode_bitmap (fix_superblock s))))
  refine ⟨sb, ibm, dbm, m5, ?_⟩
  rw [fix_errors_nodup s hd, e5, e4, e3, e2, e1]

theorem fix_errors_block0_canonical (s : State) (hr0 : Readable s.img 0)
    (h : s.superblock_errors > 0 ∨ sb_canonical (block_of s.img 0)) :
    Readable (fix_errors s).img 0 ∧ sb_canonical (block_of (fix_errors s).img 0) := by
  by_cases he : s.superblock_errors > 0
  · have hb := fix_errors_block0 s he
    exact ⟨hb.1, block0_canonical _ _ hb (set_geometry_canonical s.superblock)⟩
  · have hc : sb_canonical (block_of s.img 0) := by
      rcases h with h | h
      · exact absurd h he
      · exact h
    have e : fix_superblock s = s := by
      unfold fix_superblock
      rw [if_neg he]
    have h0 : Block0 (fix_superblock s).img (block_of s.img 0) := by
      rw [e]
      exact ⟨hr0, fun a _ => by simp only [block_of, Nat.zero_mul, Nat.zero_add]⟩
    have hb : Block0 (fix_errors s).img (block_of s.img 0) := by
      rw [fix_errors_eq]
      exact fix_final_write_block0 _ _ (fix_bad_blocks_block0 _ _ (fix_duplicates_block0 _ _
        (fix_data_bitmap_block0 _ _ (fix_inode_bitmap_block0 _ _ h0))))
    exact ⟨hb.1, block0_canonical _ _ hb hc⟩

theorem fix_errors_data_block (s : State) (hd : s.duplicate_block_errors = 0) (m : Nat)
    (hm : 8 ≤ m) (hr : Readable s.img m) :
    Readable (fix_errors s).img m
    ∧ ∀ a, a < 4096 → block_of (fix_errors s).img m a = block_of s.img m a := by
  obtain ⟨r1, b1⟩ := fix_superblock_block s m (by omega) hr
  obtain ⟨r2, b2⟩ := fix_inode_bitmap_block _ m (by omega) r1
  obtain ⟨r3, b3⟩ := fix_data_bitmap_block _ m (by omega) r2
  obtain ⟨r4, b4⟩ := fix_bad_blocks_block _ m (Or.inr hm) r3
  obtain ⟨r5, b5⟩ := fix_final_write_block _ m (by omega) r4
  rw [fix_errors_nodup s hd]
  exact ⟨r5, fun a ha => by rw [b5 a ha, b4 a ha, b3 a ha, b2 a ha, b1 a ha]⟩

theorem fix_errors_valid (s : State) (hd : s.duplicate_block_errors = 0) (i : Nat)
    (hv : ValidInode s.img i) : ValidInode (fix_errors s).img i := by
  obtain ⟨r, e⟩ := fix_errors_inode s hd i hv.1 hv.2.1
  refine ⟨hv.1, r, ?_⟩
  rw [e]
  by_cases hc : s.bad_block_errors > 0 ∧ is_valid_inode (inode_of s.img i) = true
  · rw [if_pos hc]
    obtain ⟨_, _, _, _, e1, e2⟩ := fix_all_inode_blocks_fields (inode_of s.img i)
    unfold is_valid_inode
    rw [e1, e2]
    exact hv.2.2
  · rw [if_neg hc]
    exact hv.2.2

theorem fix_errors_valid_bool (s : State) (hd : s.duplicate_block_errors = 0) (i : Nat)
    (hi : i < 80) (hr : Readable s.img (inode_block_num i)) :
    is_valid_inode (inode_of (fix_errors s).img i) = is_valid_inode (inode_of s.img i) := by
  rw [(fix_errors_inode s hd i hi hr).2]
  by_cases hc : s.bad_block_errors > 0 ∧ is_valid_inode (inode_of s.img i) = true
  · rw [if_pos hc]
    obtain ⟨_, _, _, _, e1, e2⟩ := fix_all_inode_blocks_fields (inode_of s.img i)
    unfold is_valid_inode
    rw [e1, e2]
  · rw [if_neg hc]

/-- Block 1 after `fix_errors`: rebuilt from the validity of the inodes when
the inode-bitmap counter is non-zero, and as before otherwise. -/
theorem fix_errors_block1 (s : State) (hd : s.duplicate_block_errors = 0)
    (hr1 : Readable s.img 1) (hr7 : Readable s.img 7) (k : Nat) (hk : k < 32768) :
    is_used_bit (block_of (fix_errors s).img 1) k
      = if s.inode_bitmap_errors > 0 then decide (k < 80) && is_valid_inode (inode_of s.img k)
        else is_used_bit (block_of s.img 1) k := by
  obtain ⟨sb, m1, e1⟩ := fix_superblock_frame s
  have hie : (fix_superblock s).inode_bitmap_errors = s.inode_bitmap_errors := by rw [e1]
  obtain ⟨r1, b1⟩ := fix_superblock_block s 1 (by omega) hr1
  have hr2 : Readable (fix_inode_bitmap (fix_superblock s)).img 1 := by
    unfold fix_inode_bitmap
    split
    · exact readable_write _ _ _ 1 r1
    · exact r1
  obtain ⟨r3, b3⟩ := fix_data_bitmap_block (fix_inode_bitmap (fix_superblock s)) 1 (by omega) hr2
  obtain ⟨r4, b4⟩ := fix_bad_blocks_block _ 1 (Or.inl (by omega)) r3
  obtain ⟨r5, b5⟩ := fix_final_write_block _ 1 (by omega) r4
  rw [fix_errors_nodup s hd]
  rw [is_used_bit_congr _ _ k ((b5 _ (by omega)).trans ((b4 _ (by omega)).trans (b3 _ (by omega))))]
  by_cases he : s.inode_bitmap_errors > 0
  · rw [if_pos he, fix_inode_bitmap_eq _ (by rw [hie]; exact he)]
    dsimp only
    rw [is_used_bit_block_of_write _ 1 _ (by omega) k hk, Bool.eq_iff_iff,
      inode_bitmap_rebuilt_bit]
    have t1 := fix_superblock_table s
    simp only [Bool.and_eq_true, decide_eq_true_eq]
    constructor
    · rintro ⟨hi, hr, hv⟩
      have hri : Readable s.img (inode_block_num k) :=
        readable_of_full_table s.img hr7 k hi
      rw [(t1 k hi hri).2] at hv
      exact ⟨hi, hv⟩
    · rintro ⟨hi, hv⟩
      have hri : Readable s.img (inode_block_num k) :=
        readable_of_full_table s.img hr7 k hi
      exact ⟨hi, (t1 k hi hri).1, by rw [(t1 k hi hri).2]; exact hv⟩
  · rw [if_neg he]
    have e : fix_inode_bitmap (fix_superblock s) = fix_superblock s := by
      unfold fix_inode_bitmap
      rw [if_neg (by rw [hie]; exact he)]
    rw [e]
    exact is_used_bit_congr _ _ k (b1 _ (by omega))
/-! ## Lemmas: one validation pass, field by field -/

theorem frame_superblock_fields (s t : State)
    (h : ∃ sb n, t = { s with superblock := sb, superblock_errors := n }) :
    t.img = s.img ∧ t.inode_bitmap = s.inode_bitmap ∧ t.data_bitmap = s.data_bitmap
    ∧ t.used_blocks = s.used_blocks ∧ t.duplicated_blocks = s.duplicated_blocks
    ∧ t.inode_bitmap_errors = s.inode_bitmap_errors
    ∧ t.data_bitmap_errors = s.data_bitmap_errors
    ∧ t.duplicate_block_errors = s.duplicate_block_errors
    ∧ t.bad_block_errors = s.bad_block_errors := by
  obtain ⟨sb, n, e⟩ := h
  subst e
  exact ⟨rfl, rfl, rfl, rfl, rfl, rfl, rfl, rfl, rfl⟩

theorem frame_inode_bitmap_fields (s t : State)
    (h : ∃ bm n, t = { s with inode_bitmap := bm, inode_bitmap_errors := n }) :
    t.img = s.img ∧ t.superblock = s.superblock ∧ t.data_bitmap = s.data_bitmap
    ∧ t.used_blocks = s.used_blocks ∧ t.duplicated_blocks = s.duplicated_blocks
    ∧ t.superblock_errors = s.superblock_errors
    ∧ t.data_bitmap_errors = s.data_bitmap_errors
    ∧ t.duplicate_block_errors = s.duplicate_block_errors
    ∧ t.bad_block_errors = s.bad_block_errors := by
  obtain ⟨bm, n, e⟩ := h
  subst e
  exact ⟨rfl, rfl, rfl, rfl, rfl, rfl, rfl, rfl, rfl⟩

theorem frame_data_bitmap_fields (s t : State)
    (h : ∃ bm n, t = { s with data_bitmap := bm, data_bitmap_errors := n }) :
    t.img = s.img ∧ t.superblock = s.superblock ∧ t.inode_bitmap = s.inode_bitmap
    ∧ t.used_blocks = s.used_blocks ∧ t.duplicated_blocks = s.duplicated_blocks
    ∧ t.superblock_errors = s.superblock_errors
    ∧ t.inode_bitmap_errors = s.inode_bitmap_errors
    ∧ t.duplicate_block_errors = s.duplicate_block_errors
    ∧ t.bad_block_errors = s.bad_block_errors := by
  obtain ⟨bm, n, e⟩ := h
  subst e
  exact ⟨rfl, rfl, rfl, rfl, rfl, rfl, rfl, rfl, rfl⟩

theorem walkFrame_fields (s t : State) (h : WalkFrame s t) :
    t.img = s.img ∧ t.superblock = s.superblock ∧ t.inode_bitmap = s.inode_bitmap
    ∧ t.data_bitmap = s.data_bitmap ∧ t.duplicated_blocks = s.duplicated_blocks
    ∧ t.superblock_errors = s.superblock_errors
    ∧ t.inode_bitmap_errors = s.inode_bitmap_errors
    ∧ t.data_bitmap_errors = s.data_bitmap_errors
    ∧ t.duplicate_block_errors = s.duplicate_block_errors := by
  obtain ⟨u, n, e⟩ := h
  subst e
  exact ⟨rfl, rfl, rfl, rfl, rfl, rfl, rfl, rfl, rfl⟩

theorem frame_repair_fields (s t : State)
    (h : ∃ sb ibm dbm m, t
      = { s with superblock := sb, inode_bitmap := ibm, data_bitmap := dbm, img := m }) :
    t.used_blocks = s.used_blocks ∧ t.duplicated_blocks = s.duplicated_blocks
    ∧ t.superblock_errors = s.superblock_errors
    ∧ t.inode_bitmap_errors = s.inode_bitmap_errors
    ∧ t.data_bitmap_errors = s.data_bitmap_errors
    ∧ t.duplicate_block_errors = s.duplicate_block_errors
    ∧ t.bad_block_errors = s.bad_block_errors := by
  obtain ⟨sb, ibm, dbm, m, e⟩ := h
  subst e
  exact ⟨rfl, rfl, rfl, rfl, rfl, rfl, rfl⟩

theorem validate_superblock_errors (s : State) :
    (validate s).2.superblock_errors = (check_superblock s).2.superblock_errors := by
  rw [validate_snd,
    (walkFrame_fields _ _ (check_bad_blocks_frame _)).2.2.2.2.2.1, check_duplicates_snd,
    (frame_data_bitmap_fields _ _ (check_data_bitmap_frame _)).2.2.2.2.2.1,
    (frame_inode_bitmap_fields _ _ (check_inode_bitmap_frame _)).2.2.2.2.2.1]

theorem validate_inode_bitmap_errors (s : State) :
    (validate s).2.inode_bitmap_errors
      = (check_inode_bitmap (check_superblock s).2).2.inode_bitmap_errors := by
  rw [validate_snd,
    (walkFrame_fields _ _ (check_bad_blocks_frame _)).2.2.2.2.2.2.1, check_duplicates_snd,
    (frame_data_bitmap_fields _ _ (check_data_bitmap_frame _)).2.2.2.2.2.2.1]

theorem validate_data_bitmap_errors (s : State) :
    (validate s).2.data_bitmap_errors
      = (check_data_bitmap (check_inode_bitmap (check_superblock s).2).2).2.data_bitmap_errors := by
  rw [validate_snd,
    (walkFrame_fields _ _ (check_bad_blocks_frame _)).2.2.2.2.2.2.2.1, check_duplicates_snd]

theorem validate_data_bitmap (s : State) :
    (validate s).2.data_bitmap
      = (check_data_bitmap (check_inode_bitmap (check_superblock s).2).2).2.data_bitmap := by
  rw [validate_snd,
    (walkFrame_fields _ _ (check_bad_blocks_frame _)).2.2.2.1, check_duplicates_snd]

theorem validate_walk (s : State) :
    (validate s).2
      = (check_bad_blocks (check_data_bitmap
          (check_inode_bitmap (check_superblock s).2).2).2).2 := by
  rw [validate_snd, check_duplicates_snd]

/-- The state in which a validation pass entered with `s` runs
`check_data_bitmap`, and the state in which it runs `check_bad_blocks`. -/
theorem validate_pre (s : State) :
    (check_inode_bitmap (check_superblock s).2).2.img = s.img
    ∧ (check_inode_bitmap (check_superblock s).2).2.used_blocks = s.used_blocks
    ∧ (check_inode_bitmap (check_superblock s).2).2.data_bitmap_errors = s.data_bitmap_errors
    ∧ (check_data_bitmap (check_inode_bitmap (check_superblock s).2).2).2.img = s.img := by
  have f1 := frame_superblock_fields _ _ (check_superblock_frame s)
  have f2 := frame_inode_bitmap_fields _ _ (check_inode_bitmap_frame (check_superblock s).2)
  have f3 := frame_data_bitmap_fields _ _
    (check_data_bitmap_frame (check_inode_bitmap (check_superblock s).2).2)
  refine ⟨by rw [f2.1, f1.1], by rw [f2.2.2.2.1, f1.2.2.2.1], by rw [f2.2.2.2.2.2.2.1, f1.2.2.2.2.2.2.1],
    by rw [f3.1, f2.1, f1.1]⟩

/-! ## Lemmas: when the counters are zero -/

theorem sb_mismatches_zero (sb : Bytes) (h : sb_mismatches sb = 0) : sb_canonical sb := by
  unfold sb_mismatches at h
  unfold sb_canonical
  refine ⟨?_, ?_, ?_, ?_, ?_, ?_, ?_, ?_, ?_⟩
  · by_contra hc
    rw [if_pos (show sb_magic sb ≠ VSFS_MAGIC from hc)] at h
    omega
  · by_contra hc
    rw [if_pos (show sb_block_size sb ≠ BLOCK_SIZE from hc)] at h
    omega
  · by_contra hc
    rw [if_pos (show sb_total_blocks sb ≠ TOTAL_BLOCKS from hc)] at h
    omega
  · by_contra hc
    rw [if_pos (show sb_inode_bitmap_block sb ≠ INODE_BITMAP_BLOCK_NUM from hc)] at h
    omega
  · by_contra hc
    rw [if_pos (show sb_data_bitmap_block sb ≠ DATA_BITMAP_BLOCK_NUM from hc)] at h
    omega
  · by_contra hc
    rw [if_pos (show sb_inode_table_block sb ≠ INODE_TABLE_START_BLOCK from hc)] at h
    omega
  · by_contra hc
    rw [if_pos (show sb_data_block_start sb ≠ DATA_BLOCK_START from hc)] at h
    omega
  · by_contra hc
    rw [if_pos (show sb_inode_size sb ≠ INODE_SIZE from hc)] at h
    omega
  · by_contra hc
    rw [if_pos (show sb_inode_count sb ≠ INODE_COUNT from hc)] at h
    omega

theorem inode_bitmap_counts_zero (img : Image) :
    (List.range 80).countP (stale_alloc img) + (List.range 80).countP (missing_alloc img) = 0
      ↔ ∀ i, i < 80 → is_used_bit (block_of img 1) i = is_valid_inode (inode_of img i) := by
  rw [Nat.add_eq_zero_iff, List.countP_eq_zero, List.countP_eq_zero]
  constructor
  · rintro ⟨h1, h2⟩ i hi
    have a1 := h1 i (List.mem_range.mpr hi)
    have a2 := h2 i (List.mem_range.mpr hi)
    unfold stale_alloc at a1
    unfold missing_alloc at a2
    have e : block_of img INODE_BITMAP_BLOCK_NUM = block_of img 1 := rfl
    rw [e] at a1 a2
    cases hb : is_used_bit (block_of img 1) i <;> cases hv : is_valid_inode (inode_of img i)
      <;> rw [hb, hv] at a1 a2 <;> simp at a1 a2 ⊢
  · intro h
    constructor
    · intro i hi
      have := h i (List.mem_range.mp hi)
      unfold stale_alloc
      have e : block_of img INODE_BITMAP_BLOCK_NUM = block_of img 1 := rfl
      rw [e, this]
      simp
    · intro i hi
      have := h i (List.mem_range.mp hi)
      unfold missing_alloc
      have e : block_of img INODE_BITMAP_BLOCK_NUM = block_of img 1 := rfl
      rw [e, this]
      simp
/-! ## Lemmas: the first validation pass of `main` -/

theorem reset_counters_fields (s : State) :
    (reset_counters s).img = s.img ∧ (reset_counters s).used_blocks = s.used_blocks
    ∧ (reset_counters s).data_bitmap = s.data_bitmap
    ∧ (reset_counters s).duplicated_blocks = s.duplicated_blocks
    ∧ (reset_counters s).superblock_errors = 0 ∧ (reset_counters s).inode_bitmap_errors = 0
    ∧ (reset_counters s).data_bitmap_errors = 0 ∧ (reset_counters s).duplicate_block_errors = 0
    ∧ (reset_counters s).bad_block_errors = 0 :=
  ⟨rfl, rfl, rfl, rfl, rfl, rfl, rfl, rfl, rfl⟩

theorem initial_state_fields (img : Image) :
    (initial_state img).img = img ∧ (initial_state img).used_blocks = (fun _ => false)
    ∧ (initial_state img).superblock_errors = 0 ∧ (initial_state img).inode_bitmap_errors = 0
    ∧ (initial_state img).data_bitmap_errors = 0 ∧ (initial_state img).duplicate_block_errors = 0
    ∧ (initial_state img).bad_block_errors = 0 :=
  ⟨rfl, rfl, rfl, rfl, rfl, rfl, rfl⟩

theorem first_pass_failed_eq (img : Image) :
    first_pass_failed img
      = (!(check_superblock (initial_state img)).1
        || !(check_inode_bitmap (check_superblock (initial_state img)).2).1
        || !(check_data_bitmap (check_inode_bitmap (check_superblock (initial_state img)).2).2).1
        || !(check_duplicates (check_data_bitmap
              (check_inode_bitmap (check_superblock (initial_state img)).2).2).2).1
        || !(check_bad_blocks (check_duplicates (check_data_bitmap
              (check_inode_bitmap (check_superblock (initial_state img)).2).2).2).2).1) := by
  unfold first_pass_failed
  rw [validate_eq, pair_fst, checks_superblock_ok, checks_inode_bitmap_ok, checks_data_bitmap_ok,
    checks_duplicates_ok, checks_bad_blocks_ok]

/-- The counters after the first validation pass on an image that holds
blocks 0 to 7. -/
theorem first_pass_counters (img : Image) (hr7 : Readable img 7) :
    (main img).first.img = img
    ∧ (main img).first.superblock_errors = sb_mismatches (block_of img 0)
    ∧ (main img).first.inode_bitmap_errors
        = (List.range 80).countP (stale_alloc img) + (List.range 80).countP (missing_alloc img)
    ∧ (main img).first.data_bitmap_errors
        = bitmap_mismatches (block_of img 2) (fun _ => false)
    ∧ (main img).first.duplicate_block_errors = 0
    ∧ (main img).first.bad_block_errors = walk_count 1 img
    ∧ (∀ b, (main img).first.used_blocks b = true ↔ Reachable img b) := by
  have hr0 : Readable img 0 := by unfold Readable at *; simp only [BLOCK_SIZE] at *; omega
  have hr2 : Readable img 2 := by unfold Readable at *; simp only [BLOCK_SIZE] at *; omega
  obtain ⟨i0, u0, c1, c2, c3, c4, c5⟩ := initial_state_fields img
  have f1 := frame_superblock_fields _ _ (check_superblock_frame (initial_state img))
  obtain ⟨p1, p2, p3, p4⟩ := validate_pre (initial_state img)
  rw [main_first]
  refine ⟨by rw [validate_img, i0], ?_, ?_, ?_, ?_, ?_, ?_⟩
  · rw [validate_superblock_errors,
      (check_superblock_readable (initial_state img) (by rw [i0]; exact hr0)).2, c1, i0,
      Nat.zero_add]
  · rw [validate_inode_bitmap_errors,
      (check_inode_bitmap_readable _ (by rw [f1.1, i0]; exact hr7)).1, f1.1, i0]
  · rw [validate_data_bitmap_errors,
      (check_data_bitmap_readable _ (by rw [p1, i0]; exact hr2)).1, p1, p2, p3, i0, u0, c3,
      Nat.zero_add]
  · exact (mainReach_noDuplicates img _ (mainReach_validate img _ MainReach.start)).2
  · rw [validate_walk, (check_bad_blocks_count _).1, p4, i0]
  · intro b
    rw [validate_walk, check_bad_blocks_used_iff_reachable, p4, i0]

theorem first_pass_failed_of_errors (img : Image) (hr7 : Readable img 7)
    (h : (main img).first.superblock_errors > 0 ∨ (main img).first.inode_bitmap_errors > 0
      ∨ (main img).first.data_bitmap_errors > 0 ∨ (main img).first.bad_block_errors > 0) :
    first_pass_failed img = true := by
  have hr0 : Readable img 0 := by unfold Readable at *; simp only [BLOCK_SIZE] at *; omega
  have hr2 : Readable img 2 := by unfold Readable at *; simp only [BLOCK_SIZE] at *; omega
  obtain ⟨i0, u0, c1, c2, c3, c4, c5⟩ := initial_state_fields img
  have f1 := frame_superblock_fields _ _ (check_superblock_frame (initial_state img))
  obtain ⟨p1, p2, p3, p4⟩ := validate_pre (initial_state img)
  obtain ⟨_, e1, e2, e3, _, e5, _⟩ := first_pass_counters img hr7
  rw [e1, e2, e3, e5] at h
  rw [first_pass_failed_eq]
  rcases h with h | h | h | h
  · have hn : (check_superblock (initial_state img)).1 = false := by
      rw [← Bool.not_eq_true]
      intro hc
      have := sb_mismatches_canonical _
        ((check_superblock_readable (initial_state img) (by rw [i0]; exact hr0)).1.mp hc)
      rw [i0] at this
      omega
    rw [hn]
    rfl
  · have hn : (check_inode_bitmap (check_superblock (initial_state img)).2).1 = false := by
      rw [← Bool.not_eq_true]
      intro hc
      have := (inode_bitmap_counts_zero _).mpr
        ((check_inode_bitmap_readable _ (by rw [f1.1, i0]; exact hr7)).2.mp hc)
      rw [f1.1, i0] at this
      omega
    rw [hn]
    simp
  · have hn : (check_data_bitmap (check_inode_bitmap
        (check_superblock (initial_state img)).2).2).1 = false := by
      rw [← Bool.not_eq_true]
      intro hc
      have := (check_data_bitmap_readable _ (by rw [p1, i0]; exact hr2)).2.1.mp hc
      rw [p1, p2, i0, u0] at this
      omega
    rw [hn]
    simp
  · have hn : (check_bad_blocks (check_duplicates (check_data_bitmap (check_inode_bitmap
        (check_superblock (initial_state img)).2).2).2).2).1 = false := by
      rw [← Bool.not_eq_true]
      intro hc
      rw [check_duplicates_snd] at hc
      have := (check_bad_blocks_count _).2.mp hc
      rw [p4, i0] at this
      omega
    rw [hn]
    simp
/-! ## Lemmas: the recheck of `main` -/

theorem main_final_repaired (img : Image) (hf : first_pass_failed img = true) :
    (main img).final = (validate (reset_counters (fix_errors (main img).first))).2 := by
  rw [main_final, if_pos hf, main_first]

theorem main_final_img (img : Image) (hf : first_pass_failed img = true) :
    (main img).final.img = (fix_errors (main img).first).img := by
  rw [main_final_repaired img hf, validate_img, (reset_counters_fields _).1]

theorem readable_low (img : Image) (n m : Nat) (h : Readable img n) (hm : m ≤ n) :
    Readable img m := by
  unfold Readable at *
  have : (m + 1) * BLOCK_SIZE ≤ (n + 1) * BLOCK_SIZE := Nat.mul_le_mul_right _ (by omega)
  omega

theorem recheck_superblock_inode_bitmap (img : Image) (hr7 : Readable img 7)
    (hf : first_pass_failed img = true) :
    (main img).final.superblock_errors = 0 ∧ (main img).final.inode_bitmap_errors = 0 := by
  have hr0 : Readable img 0 := readable_low img 7 0 hr7 (by omega)
  have hr1 : Readable img 1 := readable_low img 7 1 hr7 (by omega)
  obtain ⟨e0, e1, e2, _, e4, _, _⟩ := first_pass_counters img hr7
  obtain ⟨q1, _, _, _, q5, q6, _⟩ := reset_counters_fields (fix_errors (main img).first)
  have g1 := frame_superblock_fields _ _
    (check_superblock_frame (reset_counters (fix_errors (main img).first)))
  -- block 0 after the repair
  have hsb : Readable (fix_errors (main img).first).img 0
      ∧ sb_canonical (block_of (fix_errors (main img).first).img 0) := by
    apply fix_errors_block0_canonical _ (by rw [e0]; exact hr0)
    by_cases h : (main img).first.superblock_errors > 0
    · exact Or.inl h
    · right
      rw [e0]
      exact sb_mismatches_zero _ (by omega)
  -- block 1 after the repair
  have hr7' : Readable (fix_errors (main img).first).img 7 :=
    (fix_errors_inode _ e4 79 (by omega) (by
      rw [e0]; exact readable_of_full_table img hr7 79 (by omega))).1
  have hib : ∀ i, i < 80 → is_used_bit (block_of (fix_errors (main img).first).img 1) i
      = is_valid_inode (inode_of (fix_errors (main img).first).img i) := by
    intro i hi
    rw [fix_errors_block1 _ e4 (by rw [e0]; exact hr1) (by rw [e0]; exact hr7) i (by omega),
      fix_errors_valid_bool _ e4 i hi (by rw [e0]; exact readable_of_full_table img hr7 i hi), e0]
    by_cases h : (main img).first.inode_bitmap_errors > 0
    · rw [if_pos h]
      simp [hi]
    · rw [if_neg h]
      exact (inode_bitmap_counts_zero img).mp (by omega) i hi
  rw [main_final_repaired img hf]
  constructor
  · rw [validate_superblock_errors,
      (check_superblock_readable _ (by rw [q1]; exact hsb.1)).2, q5, q1,
      sb_mismatches_canonical _ hsb.2]
  · rw [validate_inode_bitmap_errors,
      (check_inode_bitmap_readable _ (by rw [g1.1, q1]; exact hr7')).1, g1.1, q1]
    exact (inode_bitmap_counts_zero _).mpr hib
/-! ## Lemmas: reachability in images with the same data region -/

theorem sameData_entryClaims (img1 img2 : Image) (h : SameData img1 img2)
    (D1 D2 : Nat → Nat → Prop) (hD : ∀ p b, InRange p → (D1 p b ↔ D2 p b))
    (B b : Nat) (hB : InRange B) :
    EntryClaims img1 D1 B b ↔ EntryClaims img2 D2 B b := by
  unfold EntryClaims
  obtain ⟨hr, he⟩ := h B hB
  constructor
  · rintro ⟨k, hk, hrd, hin, hc⟩
    rw [he hrd k hk] at hin hc
    refine ⟨k, hk, hr.mp hrd, hin, ?_⟩
    rcases hc with hc | hc
    · exact Or.inl hc
    · exact Or.inr ((hD _ b hin).mp hc)
  · rintro ⟨k, hk, hrd, hin, hc⟩
    rw [← he (hr.mpr hrd) k hk] at hin hc
    refine ⟨k, hk, hr.mpr hrd, hin, ?_⟩
    rcases hc with hc | hc
    · exact Or.inl hc
    · exact Or.inr ((hD _ b hin).mpr hc)

theorem sameData_treeClaims (img1 img2 : Image) (h : SameData img1 img2) (level : Nat) :
    ∀ B b, InRange B → (TreeClaims img1 level B b ↔ TreeClaims img2 level B b) := by
  induction level with
  | zero =>
    intro B b hB
    exact sameData_entryClaims img1 img2 h _ _ (fun _ _ _ => Iff.rfl) B b hB
  | succ n ih =>
    intro B b hB
    show EntryClaims img1 (fun p c => n + 1 > 1 ∧ TreeClaims img1 n p c) B b
      ↔ EntryClaims img2 (fun p c => n + 1 > 1 ∧ TreeClaims img2 n p c) B b
    apply sameData_entryClaims img1 img2 h _ _ _ B b hB
    intro p c hp
    show (n + 1 > 1 ∧ TreeClaims img1 n p c) ↔ (n + 1 > 1 ∧ TreeClaims img2 n p c)
    rw [ih p c hp]

theorem cleared_not_inRange (p : Nat) (h : ¬ InRange p) : ¬ InRange (cleared p) := by
  unfold cleared
  by_cases hc : p ≠ 0 ∧ ¬ InRange p
  · rw [if_pos hc]
    exact not_inRange_zero 0 rfl
  · rw [if_neg hc]
    exact h

theorem sameData_fieldClaims (img1 img2 : Image) (h : SameData img1 img2) (p1 p2 level b : Nat)
    (hp : p2 = p1 ∨ p2 = cleared p1) :
    FieldClaims img1 p1 level b ↔ FieldClaims img2 p2 level b := by
  by_cases hin : InRange p1
  · have e : p2 = p1 := by
      rcases hp with hp | hp
      · exact hp
      · rw [hp, cleared_inRange p1 hin]
    rw [e]
    unfold FieldClaims
    constructor
    · rintro ⟨_, hc⟩
      exact ⟨hin, hc.imp id (sameData_treeClaims img1 img2 h level p1 b hin).mp⟩
    · rintro ⟨_, hc⟩
      exact ⟨hin, hc.imp id (sameData_treeClaims img1 img2 h level p1 b hin).mpr⟩
  · have hin2 : ¬ InRange p2 := by
      rcases hp with hp | hp
      · rw [hp]; exact hin
      · rw [hp]; exact cleared_not_inRange p1 hin
    unfold FieldClaims
    constructor
    · intro hc; exact absurd hc.1 hin
    · intro hc; exact absurd hc.1 hin2

theorem sameData_direct (p1 p2 b : Nat) (hp : p2 = p1 ∨ p2 = cleared p1) :
    (InRange p1 ∧ p1 = b) ↔ (InRange p2 ∧ p2 = b) := by
  by_cases hin : InRange p1
  · have e : p2 = p1 := by
      rcases hp with hp | hp
      · exact hp
      · rw [hp, cleared_inRange p1 hin]
    rw [e]
  · have hin2 : ¬ InRange p2 := by
      rcases hp with hp | hp
      · rw [hp]; exact hin
      · rw [hp]; exact cleared_not_inRange p1 hin
    constructor
    · intro hc; exact absurd hc.1 hin
    · intro hc; exact absurd hc.1 hin2

theorem sameData_inodeClaims (img1 img2 : Image) (h : SameData img1 img2) (i b : Nat)
    (hv : ValidInode img1 i ↔ ValidInode img2 i)
    (h0 : ValidInode img1 i →
      (inode_direct_block (inode_of img2 i) = inode_direct_block (inode_of img1 i)
        ∨ inode_direct_block (inode_of img2 i) = cleared (inode_direct_block (inode_of img1 i)))
      ∧ (inode_single_indirect (inode_of img2 i) = inode_single_indirect (inode_of img1 i)
        ∨ inode_single_indirect (inode_of img2 i)
            = cleared (inode_single_indirect (inode_of img1 i)))
      ∧ (inode_double_indirect (inode_of img2 i) = inode_double_indirect (inode_of img1 i)
        ∨ inode_double_indirect (inode_of img2 i)
            = cleared (inode_double_indirect (inode_of img1 i)))
      ∧ (inode_triple_indirect (inode_of img2 i) = inode_triple_indirect (inode_of img1 i)
        ∨ inode_triple_indirect (inode_of img2 i)
            = cleared (inode_triple_indirect (inode_of img1 i)))) :
    InodeClaims img1 i b ↔ InodeClaims img2 i b := by
  by_cases hv1 : ValidInode img1 i
  · obtain ⟨a0, a1, a2, a3⟩ := h0 hv1
    unfold InodeClaims
    rw [← hv, sameData_direct _ _ b a0, sameData_fieldClaims img1 img2 h _ _ 1 b a1,
      sameData_fieldClaims img1 img2 h _ _ 2 b a2, sameData_fieldClaims img1 img2 h _ _ 3 b a3]
  · have hv2 : ¬ ValidInode img2 i := fun hc => hv1 (hv.mpr hc)
    unfold InodeClaims
    constructor
    · intro hc; exact absurd hc.1 hv1
    · intro hc; exact absurd hc.1 hv2

theorem fix_superblock_size (s : State) (hr : Readable s.img 0) :
    (fix_superblock s).img.size = s.img.size := by
  unfold fix_superblock
  split
  · exact write_block_size s.img 0 _ (by omega) hr
  · rfl

theorem fix_inode_bitmap_size (s : State) (hr : Readable s.img 1) :
    (fix_inode_bitmap s).img.size = s.img.size := by
  unfold fix_inode_bitmap
  split
  · exact write_block_size s.img 1 _ (by omega) hr
  · rfl

theorem fix_data_bitmap_size (s : State) (hr : Readable s.img 2) :
    (fix_data_bitmap s).img.size = s.img.size := by
  unfold fix_data_bitmap
  split
  · exact write_block_size s.img 2 _ (by omega) hr
  · rfl

theorem fix_final_write_size (s : State) (hr : Readable s.img 2) :
    (fix_final_write s).img.size = s.img.size := by
  unfold fix_final_write
  split
  · exact write_block_size s.img 2 _ (by omega) hr
  · rfl

/-- The repair keeps the size of an image that holds blocks 0 to 7, when the
duplicate branch is not entered. -/
theorem fix_errors_size (s : State) (hd : s.duplicate_block_errors = 0)
    (hr7 : Readable s.img 7) : (fix_errors s).img.size = s.img.size := by
  have h1 := fix_superblock_size s (readable_low s.img 7 0 hr7 (by omega))
  have r1 : Readable (fix_superblock s).img 7 := readable_of_size_eq s.img _ 7 h1 hr7
  have h2 := fix_inode_bitmap_size (fix_superblock s) (readable_low _ 7 1 r1 (by omega))
  have r2 : Readable (fix_inode_bitmap (fix_superblock s)).img 7 :=
    readable_of_size_eq _ _ 7 h2 r1
  have h3 := fix_data_bitmap_size (fix_inode_bitmap (fix_superblock s))
    (readable_low _ 7 2 r2 (by omega))
  have r3 : Readable (fix_data_bitmap (fix_inode_bitmap (fix_superblock s))).img 7 :=
    readable_of_size_eq _ _ 7 h3 r2
  have h4 := fix_bad_blocks_size (fix_data_bitmap (fix_inode_bitmap (fix_superblock s)))
  have r4 : Readable (fix_bad_blocks (fix_data_bitmap
      (fix_inode_bitmap (fix_superblock s)))).img 7 := readable_of_size_eq _ _ 7 h4 r3
  have h5 := fix_final_write_size (fix_bad_blocks (fix_data_bitmap
      (fix_inode_bitmap (fix_superblock s)))) (readable_low _ 7 2 r4 (by omega))
  rw [fix_errors_nodup s hd, h5, h4, h3, h2, h1]

/-- The repair leaves the reachable-block set as it was, on an image that
holds blocks 0 to 7, when the duplicate branch is not entered. -/
theorem fix_errors_reachable (s : State) (hd : s.duplicate_block_errors = 0)
    (hr7 : Readable s.img 7) (b : Nat) :
    Reachable (fix_errors s).img b ↔ Reachable s.img b := by
  have hsz := fix_errors_size s hd hr7
  have hsame : SameData s.img (fix_errors s).img := by
    intro B hB
    refine ⟨⟨fun h => readable_of_size_eq s.img _ B hsz h,
      fun h => readable_of_size_eq _ s.img B hsz.symm h⟩, fun hrB k hk => ?_⟩
    obtain ⟨_, e⟩ := fix_errors_data_block s hd B hB.1 hrB
    unfold entry
    exact (rd32_congr _ _ _ (fun a _ h2 => e a (by omega))).symm
  have key : ∀ i, InodeClaims s.img i b ↔ InodeClaims (fix_errors s).img i b := by
    intro i
    apply sameData_inodeClaims s.img _ hsame i b
    · constructor
      · exact fix_errors_valid s hd i
      · rintro ⟨hi, _, hv⟩
        have hri := readable_of_full_table s.img hr7 i hi
        rw [fix_errors_valid_bool s hd i hi hri] at hv
        exact ⟨hi, hri, hv⟩
    · intro hv
      have e := (fix_errors_inode s hd i hv.1 hv.2.1).2
      by_cases hc : s.bad_block_errors > 0 ∧ is_valid_inode (inode_of s.img i) = true
      · rw [if_pos hc] at e
        obtain ⟨f0, f1, f2, f3, _, _⟩ := fix_all_inode_blocks_fields (inode_of s.img i)
        rw [e]
        exact ⟨Or.inr f0, Or.inr f1, Or.inr f2, Or.inr f3⟩
      · rw [if_neg hc] at e
        rw [e]
        exact ⟨Or.inl rfl, Or.inl rfl, Or.inl rfl, Or.inl rfl⟩
  rw [← inodeClaims_iff_reachable, ← inodeClaims_iff_reachable]
  constructor
  · rintro ⟨i, hi⟩
    exact ⟨i, (key i).mpr hi⟩
  · rintro ⟨i, hi⟩
    exact ⟨i, (key i).mp hi⟩

theorem fix_superblock_keeps (s : State) :
    (fix_superblock s).used_blocks = s.used_blocks
    ∧ (fix_superblock s).data_bitmap_errors = s.data_bitmap_errors := by
  obtain ⟨_, _, e⟩ := fix_superblock_frame s
  rw [e]
  exact ⟨rfl, rfl⟩

theorem fix_inode_bitmap_keeps (s : State) :
    (fix_inode_bitmap s).used_blocks = s.used_blocks
    ∧ (fix_inode_bitmap s).data_bitmap_errors = s.data_bitmap_errors := by
  obtain ⟨_, _, e⟩ := fix_inode_bitmap_frame s
  rw [e]
  exact ⟨rfl, rfl⟩
/-! ## Lemmas: the data bitmap after the repair -/

theorem frame_img_fields (s t : State) (h : ∃ m, t = { s with img := m }) :
    t.data_bitmap = s.data_bitmap ∧ t.used_blocks = s.used_blocks
    ∧ t.data_bitmap_errors = s.data_bitmap_errors
    ∧ t.duplicate_block_errors = s.duplicate_block_errors
    ∧ t.bad_block_errors = s.bad_block_errors := by
  obtain ⟨m, e⟩ := h
  subst e
  exact ⟨rfl, rfl, rfl, rfl, rfl⟩

theorem fix_final_write_eq (s : State)
    (h : s.data_bitmap_errors > 0 ∨ s.duplicate_block_errors > 0 ∨ s.bad_block_errors > 0) :
    fix_final_write s
      = { s with img := (write_block s.img ((2 : Nat) : Int) s.data_bitmap).2 } := by
  unfold fix_final_write
  rw [if_pos h]

/-- Block 2 after `fix_errors` entered with a non-zero data-bitmap counter:
bit `k` is set iff `k < 56` and block `k + 8` is in `used_blocks`. -/
theorem fix_errors_block2 (s : State) (hd : s.duplicate_block_errors = 0)
    (he : s.data_bitmap_errors > 0) (k : Nat) (hk : k < 32768) :
    is_used_bit (block_of (fix_errors s).img 2) k
      = (decide (k < 56) && s.used_blocks (k + 8)) := by
  have f1 := fix_superblock_keeps s
  have f2 := fix_inode_bitmap_keeps (fix_superblock s)
  have he3 : (fix_inode_bitmap (fix_superblock s)).data_bitmap_errors > 0 := by
    rw [f2.2, f1.2]; exact he
  have hu3 : (fix_inode_bitmap (fix_superblock s)).used_blocks = s.used_blocks := by
    rw [f2.1, f1.1]
  have e4 := fix_data_bitmap_eq _ he3
  have f5 := frame_img_fields _ _ ⟨_, fix_bad_blocks_state
    (fix_data_bitmap (fix_inode_bitmap (fix_superblock s)))⟩
  have hbm4 : ∀ j, is_used_bit (fix_data_bitmap (fix_inode_bitmap (fix_superblock s))).data_bitmap j
      = (decide (j < 56) && s.used_blocks (j + 8)) := by
    intro j
    rw [e4]
    dsimp only
    rw [hu3]
    exact data_bitmap_rebuilt_bit s.used_blocks j
  have he4 : (fix_data_bitmap (fix_inode_bitmap (fix_superblock s))).data_bitmap_errors > 0 := by
    rw [e4]; exact he3
  have he5 : (fix_bad_blocks (fix_data_bitmap (fix_inode_bitmap
      (fix_superblock s)))).data_bitmap_errors > 0 := by
    rw [f5.2.2.1]; exact he4
  rw [fix_errors_nodup s hd, fix_final_write_eq _ (Or.inl he5)]
  dsimp only
  rw [is_used_bit_block_of_write _ 2 _ (by omega) k hk, f5.1]
  exact hbm4 k

theorem frame_data_bitmap_fields_fix (s : State) :
    (fix_data_bitmap s).used_blocks = s.used_blocks
    ∧ ((fix_data_bitmap s).data_bitmap_errors = s.data_bitmap_errors) := by
  obtain ⟨_, _, e⟩ := fix_data_bitmap_frame s
  rw [e]
  exact ⟨rfl, rfl⟩

theorem recheck_data_bitmap (img : Image) (hr7 : Readable img 7)
    (hf : first_pass_failed img = true) (he : (main img).first.data_bitmap_errors > 0) :
    (main img).final.data_bitmap_errors = 0
    ∧ ∀ b, 8 ≤ b → b < 64 →
        (is_used_bit (block_of (main img).final.img 2) (b - 8) = true
          ↔ Reachable (main img).final.img b) := by
  have hr2 : Readable img 2 := readable_low img 7 2 hr7 (by omega)
  obtain ⟨e0, _, _, _, e4, _, eu⟩ := first_pass_counters img hr7
  obtain ⟨q1, q2, _, _, _, _, q7, _, _⟩ := reset_counters_fields (fix_errors (main img).first)
  obtain ⟨p1, p2, p3, _⟩ := validate_pre (reset_counters (fix_errors (main img).first))
  have hu := (frame_repair_fields _ _ (fix_errors_frame (main img).first e4)).1
  have hbit : ∀ k, k < 32768 → is_used_bit (block_of (fix_errors (main img).first).img 2) k
      = (decide (k < 56) && (main img).first.used_blocks (k + 8)) :=
    fun k hk => fix_errors_block2 _ e4 he k hk
  have hr2' : Readable (fix_errors (main img).first).img 2 := by
    rw [fix_errors_nodup _ e4, fix_final_write_eq _ (Or.inl (by
      rw [(frame_img_fields _ _ ⟨_, fix_bad_blocks_state _⟩).2.2.1,
        (frame_data_bitmap_fields_fix _).2, (fix_inode_bitmap_keeps _).2,
        (fix_superblock_keeps _).2]
      exact he))]
    exact write_block_readable _ 2 _ (by omega)
  constructor
  · rw [main_final_repaired img hf, validate_data_bitmap_errors,
      (check_data_bitmap_readable _ (by rw [p1, q1]; exact hr2')).1, p1, p2, p3, q1, q2, q7, hu,
      Nat.zero_add]
    unfold bitmap_mismatches
    rw [List.countP_eq_zero]
    intro b hb
    have hb' := List.mem_range'_1.mp hb
    rw [hbit (b - 8) (by omega)]
    have e : b - 8 + 8 = b := by omega
    have hlt : b - 8 < 56 := by omega
    simp [e, hlt]
  · intro b h8 h64
    rw [main_final_img img hf, hbit (b - 8) (by omega), fix_errors_reachable _ e4
      (by rw [e0]; exact hr7), e0, ← eu b]
    have e : b - 8 + 8 = b := by omega
    have hlt : b - 8 < 56 := by omega
    simp [e, hlt]
/-! ## Lemmas: the checked program computes what the program computes -/

theorem checked_pos {α : Type} (lo hi i : Nat) (v : α) (h1 : lo ≤ i) (h2 : i < hi) :
    checked lo hi i v = some v := by
  unfold checked
  rw [if_pos ⟨h1, h2⟩]

theorem foldl_checked {σ α : Type} (f : σ → α → σ) (g : Option σ → α → Option σ)
    (l : List α) (h : ∀ s a, a ∈ l → g (some s) a = some (f s a)) (s : σ) :
    l.foldl g (some s) = some (l.foldl f s) := by
  induction l generalizing s with
  | nil => rfl
  | cons x xs ih =>
    rw [List.foldl_cons, List.foldl_cons, h s x (List.mem_cons_self _ _)]
    exact ih (fun s a ha => h s a (List.mem_cons_of_mem _ ha)) _

theorem bind_some {α β : Type} (a : α) (f : α → Option β) : (some a).bind f = f a := rfl

theorem mem_data_range (i : Nat)
    (h : i ∈ List.range' DATA_BLOCK_START (TOTAL_BLOCKS - DATA_BLOCK_START)) :
    8 ≤ i ∧ i < 64 := by
  have h' : i ∈ List.range' 8 56 := h
  have := List.mem_range'_1.mp h'
  omega

theorem checked_bit (i : Nat) {α : Type} (v : α) (h : i < 56) :
    checked 0 (TOTAL_BLOCKS - DATA_BLOCK_START) i v = some v :=
  checked_pos 0 (TOTAL_BLOCKS - DATA_BLOCK_START) i v (Nat.zero_le _) h

theorem checked_block (i : Nat) {α : Type} (v : α) (h8 : 8 ≤ i) (h64 : i < 64) :
    checked DATA_BLOCK_START TOTAL_BLOCKS i v = some v :=
  checked_pos DATA_BLOCK_START TOTAL_BLOCKS i v h8 h64

theorem check_data_bitmap_step_checked_eq (bm : Bytes) (used : Nat → Bool) (acc : Bool × Nat)
    (i : Nat) (h8 : 8 ≤ i) (h64 : i < 64) :
    check_data_bitmap_step_checked bm used (some acc) i
      = some (check_data_bitmap_step bm used acc i) := by
  unfold check_data_bitmap_step_checked check_data_bitmap_step
  rw [bind_some, checked_bit (i - DATA_BLOCK_START) _ (by show i - 8 < 56; omega), bind_some,
    checked_block i _ h8 h64, bind_some]
  split <;> split <;> rfl

theorem check_data_bitmap_checked_eq (s : State) :
    check_data_bitmap_checked s = some (check_data_bitmap s) := by
  rw [check_data_bitmap_checked, check_data_bitmap]
  by_cases h : (!(read_block s.img DATA_BITMAP_BLOCK_NUM s.data_bitmap).1) = true
  · rw [if_pos h, if_pos h]
  · rw [if_neg h, if_neg h]
    rw [foldl_checked (check_data_bitmap_step _ _) (check_data_bitmap_step_checked _ _) _
      (fun acc i hi => check_data_bitmap_step_checked_eq _ _ acc i
        (mem_data_range i hi).1 (mem_data_range i hi).2), bind_some]

theorem check_duplicates_checked_eq (s : State) :
    check_duplicates_checked s = some (check_duplicates s) := by
  unfold check_duplicates_checked check_duplicates
  rw [foldl_checked (fun v i => if s.duplicated_blocks i then false else v)
    (check_duplicates_step_checked s.duplicated_blocks) _ (fun v i hi => by
      unfold check_duplicates_step_checked
      rw [bind_some, checked_block i _ (mem_data_range i hi).1 (mem_data_range i hi).2,
        bind_some]
      show _ = some (if s.duplicated_blocks i = true then false else v)
      by_cases hd : s.duplicated_blocks i = true
      · rw [if_pos hd, if_pos hd]
      · rw [if_neg hd, if_neg hd]), bind_some]

theorem check_indirect_entry_checked_eq (bp : Bytes) (dc : Nat → State → Option State)
    (d : Nat → State → State) (hd : ∀ p t, InRange p → dc p t = some (d p t))
    (s : State) (i : Nat) :
    check_indirect_entry_checked bp dc (some s) i = some (check_indirect_entry bp d s i) := by
  unfold check_indirect_entry_checked check_indirect_entry
  rw [bind_some]
  dsimp only
  by_cases h0 : rd32 bp (4 * i) ≠ 0
  · rw [if_pos h0, if_pos h0]
    by_cases h1 : rd32 bp (4 * i) < DATA_BLOCK_START ∨ rd32 bp (4 * i) ≥ TOTAL_BLOCKS
    · rw [if_pos h1, if_pos h1]
    · rw [if_neg h1, if_neg h1]
      have hin : InRange (rd32 bp (4 * i)) := (inRange_iff _).mpr h1
      rw [checked_block _ _ hin.1 hin.2, bind_some, hd _ _ hin]
  · rw [if_neg h0, if_neg h0]

theorem check_indirect_body_checked_eq (B : Nat) (dc : Nat → State → Option State)
    (d : Nat → State → State) (hd : ∀ p t, InRange p → dc p t = some (d p t))
    (hB : InRange B) (s : State) :
    check_indirect_body_checked B dc s = some (check_indirect_body B d s) := by
  have hB' := (inRange_iff B).mp hB
  unfold check_indirect_body_checked check_indirect_body
  rw [if_neg hB', if_neg hB']
  dsimp only
  by_cases hr : (!(read_block s.img (B : Int) zeros).1) = true
  · rw [if_pos hr, if_pos hr]
  · rw [if_neg hr, if_neg hr]
    exact foldl_checked _ _ _ (fun t k _ => check_indirect_entry_checked_eq _ dc d hd t k) s

theorem check_indirect_block_checked_eq (level : Nat) :
    ∀ (B : Nat) (s : State), InRange B →
      check_indirect_block_checked level B s = some (check_indirect_block level B s) := by
  induction level with
  | zero =>
    intro B s hB
    exact check_indirect_body_checked_eq B _ _ (fun _ _ _ => rfl) hB s
  | succ n ih =>
    intro B s hB
    show check_indirect_body_checked B
        (fun p t => if n + 1 > 1 then check_indirect_block_checked n p t else some t) s
      = some (check_indirect_body B
        (fun p t => if n + 1 > 1 then check_indirect_block n p t else t) s)
    refine check_indirect_body_checked_eq B _ _ (fun p t hp => ?_) hB s
    show (if n + 1 > 1 then check_indirect_block_checked n p t else some t)
      = some (if n + 1 > 1 then check_indirect_block n p t else t)
    by_cases hn : n + 1 > 1
    · rw [if_pos hn, if_pos hn, ih p t hp]
    · rw [if_neg hn, if_neg hn]

theorem check_indirect_field_checked_eq (ptr level : Nat) (s : State) :
    check_indirect_field_checked ptr level (some s) = some (check_indirect_field ptr level s) := by
  unfold check_indirect_field_checked check_indirect_field
  rw [bind_some]
  by_cases h0 : ptr ≠ 0
  · rw [if_pos h0, if_pos h0]
    by_cases h1 : ptr < DATA_BLOCK_START ∨ ptr ≥ TOTAL_BLOCKS
    · rw [if_pos h1, if_pos h1]
    · rw [if_neg h1, if_neg h1]
      have hin : InRange ptr := (inRange_iff _).mpr h1
      rw [checked_block _ _ hin.1 hin.2, bind_some, check_indirect_block_checked_eq level ptr _ hin]
  · rw [if_neg h0, if_neg h0]

theorem check_bad_blocks_step_checked_eq (s : State) (i : Nat) :
    check_bad_blocks_step_checked (some s) i = some (check_bad_blocks_step s i) := by
  unfold check_bad_blocks_step_checked check_bad_blocks_step
  rw [bind_some]
  dsimp only
  by_cases hr : (!(read_block s.img (inode_block_num i : Int) zeros).1) = true
  · rw [if_pos hr, if_pos hr]
  · rw [if_neg hr, if_neg hr]
    by_cases hv : (!is_valid_inode (load_inode (read_block s.img (inode_block_num i : Int) zeros).2
        (inode_offset i))) = true
    · rw [if_pos hv, if_pos hv]
    · rw [if_neg hv, if_neg hv]
      have e1 : ∀ p : Nat,
          (if p ≠ 0 then
            if p < DATA_BLOCK_START ∨ p ≥ TOTAL_BLOCKS then
              some { s with bad_block_errors := s.bad_block_errors + 1 }
            else
              (checked DATA_BLOCK_START TOTAL_BLOCKS p (setAt s.used_blocks p true)).bind fun u =>
                some { s with used_blocks := u }
          else some s)
          = some (if p ≠ 0 then
              if p < DATA_BLOCK_START ∨ p ≥ TOTAL_BLOCKS then
                { s with bad_block_errors := s.bad_block_errors + 1 }
              else { s with used_blocks := setAt s.used_blocks p true }
            else s) := by
        intro p
        by_cases h0 : p ≠ 0
        · rw [if_pos h0, if_pos h0]
          by_cases h1 : p < DATA_BLOCK_START ∨ p ≥ TOTAL_BLOCKS
          · rw [if_pos h1, if_pos h1]
          · rw [if_neg h1, if_neg h1]
            have hin : InRange p := (inRange_iff _).mpr h1
            rw [checked_block _ _ hin.1 hin.2, bind_some]
        · rw [if_neg h0, if_neg h0]
      rw [e1, check_indirect_field_checked_eq, check_indirect_field_checked_eq,
        check_indirect_field_checked_eq]

theorem check_bad_blocks_checked_eq (s : State) :
    check_bad_blocks_checked s = some (check_bad_blocks s) := by
  rw [check_bad_blocks_checked, check_bad_blocks, check_bad_blocks_walk_eq]
  dsimp only
  rw [foldl_checked check_bad_blocks_step check_bad_blocks_step_checked _
    (fun t i _ => check_bad_blocks_step_checked_eq t i), bind_some]
  by_cases h : ((List.range INODE_COUNT).foldl check_bad_blocks_step
      { { s with bad_block_errors := 0 } with used_blocks := fun _ => false }).bad_block_errors > 0
  · rw [if_pos h, if_pos h]
  · rw [if_neg h, if_neg h]

theorem allocate_scan_checked :
    (List.range (TOTAL_BLOCKS - DATA_BLOCK_START)).all
      (fun i => (checked 0 (TOTAL_BLOCKS - DATA_BLOCK_START) i ()).isSome) = true := by
  rw [List.all_eq_true]
  intro i hi
  have hi' : i < 56 := List.mem_range.mp hi
  rw [checked_bit i () hi']
  rfl

theorem allocate_new_data_block_checked_eq (s : State) :
    allocate_new_data_block_checked s = some (allocate_new_data_block s) := by
  unfold allocate_new_data_block_checked
  rw [if_pos allocate_scan_checked]
  cases hf : (List.range (TOTAL_BLOCKS - DATA_BLOCK_START)).find?
      (fun i => !is_used_bit s.data_bitmap i) with
  | none =>
    rw [allocate_new_data_block_none s hf]
  | some i =>
    have hi : i < 56 := ((allocate_find_some_iff s i).mp hf).1
    rw [allocate_new_data_block_some s i hf]
    dsimp only
    rw [checked_bit i _ hi, bind_some,
      checked_block (i + DATA_BLOCK_START) _ (by show 8 ≤ i + 8; omega)
        (by show i + 8 < 64; omega), bind_some]

theorem fix_data_bitmap_checked_eq (s : State) :
    fix_data_bitmap_checked s = some (fix_data_bitmap s) := by
  unfold fix_data_bitmap_checked fix_data_bitmap
  by_cases h : s.data_bitmap_errors > 0
  · rw [if_pos h, if_pos h]
    rw [foldl_checked
      (fun bm i => if s.used_blocks i then set_bit bm (i - DATA_BLOCK_START) else bm)
      (fix_data_bitmap_step_checked s.used_blocks) _ (fun bm i hi => by
        obtain ⟨h8, h64⟩ := mem_data_range i hi
        unfold fix_data_bitmap_step_checked
        rw [bind_some, checked_block i _ h8 h64, bind_some]
        show _ = some (if s.used_blocks i = true then set_bit bm (i - DATA_BLOCK_START) else bm)
        by_cases hu : s.used_blocks i = true
        · rw [if_pos hu, if_pos hu,
            checked_bit (i - DATA_BLOCK_START) _ (by show i - 8 < 56; omega)]
        · rw [if_neg hu, if_neg hu]), bind_some]
  · rw [if_neg h, if_neg h]

theorem first_user_step_checked_eq (img : Image) (fu : Nat → Int) (i : Nat) :
    first_user_step_checked img (some fu) i = some (first_user_step img fu i) := by
  unfold first_user_step_checked first_user_step
  rw [bind_some]
  dsimp only
  by_cases hr : (!(read_block img (inode_block_num i : Int) zeros).1) = true
  · rw [if_pos hr, if_pos hr]
  · rw [if_neg hr, if_neg hr]
    by_cases hv : (!is_valid_inode (load_inode (read_block img (inode_block_num i : Int) zeros).2
        (inode_offset i))) = true
    · rw [if_pos hv, if_pos hv]
    · rw [if_neg hv, if_neg hv]
      by_cases hin : inode_direct_block (load_inode (read_block img (inode_block_num i : Int)
            zeros).2 (inode_offset i)) ≥ DATA_BLOCK_START
          ∧ inode_direct_block (load_inode (read_block img (inode_block_num i : Int)
            zeros).2 (inode_offset i)) < TOTAL_BLOCKS
      · rw [if_pos hin, if_pos hin, checked_block _ _ hin.1 hin.2, bind_some]
        by_cases h1 : fu (inode_direct_block (load_inode (read_block img (inode_block_num i : Int)
            zeros).2 (inode_offset i))) = -1
        · rw [if_pos h1, if_pos h1, checked_block _ _ hin.1 hin.2]
        · rw [if_neg h1, if_neg h1]
      · rw [if_neg hin, if_neg hin]

theorem reassign_checked_eq (s : State) (i : Nat) (inode_block inode : Bytes) :
    reassign_checked s i inode_block inode = some (
      let a := allocate_new_data_block s
      let new_block := a.1
      let s := a.2
      if new_block ≠ -1 then
        let rb := read_block s.img (inode_direct_block inode) zeros
        if rb.1 then
          let w := write_block s.img new_block rb.2
          let s := { s with img := w.2 }
          if w.1 then
            let inode := wr32 inode 40 new_block.toNat
            let s := { s with data_bitmap := set_bit s.data_bitmap (new_block.toNat - DATA_BLOCK_START) }
            let s := { s with used_blocks := setAt s.used_blocks new_block.toNat true }
            let wi := write_block s.img (inode_block_num i) (store_inode inode_block (inode_offset i) inode)
            { s with img := wi.2 }
          else s
        else s
      else s) := by
  unfold reassign_checked
  rw [allocate_new_data_block_checked_eq, bind_some]
  dsimp only
  by_cases hne : (allocate_new_data_block s).1 ≠ -1
  · rw [if_pos hne, if_pos hne]
    by_cases hrb : (read_block (allocate_new_data_block s).2.img
        (inode_direct_block inode : Int) zeros).1 = true
    · rw [if_pos hrb, if_pos hrb]
      by_cases hw : (write_block (allocate_new_data_block s).2.img (allocate_new_data_block s).1
          (read_block (allocate_new_data_block s).2.img
            (inode_direct_block inode : Int) zeros).2).1 = true
      · rw [if_pos hw, if_pos hw]
        rcases allocate_new_data_block_fst s with h1 | ⟨j, hj, h1⟩
        · exact absurd h1 hne
        · have ht : (allocate_new_data_block s).1.toNat = j + 8 := by
            rw [h1]
            rfl
          rw [checked_bit _ _ (by rw [ht]; show j + 8 - 8 < 56; omega), bind_some,
            checked_block _ _ (by rw [ht]; omega) (by rw [ht]; omega), bind_some]
      · rw [if_neg hw, if_neg hw]
    · rw [if_neg hrb, if_neg hrb]
  · rw [if_neg hne, if_neg hne]

theorem fix_duplicate_step_checked_eq (fu : Nat → Int) (s : State) (i : Nat) :
    fix_duplicate_step_checked fu (some s) i = some (fix_duplicate_step fu s i) := by
  unfold fix_duplicate_step_checked fix_duplicate_step
  rw [bind_some]
  dsimp only
  by_cases hr : (!(read_block s.img (inode_block_num i : Int) zeros).1) = true
  · rw [if_pos hr, if_pos hr]
  · rw [if_neg hr, if_neg hr]
    by_cases hv : (!is_valid_inode (load_inode (read_block s.img (inode_block_num i : Int)
        zeros).2 (inode_offset i))) = true
    · rw [if_pos hv, if_pos hv]
    · rw [if_neg hv, if_neg hv]
      by_cases hin : inode_direct_block (load_inode (read_block s.img (inode_block_num i : Int)
            zeros).2 (inode_offset i)) ≥ DATA_BLOCK_START
          ∧ inode_direct_block (load_inode (read_block s.img (inode_block_num i : Int)
            zeros).2 (inode_offset i)) < TOTAL_BLOCKS
      · rw [if_pos hin, if_pos hin, checked_block _ _ hin.1 hin.2, bind_some]
        by_cases hd : s.duplicated_blocks (inode_direct_block (load_inode
            (read_block s.img (inode_block_num i : Int) zeros).2 (inode_offset i))) = true
        · rw [if_pos hd, checked_block _ _ hin.1 hin.2, bind_some]
          by_cases hf : fu (inode_direct_block (load_inode
              (read_block s.img (inode_block_num i : Int) zeros).2 (inode_offset i))) ≠ (i : Int)
          · rw [if_pos hf, if_pos (by rw [hd]; simpa using hf), reassign_checked_eq]
          · rw [if_neg hf, if_neg (by rw [hd]; simpa using hf)]
        · rw [if_neg hd, if_neg (by
            rw [Bool.not_eq_true] at hd
            rw [hd]
            simp)]
      · rw [if_neg hin, if_neg hin]

theorem fix_duplicates_checked_eq (s : State) :
    fix_duplicates_checked s = some (fix_duplicates s) := by
  unfold fix_duplicates_checked fix_duplicates
  by_cases h : s.duplicate_block_errors > 0
  · rw [if_pos h, if_pos h,
      foldl_checked (first_user_step s.img) (first_user_step_checked s.img) _
        (fun fu i _ => first_user_step_checked_eq s.img fu i), bind_some,
      foldl_checked (fix_duplicate_step _) (fix_duplicate_step_checked _) _
        (fun t i _ => fix_duplicate_step_checked_eq _ t i), bind_some]
  · rw [if_neg h, if_neg h]

theorem fix_errors_checked_eq (s : State) : fix_errors_checked s = some (fix_errors s) := by
  unfold fix_errors_checked
  dsimp only
  rw [fix_data_bitmap_checked_eq, bind_some, fix_duplicates_checked_eq, bind_some, fix_errors_eq]

theorem validate_checked_eq (s : State) : validate_checked s = some (validate s) := by
  unfold validate_checked
  dsimp only
  rw [check_data_bitmap_checked_eq, bind_some, check_duplicates_checked_eq, bind_some,
    check_bad_blocks_checked_eq, bind_some, validate_eq]

theorem main_checked_eq (img : Image) : main_checked img = some (main img) := by
  unfold main_checked
  rw [validate_checked_eq, bind_some]
  dsimp only
  rw [main_eq]
  by_cases h : first_pass_failed img = true
  · have h' : (!(validate (initial_state img)).1.superblock_ok
        || !(validate (initial_state img)).1.inode_bitmap_ok
        || !(validate (initial_state img)).1.data_bitmap_ok
        || !(validate (initial_state img)).1.duplicates_ok
        || !(validate (initial_state img)).1.bad_blocks_ok) = true := h
    rw [if_pos h, if_pos h', fix_errors_checked_eq, bind_some]
    have e := validate_checked_eq (reset_counters (fix_errors (validate (initial_state img)).2))
    unfold reset_counters at e
    rw [e, bind_some]
    rfl
  · have h' : ¬ (!(validate (initial_state img)).1.superblock_ok
        || !(validate (initial_state img)).1.inode_bitmap_ok
        || !(validate (initial_state img)).1.data_bitmap_ok
        || !(validate (initial_state img)).1.duplicates_ok
        || !(validate (initial_state img)).1.bad_blocks_ok) = true := h
    rw [if_neg h, if_neg h']

/-! ## Lemmas: the walker marks data blocks only -/

theorem treeClaims_inRange (img : Image) (level : Nat) :
    ∀ B b, TreeClaims img level B b → InRange b := by
  induction level with
  | zero =>
    rintro B b ⟨k, _, _, hin, hc⟩
    rcases hc with hc | hc
    · rw [← hc]; exact hin
    · exact absurd hc id
  | succ n ih =>
    rintro B b ⟨k, _, _, hin, hc⟩
    rcases hc with hc | hc
    · rw [← hc]; exact hin
    · exact ih _ b hc.2

theorem inodeClaims_inRange (img : Image) (i b : Nat) (h : InodeClaims img i b) : InRange b := by
  obtain ⟨_, h⟩ := h
  rcases h with ⟨hin, e⟩ | ⟨hin, hc⟩ | ⟨hin, hc⟩ | ⟨hin, hc⟩
  · rw [← e]; exact hin
  · rcases hc with e | hc
    · rw [← e]; exact hin
    · exact treeClaims_inRange img 1 _ b hc
  · rcases hc with e | hc
    · rw [← e]; exact hin
    · exact treeClaims_inRange img 2 _ b hc
  · rcases hc with e | hc
    · rw [← e]; exact hin
    · exact treeClaims_inRange img 3 _ b hc

theorem check_bad_blocks_used_inRange (s : State) (b : Nat)
    (h : (check_bad_blocks s).2.used_blocks b = true) : InRange b := by
  obtain ⟨i, hi⟩ := ((check_bad_blocks_used s).2 b).mp h
  exact inodeClaims_inRange s.img i b hi

theorem check_indirect_block_checked_out (level B : Nat) (s : State) (h : ¬ InRange B) :
    check_indirect_block_checked level B s = none := by
  have h' : B < DATA_BLOCK_START ∨ B ≥ TOTAL_BLOCKS := by
    by_contra hc
    exact h ((inRange_iff B).mpr hc)
  cases level with
  | zero =>
    show check_indirect_body_checked B _ s = none
    unfold check_indirect_body_checked
    rw [if_pos h']
  | succ n =>
    show check_indirect_body_checked B _ s = none
    unfold check_indirect_body_checked
    rw [if_pos h']

/-! ## Lemmas: bitmap helpers -/

theorem clear_mask_testBit : ∀ o, o < 8 → ∀ p, p < 8 →
    (255 - 1 <<< o).testBit p = decide (p ≠ o) := by
  decide

theorem is_used_bit_clear_bit (bm : Bytes) (i k : Nat) :
    is_used_bit (clear_bit bm i) k = (decide (k ≠ i) && is_used_bit bm k) := by
  rw [is_used_bit_eq_testBit, is_used_bit_eq_testBit]
  show (if k / 8 = i / 8 then (bm (k / 8) &&& (255 - 1 <<< (i % 8))) % 256
      else bm (k / 8)).testBit (k % 8)
    = (decide (k ≠ i) && (bm (k / 8)).testBit (k % 8))
  have hlt : k % 8 < 8 := by omega
  have hlt' : i % 8 < 8 := by omega
  by_cases hb : k / 8 = i / 8
  · rw [if_pos hb, hb]
    have h256 : (256 : Nat) = 2 ^ 8 := by norm_num
    rw [h256, Nat.testBit_mod_two_pow, Nat.testBit_and, clear_mask_testBit _ hlt' _ hlt]
    by_cases hk : k = i
    · subst hk
      simp
    · have hne : k % 8 ≠ i % 8 := by omega
      simp [hlt, hne, hk, hb]
  · rw [if_neg hb]
    have hk : k ≠ i := fun h => hb (by rw [h])
    simp [hk]

theorem set_byte_idem (b m : Nat) : ((b ||| m) % 256 ||| m) % 256 = (b ||| m) % 256 := by
  have h256 : (256 : Nat) = 2 ^ 8 := by norm_num
  rw [h256]
  apply Nat.eq_of_testBit_eq
  intro p
  simp only [Nat.testBit_mod_two_pow, Nat.testBit_or]
  cases decide (p < 8) <;> cases b.testBit p <;> cases m.testBit p <;> rfl

theorem clear_byte_idem (b m : Nat) : ((b &&& m) % 256 &&& m) % 256 = (b &&& m) % 256 := by
  have h256 : (256 : Nat) = 2 ^ 8 := by norm_num
  rw [h256]
  apply Nat.eq_of_testBit_eq
  intro p
  simp only [Nat.testBit_mod_two_pow, Nat.testBit_and]
  cases decide (p < 8) <;> cases b.testBit p <;> cases m.testBit p <;> rfl

theorem set_bit_idem (bm : Bytes) (i : Nat) : set_bit (set_bit bm i) i = set_bit bm i := by
  funext a
  show (if a = i / 8 then ((if a = i / 8 then (bm a ||| 1 <<< (i % 8)) % 256 else bm a)
      ||| 1 <<< (i % 8)) % 256 else (if a = i / 8 then (bm a ||| 1 <<< (i % 8)) % 256 else bm a))
    = (if a = i / 8 then (bm a ||| 1 <<< (i % 8)) % 256 else bm a)
  by_cases h : a = i / 8
  · rw [if_pos h, if_pos h, set_byte_idem]
  · rw [if_neg h, if_neg h]

theorem clear_bit_idem (bm : Bytes) (i : Nat) : clear_bit (clear_bit bm i) i = clear_bit bm i := by
  funext a
  show (if a = i / 8 then ((if a = i / 8 then (bm a &&& (255 - 1 <<< (i % 8))) % 256 else bm a)
      &&& (255 - 1 <<< (i % 8))) % 256
      else (if a = i / 8 then (bm a &&& (255 - 1 <<< (i % 8))) % 256 else bm a))
    = (if a = i / 8 then (bm a &&& (255 - 1 <<< (i % 8))) % 256 else bm a)
  by_cases h : a = i / 8
  · rw [if_pos h, if_pos h, clear_byte_idem]
  · rw [if_neg h, if_neg h]

/-- Bytes of a bitmap under `|=` and `&= ~`, by the value of the bit. -/
theorem byte_bit_values : ∀ b, b < 256 → ∀ o, o < 8 →
    ((b &&& 1 <<< o) != 0) = decide (b / 2 ^ o % 2 = 1)
    ∧ (b ||| 1 <<< o) % 256 = (if b / 2 ^ o % 2 = 1 then b else b + 2 ^ o)
    ∧ (b &&& (255 - 1 <<< o)) % 256 = (if b / 2 ^ o % 2 = 1 then b - 2 ^ o else b) := by
  decide!

/-! ## Lemmas: the shell history -/

/-- The shift loop of `add_to_history` over slots `1` to `n`. -/
theorem history_shift (n : Nat) (h : Nat → Option CString) (j : Nat) :
    (List.range' 1 n).foldl (fun history i => setAt history (i - 1) (history i)) h j
      = if j < n then h (j + 1) else h j := by
  induction n generalizing j with
  | zero => simp
  | succ n ih =>
    rw [List.range'_concat, List.foldl_append]
    simp only [List.foldl_cons, List.foldl_nil, setAt]
    have e : 1 + 1 * n - 1 = n := by omega
    have e1 : 1 + 1 * n = n + 1 := by omega
    rw [e, e1]
    by_cases hj : j = n
    · subst hj
      rw [if_pos rfl, ih, if_neg (by omega), if_pos (by omega)]
    · rw [if_neg hj, ih]
      by_cases h1 : j < n
      · rw [if_pos h1, if_pos (by omega)]
      · rw [if_neg h1, if_neg (by omega)]

theorem add_to_history_skip (s : ShellState) (c : CString) (h : recorded c = false) :
    add_to_history s c = s := by
  have hc : c.length = 0 ∨ c.head? = some 10 := by
    unfold recorded at h
    cases c with
    | nil => exact Or.inl rfl
    | cons x xs =>
      right
      simpa using h
  unfold add_to_history
  rw [if_pos hc]

theorem recorded_iff (c : CString) :
    recorded c = true ↔ ¬ (c.length = 0 ∨ c.head? = some 10) := by
  unfold recorded
  cases c with
  | nil => simp
  | cons x xs => simp

theorem add_to_history_full (s : ShellState) (c : CString) (h : recorded c = true)
    (hf : s.history_count = 100) :
    (add_to_history s c).history_count = 100
    ∧ (∀ i, i < 99 → (add_to_history s c).history i = s.history (i + 1))
    ∧ (add_to_history s c).history 99 = some c
    ∧ (∀ i, 99 < i → (add_to_history s c).history i = s.history i) := by
  have hc := (recorded_iff c).mp h
  have hf' : s.history_count = HISTORY_SIZE := hf
  unfold add_to_history
  rw [if_neg hc]
  dsimp only
  rw [if_pos hf']
  dsimp only
  rw [hf]
  refine ⟨rfl, fun i hi => ?_, ?_, fun i hi => ?_⟩
  · show setAt _ 99 (some c) i = _
    unfold setAt
    rw [if_neg (by omega)]
    show (List.range' 1 99).foldl (fun history i => setAt history (i - 1) (history i))
      s.history i = _
    rw [history_shift, if_pos hi]
  · show setAt _ 99 (some c) 99 = _
    unfold setAt
    rw [if_pos rfl]
  · show setAt _ 99 (some c) i = _
    unfold setAt
    rw [if_neg (by omega)]
    show (List.range' 1 99).foldl (fun history i => setAt history (i - 1) (history i))
      s.history i = _
    rw [history_shift, if_neg (by omega)]

theorem add_to_history_room (s : ShellState) (c : CString) (h : recorded c = true)
    (hf : s.history_count ≠ 100) :
    (add_to_history s c).history_count = s.history_count + 1
    ∧ (add_to_history s c).history s.history_count = some c
    ∧ (∀ i, i ≠ s.history_count → (add_to_history s c).history i = s.history i) := by
  have hc := (recorded_iff c).mp h
  have hf' : ¬ s.history_count = HISTORY_SIZE := hf
  unfold add_to_history
  rw [if_neg hc]
  dsimp only
  rw [if_neg hf']
  refine ⟨rfl, ?_, fun i hi => ?_⟩
  · show setAt _ _ (some c) _ = _
    unfold setAt
    rw [if_pos rfl]
  · show setAt _ _ (some c) _ = _
    unfold setAt
    rw [if_neg hi]

theorem add_all_append (cmds : List CString) (c : CString) :
    add_all (cmds ++ [c]) = add_to_history (add_all cmds) c := by
  unfold add_all
  rw [List.foldl_append]
  rfl

/-- The history after a sequence of calls, slot by slot. -/
theorem add_all_slots (cmds : List CString) :
    (add_all cmds).history_count = min 100 (cmds.filter recorded).length
    ∧ ∀ i, i < (add_all cmds).history_count →
        (add_all cmds).history i = (last_commands 100 (cmds.filter recorded))[i]? := by
  induction cmds using List.reverseRecOn with
  | nil =>
    refine ⟨rfl, fun i hi => ?_⟩
    exact absurd hi (Nat.not_lt_zero i)
  | append_singleton cmds c ih =>
    obtain ⟨hn, hs⟩ := ih
    rw [add_all_append, List.filter_append]
    cases hr : recorded c with
    | false =>
      rw [add_to_history_skip _ _ hr]
      have e : List.filter recorded [c] = [] := by simp [hr]
      rw [e, List.append_nil]
      exact ⟨hn, hs⟩
    | true =>
      have e : List.filter recorded [c] = [c] := by simp [hr]
      rw [e]
      by_cases hf : (add_all cmds).history_count = 100
      · obtain ⟨h1, h2, h3, _⟩ := add_to_history_full _ c hr hf
        have hlen : 100 ≤ (cmds.filter recorded).length := by omega
        refine ⟨by rw [h1, List.length_append]; simp; omega, fun i hi => ?_⟩
        rw [h1] at hi
        unfold last_commands
        rw [List.getElem?_drop, List.length_append, List.length_singleton]
        by_cases h99 : i = 99
        · subst h99
          rw [h3]
          have e2 : (cmds.filter recorded).length + 1 - 100 + 99 = (cmds.filter recorded).length := by
            omega
          rw [e2]
          simp
        · have hi' : i < 99 := by omega
          rw [h2 i hi', hs (i + 1) (by omega)]
          unfold last_commands
          rw [List.getElem?_drop, List.getElem?_append_left (by omega)]
          congr 1
          omega
      · obtain ⟨h1, h2, h3⟩ := add_to_history_room _ c hr hf
        have hlen : (cmds.filter recorded).length < 100 := by omega
        have hcnt : (add_all cmds).history_count = (cmds.filter recorded).length := by omega
        refine ⟨by rw [h1, List.length_append]; simp; omega, fun i hi => ?_⟩
        rw [h1] at hi
        unfold last_commands
        rw [List.getElem?_drop, List.length_append, List.length_singleton]
        have e0 : (cmds.filter recorded).length + 1 - 100 = 0 := by omega
        rw [e0, Nat.zero_add]
        by_cases hlast : i = (add_all cmds).history_count
        · rw [hlast, h2, hcnt]
          simp
        · rw [h3 i hlast, hs i (by omega)]
          unfold last_commands
          rw [List.getElem?_drop, List.getElem?_append_left (by omega)]
          congr 1
          omega

theorem last_commands_length (n : Nat) (l : List CString) :
    (last_commands n l).length = min n l.length := by
  unfold last_commands
  rw [List.length_drop]
  omega

/-- The stored history after a sequence of calls. -/
theorem add_all_stored (cmds : List CString) :
    stored (add_all cmds) = (last_commands 100 (cmds.filter recorded)).map some := by
  obtain ⟨hn, hs⟩ := add_all_slots cmds
  apply List.ext_getElem?
  intro i
  unfold stored
  by_cases hi : i < (add_all cmds).history_count
  · rw [List.getElem?_map, List.getElem?_map, List.getElem?_range hi, Option.map_some', hs i hi]
    have hl : i < (last_commands 100 (cmds.filter recorded)).length := by
      rw [last_commands_length]; omega
    rw [List.getElem?_eq_getElem hl]
    rfl
  · have hl : (last_commands 100 (cmds.filter recorded)).length ≤ i := by
      rw [last_commands_length]; omega
    rw [List.getElem?_eq_none (by rw [List.length_map, List.length_range]; omega),
      List.getElem?_eq_none (by rw [List.length_map]; exact hl)]

theorem stored_room (s : ShellState) (c : CString) (h : recorded c = true)
    (hf : s.history_count ≠ 100) :
    stored (add_to_history s c) = stored s ++ [some c] := by
  obtain ⟨h1, h2, h3⟩ := add_to_history_room s c h hf
  unfold stored
  rw [h1, List.range_succ, List.map_append, List.map_singleton, h2]
  congr 1
  apply List.map_congr_left
  intro i hi
  have := List.mem_range.mp hi
  exact h3 i (by omega)

theorem stored_full (s : ShellState) (c : CString) (h : recorded c = true)
    (hf : s.history_count = 100) :
    stored (add_to_history s c) = (stored s).tail ++ [some c] := by
  obtain ⟨h1, h2, h3, _⟩ := add_to_history_full s c h hf
  apply List.ext_getElem?
  intro i
  unfold stored
  rw [h1, hf, ← List.drop_one]
  by_cases hi : i < 99
  · rw [List.getElem?_append_left (by rw [List.length_drop, List.length_map, List.length_range]; omega),
      List.getElem?_drop, List.getElem?_map, List.getElem?_map,
      List.getElem?_range (by omega), List.getElem?_range (by omega), Option.map_some',
      Option.map_some', h2 i hi, Nat.add_comm]
  · by_cases h99 : i = 99
    · subst h99
      rw [List.getElem?_map, List.getElem?_range (by omega), Option.map_some', h3,
        List.getElem?_append_right (by
          rw [List.length_drop, List.length_map, List.length_range])]
      simp
    · rw [List.getElem?_eq_none (by rw [List.length_map, List.length_range]; omega),
        List.getElem?_eq_none (by
          rw [List.length_append, List.length_drop, List.length_map, List.length_range,
            List.length_singleton]
          omega)]

/-! ## Claims -/

/-- C1 (evaluation at the failing input): `img_one_file` is consistent (its
superblock is canonical, inode-bitmap bit `i` equals validity of inode `i`,
data-bitmap bit `b - 8` is set exactly for the reachable blocks, and its only
valid inode, inode 0, has the single in-range pointer `direct = 8`), yet the
first validation pass of `main` counts one data-bitmap error and the run
enters the repair step. -/
theorem consistent_image_enters_repair :
    sb_canonical (block_of img_one_file 0)
    ∧ (∀ i, i < 80 →
        is_used_bit (block_of img_one_file 1) i = is_valid_inode (inode_of img_one_file i))
    ∧ (∀ b, 8 ≤ b → b < 64 →
        (is_used_bit (block_of img_one_file 2) (b - 8) = true ↔ Reachable img_one_file b))
    ∧ (∀ i, i < 80 → is_valid_inode (inode_of img_one_file i) = true → i = 0)
    ∧ inode_direct_block (inode_of img_one_file 0) = 8
    ∧ inode_single_indirect (inode_of img_one_file 0) = 0
    ∧ inode_double_indirect (inode_of img_one_file 0) = 0
    ∧ inode_triple_indirect (inode_of img_one_file 0) = 0
    ∧ (main img_one_file).first.data_bitmap_errors = 1
    ∧ (main img_one_file).repaired = true := by
  have hd : sb_canonical (block_of img_one_file 0)
      ∧ (∀ i, i < 80 →
          is_used_bit (block_of img_one_file 1) i = is_valid_inode (inode_of img_one_file i))
      ∧ (∀ c, c < 64 → 8 ≤ c → is_used_bit (block_of img_one_file 2) (c - 8)
          = (check_bad_blocks (initial_state img_one_file)).2.used_blocks c)
      ∧ (∀ i, i < 80 → is_valid_inode (inode_of img_one_file i) = true → i = 0)
      ∧ inode_direct_block (inode_of img_one_file 0) = 8
      ∧ inode_single_indirect (inode_of img_one_file 0) = 0
      ∧ inode_double_indirect (inode_of img_one_file 0) = 0
      ∧ inode_triple_indirect (inode_of img_one_file 0) = 0
      ∧ (main img_one_file).first.data_bitmap_errors = 1
      ∧ (main img_one_file).repaired = true := by decide!
  obtain ⟨h1, h2, he, h4, h5, h6, h7, h8, h9, h10⟩ := hd
  refine ⟨h1, h2, ?_, h4, h5, h6, h7, h8, h9, h10⟩
  intro b hb8 hb64
  have hw := check_bad_blocks_used_iff_reachable (initial_state img_one_file) b
  rw [he b hb64 hb8]
  exact hw

/-- C2 (evaluation at the failing input): in `img_unmarked` block 8 is
reachable from the valid inode 0 and its data-bitmap bit is 0, yet the first
validation pass of `main` counts no data-bitmap error and no repair is run. -/
theorem reachable_unmarked_block_not_counted :
    Reachable img_unmarked 8
    ∧ is_used_bit (block_of img_unmarked 2) (8 - 8) = false
    ∧ (main img_unmarked).first.data_bitmap_errors = 0
    ∧ (main img_unmarked).repaired = false := by
  have hd : (check_bad_blocks (initial_state img_unmarked)).2.used_blocks 8 = true
      ∧ is_used_bit (block_of img_unmarked 2) (8 - 8) = false
      ∧ (main img_unmarked).first.data_bitmap_errors = 0
      ∧ (main img_unmarked).repaired = false := by decide!
  exact ⟨(check_bad_blocks_used_iff_reachable (initial_state img_unmarked) 8).mp hd.1, hd.2⟩

/-- C3: after `check_bad_blocks` (with `check_indirect_block`) has run on an
image, `used_blocks[b]` is true exactly for the blocks `b` of the
reachable-block set: in-range direct pointers of valid inodes, in-range
single, double and triple indirect pointers of valid inodes, and in-range
entries of the indirect blocks visited by the walk (top-level indirect blocks
at level 1, 2, 3; in-range entries of a block visited at level `L > 1` are
visited at level `L - 1`).  Such blocks lie in `[8, 64)`; every other entry of
`used_blocks` is false. -/
theorem walker_used_blocks_exact (s : State) (b : Nat) :
    ((check_bad_blocks s).2.used_blocks b = true ↔ Reachable s.img b)
    ∧ (Reachable s.img b → 8 ≤ b ∧ b < 64)
    ∧ (¬ Reachable s.img b → (check_bad_blocks s).2.used_blocks b = false) := by
  have h := check_bad_blocks_used_iff_reachable s b
  refine ⟨h, ?_, ?_⟩
  · rintro (⟨i, _, _, hin, e⟩ | ⟨i, _, _, hin, _⟩ | ⟨L, B, k, _, _, _, _, hin, e⟩)
    · rw [← e]; exact hin
    · exact hin
    · rw [← e]; exact hin
  · intro hn
    cases hu : (check_bad_blocks s).2.used_blocks b with
    | false => rfl
    | true => exact (hn (h.mp hu)).elim

/-- C4 (evaluation at the failing input): in `img_shared` the valid inodes 0
and 1 both have direct pointer 8, yet in the validation pass the duplicate
check passes, no entry of `duplicated_blocks` is set and the duplicate-block
error count is 0, in the first pass and at the end of the run. -/
theorem shared_direct_block_not_recorded :
    is_valid_inode (inode_of img_shared 0) = true
    ∧ is_valid_inode (inode_of img_shared 1) = true
    ∧ inode_direct_block (inode_of img_shared 0) = 8
    ∧ inode_direct_block (inode_of img_shared 1) = 8
    ∧ (validate (initial_state img_shared)).1.duplicates_ok = true
    ∧ (∀ b, b < 64 → (validate (initial_state img_shared)).2.duplicated_blocks b = false)
    ∧ (main img_shared).first.duplicate_block_errors = 0
    ∧ (main img_shared).final.duplicate_block_errors = 0 := by
  decide!

set_option maxHeartbeats 4000000 in
/-- C5 (counterexample): in `img_bad_entry` the valid inode 0 has the in-range
single indirect pointer 9 and entry 0 of block 9 is the out-of-range pointer 3;
the first pass counts one bad-block error, yet after the repair the single
indirect pointer of inode 0 still reads 9 and the re-validation counts the
bad-block error again. -/
theorem bad_entry_pointer_not_cleared :
    is_valid_inode (inode_of img_bad_entry 0) = true
    ∧ inode_single_indirect (inode_of img_bad_entry 0) = 9
    ∧ entry img_bad_entry 9 0 = 3
    ∧ (main img_bad_entry).first.bad_block_errors = 1
    ∧ (main img_bad_entry).repaired = true
    ∧ inode_single_indirect (inode_of (main img_bad_entry).final.img 0) = 9
    ∧ (main img_bad_entry).final.bad_block_errors = 1 := by
  decide!

/-- C5 (amended): for every valid inode, `fix_errors` entered with
`bad_block_errors > 0` (and the duplicate branch not entered) sets the single,
double and triple indirect pointer fields to 0 exactly when the pointer itself
is non-zero and outside `[8, 64)`; a pointer that is in range is left
unchanged, whatever its indirect tree contains. -/
theorem fix_errors_clears_out_of_range_top_level (s : State) (i : Nat)
    (hv : ValidInode s.img i) (hb : s.bad_block_errors > 0)
    (hd : s.duplicate_block_errors = 0) :
    inode_single_indirect (inode_of (fix_errors s).img i)
        = cleared (inode_single_indirect (inode_of s.img i))
    ∧ inode_double_indirect (inode_of (fix_errors s).img i)
        = cleared (inode_double_indirect (inode_of s.img i))
    ∧ inode_triple_indirect (inode_of (fix_errors s).img i)
        = cleared (inode_triple_indirect (inode_of s.img i))
    ∧ (InRange (inode_single_indirect (inode_of s.img i)) →
        inode_single_indirect (inode_of (fix_errors s).img i)
          = inode_single_indirect (inode_of s.img i))
    ∧ (InRange (inode_double_indirect (inode_of s.img i)) →
        inode_double_indirect (inode_of (fix_errors s).img i)
          = inode_double_indirect (inode_of s.img i))
    ∧ (InRange (inode_triple_indirect (inode_of s.img i)) →
        inode_triple_indirect (inode_of (fix_errors s).img i)
          = inode_triple_indirect (inode_of s.img i)) := by
  obtain ⟨hi, hr, hval⟩ := hv
  have e := (fix_errors_inode s hd i hi hr).2
  rw [if_pos ⟨hb, hval⟩] at e
  obtain ⟨_, f1, f2, f3, _, _⟩ := fix_all_inode_blocks_fields (inode_of s.img i)
  rw [e]
  refine ⟨f1, f2, f3, fun h => ?_, fun h => ?_, fun h => ?_⟩
  · rw [f1, cleared_inRange _ h]
  · rw [f2, cleared_inRange _ h]
  · rw [f3, cleared_inRange _ h]

/-- Witness for C5 (amended): inode 0 of `img_bad_entry`, with one bad-block
error counted; its single indirect pointer 9 is in range and survives. -/
theorem fix_errors_clears_out_of_range_top_level_witness :
    ValidInode ({ initial_state img_bad_entry with bad_block_errors := 1 } : State).img 0
    ∧ ({ initial_state img_bad_entry with bad_block_errors := 1 } : State).bad_block_errors > 0
    ∧ ({ initial_state img_bad_entry with bad_block_errors := 1 } : State).duplicate_block_errors = 0
    ∧ inode_single_indirect
        (inode_of (fix_errors { initial_state img_bad_entry with bad_block_errors := 1 }).img 0)
        = inode_single_indirect (inode_of img_bad_entry 0) :=
  have h : ValidInode ({ initial_state img_bad_entry with bad_block_errors := 1 } : State).img 0
      ∧ ({ initial_state img_bad_entry with bad_block_errors := 1 } : State).bad_block_errors > 0
      ∧ ({ initial_state img_bad_entry with bad_block_errors := 1 } : State).duplicate_block_errors = 0
      ∧ InRange (inode_single_indirect (inode_of
          ({ initial_state img_bad_entry with bad_block_errors := 1 } : State).img 0)) := by decide!
  ⟨h.1, h.2.1, h.2.2.1,
    (fix_errors_clears_out_of_range_top_level
      { initial_state img_bad_entry with bad_block_errors := 1 } 0
      h.1 h.2.1 h.2.2.1).2.2.2.1 h.2.2.2⟩

/-- C6 (counterexample): in `img_cycle` the valid inode 0 has double indirect
pointer 10 and entry 0 of block 10 points back to block 10, yet the walker
counts no bad-block error and the bad-block check passes. -/
theorem cycle_entry_not_reported :
    is_valid_inode (inode_of img_cycle 0) = true
    ∧ inode_double_indirect (inode_of img_cycle 0) = 10
    ∧ entry img_cycle 10 0 = 10
    ∧ (check_bad_blocks (initial_state img_cycle)).1 = true
    ∧ (check_bad_blocks (initial_state img_cycle)).2.bad_block_errors = 0 := by
  decide!

/-- C6 (amended): the walker keeps no visited-block set.  On every image in
which each valid inode has only zero or in-range pointers and the walk of its
indirect trees reads every block it visits and meets only zero or in-range
entries (whether or not an entry points back to a block already visited),
`check_bad_blocks` passes and counts zero bad-block errors. -/
theorem walker_counts_only_out_of_range (s : State)
    (h : ∀ i, i < 80 → InodeClean s.img i) :
    (check_bad_blocks s).1 = true ∧ (check_bad_blocks s).2.bad_block_errors = 0 :=
  check_bad_blocks_clean s h

/-- Witness for C6 (amended): the image `img_cycle`, whose block 10 points to itself. -/
theorem walker_counts_only_out_of_range_witness :
    (∀ i, i < 80 → InodeClean (initial_state img_cycle).img i)
    ∧ entry (initial_state img_cycle).img 10 0 = 10
    ∧ (check_bad_blocks (initial_state img_cycle)).2.bad_block_errors = 0 :=
  have h : (∀ i, i < 80 → InodeClean (initial_state img_cycle).img i)
      ∧ entry (initial_state img_cycle).img 10 0 = 10 := by decide!
  ⟨h.1, h.2, (walker_counts_only_out_of_range (initial_state img_cycle) h.1).2⟩

/-- C7 (evaluation at the failing input): the run of `main` on `img_one_file`
repairs and ends with zero residual errors in all five categories, yet a
further run on the image it leaves again counts one data-bitmap error in its
first validation pass and enters the repair step. -/
theorem rerun_after_clean_repair_reports_error :
    (main img_one_file).repaired = true
    ∧ (main img_one_file).final.superblock_errors = 0
    ∧ (main img_one_file).final.inode_bitmap_errors = 0
    ∧ (main img_one_file).final.data_bitmap_errors = 0
    ∧ (main img_one_file).final.duplicate_block_errors = 0
    ∧ (main img_one_file).final.bad_block_errors = 0
    ∧ (main (main img_one_file).final.img).first.data_bitmap_errors = 1
    ∧ (main (main img_one_file).final.img).repaired = true := by
  decide!

/-- C8: for every readable block 0, `check_superblock` returns passed iff all
nine geometry fields equal 0xD34D, 4096, 64, 1, 2, 3, 8, 256, 80, and it raises
the superblock error counter by exactly the number of mismatching fields; a
superblock whose only deviation is `total_blocks = 32` gives exactly one error. -/
theorem check_superblock_passes_iff_canonical (s : State) (hr : Readable s.img 0) :
    ((check_superblock s).1 = true ↔ sb_canonical (block_of s.img 0))
    ∧ (check_superblock s).2.superblock_errors
        = s.superblock_errors + sb_mismatches (block_of s.img 0)
    ∧ (sb_magic (block_of s.img 0) = 0xD34D → sb_block_size (block_of s.img 0) = 4096 →
        sb_total_blocks (block_of s.img 0) = 32 → sb_inode_bitmap_block (block_of s.img 0) = 1 →
        sb_data_bitmap_block (block_of s.img 0) = 2 → sb_inode_table_block (block_of s.img 0) = 3 →
        sb_data_block_start (block_of s.img 0) = 8 → sb_inode_size (block_of s.img 0) = 256 →
        sb_inode_count (block_of s.img 0) = 80 →
        (check_superblock s).2.superblock_errors = s.superblock_errors + 1) := by
  obtain ⟨h1, h2⟩ := check_superblock_readable s hr
  refine ⟨h1, h2, ?_⟩
  intro a1 a2 a3 a4 a5 a6 a7 a8 a9
  rw [h2]
  simp [sb_mismatches, a1, a2, a3, a4, a5, a6, a7, a8, a9]
  rfl

/-- Witness for C8: the full-size image whose superblock has `total_blocks = 32`. -/
theorem check_superblock_passes_iff_canonical_witness :
    Readable (initial_state img_total_blocks_32).img 0
    ∧ (check_superblock (initial_state img_total_blocks_32)).2.superblock_errors
        = (initial_state img_total_blocks_32).superblock_errors + 1 :=
  ⟨by decide,
   (check_superblock_passes_iff_canonical (initial_state img_total_blocks_32) (by decide)).2.2
     (by decide) (by decide) (by decide) (by decide) (by decide) (by decide) (by decide)
     (by decide) (by decide)⟩

/-- C9: whenever the superblock error counter is non-zero, `fix_errors` leaves
block 0 readable with all nine geometry fields at their constants (so
`total_blocks` reads 64), and `check_superblock` on the repaired image passes
and adds nothing to the counter. -/
theorem fix_errors_resets_superblock (s : State) (h : s.superblock_errors > 0) :
    Readable (fix_errors s).img 0
    ∧ sb_canonical (block_of (fix_errors s).img 0)
    ∧ sb_total_blocks (block_of (fix_errors s).img 0) = 64
    ∧ ∀ u : State, u.img = (fix_errors s).img →
        (check_superblock u).1 = true
        ∧ (check_superblock u).2.superblock_errors = u.superblock_errors := by
  have hb := fix_errors_block0 s h
  have hc := block0_canonical _ _ hb (set_geometry_canonical s.superblock)
  refine ⟨hb.1, hc, hc.2.2.1, ?_⟩
  intro u hu
  have hr : Readable u.img 0 := by rw [hu]; exact hb.1
  obtain ⟨h1, h2⟩ := check_superblock_readable u hr
  rw [hu] at h1 h2
  exact ⟨h1.mpr hc, by rw [h2, sb_mismatches_canonical _ hc]; rfl⟩

/-- Witness for C9: the state after the first validation pass on the image
whose superblock has `total_blocks = 32`. -/
theorem fix_errors_resets_superblock_witness :
    (main img_total_blocks_32).first.superblock_errors > 0
    ∧ sb_total_blocks (block_of (fix_errors (main img_total_blocks_32).first).img 0) = 64 :=
  have h : (main img_total_blocks_32).first.superblock_errors > 0 := by decide!
  ⟨h, (fix_errors_resets_superblock (main img_total_blocks_32).first h).2.2.1⟩

/-- C10: with validity of an inode being `links_count > 0` and `dtime == 0`, and
every inode-table block (3..7) readable, `check_inode_bitmap` sets the
inode-bitmap error counter to the number of indices below 80 marked used but
invalid plus the number valid but not marked, no index being in both classes,
and returns passed iff bit `i` equals validity of inode `i` for every `i < 80`. -/
theorem check_inode_bitmap_counts (s : State)
    (hr : ∀ n, 3 ≤ n → n ≤ 7 → Readable s.img n) :
    (∀ ino : Bytes, is_valid_inode ino = true ↔ (inode_links_count ino > 0 ∧ inode_dtime ino = 0))
    ∧ (check_inode_bitmap s).2.inode_bitmap_errors
        = (List.range 80).countP
            (fun i => is_used_bit (block_of s.img 1) i && !is_valid_inode (inode_of s.img i))
          + (List.range 80).countP
            (fun i => !is_used_bit (block_of s.img 1) i && is_valid_inode (inode_of s.img i))
    ∧ (∀ i, ¬ ((is_used_bit (block_of s.img 1) i && !is_valid_inode (inode_of s.img i)) = true
              ∧ (!is_used_bit (block_of s.img 1) i && is_valid_inode (inode_of s.img i)) = true))
    ∧ ((check_inode_bitmap s).1 = true ↔
        ∀ i, i < 80 → is_used_bit (block_of s.img 1) i = is_valid_inode (inode_of s.img i)) := by
  obtain ⟨h1, h2⟩ := check_inode_bitmap_readable s (hr 7 (by omega) (by omega))
  refine ⟨?_, h1, ?_, h2⟩
  · intro ino
    simp [is_valid_inode]
  · intro i
    by_cases hA : is_used_bit (block_of s.img 1) i = true <;> simp [hA]

/-- Witness for C10: a full-size image with an all-zero inode table and bitmap. -/
theorem check_inode_bitmap_counts_witness :
    (∀ n, 3 ≤ n → n ≤ 7 → Readable (initial_state img_total_blocks_32).img n)
    ∧ ((check_inode_bitmap (initial_state img_total_blocks_32)).1 = true ↔
        ∀ i, i < 80 → is_used_bit (block_of (initial_state img_total_blocks_32).img 1) i
          = is_valid_inode (inode_of (initial_state img_total_blocks_32).img i)) :=
  ⟨fun n _ h => by
      show (n + 1) * 4096 ≤ 262144
      omega,
   (check_inode_bitmap_counts (initial_state img_total_blocks_32) (fun n _ h => by
      show (n + 1) * 4096 ≤ 262144
      omega)).2.2.2⟩

/-- C11: the inode-bitmap branch of `fix_errors` is a full rebuild.  Whatever
the bitmap held before, afterwards bit `i` of block 1 is set iff inode `i` is
valid, for every `i < 80` (and every other bit of the block is 0); the inode
table is as before; the rebuilt bitmap is the same for any two states with the
same valid inodes; applying the rebuild twice gives the same state as applying
it once; and when the only mismatch was a valid inode `k` with bit 0, bit `k`
is set and the bit of every other inode index is as it was. -/
theorem fix_inode_bitmap_rebuilds (s : State) (h : s.inode_bitmap_errors > 0) :
    Readable (fix_inode_bitmap s).img 1
    ∧ (∀ i, i < 80 → (is_used_bit (block_of (fix_inode_bitmap s).img 1) i = true
        ↔ ValidInode s.img i))
    ∧ (∀ k, 80 ≤ k → k < 32768 → is_used_bit (block_of (fix_inode_bitmap s).img 1) k = false)
    ∧ (∀ i, ValidInode (fix_inode_bitmap s).img i ↔ ValidInode s.img i)
    ∧ (∀ t : State, t.inode_bitmap_errors > 0 → (∀ i, ValidInode t.img i ↔ ValidInode s.img i) →
        ∀ k, k < 32768 → is_used_bit (block_of (fix_inode_bitmap t).img 1) k
          = is_used_bit (block_of (fix_inode_bitmap s).img 1) k)
    ∧ fix_inode_bitmap (fix_inode_bitmap s) = fix_inode_bitmap s
    ∧ (∀ k, ValidInode s.img k → is_used_bit (block_of s.img 1) k = false →
        (∀ i, i < 80 → i ≠ k → (is_used_bit (block_of s.img 1) i = true ↔ ValidInode s.img i)) →
        is_used_bit (block_of (fix_inode_bitmap s).img 1) k = true
        ∧ ∀ i, i < 80 → i ≠ k →
            is_used_bit (block_of (fix_inode_bitmap s).img 1) i
              = is_used_bit (block_of s.img 1) i) := by
  have hdisk : ∀ (t : State), t.inode_bitmap_errors > 0 → ∀ k, k < 32768 →
      (is_used_bit (block_of (fix_inode_bitmap t).img 1) k = true ↔ ValidInode t.img k) := by
    intro t ht k hk
    rw [fix_inode_bitmap_eq t ht]
    dsimp only
    rw [is_used_bit_block_of_write t.img 1 _ (by omega) k hk]
    exact inode_bitmap_rebuilt_bit t.img k
  have hvalid : ∀ i, ValidInode (fix_inode_bitmap s).img i ↔ ValidInode s.img i := by
    intro i
    rw [fix_inode_bitmap_eq s h]
    exact validInode_write_low s.img 1 (by omega) _ i
  refine ⟨?_, fun i hi => hdisk s h i (by omega), ?_, hvalid, ?_, ?_, ?_⟩
  · rw [fix_inode_bitmap_eq s h]
    exact write_block_readable s.img 1 _ (by omega)
  · intro k hk hk2
    cases hb : is_used_bit (block_of (fix_inode_bitmap s).img 1) k with
    | false => rfl
    | true =>
      have := ((hdisk s h k hk2).mp hb).1
      omega
  · intro t ht hv k hk
    rw [Bool.eq_iff_iff, hdisk t ht k hk, hdisk s h k hk]
    exact hv k
  · have h' : (fix_inode_bitmap s).inode_bitmap_errors > 0 := by
      rw [fix_inode_bitmap_eq s h]; exact h
    have e := inode_bitmap_rebuilt_congr s.img (fix_inode_bitmap s).img hvalid
    rw [fix_inode_bitmap_eq (fix_inode_bitmap s) h', e]
    rw [fix_inode_bitmap_eq s h]
    dsimp only
    rw [write_block_idem s.img 1 _ (by omega)]
  · intro k hv hk hothers
    refine ⟨(hdisk s h k (by have := hv.1; omega)).mpr hv, fun i hi hik => ?_⟩
    rw [Bool.eq_iff_iff, hdisk s h i (by omega)]
    exact (hothers i hi hik).symm

/-- Witness for C11: `img_one_file` with one inode-bitmap error counted; after
the rebuild bit 0 of block 1 is set iff inode 0 is valid. -/
theorem fix_inode_bitmap_rebuilds_witness :
    ({ initial_state img_one_file with inode_bitmap_errors := 1 } : State).inode_bitmap_errors > 0
    ∧ (is_used_bit (block_of
          (fix_inode_bitmap { initial_state img_one_file with inode_bitmap_errors := 1 }).img 1) 0
          = true
        ↔ ValidInode ({ initial_state img_one_file with inode_bitmap_errors := 1 } : State).img 0) :=
  ⟨by decide,
    (fix_inode_bitmap_rebuilds { initial_state img_one_file with inode_bitmap_errors := 1 }
      (by decide)).2.1 0 (by decide)⟩

/-- C12: the data-bitmap branch of `fix_errors` rebuilds the bitmap bit for
bit from `used_blocks`: afterwards, in memory and in block 2 of the image, bit
`b - 8` is set iff `used_blocks[b]` for every `b` in `[8, 64)` and every other
bit of the bitmap block is 0, whatever the bitmap held before; the result
depends on `used_blocks` alone, and applying the rebuild twice gives the same
state as applying it once. -/
theorem fix_data_bitmap_rebuilds (s : State) (h : s.data_bitmap_errors > 0) :
    (∀ k, is_used_bit (fix_data_bitmap s).data_bitmap k
        = (decide (k < 56) && s.used_blocks (k + 8)))
    ∧ Readable (fix_data_bitmap s).img 2
    ∧ (∀ k, k < 32768 → is_used_bit (block_of (fix_data_bitmap s).img 2) k
        = (decide (k < 56) && s.used_blocks (k + 8)))
    ∧ (∀ b, 8 ≤ b → b < 64 →
        (is_used_bit (block_of (fix_data_bitmap s).img 2) (b - 8) = true
          ↔ s.used_blocks b = true))
    ∧ (∀ t : State, t.data_bitmap_errors > 0 → t.used_blocks = s.used_blocks →
        (fix_data_bitmap t).data_bitmap = (fix_data_bitmap s).data_bitmap)
    ∧ fix_data_bitmap (fix_data_bitmap s) = fix_data_bitmap s := by
  have hbit : ∀ k, is_used_bit (fix_data_bitmap s).data_bitmap k
      = (decide (k < 56) && s.used_blocks (k + 8)) := by
    intro k
    rw [fix_data_bitmap_eq s h]
    exact data_bitmap_rebuilt_bit s.used_blocks k
  have hdisk : ∀ k, k < 32768 → is_used_bit (block_of (fix_data_bitmap s).img 2) k
      = (decide (k < 56) && s.used_blocks (k + 8)) := by
    intro k hk
    rw [fix_data_bitmap_eq s h]
    dsimp only
    rw [is_used_bit_block_of_write s.img 2 _ (by omega) k hk]
    exact data_bitmap_rebuilt_bit s.used_blocks k
  refine ⟨hbit, ?_, hdisk, ?_, ?_, ?_⟩
  · rw [fix_data_bitmap_eq s h]
    exact write_block_readable s.img 2 _ (by omega)
  · intro b h8 h64
    rw [hdisk (b - 8) (by omega)]
    have e : b - 8 + 8 = b := by omega
    have hlt : b - 8 < 56 := by omega
    simp [e, hlt]
  · intro t ht hu
    rw [fix_data_bitmap_eq s h, fix_data_bitmap_eq t ht, hu]
  · have h' : (fix_data_bitmap s).data_bitmap_errors > 0 := by
      rw [fix_data_bitmap_eq s h]; exact h
    rw [fix_data_bitmap_eq (fix_data_bitmap s) h']
    rw [fix_data_bitmap_eq s h]
    dsimp only
    rw [write_block_idem s.img 2 _ (by omega)]

/-- Witness for C12: `img_one_file` with one data-bitmap error counted and
block 8 in `used_blocks`; after the rebuild bit 0 of block 2 is set iff block
8 is in `used_blocks`. -/
theorem fix_data_bitmap_rebuilds_witness :
    ({ initial_state img_one_file with
        data_bitmap_errors := 1, used_blocks := setAt (fun _ => false) 8 true } : State
      ).data_bitmap_errors > 0
    ∧ (is_used_bit (block_of (fix_data_bitmap { initial_state img_one_file with
          data_bitmap_errors := 1, used_blocks := setAt (fun _ => false) 8 true }).img 2) (8 - 8)
          = true
        ↔ ({ initial_state img_one_file with
            data_bitmap_errors := 1, used_blocks := setAt (fun _ => false) 8 true } : State
          ).used_blocks 8 = true) :=
  ⟨by decide,
    (fix_data_bitmap_rebuilds { initial_state img_one_file with
        data_bitmap_errors := 1, used_blocks := setAt (fun _ => false) 8 true }
      (by decide)).2.2.2.1 8 (by decide) (by decide)⟩

/-- C13: the walker skips invalid inodes entirely.  For any two images of the
same size that differ only in the four block-pointer fields of inodes whose
record is invalid (`links_count == 0` or `dtime != 0`), `check_bad_blocks`
produces the same `used_blocks` array, the same bad-block error count and the
same verdict, whatever the states it is entered with held before. -/
theorem walker_skips_invalid_inodes (s1 s2 : State)
    (h : DifferOnlyInInvalidPointers s1.img s2.img) :
    (check_bad_blocks s1).2.used_blocks = (check_bad_blocks s2).2.used_blocks
    ∧ (check_bad_blocks s1).2.bad_block_errors = (check_bad_blocks s2).2.bad_block_errors
    ∧ (check_bad_blocks s1).1 = (check_bad_blocks s2).1 := by
  have hc : (check_bad_blocks s1).2.bad_block_errors = (check_bad_blocks s2).2.bad_block_errors := by
    rw [(check_bad_blocks_count s1).1, (check_bad_blocks_count s2).1,
      differ_walk_count 1 s1.img s2.img h]
  refine ⟨?_, hc, ?_⟩
  · funext b
    rw [Bool.eq_iff_iff, (check_bad_blocks_used s1).2 b, (check_bad_blocks_used s2).2 b]
    constructor
    · rintro ⟨i, hi⟩
      exact ⟨i, (differ_inodeClaims_imp s1.img s2.img h i b).mp hi⟩
    · rintro ⟨i, hi⟩
      exact ⟨i, (differ_inodeClaims_imp s1.img s2.img h i b).mpr hi⟩
  · rw [Bool.eq_iff_iff, (check_bad_blocks_count s1).2, (check_bad_blocks_count s2).2,
      differ_walk_count 1 s1.img s2.img h]

/-- Witness for C13: `img_one_file` and `img_stale_pointers`, which differ in
the pointer fields of the invalid inode 1; there the second image holds four
non-zero pointers outside `[8, 64)`. -/
theorem walker_skips_invalid_inodes_witness :
    DifferOnlyInInvalidPointers (initial_state img_one_file).img
      (initial_state img_stale_pointers).img
    ∧ inode_direct_block (inode_of img_one_file 1) = 0
    ∧ inode_direct_block (inode_of img_stale_pointers 1) = 117901063
    ∧ (check_bad_blocks (initial_state img_one_file)).2.bad_block_errors
        = (check_bad_blocks (initial_state img_stale_pointers)).2.bad_block_errors :=
  have hinv : is_valid_inode (inode_of img_one_file 1) = false
      ∧ inode_direct_block (inode_of img_one_file 1) = 0
      ∧ inode_direct_block (inode_of img_stale_pointers 1) = 117901063 := by decide!
  have h : DifferOnlyInInvalidPointers (initial_state img_one_file).img
      (initial_state img_stale_pointers).img :=
    ⟨rfl, fun a hne => by
      by_cases hw : 12584 ≤ a ∧ a < 12600
      · exact ⟨1, by omega, hinv.1, by omega, by omega⟩
      · exact absurd (show (initial_state img_one_file).img.byte a
            = (if 12584 ≤ a ∧ a < 12600 then 7 else img_one_file.byte a) by rw [if_neg hw]; rfl) hne⟩
  ⟨h, hinv.2.1, hinv.2.2,
    (walker_skips_invalid_inodes (initial_state img_one_file) (initial_state img_stale_pointers) h).2.1⟩

/-- C14: for every valid inode, the walk of the inode adds to the bad-block
counter the sum of what its four top-level pointers count for, and a pointer
that is non-zero and outside `[8, 64)` (for example direct pointer 3) counts
for exactly one.  With such a pointer the bad-block check fails, and that
field of the inode reads 0 after the bad-block branch of the repair, run on
the state the check leaves, and also after the whole of `fix_errors` when the
duplicate branch is not entered. -/
theorem out_of_range_pointer_counted_once_and_cleared (s : State) (i : Nat)
    (hv : ValidInode s.img i) :
    (check_bad_blocks_step s i).bad_block_errors
        = s.bad_block_errors
          + ptr_count (fun _ => 0) (inode_direct_block (inode_of s.img i))
          + ptr_count (tree_count 1 s.img 1) (inode_single_indirect (inode_of s.img i))
          + ptr_count (tree_count 1 s.img 2) (inode_double_indirect (inode_of s.img i))
          + ptr_count (tree_count 1 s.img 3) (inode_triple_indirect (inode_of s.img i))
    ∧ (∀ (D : Nat → Nat) (p : Nat), p ≠ 0 → ¬ InRange p → ptr_count D p = 1)
    ∧ (∀ p level (t : State), p ≠ 0 → ¬ InRange p →
        check_indirect_field p level t = { t with bad_block_errors := t.bad_block_errors + 1 })
    ∧ (∀ p, p ≠ 0 → ¬ InRange p →
        (inode_direct_block (inode_of s.img i) = p →
          (check_bad_blocks s).1 = false
          ∧ inode_direct_block (inode_of (fix_bad_blocks (check_bad_blocks s).2).img i) = 0
          ∧ (s.duplicate_block_errors = 0 →
              inode_direct_block (inode_of (fix_errors (check_bad_blocks s).2).img i) = 0))
        ∧ (inode_single_indirect (inode_of s.img i) = p →
          (check_bad_blocks s).1 = false
          ∧ inode_single_indirect (inode_of (fix_bad_blocks (check_bad_blocks s).2).img i) = 0
          ∧ (s.duplicate_block_errors = 0 →
              inode_single_indirect (inode_of (fix_errors (check_bad_blocks s).2).img i) = 0))
        ∧ (inode_double_indirect (inode_of s.img i) = p →
          (check_bad_blocks s).1 = false
          ∧ inode_double_indirect (inode_of (fix_bad_blocks (check_bad_blocks s).2).img i) = 0
          ∧ (s.duplicate_block_errors = 0 →
              inode_double_indirect (inode_of (fix_errors (check_bad_blocks s).2).img i) = 0))
        ∧ (inode_triple_indirect (inode_of s.img i) = p →
          (check_bad_blocks s).1 = false
          ∧ inode_triple_indirect (inode_of (fix_bad_blocks (check_bad_blocks s).2).img i) = 0
          ∧ (s.duplicate_block_errors = 0 →
              inode_triple_indirect (inode_of (fix_errors (check_bad_blocks s).2).img i) = 0))) := by
  have hone : ∀ (D : Nat → Nat) (p : Nat), p ≠ 0 → ¬ InRange p → ptr_count D p = 1 := by
    intro D p h0 hin
    unfold ptr_count
    rw [if_neg h0, if_neg hin]
  have hic : inode_count 1 s.img i
      = ptr_count (fun _ => 0) (inode_direct_block (inode_of s.img i))
        + ptr_count (tree_count 1 s.img 1) (inode_single_indirect (inode_of s.img i))
        + ptr_count (tree_count 1 s.img 2) (inode_double_indirect (inode_of s.img i))
        + ptr_count (tree_count 1 s.img 3) (inode_triple_indirect (inode_of s.img i)) := by
    unfold inode_count
    exact if_pos hv
  have hcleared : ∀ p, p ≠ 0 → ¬ InRange p → cleared p = 0 := by
    intro p h0 hin
    unfold cleared
    rw [if_pos ⟨h0, hin⟩]
  have himg := (check_bad_blocks_used s).1
  have hcnt := (check_bad_blocks_count s).1
  have hdup : (check_bad_blocks s).2.duplicate_block_errors = s.duplicate_block_errors := by
    rw [check_bad_blocks_snd, check_bad_blocks_walk_dup]
  have hmem : inode_count 1 s.img i ≤ walk_count 1 s.img := by
    unfold walk_count
    exact List.single_le_sum (fun _ _ => Nat.zero_le _) _
      (List.mem_map_of_mem _ (List.mem_range.mpr hv.1))
  have hrep : inode_count 1 s.img i ≥ 1 →
      (check_bad_blocks s).1 = false
      ∧ inode_of (fix_bad_blocks (check_bad_blocks s).2).img i
          = fix_all_inode_blocks (inode_of s.img i)
      ∧ (s.duplicate_block_errors = 0 →
          inode_of (fix_errors (check_bad_blocks s).2).img i
            = fix_all_inode_blocks (inode_of s.img i)) := by
    intro hge
    have hpos : (check_bad_blocks s).2.bad_block_errors > 0 := by rw [hcnt]; omega
    refine ⟨?_, ?_, fun hd => ?_⟩
    · cases hb : (check_bad_blocks s).1 with
      | false => rfl
      | true =>
        have := ((check_bad_blocks_count s).2).mp hb
        omega
    · have e := (fix_bad_blocks_inode (check_bad_blocks s).2 i hv.1
        (by rw [himg]; exact hv.2.1)).2
      rw [himg] at e
      rw [e, if_pos ⟨hpos, hv.2.2⟩]
    · have e := (fix_errors_inode (check_bad_blocks s).2 (by rw [hdup]; exact hd) i hv.1
        (by rw [himg]; exact hv.2.1)).2
      rw [himg] at e
      rw [e, if_pos ⟨hpos, hv.2.2⟩]
  obtain ⟨f0, f1, f2, f3, _, _⟩ := fix_all_inode_blocks_fields (inode_of s.img i)
  refine ⟨?_, hone, ?_, ?_⟩
  · rw [(check_bad_blocks_step_count s i hv.1).2, hic]
    omega
  · intro p level t h0 hin
    unfold check_indirect_field
    rw [if_pos h0, if_pos (by by_contra hc; exact hin ((inRange_iff p).mpr hc))]
  · intro p h0 hin
    refine ⟨fun hp => ?_, fun hp => ?_, fun hp => ?_, fun hp => ?_⟩
    · have h1 := hone (fun _ => 0) p h0 hin
      rw [← hp] at h1
      obtain ⟨r1, r2, r3⟩ := hrep (by rw [hic]; omega)
      exact ⟨r1, by rw [r2, f0, hp, hcleared p h0 hin],
        fun hd => by rw [r3 hd, f0, hp, hcleared p h0 hin]⟩
    · have h1 := hone (tree_count 1 s.img 1) p h0 hin
      rw [← hp] at h1
      obtain ⟨r1, r2, r3⟩ := hrep (by rw [hic]; omega)
      exact ⟨r1, by rw [r2, f1, hp, hcleared p h0 hin],
        fun hd => by rw [r3 hd, f1, hp, hcleared p h0 hin]⟩
    · have h1 := hone (tree_count 1 s.img 2) p h0 hin
      rw [← hp] at h1
      obtain ⟨r1, r2, r3⟩ := hrep (by rw [hic]; omega)
      exact ⟨r1, by rw [r2, f2, hp, hcleared p h0 hin],
        fun hd => by rw [r3 hd, f2, hp, hcleared p h0 hin]⟩
    · have h1 := hone (tree_count 1 s.img 3) p h0 hin
      rw [← hp] at h1
      obtain ⟨r1, r2, r3⟩ := hrep (by rw [hic]; omega)
      exact ⟨r1, by rw [r2, f3, hp, hcleared p h0 hin],
        fun hd => by rw [r3 hd, f3, hp, hcleared p h0 hin]⟩

/-- Witness for C14: inode 0 of `img_low_direct` has direct pointer 3; the
check fails and after the repair the direct pointer reads 0. -/
theorem out_of_range_pointer_counted_once_and_cleared_witness :
    ValidInode (initial_state img_low_direct).img 0
    ∧ inode_direct_block (inode_of (initial_state img_low_direct).img 0) = 3
    ∧ (check_bad_blocks (initial_state img_low_direct)).1 = false
    ∧ inode_direct_block
        (inode_of (fix_bad_blocks (check_bad_blocks (initial_state img_low_direct)).2).img 0) = 0
    ∧ inode_direct_block
        (inode_of (fix_errors (check_bad_blocks (initial_state img_low_direct)).2).img 0) = 0 :=
  have h : ValidInode (initial_state img_low_direct).img 0
      ∧ inode_direct_block (inode_of (initial_state img_low_direct).img 0) = 3
      ∧ ¬ InRange 3 := by decide!
  have t := ((out_of_range_pointer_counted_once_and_cleared (initial_state img_low_direct) 0
    h.1).2.2.2 3 (by omega) h.2.2).1 h.2.1
  ⟨h.1, h.2.1, t.1, t.2.1, t.2.2 rfl⟩

/-- C15 (counterexample): in `img_truncated` the only valid inode is inode 0,
its pointers are 0, 9, 0, 0, none of them outside `[8, 64)`, and block 9 lies
past the end of the file, so the walk reads no indirect block and finds no
out-of-range pointer; yet `check_bad_blocks` counts one bad-block error and
fails. -/
theorem unreadable_indirect_block_counted :
    (∀ i, i < 80 → ValidInode img_truncated i → i = 0)
    ∧ ValidInode img_truncated 0
    ∧ inode_direct_block (inode_of img_truncated 0) = 0
    ∧ inode_single_indirect (inode_of img_truncated 0) = 9
    ∧ inode_double_indirect (inode_of img_truncated 0) = 0
    ∧ inode_triple_indirect (inode_of img_truncated 0) = 0
    ∧ ¬ Readable img_truncated 9
    ∧ walk_count 0 img_truncated = 0
    ∧ (check_bad_blocks (initial_state img_truncated)).2.bad_block_errors = 1
    ∧ (check_bad_blocks (initial_state img_truncated)).1 = false := by
  decide!

/-- C15 (amended): after `check_bad_blocks` the bad-block error count is
`walk_count 1`: one for each non-zero top-level pointer of a valid inode that
lies outside `[8, 64)`, one for each non-zero entry outside `[8, 64)` of an
indirect block the walk reads, and one for each indirect block the walk visits
and cannot read, every visit of a block being counted.  The count does not
depend on the counters or arrays before the call, the check passes iff the
count is 0, and on an image that holds all 64 blocks the count is the number of
out-of-range non-zero pointers alone. -/
theorem check_bad_blocks_counts_walk (s : State) :
    (check_bad_blocks s).2.bad_block_errors = walk_count 1 s.img
    ∧ ((check_bad_blocks s).1 = true ↔ (check_bad_blocks s).2.bad_block_errors = 0)
    ∧ (∀ t : State, t.img = s.img →
        (check_bad_blocks t).2.bad_block_errors = (check_bad_blocks s).2.bad_block_errors)
    ∧ (Readable s.img 63 → (check_bad_blocks s).2.bad_block_errors = walk_count 0 s.img) := by
  obtain ⟨h1, h2⟩ := check_bad_blocks_count s
  refine ⟨h1, ?_, ?_, ?_⟩
  · rw [h1]; exact h2
  · intro t ht
    rw [h1, (check_bad_blocks_count t).1, ht]
  · intro hr
    rw [h1, walk_count_full 1 s.img hr]

/-- Witness for C15 (amended): `img_bad_entry` holds all 64 blocks, and a state
with other counters over the same image gives the same count. -/
theorem check_bad_blocks_counts_walk_witness :
    Readable (initial_state img_bad_entry).img 63
    ∧ (check_bad_blocks (initial_state img_bad_entry)).2.bad_block_errors
        = walk_count 0 (initial_state img_bad_entry).img
    ∧ (check_bad_blocks { initial_state img_bad_entry with bad_block_errors := 5 }).2.bad_block_errors
        = (check_bad_blocks (initial_state img_bad_entry)).2.bad_block_errors :=
  have h : Readable (initial_state img_bad_entry).img 63 := by decide!
  ⟨h, (check_bad_blocks_counts_walk (initial_state img_bad_entry)).2.2.2 h,
    (check_bad_blocks_counts_walk (initial_state img_bad_entry)).2.2.1
      { initial_state img_bad_entry with bad_block_errors := 5 } rfl⟩

/-- C16: for every in-range block of the image whose 1024 four-byte entries
are all 0, `check_indirect_block` at level 1 on that block returns the state
it was given: `used_blocks` is unchanged (no block is claimed) and the
bad-block error count is unchanged. -/
theorem all_zero_indirect_block_claims_nothing (s : State) (B : Nat)
    (hB : 8 ≤ B ∧ B < 64) (hr : Readable s.img B)
    (hz : ∀ k, k < 1024 → entry s.img B k = 0) :
    (check_indirect_block 1 B s).used_blocks = s.used_blocks
    ∧ (check_indirect_block 1 B s).bad_block_errors = s.bad_block_errors
    ∧ check_indirect_block 1 B s = s := by
  have e := check_indirect_block_zero 1 B s hB hr hz
  rw [e]
  exact ⟨rfl, rfl, rfl⟩

/-- Witness for C16: block 9 of `img_one_file` holds only zero bytes. -/
theorem all_zero_indirect_block_claims_nothing_witness :
    (8 ≤ 9 ∧ 9 < 64) ∧ Readable (initial_state img_one_file).img 9
    ∧ (∀ k, k < 1024 → entry (initial_state img_one_file).img 9 k = 0)
    ∧ (check_indirect_block 1 9 (initial_state img_one_file)).bad_block_errors
        = (initial_state img_one_file).bad_block_errors :=
  have h : (8 ≤ 9 ∧ 9 < 64) ∧ Readable (initial_state img_one_file).img 9
      ∧ (∀ k, k < 1024 → entry (initial_state img_one_file).img 9 k = 0) := by decide!
  ⟨h.1, h.2.1, h.2.2,
    (all_zero_indirect_block_claims_nothing (initial_state img_one_file) 9 h.1 h.2.1 h.2.2).2.1⟩

/-- C17: the indirect-tree walk terminates on every image.  The fuelled
transcription `check_indirect_block_depth`, which gives up when its nesting
budget is used up, returns with a budget of 1, 2 and 3 nested calls at levels
1, 2 and 3, the levels `check_bad_blocks` calls it with (and with any budget of
at least `level` at a level of at least 1), for every state and every block,
whatever the indirect blocks point to; its result is that of
`check_indirect_block`, which calls itself only from the entry loop, with
`level - 1`, and only while `level > 1`. -/
theorem indirect_walk_depth_bounded (s : State) (B : Nat) :
    check_indirect_block_depth 1 1 B s = some (check_indirect_block 1 B s)
    ∧ check_indirect_block_depth 2 2 B s = some (check_indirect_block 2 B s)
    ∧ check_indirect_block_depth 3 3 B s = some (check_indirect_block 3 B s)
    ∧ (∀ n extra, check_indirect_block_depth (n + 1 + extra) (n + 1) B s
        = some (check_indirect_block (n + 1) B s))
    ∧ (∀ level, check_indirect_block level B s
        = check_indirect_body B
            (fun p t => if level > 1 then check_indirect_block (level - 1) p t else t) s)
    ∧ (∀ ptr level, check_indirect_field ptr level s = s
        ∨ check_indirect_field ptr level s = { s with bad_block_errors := s.bad_block_errors + 1 }
        ∨ check_indirect_field ptr level s
            = check_indirect_block level ptr { s with used_blocks := setAt s.used_blocks ptr true }) := by
  refine ⟨check_indirect_block_depth_enough 1 1 B s (by omega) (by omega),
    check_indirect_block_depth_enough 2 2 B s (by omega) (by omega),
    check_indirect_block_depth_enough 3 3 B s (by omega) (by omega),
    fun n extra => check_indirect_block_depth_enough (n + 1 + extra) (n + 1) B s
      (by omega) (by omega),
    fun level => check_indirect_block_eq level B s, ?_⟩
  intro ptr level
  unfold check_indirect_field
  by_cases h0 : ptr ≠ 0
  · rw [if_pos h0]
    by_cases h1 : ptr < DATA_BLOCK_START ∨ ptr ≥ TOTAL_BLOCKS
    · rw [if_pos h1]; exact Or.inr (Or.inl rfl)
    · rw [if_neg h1]; exact Or.inr (Or.inr rfl)
  · rw [if_neg h0]; exact Or.inl rfl

/-- C18 (counterexample): in `st_two_pairs` blocks 8 and 9 are flagged, block
9 is marked used, bit 2 of the data bitmap is free, and the valid inodes 2 < 3
both have direct pointer 9; yet after the duplicate branch the direct pointer
of inode 3 is still 9: the only free block went to inode 1, the claimant of
block 8. -/
theorem second_claimant_left_without_block :
    st_two_pairs.duplicate_block_errors > 0
    ∧ st_two_pairs.duplicated_blocks 9 = true
    ∧ is_used_bit st_two_pairs.data_bitmap (9 - 8) = true
    ∧ is_used_bit st_two_pairs.data_bitmap 2 = false
    ∧ ValidInode st_two_pairs.img 2 ∧ ValidInode st_two_pairs.img 3
    ∧ inode_direct_block (inode_of st_two_pairs.img 2) = 9
    ∧ inode_direct_block (inode_of st_two_pairs.img 3) = 9
    ∧ inode_direct_block (inode_of (fix_duplicates st_two_pairs).img 1) = 10
    ∧ inode_direct_block (inode_of (fix_duplicates st_two_pairs).img 3) = 9 := by
  decide!

/-- C18 (amended): the duplicate branch of `fix_errors`, entered with block
`B` inside the image file, flagged as duplicated and marked used in the data
bitmap, `k` the first free data-bitmap bit, and two valid inodes `i < j` whose
direct pointers both equal `B`, where no other valid inode below `j` has a
flagged direct pointer.  Afterwards the direct pointer of `i` is still `B`,
the direct pointer of `j` is `B' = 8 + k`, a block in `[8, 64)` other than
`B`, block `B'` holds what `B` held before, block `B` is unchanged, and the
data bitmap written to block 2 has the bits of both `B` and `B'` set. -/
theorem duplicate_repair_reassigns_first_claimant (s : State) (B i j k : Nat)
    (hdup : s.duplicate_block_errors > 0)
    (hB : InRange B) (hrB : Readable s.img B)
    (hflag : s.duplicated_blocks B = true)
    (hbit : is_used_bit s.data_bitmap (B - 8) = true)
    (hk : k < 56) (hfree : is_used_bit s.data_bitmap k = false)
    (hleast : ∀ m, m < k → is_used_bit s.data_bitmap m = true)
    (hi : ValidInode s.img i) (hj : ValidInode s.img j) (hij : i < j)
    (hdi : inode_direct_block (inode_of s.img i) = B)
    (hdj : inode_direct_block (inode_of s.img j) = B)
    (hothers : ∀ x, x < j → x ≠ i → ValidInode s.img x →
      InRange (inode_direct_block (inode_of s.img x)) →
      s.duplicated_blocks (inode_direct_block (inode_of s.img x)) = false) :
    inode_direct_block (inode_of (fix_duplicates s).img i) = B
    ∧ inode_direct_block (inode_of (fix_duplicates s).img j) = 8 + k
    ∧ InRange (8 + k) ∧ 8 + k ≠ B
    ∧ (∀ a, a < 4096 → block_of (fix_duplicates s).img (8 + k) a = block_of s.img B a)
    ∧ (∀ a, a < 4096 → block_of (fix_duplicates s).img B a = block_of s.img B a)
    ∧ is_used_bit (block_of (fix_duplicates s).img 2) (B - 8) = true
    ∧ is_used_bit (block_of (fix_duplicates s).img 2) (8 + k - 8) = true := by
  have hB8 : 8 ≤ B := hB.1
  have hB64 : B < 64 := hB.2
  have hkB : B ≠ k + 8 := by
    intro hc
    have e : B - 8 = k := by omega
    rw [e, hfree] at hbit
    exact Bool.noConfusion hbit
  have hfu : (List.range INODE_COUNT).foldl (first_user_step s.img) (fun _ => (-1 : Int)) B
      = (i : Int) := by
    refine first_user_lowest s.img B i hi hdi hB (fun x hx hc => ?_)
    have := hothers x (by omega) (by omega) hc.1 (by rw [hc.2]; exact hB)
    rw [hc.2, hflag] at this
    exact Bool.noConfusion this
  have hcj : Claimant ((List.range INODE_COUNT).foldl (first_user_step s.img)
      (fun _ => (-1 : Int))) s j := by
    refine ⟨hj, by rw [hdj]; exact hB, by rw [hdj]; exact hflag, ?_⟩
    rw [hdj, hfu]
    omega
  have hbefore : ∀ x, x < j → ¬ Claimant ((List.range INODE_COUNT).foldl (first_user_step s.img)
      (fun _ => (-1 : Int))) s x := by
    intro x hx hc
    by_cases hxi : x = i
    · rw [hxi] at hc
      have := hc.2.2.2
      rw [hdi] at this
      exact this hfu
    · have := hothers x hx hxi hc.1 hc.2.1
      rw [hc.2.2.1] at this
      exact Bool.noConfusion this
  obtain ⟨⟨fbit, _, fread, fblock⟩, finode⟩ := fix_duplicate_fold_first_claimant _ s j k hj.1 hcj
    hbefore hk hfree hleast (by rw [hdj]; exact hrB)
  have e8 : k + DATA_BLOCK_START = 8 + k := by show k + 8 = 8 + k; omega
  have e8' : k + 8 = 8 + k := by omega
  -- the state after inode `j` has been rewritten
  have j_i := reassign_state_inode s k j i hk hj.1 hi.1 hj.2.1 hi.2.1
  rw [if_neg (by omega)] at j_i
  have j_j := reassign_state_inode s k j j hk hj.1 hj.1 hj.2.1 hj.2.1
  rw [if_pos rfl] at j_j
  have j_bitB : is_used_bit (reassign_state s k j).data_bitmap (B - 8) = true := by
    rw [reassign_state_bit, hbit]; simp
  have j_bitk : is_used_bit (reassign_state s k j).data_bitmap (k + 8 - 8) = true := by
    rw [reassign_state_bit]
    have : k + 8 - 8 = k := by omega
    simp [this]
  have j_rB := reassign_state_readable s k j B hrB
  have j_rk := reassign_state_readable_new s k j hk
  have j_ri := reassign_state_readable s k j _ hi.2.1
  have j_rj := reassign_state_readable s k j _ hj.2.1
  -- the final write of the bitmap
  rw [fix_duplicates_eq s hdup]
  dsimp only
  have hbi := inode_block_num_bounds i hi.1
  have hbj := inode_block_num_bounds j hj.1
  refine ⟨?_, ?_, ⟨by show 8 ≤ 8 + k; omega, by show 8 + k < 64; omega⟩, fun h => hkB (by omega),
    ?_, ?_, ?_, ?_⟩
  · rw [(write_block_low _ 2 (by omega) _ i hi.1 (fread _ j_ri)).2, finode i (by omega) j_ri,
      j_i, hdi]
  · rw [(write_block_low _ 2 (by omega) _ j hj.1 (fread _ j_rj)).2, finode j (by omega) j_rj,
      j_j, e8]
    exact rd32_wr32_same _ 40 _ (by omega)
  · intro a ha
    rw [← e8', block_of_write_other _ 2 (k + 8) _ (by omega) (by omega) (fread _ j_rk) a ha,
      fblock (k + 8) (by omega) (by omega) j_bitk j_rk a ha,
      reassign_state_copy s k j hk hj.1 (by rw [hdj]; exact hB) (by rw [hdj]; exact hkB)
        (by rw [hdj]; exact hrB) a ha, hdj]
  · intro a ha
    rw [block_of_write_other _ 2 B _ (by omega) (by omega) (fread _ j_rB) a ha,
      fblock B hB8 hB64 j_bitB j_rB a ha,
      reassign_state_block s k j hk hj.1 B hB8 hkB hrB a ha]
  · rw [is_used_bit_block_of_write _ 2 _ (by omega) _ (by omega)]
    exact fbit _ j_bitB
  · rw [← e8', is_used_bit_block_of_write _ 2 _ (by omega) _ (by omega)]
    exact fbit _ j_bitk

/-- Witness for C18 (amended): in `st_shared` the valid inodes 0 < 1 both have
direct pointer 8, block 8 is flagged and marked used, and bit 1 is the first
free bit; inode 1 is given block 9. -/
theorem duplicate_repair_reassigns_first_claimant_witness :
    st_shared.duplicate_block_errors > 0
    ∧ ValidInode st_shared.img 0 ∧ ValidInode st_shared.img 1
    ∧ inode_direct_block (inode_of st_shared.img 0) = 8
    ∧ inode_direct_block (inode_of st_shared.img 1) = 8
    ∧ inode_direct_block (inode_of (fix_duplicates st_shared).img 0) = 8
    ∧ inode_direct_block (inode_of (fix_duplicates st_shared).img 1) = 8 + 1 :=
  have h : st_shared.duplicate_block_errors > 0
      ∧ InRange 8 ∧ Readable st_shared.img 8
      ∧ st_shared.duplicated_blocks 8 = true
      ∧ is_used_bit st_shared.data_bitmap (8 - 8) = true
      ∧ is_used_bit st_shared.data_bitmap 1 = false
      ∧ (∀ m, m < 1 → is_used_bit st_shared.data_bitmap m = true)
      ∧ ValidInode st_shared.img 0 ∧ ValidInode st_shared.img 1
      ∧ inode_direct_block (inode_of st_shared.img 0) = 8
      ∧ inode_direct_block (inode_of st_shared.img 1) = 8 := by decide!
  have t := duplicate_repair_reassigns_first_claimant st_shared 8 0 1 1 h.1 h.2.1 h.2.2.1
    h.2.2.2.1 h.2.2.2.2.1 (by decide) h.2.2.2.2.2.1 h.2.2.2.2.2.2.1 h.2.2.2.2.2.2.2.1
    h.2.2.2.2.2.2.2.2.1 (by decide) h.2.2.2.2.2.2.2.2.2.1 h.2.2.2.2.2.2.2.2.2.2
    (fun x hx hne => absurd (by omega) hne)
  ⟨h.1, h.2.2.2.2.2.2.2.1, h.2.2.2.2.2.2.2.2.1, h.2.2.2.2.2.2.2.2.2.1, h.2.2.2.2.2.2.2.2.2.2,
    t.1, t.2.1⟩

/-- C19: `allocate_new_data_block` returns `8 + i` for the least `i` in
`[0, 56)` whose data-bitmap bit is 0; afterwards that bit is set,
`used_blocks[8 + i]` is true and no other bitmap bit or `used_blocks` entry has
changed.  It returns -1 iff all 56 data-region bits are set, and then it
changes nothing: the bitmap, `used_blocks` and the image are as before. -/
theorem allocate_new_data_block_first_free (s : State) :
    (∀ i, i < 56 → is_used_bit s.data_bitmap i = false →
        (∀ k, k < i → is_used_bit s.data_bitmap k = true) →
        (allocate_new_data_block s).1 = ((8 + i : Nat) : Int)
        ∧ is_used_bit (allocate_new_data_block s).2.data_bitmap i = true
        ∧ (allocate_new_data_block s).2.used_blocks (8 + i) = true
        ∧ (∀ k, k ≠ i → is_used_bit (allocate_new_data_block s).2.data_bitmap k
            = is_used_bit s.data_bitmap k)
        ∧ (∀ b, b ≠ 8 + i → (allocate_new_data_block s).2.used_blocks b = s.used_blocks b))
    ∧ ((allocate_new_data_block s).1 = -1 ↔ ∀ k, k < 56 → is_used_bit s.data_bitmap k = true)
    ∧ ((allocate_new_data_block s).1 = -1 → (allocate_new_data_block s).2 = s) := by
  refine ⟨?_, ?_, ?_⟩
  · intro i hi hfree hleast
    have hf := (allocate_find_some_iff s i).mpr ⟨hi, hfree, hleast⟩
    rw [allocate_new_data_block_some s i hf]
    have e : i + DATA_BLOCK_START = 8 + i := by show i + 8 = 8 + i; omega
    refine ⟨by rw [e], ?_, ?_, ?_, ?_⟩
    · exact is_used_bit_set_bit_self _ _
    · show setAt (setAt s.used_blocks (i + DATA_BLOCK_START) true) (i + DATA_BLOCK_START) true
        (8 + i) = true
      rw [e]
      simp [setAt]
    · intro k hk
      show is_used_bit (set_bit (set_bit s.data_bitmap i) i) k = is_used_bit s.data_bitmap k
      rw [is_used_bit_set_bit_other _ _ _ hk, is_used_bit_set_bit_other _ _ _ hk]
    · intro b hb
      show setAt (setAt s.used_blocks (i + DATA_BLOCK_START) true) (i + DATA_BLOCK_START) true b
        = s.used_blocks b
      rw [e]
      simp [setAt, hb]
  · constructor
    · intro h
      cases hf : (List.range (TOTAL_BLOCKS - DATA_BLOCK_START)).find?
          (fun i => !is_used_bit s.data_bitmap i) with
      | none => exact (allocate_find_none_iff s).mp hf
      | some i =>
        rw [allocate_new_data_block_some s i hf] at h
        have : ((i + DATA_BLOCK_START : Nat) : Int) = -1 := h
        omega
    · intro h
      rw [allocate_new_data_block_none s ((allocate_find_none_iff s).mpr h)]
  · intro h
    cases hf : (List.range (TOTAL_BLOCKS - DATA_BLOCK_START)).find?
        (fun i => !is_used_bit s.data_bitmap i) with
    | none => rw [allocate_new_data_block_none s hf]
    | some i =>
      rw [allocate_new_data_block_some s i hf] at h
      have : ((i + DATA_BLOCK_START : Nat) : Int) = -1 := h
      omega

/-- Witness for C19: in `st_shared` bit 0 of the data bitmap is set and bit 1
is the first free bit; `allocate_new_data_block` returns block 9. -/
theorem allocate_new_data_block_first_free_witness :
    is_used_bit st_shared.data_bitmap 1 = false
    ∧ (∀ k, k < 1 → is_used_bit st_shared.data_bitmap k = true)
    ∧ (allocate_new_data_block st_shared).1 = ((8 + 1 : Nat) : Int)
    ∧ (allocate_new_data_block st_shared).2.used_blocks (8 + 1) = true :=
  have h : is_used_bit st_shared.data_bitmap 1 = false
      ∧ (∀ k, k < 1 → is_used_bit st_shared.data_bitmap k = true) := by decide!
  have t := (allocate_new_data_block_first_free st_shared).1 1 (by decide) h.1 h.2
  ⟨h.1, h.2, t.1, t.2.2.1⟩

/-- C20: if every data-region bit of the data bitmap is set when the duplicate
branch of `fix_errors` runs, every pass of its second loop leaves the state as
it found it, and the branch as a whole only writes the data bitmap to block 2:
every inode record and every data block of the image is as before, so no
claimant pointer is rewritten and no partial pointer state is written. -/
theorem full_bitmap_duplicate_repair_writes_nothing (s : State)
    (hfull : ∀ k, k < 56 → is_used_bit s.data_bitmap k = true) :
    (∀ (fu : Nat → Int) (x : Nat), fix_duplicate_step fu s x = s)
    ∧ fix_duplicates s
        = (if s.duplicate_block_errors > 0 then
            { s with img := (write_block s.img (DATA_BITMAP_BLOCK_NUM : Int) s.data_bitmap).2 }
          else s)
    ∧ (∀ i, i < 80 → Readable s.img (inode_block_num i) →
        Readable (fix_duplicates s).img (inode_block_num i)
        ∧ inode_of (fix_duplicates s).img i = inode_of s.img i)
    ∧ (∀ b, 8 ≤ b → b < 64 → Readable s.img b →
        ∀ a, a < 4096 → block_of (fix_duplicates s).img b a = block_of s.img b a)
    ∧ (fix_duplicates s).data_bitmap = s.data_bitmap := by
  have hstep : ∀ (fu : Nat → Int) (x : Nat), fix_duplicate_step fu s x = s :=
    fun fu x => fix_duplicate_step_full fu s x hfull
  have heq : fix_duplicates s
      = (if s.duplicate_block_errors > 0 then
          { s with img := (write_block s.img (DATA_BITMAP_BLOCK_NUM : Int) s.data_bitmap).2 }
        else s) := by
    by_cases hd : s.duplicate_block_errors > 0
    · rw [fix_duplicates_eq s hd, if_pos hd, foldl_fixed _ _ s (fun x _ => hstep _ x)]
    · rw [if_neg hd, fix_duplicates_skip s (by omega)]
  refine ⟨hstep, heq, ?_, ?_, ?_⟩
  · intro i hi hr
    rw [heq]
    by_cases hd : s.duplicate_block_errors > 0
    · rw [if_pos hd]
      exact write_block_low s.img 2 (by omega) _ i hi hr
    · rw [if_neg hd]
      exact ⟨hr, rfl⟩
  · intro b h8 h64 hr a ha
    rw [heq]
    by_cases hd : s.duplicate_block_errors > 0
    · rw [if_pos hd]
      exact block_of_write_other s.img 2 b _ (by omega) (by omega) hr a ha
    · rw [if_neg hd]
  · rw [heq]
    by_cases hd : s.duplicate_block_errors > 0
    · rw [if_pos hd]
    · rw [if_neg hd]

/-- Witness for C20: `st_shared_full`, where inodes 0 and 1 share the flagged
block 8 and no data-region bit is free; inode 1 keeps its direct pointer 8. -/
theorem full_bitmap_duplicate_repair_writes_nothing_witness :
    (∀ k, k < 56 → is_used_bit st_shared_full.data_bitmap k = true)
    ∧ st_shared_full.duplicate_block_errors > 0
    ∧ st_shared_full.duplicated_blocks 8 = true
    ∧ inode_direct_block (inode_of st_shared_full.img 1) = 8
    ∧ inode_of (fix_duplicates st_shared_full).img 1 = inode_of st_shared_full.img 1 :=
  have h : (∀ k, k < 56 → is_used_bit st_shared_full.data_bitmap k = true)
      ∧ st_shared_full.duplicate_block_errors > 0
      ∧ st_shared_full.duplicated_blocks 8 = true
      ∧ inode_direct_block (inode_of st_shared_full.img 1) = 8
      ∧ Readable st_shared_full.img (inode_block_num 1) := by decide!
  ⟨h.1, h.2.1, h.2.2.1, h.2.2.2.1,
    ((full_bitmap_duplicate_repair_writes_nothing st_shared_full h.1).2.2.1 1 (by decide)
      h.2.2.2.2).2⟩

/-- C21: none of the five validators writes to the image, so a validation
pass leaves it as it was; and when all five checks of the first pass return
passed, `main` does not call `fix_errors`: the run ends in the state the first
pass left, and the image after the run is the image before it. -/
theorem clean_first_pass_leaves_image (img : Image) :
    (∀ s : State, (check_superblock s).2.img = s.img)
    ∧ (∀ s : State, (check_inode_bitmap s).2.img = s.img)
    ∧ (∀ s : State, (check_data_bitmap s).2.img = s.img)
    ∧ (∀ s : State, (check_duplicates s).2.img = s.img)
    ∧ (∀ s : State, (check_bad_blocks s).2.img = s.img)
    ∧ (∀ s : State, (validate s).2.img = s.img)
    ∧ ((validate (initial_state img)).1.superblock_ok = true →
       (validate (initial_state img)).1.inode_bitmap_ok = true →
       (validate (initial_state img)).1.data_bitmap_ok = true →
       (validate (initial_state img)).1.duplicates_ok = true →
       (validate (initial_state img)).1.bad_blocks_ok = true →
        (main img).repaired = false ∧ (main img).final = (main img).first
        ∧ (main img).final.img = img) := by
  refine ⟨fun s => ?_, fun s => ?_, fun s => ?_, fun s => rfl,
    fun s => (check_bad_blocks_used s).1, validate_img, ?_⟩
  · obtain ⟨_, _, e⟩ := check_superblock_frame s
    rw [e]
  · obtain ⟨_, _, e⟩ := check_inode_bitmap_frame s
    rw [e]
  · obtain ⟨_, _, e⟩ := check_data_bitmap_frame s
    rw [e]
  · intro h1 h2 h3 h4 h5
    have hf : ¬ first_pass_failed img = true := by
      unfold first_pass_failed
      rw [h1, h2, h3, h4, h5]
      decide
    rw [main_repaired, main_final, main_first, if_neg hf]
    exact ⟨Bool.eq_false_iff.mpr hf, rfl, validate_img _⟩

/-- Witness for C21: all five checks of the first pass pass on `img_unmarked`. -/
theorem clean_first_pass_leaves_image_witness :
    (validate (initial_state img_unmarked)).1.superblock_ok = true
    ∧ (main img_unmarked).repaired = false
    ∧ (main img_unmarked).final.img = img_unmarked :=
  have h : (validate (initial_state img_unmarked)).1.superblock_ok = true
      ∧ (validate (initial_state img_unmarked)).1.inode_bitmap_ok = true
      ∧ (validate (initial_state img_unmarked)).1.data_bitmap_ok = true
      ∧ (validate (initial_state img_unmarked)).1.duplicates_ok = true
      ∧ (validate (initial_state img_unmarked)).1.bad_blocks_ok = true := by decide!
  have t := (clean_first_pass_leaves_image img_unmarked).2.2.2.2.2.2
    h.1 h.2.1 h.2.2.1 h.2.2.2.1 h.2.2.2.2
  ⟨h.1, t.1, t.2.2⟩


/-- C22: in every state of a run of `main`, on any image, every entry of
`duplicated_blocks` is false and `duplicate_block_errors` is 0; hence
`check_duplicates` passes there and the duplicate branch of `fix_errors`, run
there, is not entered and returns its state.  The states the two validation
passes of `main` end in are such states, the duplicate check of the first pass
passes, and `fix_errors` on the state the first pass leaves is its other five
branches. -/
theorem duplicate_bookkeeping_never_set (img : Image) :
    (∀ s : State, MainReach img s →
        (∀ b, s.duplicated_blocks b = false) ∧ s.duplicate_block_errors = 0
        ∧ (check_duplicates s).1 = true
        ∧ ¬ s.duplicate_block_errors > 0
        ∧ fix_duplicates s = s)
    ∧ MainReach img (main img).first
    ∧ MainReach img (main img).final
    ∧ (validate (initial_state img)).1.duplicates_ok = true
    ∧ fix_errors (main img).first
        = fix_final_write (fix_bad_blocks (fix_data_bitmap (fix_inode_bitmap
            (fix_superblock (main img).first)))) := by
  have key : ∀ s : State, MainReach img s →
      (∀ b, s.duplicated_blocks b = false) ∧ s.duplicate_block_errors = 0
      ∧ (check_duplicates s).1 = true
      ∧ ¬ s.duplicate_block_errors > 0
      ∧ fix_duplicates s = s := by
    intro s hs
    obtain ⟨h1, h2⟩ := mainReach_noDuplicates img s hs
    exact ⟨h1, h2, check_duplicates_fst s h1, by omega, fix_duplicates_skip s h2⟩
  refine ⟨key, mainReach_first img, mainReach_final img, ?_, ?_⟩
  · have hr : MainReach img (check_data_bitmap (check_inode_bitmap
        (check_superblock (initial_state img)).2).2).2 :=
      MainReach.check_data_bitmap _ (MainReach.check_inode_bitmap _
        (MainReach.check_superblock _ MainReach.start))
    rw [validate_eq, pair_fst, checks_duplicates_ok]
    exact (key _ hr).2.2.1
  · have hr : MainReach img (fix_data_bitmap (fix_inode_bitmap (fix_superblock (main img).first))) :=
      MainReach.fix_data_bitmap _ (MainReach.fix_inode_bitmap _
        (MainReach.fix_superblock _ (mainReach_first img)))
    rw [fix_errors_eq, (key _ hr).2.2.2.2]

/-- Witness for C22: the state at program start on `img_shared`, where two
valid inodes share block 8. -/
theorem duplicate_bookkeeping_never_set_witness :
    MainReach img_shared (initial_state img_shared)
    ∧ (check_duplicates (initial_state img_shared)).1 = true :=
  ⟨MainReach.start,
    ((duplicate_bookkeeping_never_set img_shared).1 (initial_state img_shared)
      MainReach.start).2.2.1⟩


/-- C23: for every inode index `i < 80` the accessor arithmetic
`block = 3 + (i * 256) / 4096`, `offset = (i * 256) % 4096` (whose product
`i * 256` fits an `int`) gives `block = 3 + i / 16`, a block in `[3, 7]`, and
`offset = 256 * (i mod 16)` with `offset + 256 <= 4096`, so a record never
straddles two blocks; and the 256-byte slot of `i` is disjoint from the slot
of every other index. -/
theorem inode_slot_arithmetic (i j : Nat) (hi : i < 80) :
    inode_block_num i = 3 + (i * 256) / 4096
    ∧ inode_offset i = (i * 256) % 4096
    ∧ i * 256 < 2147483648
    ∧ inode_block_num i = 3 + i / 16
    ∧ 3 ≤ inode_block_num i ∧ inode_block_num i ≤ 7
    ∧ inode_offset i = 256 * (i % 16)
    ∧ inode_offset i + 256 ≤ 4096
    ∧ (i ≠ j →
        inode_block_num i * 4096 + inode_offset i + 256 ≤ inode_block_num j * 4096 + inode_offset j
        ∨ inode_block_num j * 4096 + inode_offset j + 256
            ≤ inode_block_num i * 4096 + inode_offset i) := by
  have e1 : inode_block_num i = 3 + (i * 256) / 4096 := rfl
  have e2 : inode_offset i = (i * 256) % 4096 := rfl
  have e3 : inode_block_num j = 3 + (j * 256) / 4096 := rfl
  have e4 : inode_offset j = (j * 256) % 4096 := rfl
  refine ⟨e1, e2, by omega, by omega, by omega, by omega, by omega, by omega, fun hne => ?_⟩
  omega

/-- Witness for C23: inodes 15 and 16, the last slot of block 3 and the first
slot of block 4. -/
theorem inode_slot_arithmetic_witness :
    inode_block_num 15 = 3 ∧ inode_offset 15 = 3840
    ∧ inode_block_num 16 = 4 ∧ inode_offset 16 = 0
    ∧ inode_offset 15 + 256 ≤ 4096 :=
  ⟨by decide, by decide, by decide, by decide,
    (inode_slot_arithmetic 15 16 (by decide)).2.2.2.2.2.2.2.1⟩


/-- C24: `read_block` and `write_block` fail (return false) for every block
index that is negative or at least 64; the failed read leaves the buffer and
the failed write leaves the image as they were. -/
theorem block_index_out_of_range_fails (img : Image) (k : Int) (buf : Bytes)
    (h : k < 0 ∨ k ≥ 64) :
    (read_block img k buf).1 = false
    ∧ (read_block img k buf).2 = buf
    ∧ (write_block img k buf).1 = false
    ∧ (write_block img k buf).2 = img := by
  have h' : k < 0 ∨ k ≥ ((TOTAL_BLOCKS : Nat) : Int) := h
  refine ⟨?_, ?_, ?_, ?_⟩
  · unfold read_block; rw [if_pos h']
  · unfold read_block; rw [if_pos h']
  · unfold write_block; rw [if_pos h']
  · unfold write_block; rw [if_pos h']

/-- Witness for C24: block index 64 on the image `img_one_file`. -/
theorem block_index_out_of_range_fails_witness :
    ((64 : Int) < 0 ∨ (64 : Int) ≥ 64)
    ∧ (read_block img_one_file 64 zeros).1 = false
    ∧ (write_block img_one_file 64 zeros).2 = img_one_file :=
  ⟨by decide, (block_index_out_of_range_fails img_one_file 64 zeros (by decide)).1,
    (block_index_out_of_range_fails img_one_file 64 zeros (by decide)).2.2.2⟩


/-- C25 (evaluation at the failing input): in `img_short_table` the inode
bitmap block is inside the file and the block of inode 16 is not; the loop of
`check_inode_bitmap` counts one failure for each of the 64 inodes whose block
cannot be read, yet the counter the check returns is 0 and the check passes. -/
theorem unreadable_inode_block_not_counted :
    Readable img_short_table 1
    ∧ ¬ Readable img_short_table (inode_block_num 16)
    ∧ ((List.range INODE_COUNT).foldl
        (check_inode_bitmap_step img_short_table (block_of img_short_table 1))
        { inode_bitmap_errors := 0, type1_errors := 0, type2_errors := 0 }).inode_bitmap_errors = 64
    ∧ (check_inode_bitmap (initial_state img_short_table)).2.inode_bitmap_errors = 0
    ∧ (check_inode_bitmap (initial_state img_short_table)).1 = true := by
  decide!


/-- C26: for every data bitmap block read from the image and every
`used_blocks` array, `check_data_bitmap` increases the data-bitmap error
counter by exactly the number of blocks `b` in `[8, 64)` for which bit `b - 8`
of the bitmap differs from `used_blocks[b]`, and returns passed iff that number
is 0; bits at positions 56 and above are ignored, as are the entries of
`used_blocks` outside `[8, 64)`: a state that agrees on the first 56 bits and
on `used_blocks` over `[8, 64)` gets the same increment and the same verdict. -/
theorem check_data_bitmap_counts_mismatches (s : State) (hr : Readable s.img 2) :
    (check_data_bitmap s).2.data_bitmap_errors
        = s.data_bitmap_errors + bitmap_mismatches (block_of s.img 2) s.used_blocks
    ∧ ((check_data_bitmap s).1 = true
        ↔ bitmap_mismatches (block_of s.img 2) s.used_blocks = 0)
    ∧ bitmap_mismatches (block_of s.img 2) s.used_blocks
        = (List.range' 8 56).countP
            (fun b => is_used_bit (block_of s.img 2) (b - 8) != s.used_blocks b)
    ∧ (∀ t : State, Readable t.img 2 →
        (∀ k, k < 56 → is_used_bit (block_of t.img 2) k = is_used_bit (block_of s.img 2) k) →
        (∀ b, 8 ≤ b → b < 64 → t.used_blocks b = s.used_blocks b) →
        (check_data_bitmap t).2.data_bitmap_errors
            = t.data_bitmap_errors + bitmap_mismatches (block_of s.img 2) s.used_blocks
        ∧ (check_data_bitmap t).1 = (check_data_bitmap s).1) := by
  obtain ⟨h1, h2, _⟩ := check_data_bitmap_readable s hr
  refine ⟨h1, h2, rfl, ?_⟩
  intro t ht hb hu
  obtain ⟨g1, g2, _⟩ := check_data_bitmap_readable t ht
  have e := bitmap_mismatches_congr (block_of s.img 2) (block_of t.img 2) s.used_blocks
    t.used_blocks hb hu
  refine ⟨by rw [g1, e], ?_⟩
  rw [Bool.eq_iff_iff, g2, h2, e]

/-- Witness for C26: `img_one_file`, whose bitmap marks block 8, checked
against an all-false `used_blocks`: one mismatch. -/
theorem check_data_bitmap_counts_mismatches_witness :
    Readable (initial_state img_one_file).img 2
    ∧ bitmap_mismatches (block_of (initial_state img_one_file).img 2)
        (initial_state img_one_file).used_blocks = 1
    ∧ (check_data_bitmap (initial_state img_one_file)).2.data_bitmap_errors
        = (initial_state img_one_file).data_bitmap_errors
          + bitmap_mismatches (block_of (initial_state img_one_file).img 2)
              (initial_state img_one_file).used_blocks :=
  have h : Readable (initial_state img_one_file).img 2
      ∧ bitmap_mismatches (block_of (initial_state img_one_file).img 2)
          (initial_state img_one_file).used_blocks = 1 := by decide!
  ⟨h.1, h.2, (check_data_bitmap_counts_mismatches (initial_state img_one_file) h.1).1⟩


/-- C27: on every image that holds blocks 0 to 7, which the images on which
every block read and write of the run succeeds do, if the first validation
pass reports at least one error then `main` runs the repair and the recheck,
and the recheck reports zero superblock errors and zero inode-bitmap errors. -/
theorem recheck_superblock_and_inode_bitmap_clean (img : Image) (hr7 : Readable img 7) :
    ((main img).first.superblock_errors + (main img).first.inode_bitmap_errors
        + (main img).first.data_bitmap_errors + (main img).first.duplicate_block_errors
        + (main img).first.bad_block_errors > 0 → (main img).repaired = true)
    ∧ ((main img).repaired = true →
        (main img).final.superblock_errors = 0 ∧ (main img).final.inode_bitmap_errors = 0) := by
  constructor
  · intro h
    have hd := (first_pass_counters img hr7).2.2.2.2.1
    rw [main_repaired]
    apply first_pass_failed_of_errors img hr7
    omega
  · intro h
    rw [main_repaired] at h
    exact recheck_superblock_inode_bitmap img hr7 h

/-- Witness for C27: `img_one_file`, whose first pass reports one error. -/
theorem recheck_superblock_and_inode_bitmap_clean_witness :
    Readable img_one_file 7
    ∧ (main img_one_file).first.superblock_errors + (main img_one_file).first.inode_bitmap_errors
        + (main img_one_file).first.data_bitmap_errors
        + (main img_one_file).first.duplicate_block_errors
        + (main img_one_file).first.bad_block_errors > 0
    ∧ (main img_one_file).final.superblock_errors = 0
    ∧ (main img_one_file).final.inode_bitmap_errors = 0 :=
  have h : Readable img_one_file 7
      ∧ (main img_one_file).first.superblock_errors
          + (main img_one_file).first.inode_bitmap_errors
          + (main img_one_file).first.data_bitmap_errors
          + (main img_one_file).first.duplicate_block_errors
          + (main img_one_file).first.bad_block_errors > 0 := by decide!
  have t := recheck_superblock_and_inode_bitmap_clean img_one_file h.1
  ⟨h.1, h.2, (t.2 (t.1 h.2)).1, (t.2 (t.1 h.2)).2⟩


/-- C28: on every image that holds blocks 0 to 7, which the images on which
every block read and write of the run succeeds do, if the first validation
pass reports a non-zero data-bitmap error count then `main` runs the repair
and the recheck, the recheck reports zero data-bitmap errors, and in the data
bitmap left in block 2 of the image bit `b - 8` is set exactly for the blocks
`b` of `[8, 64)` that are reachable from the valid inodes of the repaired
image. -/
theorem recheck_data_bitmap_clean (img : Image) (hr7 : Readable img 7)
    (herr : (main img).first.data_bitmap_errors > 0) :
    (main img).repaired = true
    ∧ (main img).final.data_bitmap_errors = 0
    ∧ (∀ b, 8 ≤ b → b < 64 →
        (is_used_bit (block_of (main img).final.img 2) (b - 8) = true
          ↔ Reachable (main img).final.img b)) := by
  have hf : first_pass_failed img = true :=
    first_pass_failed_of_errors img hr7 (Or.inr (Or.inr (Or.inl herr)))
  obtain ⟨h1, h2⟩ := recheck_data_bitmap img hr7 hf herr
  exact ⟨by rw [main_repaired]; exact hf, h1, h2⟩

/-- Witness for C28: `img_one_file`, whose first pass reports one data-bitmap
error; after the run bit 0 of the bitmap is set iff block 8 is reachable. -/
theorem recheck_data_bitmap_clean_witness :
    Readable img_one_file 7
    ∧ (main img_one_file).first.data_bitmap_errors > 0
    ∧ (main img_one_file).final.data_bitmap_errors = 0
    ∧ (is_used_bit (block_of (main img_one_file).final.img 2) (8 - 8) = true
        ↔ Reachable (main img_one_file).final.img 8) :=
  have h : Readable img_one_file 7 ∧ (main img_one_file).first.data_bitmap_errors > 0 := by
    decide!
  have t := recheck_data_bitmap_clean img_one_file h.1 h.2
  ⟨h.1, h.2, t.2.1, t.2.2 8 (by decide) (by decide)⟩


/-- C29: the bad-block branch of `fix_errors` changes nothing but out-of-range
top-level pointers of valid inodes.  After it each of the four pointer fields
of a valid inode is 0 if it was non-zero and outside `[8, 64)` and is as before
otherwise; every other byte of every inode record, and the whole record of an
inode that is not valid, is as before; the image keeps its size and every byte
that changed lies in the four pointer fields of a valid inode, so every block
outside the inode table is unchanged; no other global changes; and the closing
write of the data bitmap changes block 2 only. -/
theorem bad_block_repair_changes_only_bad_pointers (s : State) (hb : s.bad_block_errors > 0) :
    (∀ i, ValidInode s.img i →
        inode_direct_block (inode_of (fix_bad_blocks s).img i)
          = cleared (inode_direct_block (inode_of s.img i))
        ∧ inode_single_indirect (inode_of (fix_bad_blocks s).img i)
          = cleared (inode_single_indirect (inode_of s.img i))
        ∧ inode_double_indirect (inode_of (fix_bad_blocks s).img i)
          = cleared (inode_double_indirect (inode_of s.img i))
        ∧ inode_triple_indirect (inode_of (fix_bad_blocks s).img i)
          = cleared (inode_triple_indirect (inode_of s.img i)))
    ∧ (∀ p, cleared p = if p ≠ 0 ∧ (p < 8 ∨ 64 ≤ p) then 0 else p)
    ∧ (∀ i, i < 80 → Readable s.img (inode_block_num i) →
        ∀ a, a < 40 ∨ 56 ≤ a → inode_of (fix_bad_blocks s).img i a = inode_of s.img i a)
    ∧ (∀ i, i < 80 → Readable s.img (inode_block_num i) →
        is_valid_inode (inode_of s.img i) = false →
        inode_of (fix_bad_blocks s).img i = inode_of s.img i)
    ∧ (fix_bad_blocks s).img.size = s.img.size
    ∧ (∀ a, a < s.img.size → (fix_bad_blocks s).img.byte a ≠ s.img.byte a →
        ∃ i, ValidInode s.img i ∧ 12288 + 256 * i + 40 ≤ a ∧ a < 12288 + 256 * i + 56)
    ∧ (∀ n a, n < 3 ∨ 8 ≤ n → a < 4096 → n * 4096 + a < s.img.size →
        block_of (fix_bad_blocks s).img n a = block_of s.img n a)
    ∧ fix_bad_blocks s = { s with img := (fix_bad_blocks s).img }
    ∧ (∀ a, a < s.img.size → a < 8192 ∨ 12288 ≤ a →
        (fix_final_write (fix_bad_blocks s)).img.byte a = s.img.byte a
          ∨ ∃ i, ValidInode s.img i ∧ 12288 + 256 * i + 40 ≤ a ∧ a < 12288 + 256 * i + 56) := by
  have hbyte : ∀ a, a < s.img.size → (fix_bad_blocks s).img.byte a ≠ s.img.byte a →
      ∃ i, ValidInode s.img i ∧ 12288 + 256 * i + 40 ≤ a ∧ a < 12288 + 256 * i + 56 := by
    intro a ha hne
    by_contra hc
    exact hne (fix_bad_blocks_byte s a ha (fun j hv hw => hc ⟨j, hv, hw.1, hw.2⟩))
  refine ⟨?_, ?_, ?_, ?_, fix_bad_blocks_size s, hbyte, ?_, fix_bad_blocks_state s, ?_⟩
  · intro i hv
    have e := (fix_bad_blocks_inode s i hv.1 hv.2.1).2
    rw [if_pos ⟨hb, hv.2.2⟩] at e
    obtain ⟨f0, f1, f2, f3, _, _⟩ := fix_all_inode_blocks_fields (inode_of s.img i)
    rw [e]
    exact ⟨f0, f1, f2, f3⟩
  · intro p
    unfold cleared InRange
    by_cases h : p ≠ 0 ∧ (p < 8 ∨ 64 ≤ p)
    · rw [if_pos h, if_pos ⟨h.1, by show ¬ (8 ≤ p ∧ p < 64); omega⟩]
    · rw [if_neg h, if_neg (by
        rintro ⟨h0, h1⟩
        have h1' : ¬ (8 ≤ p ∧ p < 64) := h1
        exact h ⟨h0, by omega⟩)]
  · intro i hi hr a ha
    rw [(fix_bad_blocks_inode s i hi hr).2]
    by_cases hc : s.bad_block_errors > 0 ∧ is_valid_inode (inode_of s.img i) = true
    · rw [if_pos hc, fix_all_inode_blocks_outside _ a ha]
    · rw [if_neg hc]
  · intro i hi hr hv
    rw [(fix_bad_blocks_inode s i hi hr).2, if_neg (fun hc => by
      rw [hv] at hc
      exact Bool.noConfusion hc.2)]
  · intro n a hn ha hsz
    show (fix_bad_blocks s).img.byte (n * 4096 + a) = s.img.byte (n * 4096 + a)
    apply fix_bad_blocks_byte s _ hsz
    intro j hv hw
    have := hv.1
    omega
  · intro a ha hout
    by_cases hc : ∃ i, ValidInode s.img i ∧ 12288 + 256 * i + 40 ≤ a ∧ a < 12288 + 256 * i + 56
    · exact Or.inr hc
    · left
      rw [fix_final_write_byte _ a (by rw [fix_bad_blocks_size]; exact ha) hout]
      exact fix_bad_blocks_byte s a ha (fun j hv hw => hc ⟨j, hv, hw.1, hw.2⟩)

/-- Witness for C29: `img_low_direct` with one bad-block error counted; the
direct pointer 3 of inode 0 is cleared. -/
theorem bad_block_repair_changes_only_bad_pointers_witness :
    ({ initial_state img_low_direct with bad_block_errors := 1 } : State).bad_block_errors > 0
    ∧ ValidInode ({ initial_state img_low_direct with bad_block_errors := 1 } : State).img 0
    ∧ inode_direct_block (inode_of
        ({ initial_state img_low_direct with bad_block_errors := 1 } : State).img 0) = 3
    ∧ cleared 3 = 0
    ∧ inode_direct_block (inode_of
        (fix_bad_blocks { initial_state img_low_direct with bad_block_errors := 1 }).img 0)
        = cleared (inode_direct_block (inode_of
            ({ initial_state img_low_direct with bad_block_errors := 1 } : State).img 0)) :=
  have h : ValidInode ({ initial_state img_low_direct with bad_block_errors := 1 } : State).img 0
      ∧ inode_direct_block (inode_of
          ({ initial_state img_low_direct with bad_block_errors := 1 } : State).img 0) = 3
      ∧ cleared 3 = 0 := by decide!
  ⟨by decide, h.1, h.2.1, h.2.2,
    ((bad_block_repair_changes_only_bad_pointers
      { initial_state img_low_direct with bad_block_errors := 1 } (by decide)).1 0 h.1).1⟩


/-- C30: the program with every index checked computes what the program
computes, on every image and from every state: no access to `used_blocks`,
`duplicated_blocks` or `first_user_inode` uses an index outside `[8, 64)`, no
data-bitmap bit index lies outside `[0, 56)`, and the out-of-range branch at
the top of `check_indirect_block` is not taken in any call made by
`check_bad_blocks` or by the function itself, in the two validation passes
and in the repair.  The checked accesses do fail outside their range, and the
checked `check_indirect_block` does fail on a block outside `[8, 64)`.  In
particular the walker marks no block outside `[8, 64)` as used. -/
theorem indices_stay_in_range (img : Image) :
    main_checked img = some (main img)
    ∧ (∀ s : State, validate_checked s = some (validate s))
    ∧ (∀ s : State, fix_errors_checked s = some (fix_errors s))
    ∧ (∀ s : State, check_data_bitmap_checked s = some (check_data_bitmap s))
    ∧ (∀ s : State, check_duplicates_checked s = some (check_duplicates s))
    ∧ (∀ s : State, check_bad_blocks_checked s = some (check_bad_blocks s))
    ∧ (∀ s : State, fix_data_bitmap_checked s = some (fix_data_bitmap s))
    ∧ (∀ s : State, fix_duplicates_checked s = some (fix_duplicates s))
    ∧ (∀ s : State, allocate_new_data_block_checked s = some (allocate_new_data_block s))
    ∧ (∀ (lo hi i : Nat) (v : Nat), checked lo hi i v = none ↔ ¬ (lo ≤ i ∧ i < hi))
    ∧ (∀ (level B : Nat) (s : State), ¬ (8 ≤ B ∧ B < 64) →
        check_indirect_block_checked level B s = none)
    ∧ (∀ (level B : Nat) (s : State), 8 ≤ B ∧ B < 64 →
        check_indirect_block_checked level B s = some (check_indirect_block level B s))
    ∧ (∀ (s : State) (b : Nat), (check_bad_blocks s).2.used_blocks b = true → 8 ≤ b ∧ b < 64)
    ∧ (∀ b, (main img).first.used_blocks b = true → 8 ≤ b ∧ b < 64)
    ∧ (∀ b, (main img).final.used_blocks b = true → 8 ≤ b ∧ b < 64) := by
  refine ⟨main_checked_eq img, validate_checked_eq, fix_errors_checked_eq,
    check_data_bitmap_checked_eq, check_duplicates_checked_eq, check_bad_blocks_checked_eq,
    fix_data_bitmap_checked_eq, fix_duplicates_checked_eq, allocate_new_data_block_checked_eq,
    ?_, fun level B s h => check_indirect_block_checked_out level B s h,
    fun level B s h => check_indirect_block_checked_eq level B s h,
    fun s b h => check_bad_blocks_used_inRange s b h, ?_, ?_⟩
  · intro lo hi i v
    unfold checked
    by_cases h : lo ≤ i ∧ i < hi
    · rw [if_pos h]
      simp [h]
    · rw [if_neg h]
      simp [h]
  · intro b h
    rw [main_first, validate_walk] at h
    exact check_bad_blocks_used_inRange _ b h
  · intro b h
    rw [main_final] at h
    by_cases hf : first_pass_failed img = true
    · rw [if_pos hf, validate_walk] at h
      exact check_bad_blocks_used_inRange _ b h
    · rw [if_neg hf, validate_walk] at h
      exact check_bad_blocks_used_inRange _ b h

/-- Witness for C30: on `img_one_file` the walker marks block 8, a data block. -/
theorem indices_stay_in_range_witness :
    (check_bad_blocks (initial_state img_one_file)).2.used_blocks 8 = true
    ∧ (8 ≤ 8 ∧ 8 < 64)
    ∧ main_checked img_one_file = some (main img_one_file) :=
  have h : (check_bad_blocks (initial_state img_one_file)).2.used_blocks 8 = true := by decide!
  ⟨h, (indices_stay_in_range img_one_file).2.2.2.2.2.2.2.2.2.2.2.2.1
      (initial_state img_one_file) 8 h,
    (indices_stay_in_range img_one_file).1⟩

/-- C31 (counterexample): the command `cmd_newline_ls`, a newline character
followed by `ls`, is not empty, so it is the one most recent non-empty command
of the sequence made of it alone; `add_to_history` does not store it: the
history stays empty, and a history that holds a command stays as it is. -/
theorem newline_command_not_recorded :
    cmd_newline_ls ≠ []
    ∧ recent_nonempty [cmd_newline_ls] = [cmd_newline_ls]
    ∧ stored (add_all [cmd_newline_ls]) = []
    ∧ stored (add_all [cmd_newline_ls]) ≠ (recent_nonempty [cmd_newline_ls]).map some
    ∧ stored (add_all [[108, 115], cmd_newline_ls]) = [some [108, 115]] := by
  decide

/-- C31 (amended): for every sequence of `add_to_history` calls from program
start the stored history has at most 100 entries and consists of the most
recent (up to 100) commands that are non-empty and do not begin with a newline
character, in the order they were added.  A command that is empty or begins
with a newline character leaves the history unchanged; adding any other
command to a full history keeps the count at 100, drops the oldest entry,
shifts the rest down by one and appends the new command last, and adding it to
a history that is not full appends it.  For a command that does not begin with
a newline character, being stored is being non-empty. -/
theorem history_keeps_recent_commands (cmds : List CString) :
    (add_all cmds).history_count ≤ 100
    ∧ (add_all cmds).history_count = min 100 (cmds.filter recorded).length
    ∧ stored (add_all cmds) = (last_commands 100 (cmds.filter recorded)).map some
    ∧ (∀ (n : Nat) (l : List CString), last_commands n l = l.drop (l.length - n))
    ∧ (∀ c : CString, recorded c = true ↔ (c ≠ [] ∧ c.head? ≠ some 10))
    ∧ (∀ (s : ShellState) (c : CString), recorded c = false → add_to_history s c = s)
    ∧ (∀ (s : ShellState) (c : CString), recorded c = true → s.history_count = 100 →
        (add_to_history s c).history_count = 100
        ∧ (∀ i, i < 99 → (add_to_history s c).history i = s.history (i + 1))
        ∧ (add_to_history s c).history 99 = some c
        ∧ stored (add_to_history s c) = (stored s).tail ++ [some c])
    ∧ (∀ (s : ShellState) (c : CString), recorded c = true → s.history_count ≠ 100 →
        (add_to_history s c).history_count = s.history_count + 1
        ∧ stored (add_to_history s c) = stored s ++ [some c])
    ∧ (∀ c : CString, c.head? ≠ some 10 → (recorded c = true ↔ c ≠ [])) := by
  obtain ⟨hn, _⟩ := add_all_slots cmds
  refine ⟨by omega, hn, add_all_stored cmds, fun _ _ => rfl, fun c => ?_,
    add_to_history_skip, fun s c h hf => ?_, fun s c h hf => ?_, fun c hc => ?_⟩
  · unfold recorded
    simp
  · obtain ⟨h1, h2, h3, _⟩ := add_to_history_full s c h hf
    exact ⟨h1, h2, h3, stored_full s c h hf⟩
  · exact ⟨(add_to_history_room s c h hf).1, stored_room s c h hf⟩
  · unfold recorded
    simp [hc]

/-- Witness for C31: after the 101 commands of `cmds_101` the history is full,
its oldest entry is the second command and its newest the last one. -/
theorem history_keeps_recent_commands_witness :
    (cmds_101.filter recorded).length = 101
    ∧ (add_all cmds_101).history 0 = some [99, 2]
    ∧ (add_all cmds_101).history 99 = some [99, 101]
    ∧ (add_all cmds_101).history_count = min 100 (cmds_101.filter recorded).length
    ∧ stored (add_all cmds_101) = (last_commands 100 (cmds_101.filter recorded)).map some :=
  have h : (cmds_101.filter recorded).length = 101
      ∧ (add_all cmds_101).history 0 = some [99, 2]
      ∧ (add_all cmds_101).history 99 = some [99, 101] := by decide!
  ⟨h.1, h.2.1, h.2.2, (history_keeps_recent_commands cmds_101).2.1,
    (history_keeps_recent_commands cmds_101).2.2.1⟩

/-- C32: for every 4096-byte bitmap and every bit index `i` in `[0, 32768)`:
`is_used_bit` after `set_bit` at `i` is true at `i`, after `clear_bit` at `i`
it is false at `i`, and both leave `is_used_bit` at every `j ≠ i` as it was;
`set_bit` and `clear_bit` are idempotent.  Bit `i` lives in byte `i / 8`, a
byte of the bitmap, at bit position `i mod 8` counted from the least
significant bit: it is the bit of weight `2 ^ (i mod 8)`, `set_bit` adds that
weight to the byte when the bit is clear, `clear_bit` subtracts it when the bit
is set, every other byte is left as it was and the result is again a bitmap of
bytes. -/
theorem bitmap_bit_operations (bm : Bytes) (i : Nat) (hi : i < 32768)
    (hbm : ∀ a, a < 4096 → bm a < 256) :
    is_used_bit (set_bit bm i) i = true
    ∧ is_used_bit (clear_bit bm i) i = false
    ∧ (∀ j, j ≠ i → is_used_bit (set_bit bm i) j = is_used_bit bm j)
    ∧ (∀ j, j ≠ i → is_used_bit (clear_bit bm i) j = is_used_bit bm j)
    ∧ set_bit (set_bit bm i) i = set_bit bm i
    ∧ clear_bit (clear_bit bm i) i = clear_bit bm i
    ∧ i / 8 < 4096 ∧ i % 8 < 8
    ∧ is_used_bit bm i = decide (bm (i / 8) / 2 ^ (i % 8) % 2 = 1)
    ∧ set_bit bm i (i / 8)
        = (if bm (i / 8) / 2 ^ (i % 8) % 2 = 1 then bm (i / 8) else bm (i / 8) + 2 ^ (i % 8))
    ∧ clear_bit bm i (i / 8)
        = (if bm (i / 8) / 2 ^ (i % 8) % 2 = 1 then bm (i / 8) - 2 ^ (i % 8) else bm (i / 8))
    ∧ (∀ a, a ≠ i / 8 → set_bit bm i a = bm a ∧ clear_bit bm i a = bm a)
    ∧ (∀ a, a < 4096 → set_bit bm i a < 256 ∧ clear_bit bm i a < 256) := by
  have h8 : i / 8 < 4096 := by omega
  have ho : i % 8 < 8 := by omega
  obtain ⟨b1, b2, b3⟩ := byte_bit_values (bm (i / 8)) (hbm _ h8) (i % 8) ho
  have hset : ∀ a, set_bit bm i a
      = if a = i / 8 then (bm a ||| 1 <<< (i % 8)) % 256 else bm a := fun _ => rfl
  have hclr : ∀ a, clear_bit bm i a
      = if a = i / 8 then (bm a &&& (255 - 1 <<< (i % 8))) % 256 else bm a := fun _ => rfl
  refine ⟨is_used_bit_set_bit_self bm i, ?_, fun j hj => is_used_bit_set_bit_other bm i j hj,
    fun j hj => ?_, set_bit_idem bm i, clear_bit_idem bm i, h8, ho, b1, ?_, ?_,
    fun a ha => ?_, fun a ha => ?_⟩
  · rw [is_used_bit_clear_bit]
    simp
  · rw [is_used_bit_clear_bit]
    simp [hj]
  · rw [hset, if_pos rfl]
    exact b2
  · rw [hclr, if_pos rfl]
    exact b3
  · rw [hset, hclr, if_neg ha, if_neg ha]
    exact ⟨rfl, rfl⟩
  · rw [hset, hclr]
    by_cases h : a = i / 8
    · rw [if_pos h, if_pos h]
      exact ⟨Nat.mod_lt _ (by norm_num), Nat.mod_lt _ (by norm_num)⟩
    · rw [if_neg h, if_neg h]
      exact ⟨hbm a ha, hbm a ha⟩

/-- Witness for C32: bit 9 of the all-zero bitmap is bit 1 of byte 1; setting it
makes that byte 2. -/
theorem bitmap_bit_operations_witness :
    (9 : Nat) < 32768
    ∧ (∀ a, a < 4096 → zeros a < 256)
    ∧ is_used_bit (set_bit zeros 9) 9 = true
    ∧ set_bit zeros 9 1 = 2
    ∧ is_used_bit (clear_bit (set_bit zeros 9) 9) 9 = false :=
  have hz : ∀ a, a < 4096 → zeros a < 256 := by
    intro a _
    show (0 : Nat) < 256
    decide
  have hs : ∀ a, a < 4096 → set_bit zeros 9 a < 256 :=
    fun a ha => ((bitmap_bit_operations zeros 9 (by decide) hz).2.2.2.2.2.2.2.2.2.2.2.2 a ha).1
  ⟨by decide, hz, (bitmap_bit_operations zeros 9 (by decide) hz).1, by decide,
    (bitmap_bit_operations (set_bit zeros 9) 9 (by decide) hs).2.1⟩

end Vsfsck
